import Mathlib

/-!
# combi: field inspection and the command/commander resolution chain

A shallow embedding of the Go package `combi` (files `inspector.go`,
`command.go`, `commander.go`, `handlers.go`) together with the properties
proved about it.

Modelling conventions.

* Go values seen through `reflect` are the trees of `Value`: the three leaf
  kinds the inspector captures (`int`, `string`, `bool`), structs (an ordered
  list of declared fields, each with its `reflect.StructField` data and its
  current value) and one constructor for a value of any other kind.  Fields
  are exported fields of the predeclared types, as the structured-record
  contract requires (on an unexported field `reflect` panics instead of
  returning); Go `int` values are unbounded integers here because the
  inspector only compares them with zero.
* A struct tag is the list of its `key:"value"` pairs and `StructTag.Get`
  is the lookup of the first pair with the key (empty string when absent).
* Go text is `String`; `strings.Index` is modelled on the character lists.
* A Go `error` result is `Option String`: `none` is `nil`, `some msg` an error
  with message `msg`.  A function returning `(x, error)` is `Except String`.
* Pointers are explicit: records live in a memory `Mem` indexed by address and a
  pointer to a field is a `Loc` (address of the enclosing record and the
  positions of the fields leading to it).  Commands and commanders live on
  heaps indexed by pointer, so that a command shared between two places is one
  object.
* Stateful code passes a `State` explicitly.  A method that can dereference a
  nil pointer returns a `Run`: a result with the state it leaves, or a panic.
* The methods are modelled sequentially, without the read/write lock of the
  commander and without the lines written with `log`; the lock is treated on
  its own, by the steps each method of the commander takes with it.  The flag set of the argument
  parsing library is the list of flags bound, in order.
-/

namespace Combi

/-! ## Go values as seen through reflection -/

/-- Kinds of `reflect.Kind` apart from `Int`, `String`, `Bool` and `Struct`
(and `Invalid`, which no stored value has). -/
inductive OtherKind where
  | Int8 | Int16 | Int32 | Int64
  | Uint | Uint8 | Uint16 | Uint32 | Uint64 | Uintptr
  | Float32 | Float64 | Complex64 | Complex128
  | Array | Chan | Func | Interface | Map | Ptr | Slice | UnsafePointer
deriving DecidableEq, Repr

/-- The kind of a value, `reflect.Kind`. -/
inductive Kind where
  | invalid | bool | int | string | struct
  | other (k : OtherKind)
deriving DecidableEq, Repr

/-- The text of `reflect.Kind.String` for the kinds outside the inspector's switch. -/
def OtherKind.name : OtherKind → String
  | .Int8 => "int8" | .Int16 => "int16" | .Int32 => "int32" | .Int64 => "int64"
  | .Uint => "uint" | .Uint8 => "uint8" | .Uint16 => "uint16" | .Uint32 => "uint32"
  | .Uint64 => "uint64" | .Uintptr => "uintptr"
  | .Float32 => "float32" | .Float64 => "float64"
  | .Complex64 => "complex64" | .Complex128 => "complex128"
  | .Array => "array" | .Chan => "chan" | .Func => "func" | .Interface => "interface"
  | .Map => "map" | .Ptr => "ptr" | .Slice => "slice" | .UnsafePointer => "unsafe.Pointer"

/-- The text of `reflect.Kind.String`. -/
def Kind.name : Kind → String
  | .invalid => "invalid" | .bool => "bool" | .int => "int" | .string => "string"
  | .struct => "struct" | .other k => k.name

/-- A struct tag, as its list of `key:"value"` pairs in declaration order. -/
abbrev StructTag := List (String × String)

/-- The value of `reflect.StructTag.Get`: the value of the first pair with the
key, the empty string when the key is absent. -/
def StructTag.Get (tag : StructTag) (key : String) : String :=
  match tag.find? (fun kv => kv.1 == key) with
  | some kv => kv.2
  | none => ""

/-- The part of `reflect.StructField` the package depends on: the declared name
of the field, its tag and, of its type, whether it is a defined type (such as
`type Name string`) rather than the predeclared type of its kind (`string`,
`int`, `bool`). -/
structure StructField where
  Name : String
  Tag : StructTag
  Defined : Bool := false
deriving DecidableEq, Repr

/-- A Go value as `reflect` presents it.  A struct lists its declared fields in
declaration order, each with its current value. -/
inductive Value where
  | int (n : Int)
  | string (s : String)
  | bool (b : Bool)
  | struct (fields : List (StructField × Value))
  | other (k : OtherKind)
deriving Repr

/-- The kind of a value, `reflect.Value.Kind`. -/
def Value.kind : Value → Kind
  | .int _ => .int
  | .string _ => .string
  | .bool _ => .bool
  | .struct _ => .struct
  | .other k => .other k

/-- Whether an interface holding the leaf value `v` compares equal, with the Go
operator `==`, to the zero value of its dynamic type
(`v == reflect.Zero(reflect.TypeOf(v)).Interface()`). -/
def Value.equalsZero : Value → Bool
  | .int n => n == 0
  | .string s => s == ""
  | .bool b => b == false
  | _ => false

/-- Address of a record held by the host program. -/
abbrev Addr := Nat

/-- The records currently stored at each address. -/
abbrev Mem := Addr → Value

/-- A pointer to a field: the address of the outermost record and the positions
(in declaration order) of the fields leading from it to the field. -/
structure Loc where
  addr : Addr
  path : List Nat
deriving DecidableEq, Repr

/-- The dynamic content of an `interface{}` argument. -/
inductive Iface where
  /-- The nil interface. -/
  | nil
  /-- A pointer; `none` is a nil pointer. -/
  | ptr (a : Option Addr)
  /-- A value that is not a pointer. -/
  | val (v : Value)
deriving Repr

/-! ## inspector.go -/

/-- Result of `strings.Index` scanning from offset `i`: the offset of the first
occurrence of `sub` in `s`, or `-1`. -/
def stringsIndexFrom (sub : List Char) : List Char → Nat → Int
  | [], i => if sub.isPrefixOf [] then (i : Int) else -1
  | c :: s, i => if sub.isPrefixOf (c :: s) then (i : Int) else stringsIndexFrom sub s (i + 1)

/-- The Go library function `strings.Index(s, substr)`. -/
def stringsIndex (s substr : String) : Int :=
  stringsIndexFrom substr.data s.data 0

/-- FieldInfo to store data about a given struct field. -/
structure FieldInfo where
  Index : Nat
  Required : Bool
  Zero : Bool
  Namespace : String
  Name : String
  Hint : String
  SFlag : String
  LFlag : String
  Typ : Kind
  /-- Whether `Type` is a defined type rather than the predeclared type of its
  kind: with `Typ` it stands for the field `Type reflect.Type`, and it decides
  the dynamic type of `FieldPtr` (`*string` and `*int` only for the predeclared
  types). -/
  Defined : Bool
  Tags : StructTag
  Field : Loc
  FieldPtr : Loc
  Value : Value
  FieldInfos : List FieldInfo

/-- The error `ErrStructPtrExpected`. -/
def ErrStructPtrExpected : String := "pointer to struct expected"

/-- The error `ErrPtrExpected`. -/
def ErrPtrExpected : String := "pointer expected"

/-- The names in `excludeFieldNames`. -/
def excludeFieldNames : List String := ["XMLName", "Local", "Space"]

/-- The two references `inspect` threads through its recursion: the slice of
collected fields and the index counter. -/
structure InspectState where
  fields : List FieldInfo
  index : Nat

/-- The body of the `reflect.Int, reflect.String, reflect.Bool` case of `inspect`. -/
def inspectLeaf (st : InspectState) (ns : String) (typeField : StructField) (ptrVal : Loc)
    (val : Value) : Except String InspectState :=
  if excludeFieldNames.contains typeField.Name then
    .ok st
  else
    let validTag := typeField.Tag.Get "valid"
    let field : FieldInfo :=
      { FieldPtr := ptrVal
        Index := st.index
        Namespace := ns
        Name := typeField.Name
        Field := ptrVal
        Typ := val.kind
        Defined := typeField.Defined
        Tags := typeField.Tag
        SFlag := typeField.Tag.Get "sFlag"
        LFlag := typeField.Tag.Get "lFlag"
        Hint := typeField.Tag.Get "hint"
        Required := validTag != "" && stringsIndex validTag "required" == 0
        Value := val
        Zero := val.equalsZero
        FieldInfos := [] }
    .ok { fields := st.fields ++ [field], index := st.index + 1 }

mutual
/-- The function `inspect`.  `ptrVal` is the pointer being inspected and `val`
the value it points to (`reflect.Indirect(ptrVal)`); every caller passes a
pointer, so the guard on `ptrVal.Kind()` never fires. -/
def inspect (st : InspectState) (ns : String) (typeField : StructField) (ptrVal : Loc) :
    Value → Except String InspectState
  | .int n => inspectLeaf st ns typeField ptrVal (.int n)
  | .string s => inspectLeaf st ns typeField ptrVal (.string s)
  | .bool b => inspectLeaf st ns typeField ptrVal (.bool b)
  | .struct fs => inspectFields st ns typeField ptrVal 0 fs
  | .other k => .error ("Unsupported kind: " ++ (Kind.other k).name)
/-- The loop `for i := 0; i < val.NumField(); i++` of the struct case of
`inspect`, from position `i` on. -/
def inspectFields (st : InspectState) (ns : String) (typeField : StructField) (ptrVal : Loc)
    (i : Nat) : List (StructField × Value) → Except String InspectState
  | [] => .ok st
  | (f, v) :: rest =>
    let newNS := if typeField.Name != "" then ns ++ typeField.Name ++ "->" else ""
    match inspect st newNS f { addr := ptrVal.addr, path := ptrVal.path ++ [i] } v with
    | .error err => .error err
    | .ok st1 => inspectFields st1 ns typeField ptrVal (i + 1) rest
end

/-- The function `InspectStruct`. -/
def InspectStruct (m : Mem) (obj : Iface) : Except String (List FieldInfo) :=
  match obj with
  | .ptr (some a) =>
    match m a with
    | .struct fs =>
      match inspect { fields := [], index := 0 } "" { Name := "", Tag := [] }
          { addr := a, path := [] } (.struct fs) with
      | .error err => .error err
      | .ok st => .ok st.fields
    | _ => .error ErrStructPtrExpected
  | _ => .error ErrStructPtrExpected


/-! ## Specification vocabulary for the inspector -/

mutual
/-- Every field reachable through nested structs has kind string, int, bool
or struct. -/
def Value.supported : Value → Bool
  | .int _ => true
  | .string _ => true
  | .bool _ => true
  | .struct fs => supportedFields fs
  | .other _ => false
/-- Every value in a field list is supported. -/
def supportedFields : List (StructField × Value) → Bool
  | [] => true
  | (_, v) :: rest => v.supported && supportedFields rest
end

/-- A leaf field of a record as the specification describes it: where it is
stored, the names of the struct-typed fields enclosing it (outermost first), its
declaration and its current value. -/
structure Leaf where
  path : List Nat
  enclosing : List String
  field : StructField
  value : Value

mutual
/-- The eligible leaves (kind string, int or bool, name outside the exclusion
set) found at or below the field `f` holding `v`, in depth-first declaration
order. -/
def leavesOf (enclosing : List String) (path : List Nat) (f : StructField) : Value → List Leaf
  | .int n => if excludeFieldNames.contains f.Name then [] else [⟨path, enclosing, f, .int n⟩]
  | .string s => if excludeFieldNames.contains f.Name then [] else [⟨path, enclosing, f, .string s⟩]
  | .bool b => if excludeFieldNames.contains f.Name then [] else [⟨path, enclosing, f, .bool b⟩]
  | .struct fs => leavesOfFields (enclosing ++ [f.Name]) path 0 fs
  | .other _ => []
/-- The eligible leaves of the fields of a struct from position `i` on. -/
def leavesOfFields (enclosing : List String) (path : List Nat) (i : Nat) :
    List (StructField × Value) → List Leaf
  | [] => []
  | (f, v) :: rest =>
    leavesOf enclosing (path ++ [i]) f v ++ leavesOfFields enclosing path (i + 1) rest
end

/-- The eligible leaves of a top-level record with fields `fs`, in depth-first
declaration order. -/
def eligibleLeaves (fs : List (StructField × Value)) : List Leaf :=
  leavesOfFields [] [] 0 fs

/-- One step of the namespace computation in the struct case of `inspect`. -/
def nsStep (ns name : String) : String :=
  if name != "" then ns ++ name ++ "->" else ""

/-- The namespace the inspector computes for a leaf enclosed by the fields
named `enclosing`. -/
def nsFold (enclosing : List String) : String :=
  enclosing.foldl nsStep ""

/-- The descriptor the inspector builds for the leaf `l` of the record at
`addr` when the counter stands at `idx`. -/
def Leaf.info (addr : Addr) (idx : Nat) (l : Leaf) : FieldInfo :=
  { FieldPtr := { addr := addr, path := l.path }
    Index := idx
    Namespace := nsFold l.enclosing
    Name := l.field.Name
    Field := { addr := addr, path := l.path }
    Typ := l.value.kind
    Defined := l.field.Defined
    Tags := l.field.Tag
    SFlag := l.field.Tag.Get "sFlag"
    LFlag := l.field.Tag.Get "lFlag"
    Hint := l.field.Tag.Get "hint"
    Required := l.field.Tag.Get "valid" != "" && stringsIndex (l.field.Tag.Get "valid") "required" == 0
    Value := l.value
    Zero := l.value.equalsZero
    FieldInfos := [] }

/-- The descriptors of a list of leaves numbered consecutively from `start`. -/
def infosFrom (addr : Addr) : Nat → List Leaf → List FieldInfo
  | _, [] => []
  | start, l :: rest => l.info addr start :: infosFrom addr (start + 1) rest


mutual
/-- The kind of the first field, in depth-first declaration order, whose kind is
outside string, int, bool and struct. -/
def firstUnsupported : Value → Option OtherKind
  | .int _ => none
  | .string _ => none
  | .bool _ => none
  | .struct fs => firstUnsupportedFields fs
  | .other k => some k
/-- The first unsupported kind among the fields of a struct. -/
def firstUnsupportedFields : List (StructField × Value) → Option OtherKind
  | [] => none
  | (_, v) :: rest =>
    match firstUnsupported v with
    | some k => some k
    | none => firstUnsupportedFields rest
end


mutual
/-- Every field declared at or below the value has a non-empty name, as every
Go field has. -/
def Value.named : Value → Bool
  | .int _ => true
  | .string _ => true
  | .bool _ => true
  | .struct fs => namedFields fs
  | .other _ => true
/-- Every field of the list, and every field below, has a non-empty name. -/
def namedFields : List (StructField × Value) → Bool
  | [] => true
  | (f, v) :: rest => f.Name != "" && v.named && namedFields rest
end

mutual
/-- The value with every leaf field (kind string, int or bool) whose name is in
the exclusion set removed from its declaration, at every depth. -/
def pruneExcluded : Value → Value
  | .int n => .int n
  | .string s => .string s
  | .bool b => .bool b
  | .struct fs => .struct (pruneExcludedFields fs)
  | .other k => .other k
/-- The field list without its excluded leaf fields, at every depth. -/
def pruneExcludedFields : List (StructField × Value) → List (StructField × Value)
  | [] => []
  | (f, .int n) :: rest =>
    if excludeFieldNames.contains f.Name then pruneExcludedFields rest
    else (f, .int n) :: pruneExcludedFields rest
  | (f, .string s) :: rest =>
    if excludeFieldNames.contains f.Name then pruneExcludedFields rest
    else (f, .string s) :: pruneExcludedFields rest
  | (f, .bool b) :: rest =>
    if excludeFieldNames.contains f.Name then pruneExcludedFields rest
    else (f, .bool b) :: pruneExcludedFields rest
  | (f, .struct fs) :: rest => (f, .struct (pruneExcludedFields fs)) :: pruneExcludedFields rest
  | (f, .other k) :: rest => (f, .other k) :: pruneExcludedFields rest
end

/-- A descriptor with its two storage references blanked: everything the
inspector reports about a field apart from where the field is stored. -/
def FieldInfo.withoutPtr (f : FieldInfo) : FieldInfo :=
  { f with Field := { addr := 0, path := [] }, FieldPtr := { addr := 0, path := [] } }

/-- Position paths ordered lexicographically: the order in which a depth-first
traversal in declaration order meets the fields. -/
def pathBefore (p q : List Nat) : Prop := List.Lex (fun a b : Nat => a < b) p q

/-- A leaf without its storage position: what the declaration and the current
value say about it. -/
def Leaf.unplaced (l : Leaf) : Leaf :=
  { l with path := [] }

/-! ## Sample records -/

/-- A sample request record: an XML name, a required text field, a nested
record with a nested record of its own, and an optional text field. -/
def sampleRecord : List (StructField × Value) :=
  [ ({ Name := "XMLName", Tag := [] },
      .struct [({ Name := "Space", Tag := [] }, .string ""),
               ({ Name := "Local", Tag := [] }, .string "")]),
    ({ Name := "Name", Tag := [("valid", "required"), ("lFlag", "name"), ("hint", "Name")] },
      .string "Ada"),
    ({ Name := "Filter", Tag := [] },
      .struct [({ Name := "Limit", Tag := [("valid", "range(0|9),required")] }, .int 0),
               ({ Name := "Sort", Tag := [] },
                 .struct [({ Name := "Desc", Tag := [("valid", "required,in(true|false)")] },
                           .bool false)])]),
    ({ Name := "Note", Tag := [] }, .string "") ]

/-- A memory holding the sample record at every address. -/
def sampleMem : Mem := fun _ => .struct sampleRecord

/-- A record with one leaf nested one level deep. -/
def nestedRecord : List (StructField × Value) :=
  [ ({ Name := "Inner", Tag := [] }, .struct [({ Name := "B", Tag := [] }, .string "")]) ]

/-- A record whose struct-typed field carries a name of the exclusion set and
holds an ordinary leaf. -/
def spaceRecord : List (StructField × Value) :=
  [ ({ Name := "Space", Tag := [] }, .struct [({ Name := "Width", Tag := [] }, .int 80)]) ]

/-- A record with a floating-point field after a text field. -/
def floatRecord : List (StructField × Value) :=
  [ ({ Name := "Name", Tag := [] }, .string ""),
    ({ Name := "Ratio", Tag := [("lFlag", "ratio"), ("hint", "Ratio")] }, .other .Float64) ]

/-! ### Reading and writing through a pointer to a field -/

mutual
/-- The value with the part at the end of the path of field positions replaced
by `x`. -/
def Value.setAt : Value → List Nat → Value → Value
  | _, [], x => x
  | .struct fs, i :: p, x => .struct (setAtFields fs i p x)
  | .int n, _ :: _, _ => .int n
  | .string s, _ :: _, _ => .string s
  | .bool b, _ :: _, _ => .bool b
  | .other k, _ :: _, _ => .other k
/-- The field list with the part of field `i` at path `p` replaced by `x`. -/
def setAtFields : List (StructField × Value) → Nat → List Nat → Value →
    List (StructField × Value)
  | [], _, _, _ => []
  | (f, v) :: rest, 0, p, x => (f, v.setAt p x) :: rest
  | (f, v) :: rest, i + 1, p, x => (f, v) :: setAtFields rest i p x
end

mutual
/-- The part of a value at the end of a path of field positions. -/
def Value.getAt : Value → List Nat → Option Value
  | v, [] => some v
  | .struct fs, i :: p => getAtFields fs i p
  | .int _, _ :: _ => none
  | .string _, _ :: _ => none
  | .bool _, _ :: _ => none
  | .other _, _ :: _ => none
/-- The part of field `i` of a field list at path `p`. -/
def getAtFields : List (StructField × Value) → Nat → List Nat → Option Value
  | [], _, _ => none
  | (_, v) :: _, 0, p => v.getAt p
  | _ :: rest, i + 1, p => getAtFields rest i p
end

/-- The memory after a store of `x` through the pointer `loc`
(`reflect.Value.SetString`, `SetInt`). -/
def Mem.store (m : Mem) (loc : Loc) (x : Value) : Mem :=
  Function.update m loc.addr ((m loc.addr).setAt loc.path x)

/-- The value read through the pointer `loc`. -/
def Mem.load (m : Mem) (loc : Loc) : Option Value :=
  (m loc.addr).getAt loc.path


/-! ## Function values, commands and commanders

A handler slot holds a function value.  The functions of the package itself are
constructors; a function supplied by the host program is `host id`, and its
behaviour is given by the `Host` record.  Host functions read the whole state
and may write the records in memory and the world outside the package; the
commands and commanders themselves are written only by the operations of the
package.  Every call of a function value through a slot is appended to the
ghost field `trace`, which only the model writes. -/

/-- Pointer to a `Command`. -/
abbrev CmdPtr := Nat

/-- Pointer to a `Commander`. -/
abbrev CmdrPtr := Nat

/-- Pointer to a `cobra.Command`. -/
abbrev CobraPtr := Nat

/-- A function value of type `RegisterFunc`. -/
inductive RegisterFunc where
  | DefaultRegistrationHandler
  | host (id : Nat)
deriving DecidableEq, Repr

/-- A function value of type `RequestHandler`. -/
inductive RequestHandler where
  | host (id : Nat)
deriving DecidableEq, Repr

/-- A function value of type `ResponseHandler`. -/
inductive ResponseHandler where
  | XMLPrettyPrintResponseHandler
  | XMLCompactPrintResponseHandler
  | host (id : Nat)
deriving DecidableEq, Repr

/-- A function value of type `ErrorHandler`. -/
inductive ErrorHandler where
  | DefaultErrorHandler
  | host (id : Nat)
deriving DecidableEq, Repr

/-- A function value of type `StaticExec`. -/
inductive StaticExec where
  | GenericStaticHandler
  | host (id : Nat)
deriving DecidableEq, Repr

/-- A function value of type `ShellExec`. -/
inductive ShellExec where
  | GenericShellHandler
  | host (id : Nat)
deriving DecidableEq, Repr

/-- A function value of type `CommandHook`. -/
inductive CommandHook where
  | host (id : Nat)
deriving DecidableEq, Repr

/-- Command represents an OMP operation or other cli call.  A nil function
field is `none`. -/
structure Command where
  Commander : Option CmdrPtr
  Name : String
  ShortDesc : String
  LongDesc : String
  StaticExec : Option StaticExec
  ShellExec : Option ShellExec
  RequestHandler : Option RequestHandler
  ResponseHandler : Option ResponseHandler
  Request : Iface
  Response : Iface
  RegisterFunc : Option RegisterFunc

/-- The Go map `map[string]*Command`, as the list of its entries; the keys of a
map are distinct. -/
abbrev CommandMap := List (String × CmdPtr)

/-- The map lookup `m[name]`, with `none` when the key is absent. -/
def CommandMap.get (m : CommandMap) (name : String) : Option CmdPtr :=
  List.lookup name m

/-- The map assignment `m[name] = cmd`: the entry for `name` is replaced, or
added when there was none. -/
def CommandMap.set (m : CommandMap) (name : String) (cmd : CmdPtr) : CommandMap :=
  (name, cmd) :: m.filter (fun e => e.1 != name)

/-- Commander wraps up commands and some configuration on how to run them (the
lock is treated on its own, see `Method.accesses`). -/
structure Commander where
  commands : CommandMap
  rootCmd : CobraPtr
  preRequest : List CommandHook
  postRequest : List CommandHook
  requestHandler : Option RequestHandler
  responseHandler : Option ResponseHandler
  registrationHandler : Option RegisterFunc
  errorHandler : Option ErrorHandler
  staticExec : Option StaticExec
  shellExec : Option ShellExec

/-- The two flag types the default registration binds. -/
inductive FlagKind where
  | string
  | int
deriving DecidableEq, Repr

/-- A flag bound on a static command: `StringVar`, `StringVarP`, `IntVar` or
`IntVarP` with the bound pointer, the long name, the shorthand (`none` for the
forms without `P`) and the usage text. -/
structure Flag where
  kind : FlagKind
  ptr : Loc
  name : String
  shorthand : Option String
  usage : String
deriving DecidableEq, Repr

/-- The part of a `cobra.Command` the package fills in; `Run` is the method
value `c.handleStatic` of the command it was generated from. -/
structure CobraCommand where
  Use : String
  Short : String
  Long : String
  Run : CmdPtr
  flags : List Flag
deriving DecidableEq, Repr

/-- A call of a function value through a handler slot.  A hook call is recorded
when the hook returns, with the error it returned; the other calls are recorded
when they are made. -/
inductive Event where
  | register (f : RegisterFunc) (parentCmd : CobraPtr) (cmd : CmdPtr)
  | request (f : RequestHandler) (req resp : Iface)
  | response (f : ResponseHandler) (resp : Iface)
  | hook (f : CommandHook) (cmd : CmdPtr) (err : Option String)
  | error (f : ErrorHandler) (err : String)
  | staticExec (f : StaticExec) (cmd : CmdPtr) (args : List String)
  | shellExec (f : ShellExec) (cmd : CmdPtr)

/-- The state of the program: the commands and commanders on the heap, the
records in memory, the children added to each cobra command, the world outside
the package, the ghost trace of handler calls, and the address the allocator
hands out next. -/
structure State (W : Type) where
  cmds : CmdPtr → Command
  cmdrs : CmdrPtr → Commander
  nextCmdr : CmdrPtr
  mem : Mem
  cobra : CobraPtr → List CobraCommand
  world : W
  trace : List Event
  nextAddr : Addr := 0

/-- The behaviour of what lies outside the package: the functions supplied by
the host program and the XML encoder and standard output the response printers
use.  A host function returns its error, the records as it leaves them and the
outside world as it leaves it. -/
structure Host (W : Type) where
  register : Nat → CobraPtr → CmdPtr → State W → Option String × Mem × W
  request : Nat → Iface → Iface → State W → Option String × Mem × W
  response : Nat → Iface → State W → Option String × Mem × W
  /-- The result of `xml.Marshal`. -/
  xmlMarshal : Mem → Iface → Except String String
  /-- The result of `xml.MarshalIndent(resp, "", "  ")`. -/
  xmlMarshalIndent : Mem → Iface → Except String String
  /-- The effect of `fmt.Println`. -/
  println : String → W → W

/-- The outcome of running a Go function from a state: it returns `a` and leaves
the state `s`, or it does not return to its caller; `msg` says why (a panic, the
process exit of `log.Fatal`, or a read that waits for a line that never
comes). -/
inductive Run (σ α : Type) where
  | ret (a : α) (s : σ)
  | panic (msg : String)

/-- The panic of a method call through a nil pointer. -/
def nilDereference : String :=
  "invalid memory address or nil pointer dereference"

/-- The error built by `fmt.Errorf(format, err)` for a format ending in `%s`;
`format` is the text before the verb. -/
def errorf (format : String) (err : String) : String :=
  format ++ err

/-! ### handlers.go: registration and response printing -/

/-- The method `Static`: the static cobra command generated from the command. -/
def Command.Static (c : Command) (self : CmdPtr) : CobraCommand :=
  { Use := c.Name, Short := c.ShortDesc, Long := c.LongDesc, Run := self, flags := [] }

/-- The panic of the flag set when a flag is defined under a long name that is
already defined on it, named here by the flag alone (the message of the library
names the flag set as well). -/
def flagRedefined (name : String) : String :=
  "flag redefined: " ++ name

/-- The panic of the flag set when a flag is defined with a shorthand that is
already in use on it, named here by the shorthand alone (the message of the
library names the flag set and the flag in use as well). -/
def shorthandRedefined (shorthand : String) : String :=
  "unable to redefine shorthand: " ++ shorthand

/-- The method `AddFlag` of the flag set of a cobra command, which `StringVar`,
`StringVarP`, `IntVar` and `IntVarP` end in: the flag is added, unless its long
name is already defined or its shorthand already in use, when the call panics
(`.error` holds the panic). -/
def CobraCommand.addFlag (c : CobraCommand) (f : Flag) : Except String CobraCommand :=
  if c.flags.any (fun g => g.name == f.name) then .error (flagRedefined f.name)
  else
    match f.shorthand with
    | none => .ok { c with flags := c.flags ++ [f] }
    | some sh =>
      if c.flags.any (fun g => g.shorthand == some sh) then .error (shorthandRedefined sh)
      else .ok { c with flags := c.flags ++ [f] }

/-- The flag the default registration binds for a field, when the dynamic type
of `fi.FieldPtr` is `*string` or `*int`: the field is of the predeclared type
`string` or `int`.  The shorthand is passed on when it is one byte long. -/
def flagFor (fi : FieldInfo) : Option Flag :=
  if fi.Defined then none
  else
    match fi.Typ with
    | .string =>
      some { kind := .string, ptr := fi.FieldPtr, name := fi.LFlag
             shorthand := if fi.SFlag.utf8ByteSize == 1 then some fi.SFlag else none
             usage := fi.Hint }
    | .int =>
      some { kind := .int, ptr := fi.FieldPtr, name := fi.LFlag
             shorthand := if fi.SFlag.utf8ByteSize == 1 then some fi.SFlag else none
             usage := fi.Hint }
    | _ => none

/-- The default value a flag is defined with, which the flag set stores through
the bound pointer when the flag is defined: `""` for a string flag and `0` for
an int flag. -/
def Flag.defaultValue (f : Flag) : Value :=
  match f.kind with
  | .string => .string ""
  | .int => .int 0

/-- The loop of `DefaultRegistrationHandler` over the inspected fields, from the
static command with the flags bound so far and the records as they stand: a
flag is bound for each field with both a long flag and a hint; the type switch
on `fi.FieldPtr` accepts `*string` and `*int` and the loop returns the error
`unhandled type` for any other pointer; defining a flag stores its default
value in the field and panics on a repeated long flag or shorthand. -/
def bindFlags (staticCmd : CobraCommand) (m : Mem) :
    List FieldInfo → Run (CobraCommand × Mem) (Option String)
  | [] => .ret none (staticCmd, m)
  | fi :: rest =>
    if fi.LFlag != "" && fi.Hint != "" then
      match flagFor fi with
      | none => .ret (some "unhandled type") (staticCmd, m)
      | some flag =>
        match staticCmd.addFlag flag with
        | .error msg => .panic msg
        | .ok bound => bindFlags bound (m.store flag.ptr flag.defaultValue) rest
    else
      bindFlags staticCmd m rest

/-- The function `DefaultRegistrationHandler`. -/
def DefaultRegistrationHandler {W : Type} (parentCmd : CobraPtr) (cmd : CmdPtr) (s : State W) :
    Run (State W) (Option String) :=
  let staticCmd := (s.cmds cmd).Static cmd
  match InspectStruct s.mem (s.cmds cmd).Request with
  | .error err => .ret (some err) s
  | .ok fis =>
    match bindFlags staticCmd s.mem fis with
    | .panic msg => .panic msg
    | .ret (some err) r => .ret (some err) { s with mem := r.2 }
    | .ret none r =>
      .ret none
        { s with
          mem := r.2
          cobra := Function.update s.cobra parentCmd (s.cobra parentCmd ++ [r.1]) }

/-- The function `XMLCompactPrintResponseHandler`. -/
def XMLCompactPrintResponseHandler {W : Type} (h : Host W) (resp : Iface) (s : State W) :
    Option String × State W :=
  match h.xmlMarshal s.mem resp with
  | .error err => (some (errorf "unable to marshal response: " err), s)
  | .ok res => (none, { s with world := h.println res s.world })

/-- The function `XMLPrettyPrintResponseHandler`. -/
def XMLPrettyPrintResponseHandler {W : Type} (h : Host W) (resp : Iface) (s : State W) :
    Option String × State W :=
  match h.xmlMarshalIndent s.mem resp with
  | .error err => (some (errorf "unable to marshal response: " err), s)
  | .ok res => (none, { s with world := h.println res s.world })

/-! ### Calling a function value -/

/-- The state after a host function returned the records `r.2.1` and the outside
world `r.2.2`. -/
def State.afterHost {W : Type} (s : State W) (r : Option String × Mem × W) : State W :=
  { s with mem := r.2.1, world := r.2.2 }

/-- The state with one more call on the trace. -/
def State.log {W : Type} (s : State W) (e : Event) : State W :=
  { s with trace := s.trace ++ [e] }

/-- The call `f(parentCmd, cmd)` of a registration function. -/
def callRegisterFunc {W : Type} (h : Host W) (f : RegisterFunc) (parentCmd : CobraPtr)
    (cmd : CmdPtr) (s : State W) : Run (State W) (Option String) :=
  let s0 := s.log (.register f parentCmd cmd)
  match f with
  | .DefaultRegistrationHandler => DefaultRegistrationHandler parentCmd cmd s0
  | .host id =>
    .ret (h.register id parentCmd cmd s0).1 (s0.afterHost (h.register id parentCmd cmd s0))

/-- The call `f(req, resp)` of a request handler. -/
def callRequestHandler {W : Type} (h : Host W) (f : RequestHandler) (req resp : Iface)
    (s : State W) : Option String × State W :=
  let s0 := s.log (.request f req resp)
  match f with
  | .host id => ((h.request id req resp s0).1, s0.afterHost (h.request id req resp s0))

/-- The call `f(resp)` of a response handler. -/
def callResponseHandler {W : Type} (h : Host W) (f : ResponseHandler) (resp : Iface)
    (s : State W) : Option String × State W :=
  let s0 := s.log (.response f resp)
  match f with
  | .XMLPrettyPrintResponseHandler => XMLPrettyPrintResponseHandler h resp s0
  | .XMLCompactPrintResponseHandler => XMLCompactPrintResponseHandler h resp s0
  | .host id => ((h.response id resp s0).1, s0.afterHost (h.response id resp s0))

/-! ### commander.go -/

/-- The state with the commander at `c` replaced by `f` of it. -/
def State.modifyCommander {W : Type} (s : State W) (c : CmdrPtr) (f : Commander → Commander) :
    State W :=
  { s with cmdrs := Function.update s.cmdrs c (f (s.cmdrs c)) }

/-- NewCommander returns an instantiated Commander object to contain managed
commands: the pointer to it and the state with it allocated. -/
def NewCommander {W : Type} (rootCommand : CobraPtr) (s : State W) : CmdrPtr × State W :=
  (s.nextCmdr,
    { s with
      cmdrs := Function.update s.cmdrs s.nextCmdr
        { commands := []
          rootCmd := rootCommand
          preRequest := []
          postRequest := []
          requestHandler := none
          responseHandler := some .XMLPrettyPrintResponseHandler
          registrationHandler := some .DefaultRegistrationHandler
          errorHandler := some .DefaultErrorHandler
          staticExec := some .GenericStaticHandler
          shellExec := some .GenericShellHandler }
      nextCmdr := s.nextCmdr + 1 })

/-- SetErrorHandler sets the error handler for all commander errors. -/
def SetErrorHandler {W : Type} (c : CmdrPtr) (eh : Option ErrorHandler) (s : State W) : State W :=
  s.modifyCommander c (fun x => { x with errorHandler := eh })

/-- RegistrationHandler will return the registered global register function. -/
def RegistrationHandler {W : Type} (c : CmdrPtr) (s : State W) : Option RegisterFunc :=
  (s.cmdrs c).registrationHandler

/-- SetDefaultRegistrationHandler will set the global register function. -/
def SetDefaultRegistrationHandler {W : Type} (c : CmdrPtr) (rh : Option RegisterFunc)
    (s : State W) : State W :=
  s.modifyCommander c (fun x => { x with registrationHandler := rh })

/-- SetDefaultShellExec will set the global shell exec function. -/
def SetDefaultShellExec {W : Type} (c : CmdrPtr) (se : Option ShellExec) (s : State W) :
    State W :=
  s.modifyCommander c (fun x => { x with shellExec := se })

/-- SetDefaultStaticExec will set the global static exec function. -/
def SetDefaultStaticExec {W : Type} (c : CmdrPtr) (se : Option StaticExec) (s : State W) :
    State W :=
  s.modifyCommander c (fun x => { x with staticExec := se })

/-- DefaultRequestHandler returns the DefaultRequestHandler. -/
def DefaultRequestHandler {W : Type} (c : CmdrPtr) (s : State W) : Option RequestHandler :=
  (s.cmdrs c).requestHandler

/-- SetDefaultRequestHandler will set a default request handler to be used on
all commands. -/
def SetDefaultRequestHandler {W : Type} (c : CmdrPtr) (rh : Option RequestHandler)
    (s : State W) : State W :=
  s.modifyCommander c (fun x => { x with requestHandler := rh })

/-- DefaultResponseHandler returns the DefaultResponseHandler. -/
def DefaultResponseHandler {W : Type} (c : CmdrPtr) (s : State W) : Option ResponseHandler :=
  (s.cmdrs c).responseHandler

/-- SetDefaultResponseHandler will set a default response handler to be used on
all commands. -/
def SetDefaultResponseHandler {W : Type} (c : CmdrPtr) (rh : Option ResponseHandler)
    (s : State W) : State W :=
  s.modifyCommander c (fun x => { x with responseHandler := rh })

/-- AddPreRequestHooks provides for command decorators to be run before all
requests are handled. -/
def AddPreRequestHooks {W : Type} (c : CmdrPtr) (hooks : List CommandHook) (s : State W) :
    State W :=
  s.modifyCommander c (fun x => { x with preRequest := x.preRequest ++ hooks })

/-- AddPostRequestHooks provides for command decorators to be run after all
requests are handled. -/
def AddPostRequestHooks {W : Type} (c : CmdrPtr) (hooks : List CommandHook) (s : State W) :
    State W :=
  s.modifyCommander c (fun x => { x with postRequest := x.postRequest ++ hooks })

/-- Cmd retrieves a command by name from the register. -/
def Cmd {W : Type} (c : CmdrPtr) (name : String) (s : State W) : Except String CmdPtr :=
  match (s.cmdrs c).commands.get name with
  | some cmd => .ok cmd
  | none => .error "failed to resolve command in register"

/-- All will return a map of all registered commands. -/
def All {W : Type} (c : CmdrPtr) (s : State W) : CommandMap :=
  (s.cmdrs c).commands

/-! ### command.go -/

/-- Register is called by the Command Register to handle the specifics of
command registration. -/
def Register {W : Type} (h : Host W) (c : CmdPtr) (rootCmd : CobraPtr) (s : State W) :
    Run (State W) (Option String) :=
  match (s.cmds c).RegisterFunc with
  | none =>
    match (s.cmds c).Commander with
    | none => .panic nilDereference
    | some commander =>
      match RegistrationHandler commander s with
      | none => .ret (some "no registration handler defined") s
      | some globalRegistrationHandler =>
        match callRegisterFunc h globalRegistrationHandler rootCmd c s with
        | .panic msg => .panic msg
        | .ret (some err) s1 =>
          .ret (some (errorf "error from commander registration handler: " err)) s1
        | .ret none s1 => .ret none s1
  | some registerFunc =>
    match callRegisterFunc h registerFunc rootCmd c s with
    | .panic msg => .panic msg
    | .ret (some err) s1 => .ret (some (errorf "error from command registration handler: " err)) s1
    | .ret none s1 => .ret none s1

/-- HandleRequest calls the appropriate request handler for the command, local
preferred. -/
def HandleRequest {W : Type} (h : Host W) (c : CmdPtr) (req resp : Iface) (s : State W) :
    Run (State W) (Option String) :=
  match (s.cmds c).RequestHandler with
  | none =>
    match (s.cmds c).Commander with
    | none => .panic nilDereference
    | some commander =>
      match DefaultRequestHandler commander s with
      | none => .ret (some "no request handler defined") s
      | some globalRequestHandler =>
        match callRequestHandler h globalRequestHandler req resp s with
        | (some err, s1) => .ret (some (errorf "error from commander request handler: " err)) s1
        | (none, s1) => .ret none s1
  | some requestHandler =>
    match callRequestHandler h requestHandler req resp s with
    | (some err, s1) => .ret (some (errorf "error from command request handler: " err)) s1
    | (none, s1) => .ret none s1

/-- HandleResponse calls the appropriate response handler for the command, local
preferred. -/
def HandleResponse {W : Type} (h : Host W) (c : CmdPtr) (resp : Iface) (s : State W) :
    Run (State W) (Option String) :=
  match (s.cmds c).ResponseHandler with
  | none =>
    match (s.cmds c).Commander with
    | none => .panic nilDereference
    | some commander =>
      match DefaultResponseHandler commander s with
      | none => .ret (some "no response handler defined") s
      | some globalResponseHandler =>
        match callResponseHandler h globalResponseHandler resp s with
        | (some err, s1) => .ret (some (errorf "error from commander response handler: " err)) s1
        | (none, s1) => .ret none s1
  | some responseHandler =>
    match callResponseHandler h responseHandler resp s with
    | (some err, s1) => .ret (some (errorf "error from command response handler: " err)) s1
    | (none, s1) => .ret none s1

/-- The two assignments at the head of the loop body of `Add`:
`cmd.Commander = c` and `c.commands[cmd.Name] = cmd`. -/
def adopt {W : Type} (c : CmdrPtr) (cmd : CmdPtr) (s : State W) : State W :=
  let s1 : State W :=
    { s with cmds := Function.update s.cmds cmd { s.cmds cmd with Commander := some c } }
  s1.modifyCommander c (fun x => { x with commands := x.commands.set (s1.cmds cmd).Name cmd })

/-- Add will add one or more commands to the command register. -/
def Add {W : Type} (h : Host W) (c : CmdrPtr) :
    List CmdPtr → State W → Run (State W) (Option String)
  | [], s => .ret none s
  | cmd :: cmds, s =>
    match Register h cmd ((adopt c cmd s).cmdrs c).rootCmd (adopt c cmd s) with
    | .panic msg => .panic msg
    | .ret (some err) s3 => .ret (some err) s3
    | .ret none s3 => Add h c cmds s3

/-- A host program's sequence of `Add` calls on one commander, each checked for
an error before the next. -/
def AddCalls {W : Type} (h : Host W) (c : CmdrPtr) :
    List (List CmdPtr) → State W → Run (State W) (Option String)
  | [], s => .ret none s
  | cmds :: calls, s =>
    match Add h c cmds s with
    | .panic msg => .panic msg
    | .ret (some err) s1 => .ret (some err) s1
    | .ret none s1 => AddCalls h c calls s1

/-! ### Vocabulary and samples for the resolution chain -/

/-- What a resolving method returns after calling the handler it resolved: the
handler's error, if any, behind the text naming the level it came from, and the
state the handler left. -/
def wrapResult {W : Type} (format : String) (r : Option String × State W) :
    Run (State W) (Option String) :=
  .ret (r.1.map (errorf format)) r.2

/-- What `Register` returns after calling the registration function it resolved,
when the call returns: the function's error, if any, behind the text naming the
level it came from, and the state the function left. -/
def wrapRun {W : Type} (format : String) (r : Run (State W) (Option String)) :
    Run (State W) (Option String) :=
  match r with
  | .panic msg => .panic msg
  | .ret e s => .ret (e.map (errorf format)) s

/-- A command with every field nil or empty. -/
def blankCommand : Command :=
  { Commander := none, Name := "", ShortDesc := "", LongDesc := ""
    StaticExec := none, ShellExec := none, RequestHandler := none, ResponseHandler := none
    Request := .nil, Response := .nil, RegisterFunc := none }

/-- A commander with no command and every slot nil. -/
def blankCommander : Commander :=
  { commands := [], rootCmd := 0, preRequest := [], postRequest := []
    requestHandler := none, responseHandler := none, registrationHandler := none
    errorHandler := none, staticExec := none, shellExec := none }

/-- The sample registration functions: number 1 refuses, the others accept; each
writes a line with its number to the outside world. -/
def sampleRegister (id : Nat) (_parentCmd : CobraPtr) (_cmd : CmdPtr) (s : State (List String)) :
    Option String × Mem × List String :=
  (if id = 1 then some "refused" else none, s.mem, s.world ++ ["register " ++ toString id])

/-- The sample request handlers: number 1 refuses, the others accept. -/
def sampleRequest (id : Nat) (_req _resp : Iface) (s : State (List String)) :
    Option String × Mem × List String :=
  (if id = 1 then some "refused" else none, s.mem, s.world ++ ["request " ++ toString id])

/-- The sample response handlers: number 1 refuses, the others accept. -/
def sampleResponse (id : Nat) (_resp : Iface) (s : State (List String)) :
    Option String × Mem × List String :=
  (if id = 1 then some "refused" else none, s.mem, s.world ++ ["response " ++ toString id])

/-- A sample host whose outside world is the list of lines written so far. -/
def sampleHost : Host (List String) :=
  { register := sampleRegister
    request := sampleRequest
    response := sampleResponse
    xmlMarshal := fun _ _ => .ok "<r></r>"
    xmlMarshalIndent := fun _ _ => .ok "<r>\n</r>"
    println := fun line w => w ++ [line] }

/-- A sample state: command 0 is `list` with handlers of its own, command 1 is
`show` and command 2 is a second command named `list`, both without handlers;
all request the sample record; commander 0 has host defaults, and no commander
has been created through `NewCommander` yet. -/
def sampleState : State (List String) :=
  { cmds := fun p =>
      if p = 0 then
        { blankCommand with
          Commander := some 0, Name := "list", Request := .ptr (some 0)
          RequestHandler := some (.host 7), ResponseHandler := some (.host 8)
          RegisterFunc := some (.host 9) }
      else if p = 1 then
        { blankCommand with Commander := some 0, Name := "show", Request := .ptr (some 0) }
      else
        { blankCommand with Commander := some 5, Name := "list", Request := .ptr (some 0) }
    cmdrs := fun k =>
      if k = 0 then
        { blankCommander with
          requestHandler := some (.host 3), responseHandler := some (.host 4)
          registrationHandler := some (.host 5) }
      else blankCommander
    nextCmdr := 5
    mem := sampleMem
    cobra := fun _ => []
    world := []
    trace := [] }

/-- The command map after the assignments `m[name cmd] = cmd` for the commands
of `cmds`, in order. -/
def insertAll (name : CmdPtr → String) (m : CommandMap) (cmds : List CmdPtr) : CommandMap :=
  cmds.foldl (fun acc cmd => acc.set (name cmd) cmd) m

/-! ## shell.go and the rest of inspector.go and command.go -/

/-- The value of a decimal digit. -/
def digitValue (c : Char) : Option Nat :=
  if '0' ≤ c ∧ c ≤ '9' then some (c.toNat - '0'.toNat) else none

/-- The number written by a list of decimal digits, after the digits
accumulated in `acc`; `none` when a character is not a digit. -/
def parseDigits : List Char → Nat → Option Nat
  | [], acc => some acc
  | c :: cs, acc =>
    match digitValue c with
    | none => none
    | some d => parseDigits cs (10 * acc + d)

/-- The Go library function `strconv.Atoi` for a 64-bit `int`: an optional sign
followed by at least one decimal digit, the value lying between `-2^63` and
`2^63 - 1`; `none` stands for a non-nil error. -/
def Atoi (s : String) : Option Int :=
  match s.data with
  | [] => none
  | '-' :: ds =>
    if ds.isEmpty then none
    else
      match parseDigits ds 0 with
      | none => none
      | some n => if n ≤ 2 ^ 63 then some (-(n : Int)) else none
  | '+' :: ds =>
    if ds.isEmpty then none
    else
      match parseDigits ds 0 with
      | none => none
      | some n => if n < 2 ^ 63 then some (n : Int) else none
  | ds =>
    match parseDigits ds 0 with
    | none => none
    | some n => if n < 2 ^ 63 then some (n : Int) else none

/-- The method `reflect.Value.OverflowInt` on a field of kind `int` (64 bits):
whether the 64-bit value `x` cannot be represented in the field. -/
def OverflowInt (x : Int) : Bool :=
  decide (x < -(2 ^ 63)) || decide (2 ^ 63 ≤ x)

mutual
/-- The zero value of the type of a value (`reflect.Zero`, `reflect.New`). -/
def Value.zero : Value → Value
  | .int _ => .int 0
  | .string _ => .string ""
  | .bool _ => .bool false
  | .struct fs => .struct (zeroFields fs)
  | .other k => .other k
/-- The fields of the zero value of a struct type. -/
def zeroFields : List (StructField × Value) → List (StructField × Value)
  | [] => []
  | (f, v) :: rest => (f, v.zero) :: zeroFields rest
end

/-- The part of an `ishell.Context` the package uses: the lines the user is still
to enter, and what has been printed, one entry for each print call. -/
structure ShellContext where
  input : List String
  output : List String

/-- The method `Println` of the shell context, for one text argument. -/
def ShellContext.Println (c : ShellContext) (line : String) : ShellContext :=
  { c with output := c.output ++ [line ++ "\n"] }

/-- The method `Print` of the shell context. -/
def ShellContext.Print (c : ShellContext) (text : String) : ShellContext :=
  { c with output := c.output ++ [text] }

/-- The value of `minErrWidth`. -/
def minErrWidth : Nat := 37

/-- The value of `errTitle`. -/
def errTitle : String := "error"

/-- The message of `errorInvalidOption`. -/
def errorInvalidOption : String := "Invalid option, try again"

/-- The Go library function `strings.Repeat` for a one-character text. -/
def stringsRepeat (s : String) (count : Nat) : String :=
  String.join (List.replicate count s)

/-- The width `errStringWidth` computed by `shellPrintError`: the length of the
message in bytes, raised to `minErrWidth`. -/
def errStringWidth (err : String) : Nat :=
  if err.utf8ByteSize < minErrWidth then minErrWidth else err.utf8ByteSize

/-- The text `errorBorderTop` of `shellPrintError`. -/
def errorBorderTop (err : String) : String :=
  stringsRepeat "*" ((errStringWidth err - 7) / 2) ++ " " ++ errTitle ++ " "
    ++ stringsRepeat "*" ((errStringWidth err - 7) / 2)

/-- The text `errorBorderBot` of `shellPrintError`. -/
def errorBorderBot (err : String) : String :=
  stringsRepeat "*" (errStringWidth err)

/-- The function `shellPrintError`. -/
def shellPrintError (c : ShellContext) (err : String) : ShellContext :=
  ((c.Println (errorBorderTop err)).Print (err ++ "\n")).Println (errorBorderBot err)

/-- The lines `presentOptions` prints for the fields from number `i + 1` on. -/
def optionLines : Nat → List FieldInfo → List String
  | _, [] => []
  | i, fi :: rest =>
    ("[" ++ toString (i + 1) ++ "] - " ++ fi.Namespace ++ fi.Name ++ "\n")
      :: optionLines (i + 1) rest

/-- What `presentOptions` prints from the label `present` to the read. -/
def ShellContext.showMenu (c : ShellContext) (fis : List FieldInfo) : ShellContext :=
  { c with output := c.output
      ++ ["\n", "Optional query paramaters:\n", "\n", "[0] - I'm done\n"]
      ++ optionLines 0 fis ++ ["\n", "Select an option: \n"] }

/-- The text of the outcome of a read with no line left to read: the call waits
for input and does not return. -/
def awaitingInput : String := "waiting for a line of input"

/-- The value of a 64-bit `int` after an arithmetic operation: a result out of
range wraps around. -/
def wrapInt (x : Int) : Int :=
  (x + 2 ^ 63) % 2 ^ 64 - 2 ^ 63

/-- The body of `presentOptions` from the label `present`, for a non-empty field
list, on the lines still to be entered: each pass shows the menu and reads one
line; `none` when the lines run out before a valid choice. -/
def presentLoop (fis : List FieldInfo) : List String → List String → Option (Int × ShellContext)
  | [], _ => none
  | selected :: rest, out =>
    let c1 := ({ input := rest, output := out } : ShellContext).showMenu fis
    match Atoi selected with
    | none => presentLoop fis rest (shellPrintError c1 errorInvalidOption).output
    | some n =>
      let intVal := wrapInt (n - 1)
      if intVal == -1 then some (-1, c1)
      else if intVal < -1 || intVal > (fis.length : Int) - 1 then
        presentLoop fis rest (shellPrintError c1 errorInvalidOption).output
      else some (intVal, c1)

/-- The function `presentOptions`: present optional query params to the user.
The result is `none` when the call does not return. -/
def presentOptions (c : ShellContext) (fis : List FieldInfo) : Option (Int × ShellContext) :=
  if fis.length > 0 then presentLoop fis c.input c.output else some (-1, c)

mutual
/-- The body of the loop of `splitRequiredFields` for one entry: what it appends
to `required` and to `optional`. -/
def splitRequiredField : FieldInfo → List FieldInfo × List FieldInfo
  | FieldInfo.mk index required zero ns name hint sFlag lFlag typ defined tags field fieldPtr value
      fieldInfos =>
    if fieldInfos.length > 0 then
      splitRequiredFields fieldInfos
    else if required then
      ([FieldInfo.mk index required zero ns name hint sFlag lFlag typ defined tags field
          fieldPtr value fieldInfos], [])
    else
      ([], [FieldInfo.mk index required zero ns name hint sFlag lFlag typ defined tags field
          fieldPtr value fieldInfos])
/-- The function `splitRequiredFields`. -/
def splitRequiredFields : List FieldInfo → List FieldInfo × List FieldInfo
  | [] => ([], [])
  | fi :: rest =>
    ((splitRequiredField fi).1 ++ (splitRequiredFields rest).1,
      (splitRequiredField fi).2 ++ (splitRequiredFields rest).2)
end

/-! ## Execution: hooks, executors and the generic handlers -/

/-- The behaviour of everything outside the package that execution involves:
beside the `Host` functions, the hooks, error handlers and executors supplied
by the host program, the struct validator and the formatter of the standard
library.  An error handler returns the records and the outside world as it
leaves them, or `none` when it does not return (it ends the process, or
panics). -/
structure Runtime (W : Type) extends Host W where
  hook : Nat → CmdPtr → State W → Option String × Mem × W
  errorHandler : Nat → String → State W → Option (Mem × W)
  staticExec : Nat → CmdPtr → List String → State W → Option String × Mem × W
  shellExec : Nat → CmdPtr → ShellContext → State W → (Option String × Mem × W) × ShellContext
  /-- The error of `govalidator.ValidateStruct`, `none` for a valid record. -/
  validateStruct : Mem → Iface → Option String
  /-- The text `fmt.Sprintf(format)` makes of a format when it is given no
  operand: a verb in the format is rendered as a missing operand. -/
  sprintf : String → String

/-- The text with which `log.Fatal(err)` ends the process. -/
def fatalExit (err : String) : String :=
  "log.Fatal: " ++ err

/-- The text of the outcome of a host error handler that does not return. -/
def handlerStopped : String := "the error handler did not return"

/-- The text of the outcome of the optional loop when the bound on its passes is
used up; the bound `optionalFuel` is never used up. -/
def outOfFuel : String := "bound on the passes of the optional loop used up"

/-- The panic of an index expression out of range. -/
def indexOutOfRange : String := "index out of range"

/-- HandleError will call the errorHandler for any commander errors. -/
def HandleError {W : Type} (h : Runtime W) (c : CmdrPtr) (err : String) (s : State W) :
    Run (State W) Unit :=
  match (s.cmdrs c).errorHandler with
  | none => .panic nilDereference
  | some .DefaultErrorHandler => .panic (fatalExit err)
  | some (.host id) =>
    match h.errorHandler id err (s.log (.error (.host id) err)) with
    | none => .panic handlerStopped
    | some r => .ret () { s.log (.error (.host id) err) with mem := r.1, world := r.2 }

/-- The call `c.Commander.HandleError(err)` made by a method of the command. -/
def commanderHandleError {W : Type} (h : Runtime W) (c : CmdPtr) (err : String) (s : State W) :
    Run (State W) Unit :=
  match (s.cmds c).Commander with
  | none => .panic nilDereference
  | some commander => HandleError h commander err s

/-- The call `hook(c)` of a command hook. -/
def callHook {W : Type} (h : Runtime W) (f : CommandHook) (c : CmdPtr) (s : State W) :
    Option String × State W :=
  match f with
  | .host id => ((h.hook id c s).1, (s.afterHost (h.hook id c s)).log (.hook f c (h.hook id c s).1))

/-- The loops `for _, preHook := range preHooks` and
`for _, postHook := range postHooks` of `handleStatic` and `handleShell`. -/
def runHooks {W : Type} (h : Runtime W) (c : CmdPtr) :
    List CommandHook → State W → Run (State W) Unit
  | [], s => .ret () s
  | hook :: hooks, s =>
    match callHook h hook c s with
    | (some err, s1) =>
      match commanderHandleError h c err s1 with
      | .panic msg => .panic msg
      | .ret _ s2 => runHooks h c hooks s2
    | (none, s1) => runHooks h c hooks s1

/-- The error `fmt.Errorf("validation error: %s" + err.Error())` of
`GenericStaticHandler`: the text of `err` is appended to the format, not passed
as an operand, so the whole is formatted with no operand. -/
def validationError {W : Type} (h : Runtime W) (err : String) : String :=
  h.sprintf ("validation error: %s" ++ err)

/-- GenericStaticHandler provides a generic handler for static cli commands.
(The line `println(result)` writes to the standard error, which like the lines
of `log` is not part of the model.) -/
def GenericStaticHandler {W : Type} (h : Runtime W) (command : CmdPtr) (_args : List String)
    (s : State W) : Run (State W) (Option String) :=
  match h.validateStruct s.mem (s.cmds command).Request with
  | some err => .ret (some (validationError h err)) s
  | none =>
    match HandleRequest h.toHost command (s.cmds command).Request (s.cmds command).Response s with
    | .panic msg => .panic msg
    | .ret (some err) s1 => .ret (some (errorf "error from request handler: " err)) s1
    | .ret none s1 => HandleResponse h.toHost command (s1.cmds command).Response s1

/-- The call `f(command, cmd, args)` of a static executor. -/
def callStaticExec {W : Type} (h : Runtime W) (f : StaticExec) (c : CmdPtr) (args : List String)
    (s : State W) : Run (State W) (Option String) :=
  match f with
  | .GenericStaticHandler => GenericStaticHandler h c args (s.log (.staticExec f c args))
  | .host id =>
    .ret (h.staticExec id c args (s.log (.staticExec f c args))).1
      ((s.log (.staticExec f c args)).afterHost
        (h.staticExec id c args (s.log (.staticExec f c args))))

/-- The middle block of `handleStatic`: run static exec function, fallback to
global if not defined on command. -/
def execStatic {W : Type} (h : Runtime W) (c : CmdPtr) (args : List String) (s : State W) :
    Run (State W) Unit :=
  match (s.cmds c).StaticExec with
  | none =>
    match (s.cmds c).Commander with
    | none => .panic nilDereference
    | some commander =>
      match (s.cmdrs commander).staticExec with
      | none => commanderHandleError h c "no static exec handler defined" s
      | some globalStaticExec =>
        match callStaticExec h globalStaticExec c args s with
        | .panic msg => .panic msg
        | .ret (some err) s1 =>
          commanderHandleError h c (errorf "error from commander static exec: " err) s1
        | .ret none s1 => .ret () s1
  | some staticExec =>
    match callStaticExec h staticExec c args s with
    | .panic msg => .panic msg
    | .ret (some err) s1 =>
      commanderHandleError h c (errorf "error from command static exec: " err) s1
    | .ret none s1 => .ret () s1

/-- The method `handleStatic`. -/
def handleStatic {W : Type} (h : Runtime W) (c : CmdPtr) (args : List String) (s : State W) :
    Run (State W) Unit :=
  match (s.cmds c).Commander with
  | none => .panic nilDereference
  | some commander =>
    match runHooks h c (s.cmdrs commander).preRequest s with
    | .panic msg => .panic msg
    | .ret _ s1 =>
      match execStatic h c args s1 with
      | .panic msg => .panic msg
      | .ret _ s2 =>
        match (s2.cmds c).Commander with
        | none => .panic nilDereference
        | some commander2 => runHooks h c (s2.cmdrs commander2).postRequest s2

/-- The function `collectShellValue`: collects a value from the user within
their shell.  The fields the inspector describes are reached through a pointer,
so `fi.Field.CanSet()` holds. -/
def collectShellValue {W : Type} (c : ShellContext) (fi : FieldInfo) (s : State W) :
    Run (State W) (Option String × ShellContext) :=
  match (c.Print (fi.Name ++ ":")).input with
  | [] => .panic awaitingInput
  | strVal :: rest =>
    let c2 : ShellContext := { c.Print (fi.Name ++ ":") with input := rest }
    match fi.Typ with
    | .string => .ret (none, c2) { s with mem := s.mem.store fi.Field (.string strVal) }
    | .int =>
      match Atoi strVal with
      | none => .ret (some "failed to convert user input to integer", c2) s
      | some intVal =>
        if OverflowInt intVal then
          .ret (some "failed to convert user input to integer", c2) s
        else
          .ret (none, c2) { s with mem := s.mem.store fi.Field (.int intVal) }
    | k => .ret (some ("unsupported value type: " ++ k.name), c2) s

/-- The loop `for _, fi := range required` of `GenericShellHandler`. -/
def collectRequired {W : Type} :
    List FieldInfo → ShellContext → State W → Run (State W) (Option String × ShellContext)
  | [], c, s => .ret (none, c) s
  | fi :: required, c, s =>
    match collectShellValue c fi s with
    | .panic msg => .panic msg
    | .ret (some err, c1) s1 => .ret (some err, c1) s1
    | .ret (none, c1) s1 => collectRequired required c1 s1

/-- The loop `for selected >= 0` of `GenericShellHandler`, for at most `fuel`
passes. -/
def optionalLoop {W : Type} (optional : List FieldInfo) :
    Nat → ShellContext → State W → Run (State W) (Option String × ShellContext)
  | 0, _, _ => .panic outOfFuel
  | fuel + 1, c, s =>
    match presentOptions c optional with
    | none => .panic awaitingInput
    | some (selected, c1) =>
      if selected ≥ 0 then
        match optional[selected.toNat]? with
        | none => .panic indexOutOfRange
        | some fi =>
          match collectShellValue c1 fi s with
          | .panic msg => .panic msg
          | .ret (some err, c2) s2 => .ret (some err, c2) s2
          | .ret (none, c2) s2 => optionalLoop optional fuel c2 s2
      else .ret (none, c1) s

/-- A bound on the passes of the optional loop that is never reached: every
pass but the last reads at least two lines. -/
def optionalFuel (c : ShellContext) : Nat :=
  c.input.length + 1

/-- The end of `GenericShellHandler`, after the values are collected: the
request handler is called and, when it returns no error, the response
handler. -/
def dispatchShell {W : Type} (h : Runtime W) (command : CmdPtr) (c : ShellContext)
    (s : State W) : Run (State W) (Option String × ShellContext) :=
  match HandleRequest h.toHost command (s.cmds command).Request (s.cmds command).Response s with
  | .panic msg => .panic msg
  | .ret (some err) s3 => .ret (some (errorf "error from request handler: " err), c) s3
  | .ret none s3 =>
    match HandleResponse h.toHost command (s3.cmds command).Response s3 with
    | .panic msg => .panic msg
    | .ret err s4 => .ret (err, c) s4

/-- GenericShellHandler provides a generic handler for shell commands. -/
def GenericShellHandler {W : Type} (h : Runtime W) (command : CmdPtr) (c : ShellContext)
    (s : State W) : Run (State W) (Option String × ShellContext) :=
  match InspectStruct s.mem (s.cmds command).Request with
  | .error err => .ret (some err, c) s
  | .ok fis =>
    match collectRequired (splitRequiredFields fis).1 c s with
    | .panic msg => .panic msg
    | .ret (some err, c1) s1 => .ret (some err, c1) s1
    | .ret (none, c1) s1 =>
      match optionalLoop (splitRequiredFields fis).2 (optionalFuel c1) c1 s1 with
      | .panic msg => .panic msg
      | .ret (some err, c2) s2 => .ret (some err, c2) s2
      | .ret (none, c2) s2 => dispatchShell h command c2 s2

/-- The call `f(command, c)` of a shell executor. -/
def callShellExec {W : Type} (h : Runtime W) (f : ShellExec) (c : CmdPtr) (sc : ShellContext)
    (s : State W) : Run (State W) (Option String × ShellContext) :=
  match f with
  | .GenericShellHandler => GenericShellHandler h c sc (s.log (.shellExec f c))
  | .host id =>
    .ret ((h.shellExec id c sc (s.log (.shellExec f c))).1.1,
        (h.shellExec id c sc (s.log (.shellExec f c))).2)
      ((s.log (.shellExec f c)).afterHost (h.shellExec id c sc (s.log (.shellExec f c))).1)

/-- The method `resetStruct`: the new pointer, or nil and the error, and the
state with the new record allocated. -/
def resetStruct {W : Type} (structPtr : Iface) (s : State W) :
    (Iface × Option String) × State W :=
  match structPtr with
  | .ptr (some a) =>
    match s.mem a with
    | .struct fs =>
      ((.ptr (some s.nextAddr), none),
        { s with
          mem := Function.update s.mem s.nextAddr (Value.struct fs).zero
          nextAddr := s.nextAddr + 1 })
    | _ => ((.nil, some ErrStructPtrExpected), s)
  | _ => ((.nil, some ErrStructPtrExpected), s)

/-- The middle block of `handleShell`: the shell executor of the command
(`c.ShellExec`), or of the commander (`c.Commander.ShellExec()`) when the
command has none.  The comment on the block in the source reads "run static exec
function, fallback to global if not defined on command"; the code consults the
shell executors only, never a static executor. -/
def execShell {W : Type} (h : Runtime W) (c : CmdPtr) (sc : ShellContext) (s : State W) :
    Run (State W) ShellContext :=
  match (s.cmds c).ShellExec with
  | none =>
    match (s.cmds c).Commander with
    | none => .panic nilDereference
    | some commander =>
      match (s.cmdrs commander).shellExec with
      | none =>
        match commanderHandleError h c "no shell exec handler defined" s with
        | .panic msg => .panic msg
        | .ret _ s1 => .ret sc s1
      | some globalShellExec =>
        match callShellExec h globalShellExec c sc s with
        | .panic msg => .panic msg
        | .ret (some err, sc1) s1 =>
          match commanderHandleError h c (errorf "error from commander shell exec: " err) s1 with
          | .panic msg => .panic msg
          | .ret _ s2 => .ret sc1 s2
        | .ret (none, sc1) s1 => .ret sc1 s1
  | some shellExec =>
    match callShellExec h shellExec c sc s with
    | .panic msg => .panic msg
    | .ret (some err, sc1) s1 =>
      match commanderHandleError h c (errorf "error from command shell exec: " err) s1 with
      | .panic msg => .panic msg
      | .ret _ s2 => .ret sc1 s2
    | .ret (none, sc1) s1 => .ret sc1 s1

/-- The two assignments at the head of `handleShell` for one of the records:
`c.Request, err = c.resetStruct(c.Request)` followed by the report of `err`
(`setField` stores the new pointer in the command). -/
def resetField {W : Type} (h : Runtime W) (c : CmdPtr) (old : Iface)
    (setField : Command → Iface → Command) (s : State W) : Run (State W) Unit :=
  let r := resetStruct old s
  let s1 : State W := { r.2 with cmds := Function.update r.2.cmds c (setField (r.2.cmds c) r.1.1) }
  match r.1.2 with
  | some err => commanderHandleError h c err s1
  | none => .ret () s1

/-- The method `handleShell`. -/
def handleShell {W : Type} (h : Runtime W) (c : CmdPtr) (sc : ShellContext) (s : State W) :
    Run (State W) ShellContext :=
  match resetField h c (s.cmds c).Request (fun x p => { x with Request := p }) s with
  | .panic msg => .panic msg
  | .ret _ sa =>
    match resetField h c (sa.cmds c).Response (fun x p => { x with Response := p }) sa with
    | .panic msg => .panic msg
    | .ret _ sb =>
      match (sb.cmds c).Commander with
      | none => .panic nilDereference
      | some commander =>
        match runHooks h c (sb.cmdrs commander).preRequest sb with
        | .panic msg => .panic msg
        | .ret _ s1 =>
          match execShell h c sc s1 with
          | .panic msg => .panic msg
          | .ret sc1 s2 =>
            match (s2.cmds c).Commander with
            | none => .panic nilDereference
            | some commander2 =>
              match runHooks h c (s2.cmdrs commander2).postRequest s2 with
              | .panic msg => .panic msg
              | .ret _ s3 => .ret sc1 s3

/-! ### Samples for registration, execution and the shell -/

/-- The sample state with the float record in memory. -/
def floatState : State (List String) :=
  { sampleState with mem := fun _ => .struct floatRecord }

/-- A record with a boolean field that carries a long flag and a hint. -/
def boolFlagRecord : List (StructField × Value) :=
  [ ({ Name := "Name", Tag := [("lFlag", "name"), ("sFlag", "n"), ("hint", "Name")] },
      .string ""),
    ({ Name := "Verbose", Tag := [("lFlag", "verbose"), ("hint", "Verbose")] }, .bool false) ]

/-- The sample state with the boolean-flag record in memory. -/
def boolFlagState : State (List String) :=
  { sampleState with mem := fun _ => .struct boolFlagRecord }

/-- An error message of 38 bytes. -/
def longMessage : String := "12345678901234567890123456789012345678"

/-- The boolean leaf `Verbose` of the boolean-flag record. -/
def verboseLeaf : Leaf :=
  { path := [1], enclosing := []
    field := { Name := "Verbose", Tag := [("lFlag", "verbose"), ("hint", "Verbose")] }
    value := .bool false }

/-- A request record for the shell: two required fields, a text and an integer,
and three optional fields. -/
def shellRecord : List (StructField × Value) :=
  [ ({ Name := "Name", Tag := [("valid", "required"), ("lFlag", "name"), ("hint", "Name")] },
      .string ""),
    ({ Name := "Count", Tag := [("valid", "required")] }, .int 0),
    ({ Name := "Note", Tag := [] }, .string ""),
    ({ Name := "Limit", Tag := [] }, .int 0),
    ({ Name := "Tag", Tag := [] }, .string "") ]

/-- The sample hooks: number 1 fails, the others succeed. -/
def sampleHook (id : Nat) (_cmd : CmdPtr) (s : State (List String)) :
    Option String × Mem × List String :=
  (if id = 1 then some "hook failed" else none, s.mem, s.world ++ ["hook " ++ toString id])

/-- The sample error handlers: each writes the error to the outside world and
returns. -/
def sampleErrorHandler (_id : Nat) (err : String) (s : State (List String)) :
    Option (Mem × List String) :=
  some (s.mem, s.world ++ ["error: " ++ err])

/-- The sample static executors: number 1 fails, the others succeed. -/
def sampleStaticExec (id : Nat) (_cmd : CmdPtr) (_args : List String) (s : State (List String)) :
    Option String × Mem × List String :=
  (if id = 1 then some "exec failed" else none, s.mem,
    s.world ++ ["static exec " ++ toString id])

/-- The sample shell executors: number 1 fails, the others succeed; none reads
or prints. -/
def sampleShellExec (id : Nat) (_cmd : CmdPtr) (sc : ShellContext) (s : State (List String)) :
    (Option String × Mem × List String) × ShellContext :=
  ((if id = 1 then some "exec failed" else none, s.mem,
      s.world ++ ["shell exec " ++ toString id]), sc)

/-- The sample validator: it accepts a pointer and rejects everything else. -/
def sampleValidate (_m : Mem) (req : Iface) : Option String :=
  match req with
  | .ptr (some _) => none
  | _ => some "not a struct"

/-- The characters a format is rendered to when there is no operand, for formats
whose verbs are a single character after the percent sign (no flag, width,
precision or index): `%%` is a percent sign, any other verb is reported as
missing its operand, and a percent sign at the end as lacking a verb. -/
def sampleSprintfChars : List Char → List Char
  | [] => []
  | '%' :: [] => "%!(NOVERB)".data
  | '%' :: '%' :: rest => '%' :: sampleSprintfChars rest
  | '%' :: v :: rest => "%!".data ++ [v] ++ "(MISSING)".data ++ sampleSprintfChars rest
  | c :: rest => c :: sampleSprintfChars rest

/-- The sample formatter. -/
def sampleSprintf (format : String) : String :=
  String.mk (sampleSprintfChars format.data)

/-- A sample runtime over the sample host. -/
def sampleRuntime : Runtime (List String) :=
  { sampleHost with
    sprintf := sampleSprintf
    hook := sampleHook
    errorHandler := sampleErrorHandler
    staticExec := sampleStaticExec
    shellExec := sampleShellExec
    validateStruct := sampleValidate }

/-- A sample state for execution: command 0 (`ask`) of commander 0 requests the
shell record at address 0 and answers into the record at address 1; commander 0
has a host request handler (3), a host response handler (4), a host error
handler (2), the generic executors, pre-request hooks 5 and 1 and post-request
hooks 1 and 6. -/
def shellState : State (List String) :=
  { cmds := fun _ =>
      { blankCommand with
        Commander := some 0, Name := "ask", Request := .ptr (some 0), Response := .ptr (some 1) }
    cmdrs := fun _ =>
      { blankCommander with
        requestHandler := some (.host 3), responseHandler := some (.host 4)
        errorHandler := some (.host 2)
        staticExec := some .GenericStaticHandler, shellExec := some .GenericShellHandler
        preRequest := [.host 5, .host 1], postRequest := [.host 1, .host 6] }
    nextCmdr := 1
    mem := fun a => if a = 0 then .struct shellRecord else .struct []
    cobra := fun _ => []
    world := []
    trace := []
    nextAddr := 2 }

/-! ## The public operations on commanders, as data -/

/-- A call of one of the public operations that change a commander. -/
inductive Op where
  | NewCommander (rootCommand : CobraPtr)
  | Add (c : CmdrPtr) (cmds : List CmdPtr)
  | SetErrorHandler (c : CmdrPtr) (eh : Option ErrorHandler)
  | SetDefaultRegistrationHandler (c : CmdrPtr) (rh : Option RegisterFunc)
  | SetDefaultShellExec (c : CmdrPtr) (se : Option ShellExec)
  | SetDefaultStaticExec (c : CmdrPtr) (se : Option StaticExec)
  | SetDefaultRequestHandler (c : CmdrPtr) (rh : Option RequestHandler)
  | SetDefaultResponseHandler (c : CmdrPtr) (rh : Option ResponseHandler)
  | AddPreRequestHooks (c : CmdrPtr) (hooks : List CommandHook)
  | AddPostRequestHooks (c : CmdrPtr) (hooks : List CommandHook)

/-- The state after one operation; `none` when the call does not return.  The
error `Add` may return is left to the caller and does not stop the program. -/
def Op.run {W : Type} (h : Host W) : Op → State W → Option (State W)
  | .NewCommander rootCommand, s => some (Combi.NewCommander rootCommand s).2
  | .Add c cmds, s =>
    match Combi.Add h c cmds s with
    | .ret _ s1 => some s1
    | .panic _ => none
  | .SetErrorHandler c eh, s => some (Combi.SetErrorHandler c eh s)
  | .SetDefaultRegistrationHandler c rh, s => some (Combi.SetDefaultRegistrationHandler c rh s)
  | .SetDefaultShellExec c se, s => some (Combi.SetDefaultShellExec c se s)
  | .SetDefaultStaticExec c se, s => some (Combi.SetDefaultStaticExec c se s)
  | .SetDefaultRequestHandler c rh, s => some (Combi.SetDefaultRequestHandler c rh s)
  | .SetDefaultResponseHandler c rh, s => some (Combi.SetDefaultResponseHandler c rh s)
  | .AddPreRequestHooks c hooks, s => some (Combi.AddPreRequestHooks c hooks s)
  | .AddPostRequestHooks c hooks, s => some (Combi.AddPostRequestHooks c hooks s)

/-- The state after a sequence of operations. -/
def runOps {W : Type} (h : Host W) : List Op → State W → Option (State W)
  | [], s => some s
  | op :: ops, s =>
    match op.run h s with
    | none => none
    | some s1 => runOps h ops s1

/-- Whether the operation, made in state `s`, adds only commands that are not
attached to another commander: the back-reference of each is nil or the
commander it is added to. -/
def Op.addsUnattached {W : Type} (s : State W) : Op → Bool
  | .Add c cmds =>
    cmds.all (fun cmd => (s.cmds cmd).Commander == none || (s.cmds cmd).Commander == some c)
  | _ => true

/-- Whether every `Add` of a sequence of operations, at the time it is made,
adds only commands that are not attached to another commander. -/
def addsUnattached {W : Type} (h : Host W) : List Op → State W → Bool
  | [], _ => true
  | op :: ops, s =>
    op.addsUnattached s &&
      match op.run h s with
      | none => true
      | some s1 => addsUnattached h ops s1

/-- Whether the operation gives the commander an error handler when it sets
one: it is not `SetErrorHandler(nil)`. -/
def Op.keepsErrorHandler : Op → Bool
  | .SetErrorHandler _ none => false
  | _ => true

/-- The invariant of the data model: every command stored in a commander's map
has that commander as its back-reference. -/
def backReferencesAgree {W : Type} (s : State W) : Prop :=
  ∀ (c : CmdrPtr) (name : String) (cmd : CmdPtr),
    (name, cmd) ∈ (s.cmdrs c).commands → (s.cmds cmd).Commander = some c

/-! ### Vocabulary for execution -/

/-- The request handler the resolution chain yields for a command: its own, else
the default of its commander. -/
def resolvedRequestHandler {W : Type} (s : State W) (c : CmdPtr) : Option RequestHandler :=
  match (s.cmds c).RequestHandler with
  | some f => some f
  | none =>
    match (s.cmds c).Commander with
    | none => none
    | some commander => (s.cmdrs commander).requestHandler

/-- The response handler the resolution chain yields for a command. -/
def resolvedResponseHandler {W : Type} (s : State W) (c : CmdPtr) : Option ResponseHandler :=
  match (s.cmds c).ResponseHandler with
  | some f => some f
  | none =>
    match (s.cmds c).Commander with
    | none => none
    | some commander => (s.cmdrs commander).responseHandler

/-- The value a line of input gives a field when it is a valid value for it: any
line for a text field, an integer in range for an integer field. -/
def acceptedValue (fi : FieldInfo) (line : String) : Option Value :=
  match fi.Typ with
  | .string => some (.string line)
  | .int =>
    match Atoi line with
    | some n => if OverflowInt n then none else some (.int n)
    | none => none
  | _ => none

/-- Two paths of field positions lead to parts of a record that do not overlap:
neither path starts with the other. -/
def pathsApart (p q : List Nat) : Prop :=
  ¬ p <+: q ∧ ¬ q <+: p

/-! ### Vocabulary for the trace of an execution -/

/-- The hooks called in a trace, in the order of their calls. -/
def hookCalls (t : List Event) : List CommandHook :=
  t.filterMap fun e =>
    match e with
    | .hook f _ _ => some f
    | _ => none

/-- The events one loop over hooks leaves on the trace, given each hook with the
error it returned: the call of the hook and, when it returned an error, the call
of the error handler with that error right after it. -/
def hookEvents (c : CmdPtr) (eh : ErrorHandler) : List (CommandHook × Option String) → List Event
  | [] => []
  | (f, none) :: rest => .hook f c none :: hookEvents c eh rest
  | (f, some err) :: rest => .hook f c (some err) :: .error eh err :: hookEvents c eh rest

/-- The static executor the fallback of `handleStatic` yields for a command: its
own, else the one of its commander. -/
def resolvedStaticExec {W : Type} (s : State W) (c : CmdPtr) : Option StaticExec :=
  match (s.cmds c).StaticExec with
  | some f => some f
  | none =>
    match (s.cmds c).Commander with
    | none => none
    | some commander => (s.cmdrs commander).staticExec

/-- The shell executor the fallback of `handleShell` yields for a command: its
own, else the one of its commander. -/
def resolvedShellExec {W : Type} (s : State W) (c : CmdPtr) : Option ShellExec :=
  match (s.cmds c).ShellExec with
  | some f => some f
  | none =>
    match (s.cmds c).Commander with
    | none => none
    | some commander => (s.cmdrs commander).shellExec

/-! ### commander.go: the lock of the commander

The commander embeds a `sync.RWMutex`.  What follows describes each method of
the commander by what it does, in program order, with the lock and with the
fields of the commander, and runs two such methods side by side. -/

/-- A field of the shared state of a commander. -/
inductive SharedField where
  | commands
  | rootCmd
  | preRequest
  | postRequest
  | requestHandler
  | responseHandler
  | registrationHandler
  | errorHandler
  | staticExec
  | shellExec
deriving DecidableEq, Repr

/-- A step of a method of the commander: a call on the embedded lock, or a read
or a write of a field. -/
inductive Access where
  | Lock
  | Unlock
  | RLock
  | RUnlock
  | read (f : SharedField)
  | write (f : SharedField)
deriving DecidableEq, Repr

/-- The methods of the commander. -/
inductive Method where
  | HandleError
  | SetErrorHandler
  | RegistrationHandler
  | SetDefaultRegistrationHandler
  | ShellExec
  | SetDefaultShellExec
  | StaticExec
  | SetDefaultStaticExec
  | DefaultRequestHandler
  | SetDefaultRequestHandler
  | DefaultResponseHandler
  | SetDefaultResponseHandler
  | AddPreRequestHooks
  | PreRequestHooks
  | AddPostRequestHooks
  | PostRequestHooks
  | PrintCommandList
  | Cmd
  | Add
  | RegisterShell
  | All
deriving DecidableEq, Repr

/-- The steps of each method, in program order; a deferred unlock is the last
step.  The hook adders are taken with one hook and `Add` with one command that
has no registration function of its own (so that `Register` asks the commander
for its registration handler); `cmd.Commander = c` is a write to the command,
not to the commander. -/
def Method.accesses : Method → List Access
  | .HandleError => [.read .errorHandler]
  | .SetErrorHandler => [.Lock, .write .errorHandler, .Unlock]
  | .RegistrationHandler => [.RLock, .read .registrationHandler, .RUnlock]
  | .SetDefaultRegistrationHandler => [.Lock, .write .registrationHandler, .Unlock]
  | .ShellExec => [.RLock, .read .shellExec, .RUnlock]
  | .SetDefaultShellExec => [.Lock, .write .shellExec, .Unlock]
  | .StaticExec => [.RLock, .read .staticExec, .RUnlock]
  | .SetDefaultStaticExec => [.Lock, .write .staticExec, .Unlock]
  | .DefaultRequestHandler => [.RLock, .read .requestHandler, .RUnlock]
  | .SetDefaultRequestHandler => [.Lock, .write .requestHandler, .Unlock]
  | .DefaultResponseHandler => [.RLock, .read .responseHandler, .RUnlock]
  | .SetDefaultResponseHandler => [.Lock, .write .responseHandler, .Unlock]
  | .AddPreRequestHooks => [.Lock, .read .preRequest, .write .preRequest, .Unlock]
  | .PreRequestHooks => [.RLock, .read .preRequest, .RUnlock]
  | .AddPostRequestHooks => [.Lock, .read .postRequest, .write .postRequest, .Unlock]
  | .PostRequestHooks => [.RLock, .read .postRequest, .RUnlock]
  | .PrintCommandList => [.RLock, .read .commands, .RUnlock]
  | .Cmd => [.read .commands]
  | .Add =>
    [.Lock, .write .commands, .Unlock, .read .rootCmd,
      .RLock, .read .registrationHandler, .RUnlock]
  | .RegisterShell => [.Lock, .read .commands, .Unlock]
  | .All => [.Lock, .read .commands, .Unlock]

/-- The state of a `sync.RWMutex`: whether a writer holds it, and how many
readers hold it. -/
structure LockState where
  writer : Bool
  readers : Nat
deriving DecidableEq, Repr

/-- Whether a step can be taken in a state of the lock: `Lock` waits until
nobody holds the lock, `RLock` until no writer holds it; nothing else waits. -/
def Access.enabled (l : LockState) : Access → Bool
  | .Lock => !l.writer && l.readers == 0
  | .RLock => !l.writer
  | _ => true

/-- The state of the lock after a step. -/
def Access.apply (l : LockState) : Access → LockState
  | .Lock => { l with writer := true }
  | .Unlock => { l with writer := false }
  | .RLock => { l with readers := l.readers + 1 }
  | .RUnlock => { l with readers := l.readers - 1 }
  | _ => l

/-- Two steps conflict: they access the same field and one of them writes it. -/
def Access.conflicts : Access → Access → Bool
  | .write f, .write g => f == g
  | .write f, .read g => f == g
  | .read f, .write g => f == g
  | _, _ => false

/-- Whether two goroutines with the steps `a` and `b` still to take can, within
`n` steps from the lock state `l`, reach a point where the next step of the one
conflicts with the next step of the other: a data race. -/
def raceWithin : Nat → LockState → List Access → List Access → Bool
  | 0, _, _, _ => false
  | n + 1, l, a, b =>
    (match a, b with
      | x :: _, y :: _ => x.conflicts y
      | _, _ => false)
    || (match a with
      | x :: a1 => x.enabled l && raceWithin n (x.apply l) a1 b
      | [] => false)
    || (match b with
      | y :: b1 => y.enabled l && raceWithin n (y.apply l) a b1
      | [] => false)

/-- Whether a call of `m1` and a call of `m2` on the same commander, made by two
goroutines while nobody holds the lock, can race. -/
def races (m1 m2 : Method) : Bool :=
  raceWithin (m1.accesses.length + m2.accesses.length + 1) { writer := false, readers := 0 }
    m1.accesses m2.accesses

/-- Whether every access made by the steps is made under the lock: a read while
the goroutine holds the lock for reading or for writing, a write while it holds
it for writing (`held` is 0 for no lock, 1 for the read lock, 2 for the write
lock). -/
def guardedFrom : Nat → List Access → Bool
  | _, [] => true
  | _, .Lock :: rest => guardedFrom 2 rest
  | _, .RLock :: rest => guardedFrom 1 rest
  | _, .Unlock :: rest => guardedFrom 0 rest
  | _, .RUnlock :: rest => guardedFrom 0 rest
  | held, .read _ :: rest => decide (1 ≤ held) && guardedFrom held rest
  | held, .write _ :: rest => decide (held = 2) && guardedFrom held rest

/-- Whether a method makes every access to the fields of the commander under
the lock. -/
def Method.guarded (m : Method) : Bool :=
  guardedFrom 0 m.accesses

/-! ### Vocabulary and samples for the menu and the reset -/

/-- A line that is not a choice of a menu with `n` fields: it is not a number,
or the number is below 0 or above `n`. -/
def invalidChoice (n : Nat) (line : String) : Bool :=
  match Atoi line with
  | none => true
  | some v => decide (v < 0) || decide (v > (n : Int))

/-- What has been printed after the lines `bad` were each answered with the
error box and a new menu: for each line, the menu it answered and then the
error box. -/
def retryOutput (fis : List FieldInfo) : List String → List String → List String
  | [], out => out
  | _ :: bad, out =>
    retryOutput fis bad
      (shellPrintError (({ input := [], output := out } : ShellContext).showMenu fis)
        errorInvalidOption).output

mutual
/-- Two values have the same type: the same kind and, for structs, the same
fields (name and tag) of the same types in the same order. -/
def Value.sameType : Value → Value → Bool
  | .int _, .int _ => true
  | .string _, .string _ => true
  | .bool _, .bool _ => true
  | .struct fs, .struct gs => sameTypeFields fs gs
  | .other k, .other j => k == j
  | _, _ => false
/-- Two field lists declare the same fields of the same types. -/
def sameTypeFields : List (StructField × Value) → List (StructField × Value) → Bool
  | [], [] => true
  | (f, v) :: fs, (g, w) :: gs => f == g && v.sameType w && sameTypeFields fs gs
  | _, _ => false
end

mutual
/-- Every integer, text and boolean at or below the value is 0, empty or false
(the content of a value of another kind is not part of the model). -/
def Value.allZero : Value → Bool
  | .int n => n == 0
  | .string s => s == ""
  | .bool b => b == false
  | .struct fs => allZeroFields fs
  | .other _ => true
/-- Every field of the list holds a zero value. -/
def allZeroFields : List (StructField × Value) → Bool
  | [] => true
  | (_, v) :: fs => v.allZero && allZeroFields fs
end

/-- The optional fields of the shell record: `Note`, `Limit` and `Tag`. -/
def shellOptional : List FieldInfo :=
  (splitRequiredFields (infosFrom 0 0 (eligibleLeaves shellRecord))).2

/-- The sample execution state after one call of `handleShell` in which the user
entered `Ada` and `3` for the required fields and left the menu. -/
def afterFirstRun : State (List String) :=
  match handleShell sampleRuntime 0 { input := ["Ada", "3", "0"], output := [] } shellState with
  | .ret _ s => s
  | .panic _ => shellState

/-- The part of `handleShell` after the two resets, from `// run preHooks` on:
the pre-request hooks, the shell executor and the post-request hooks. -/
def shellPhases {W : Type} (h : Runtime W) (c : CmdPtr) (sc : ShellContext) (s : State W) :
    Run (State W) ShellContext :=
  match (s.cmds c).Commander with
  | none => .panic nilDereference
  | some commander =>
    match runHooks h c (s.cmdrs commander).preRequest s with
    | .panic msg => .panic msg
    | .ret _ s1 =>
      match execShell h c sc s1 with
      | .panic msg => .panic msg
      | .ret sc1 s2 =>
        match (s2.cmds c).Commander with
        | none => .panic nilDereference
        | some commander2 =>
          match runHooks h c (s2.cmdrs commander2).postRequest s2 with
          | .panic msg => .panic msg
          | .ret _ s3 => .ret sc1 s3

/-! ### Vocabulary for the default registration -/

/-- The field carries both a long flag and a hint: the default registration
binds a flag for it. -/
def FieldInfo.flagged (fi : FieldInfo) : Bool :=
  fi.LFlag != "" && fi.Hint != ""

/-- The field is of the predeclared type `string` or `int`, the two types a flag
can be bound to. -/
def FieldInfo.predeclared (fi : FieldInfo) : Bool :=
  !fi.Defined && (fi.Typ == .string || fi.Typ == .int)

/-- The long flags of the flagged fields of a list, in order. -/
def longFlags (fis : List FieldInfo) : List String :=
  (fis.filter FieldInfo.flagged).map (fun fi => fi.LFlag)

/-- The shorthands of the flagged fields of a list that are passed on to the
flag set (those one byte long), in order. -/
def shorthands (fis : List FieldInfo) : List String :=
  ((fis.filter FieldInfo.flagged).filter (fun fi => fi.SFlag.utf8ByteSize == 1)).map
    (fun fi => fi.SFlag)

/-- The flags of the fields bind without a failure: every flagged field is of a
predeclared type, no long flag is repeated and no shorthand is repeated. -/
def bindsCleanly (fis : List FieldInfo) : Prop :=
  (∀ fi ∈ fis, fi.flagged = true → fi.predeclared = true)
    ∧ (longFlags fis).Nodup ∧ (shorthands fis).Nodup

/-- The records after the flags of the fields were defined: each flagged field
holds the default value of its flag, `""` or `0`. -/
def storeDefaults (m : Mem) : List FieldInfo → Mem
  | [] => m
  | fi :: rest =>
    if fi.flagged then
      storeDefaults (m.store fi.FieldPtr (if fi.Typ == .string then .string "" else .int 0)) rest
    else storeDefaults m rest

/-- A record with a field of a defined type of kind string that carries a long
flag and a hint, after a flagged text field. -/
def definedTypeRecord : List (StructField × Value) :=
  [ ({ Name := "Name", Tag := [("lFlag", "name"), ("sFlag", "n"), ("hint", "Name")] },
      .string "x"),
    ({ Name := "Level", Tag := [("lFlag", "level"), ("hint", "Level")], Defined := true },
      .string "") ]

/-- A record with two text fields that carry the same long flag, before a
flagged boolean. -/
def clashRecord : List (StructField × Value) :=
  [ ({ Name := "First", Tag := [("lFlag", "name"), ("hint", "First")] }, .string ""),
    ({ Name := "Second", Tag := [("lFlag", "name"), ("hint", "Second")] }, .string ""),
    ({ Name := "Verbose", Tag := [("lFlag", "verbose"), ("hint", "Verbose")] }, .bool false) ]

/-- The sample state with the defined-type record in memory. -/
def definedTypeState : State (List String) :=
  { sampleState with mem := fun _ => .struct definedTypeRecord }

/-- The sample state with the clash record in memory. -/
def clashState : State (List String) :=
  { sampleState with mem := fun _ => .struct clashRecord }

/-! ### The specification of a loop over hooks -/

/-- What the specification asks of a loop over hooks, written with the functions
of the host program alone: the hooks are called on the command one after the
other, each exactly once, in the order of the list; when a hook returns an
error the error handler `eh` is called with that error; the loop goes on either
way.  The result is the state after the last hook, or `none` when an error
handler does not return. -/
def hooksInOrder {W : Type} (h : Runtime W) (c : CmdPtr) (eh : Nat) :
    List CommandHook → State W → Option (State W)
  | [], s => some s
  | .host i :: rest, s =>
    match (h.hook i c s).1 with
    | none =>
      hooksInOrder h c eh rest
        { s with
          mem := (h.hook i c s).2.1, world := (h.hook i c s).2.2
          trace := s.trace ++ [.hook (.host i) c none] }
    | some err =>
      match h.errorHandler eh err
          { s with
            mem := (h.hook i c s).2.1, world := (h.hook i c s).2.2
            trace := s.trace ++ [.hook (.host i) c (some err), .error (.host eh) err] } with
      | none => none
      | some r2 =>
        hooksInOrder h c eh rest
          { s with
            mem := r2.1, world := r2.2
            trace := s.trace ++ [.hook (.host i) c (some err), .error (.host eh) err] }

/-! ### Vocabulary for the collection of the required fields -/

/-- The prompts of a list of fields, in order: the name of each field followed
by a colon. -/
def promptsOf (fis : List FieldInfo) : List String :=
  fis.map (fun fi => fi.Name ++ ":")

/-- The values a list of lines gives a list of fields, one line for each field in
order, when every line is a valid value for its field. -/
def acceptedValues : List FieldInfo → List String → Option (List Value)
  | [], [] => some []
  | fi :: fis, line :: lines =>
    match acceptedValue fi line, acceptedValues fis lines with
    | some v, some vs => some (v :: vs)
    | _, _ => none
  | _, _ => none

/-- The records after the values were stored through the references of the
fields, one after the other. -/
def storeValues (m : Mem) : List FieldInfo → List Value → Mem
  | fi :: fis, v :: vs => storeValues (m.store fi.Field v) fis vs
  | _, _ => m

/-- The sample execution state with a request record of required fields only:
the first two fields of the shell record. -/
def requiredOnlyState : State (List String) :=
  { shellState with mem := fun a => if a = 0 then .struct (shellRecord.take 2) else .struct [] }
/-! ## Lemmas on the inspector -/

theorem infosFrom_append (addr : Addr) (xs ys : List Leaf) (start : Nat) :
    infosFrom addr start (xs ++ ys)
      = infosFrom addr start xs ++ infosFrom addr (start + xs.length) ys := by
  induction xs generalizing start with
  | nil => simp [infosFrom]
  | cons x xs ih =>
    have e : start + 1 + xs.length = start + (xs.length + 1) := by omega
    rw [List.cons_append, infosFrom, infosFrom, ih, e, List.length_cons, List.cons_append]

theorem infosFrom_length (addr : Addr) (xs : List Leaf) (start : Nat) :
    (infosFrom addr start xs).length = xs.length := by
  induction xs generalizing start with
  | nil => rfl
  | cons x xs ih => simp [infosFrom, ih]

theorem infosFrom_getElem (addr : Addr) (xs : List Leaf) (start i : Nat)
    (h : i < xs.length) (h2 : i < (infosFrom addr start xs).length) :
    (infosFrom addr start xs)[i] = (xs[i]).info addr (start + i) := by
  induction xs generalizing start i with
  | nil => simp at h
  | cons x xs ih =>
    cases i with
    | zero => simp [infosFrom]
    | succ j =>
      simp only [infosFrom, List.getElem_cons_succ]
      have e : start + 1 + j = start + (j + 1) := by omega
      rw [ih (start + 1) j (by simpa using h), e]

theorem nsFold_snoc (enc : List String) (name : String) :
    nsFold (enc ++ [name]) = nsStep (nsFold enc) name := by
  simp [nsFold, List.foldl_append]

theorem inspectLeaf_eq (st : InspectState) (enc : List String) (tf : StructField) (loc : Loc)
    (v : Value) :
    inspectLeaf st (nsFold enc) tf loc v
      = if excludeFieldNames.contains tf.Name then .ok st
        else .ok { fields := st.fields ++ [Leaf.info loc.addr st.index ⟨loc.path, enc, tf, v⟩],
                   index := st.index + 1 } := by
  unfold inspectLeaf Leaf.info
  rfl

mutual
theorem inspect_eq : ∀ (v : Value) (st : InspectState) (tf : StructField) (loc : Loc)
    (enc : List String), v.supported = true →
    inspect st (nsFold enc) tf loc v
      = .ok { fields := st.fields ++ infosFrom loc.addr st.index (leavesOf enc loc.path tf v),
              index := st.index + (leavesOf enc loc.path tf v).length }
  | .int n, st, tf, loc, enc, _ => by
    rw [inspect, inspectLeaf_eq, leavesOf]
    split <;> simp [infosFrom]
  | .string s, st, tf, loc, enc, _ => by
    rw [inspect, inspectLeaf_eq, leavesOf]
    split <;> simp [infosFrom]
  | .bool b, st, tf, loc, enc, _ => by
    rw [inspect, inspectLeaf_eq, leavesOf]
    split <;> simp [infosFrom]
  | .struct fs, st, tf, loc, enc, h => by
    rw [inspect, leavesOf]
    exact inspectFields_eq fs st (nsFold enc) tf loc 0 (enc ++ [tf.Name])
      (by rw [nsFold_snoc]) (by simpa [Value.supported] using h)
  | .other k, _, _, _, _, h => by simp [Value.supported] at h
theorem inspectFields_eq : ∀ (fs : List (StructField × Value)) (st : InspectState) (ns : String)
    (tf : StructField) (loc : Loc) (i : Nat) (enc : List String),
    nsStep ns tf.Name = nsFold enc → supportedFields fs = true →
    inspectFields st ns tf loc i fs
      = .ok { fields := st.fields ++ infosFrom loc.addr st.index (leavesOfFields enc loc.path i fs),
              index := st.index + (leavesOfFields enc loc.path i fs).length }
  | [], st, ns, tf, loc, i, enc, _, _ => by
    simp [inspectFields, leavesOfFields, infosFrom]
  | (f, v) :: rest, st, ns, tf, loc, i, enc, hns, h => by
    have hv : v.supported = true := by
      simp [supportedFields] at h; exact h.1
    have hr : supportedFields rest = true := by
      simp [supportedFields] at h; exact h.2
    have hns2 : (if tf.Name != "" then ns ++ tf.Name ++ "->" else "") = nsFold enc := hns
    rw [inspectFields, hns2]
    have e1 := inspect_eq v st f { addr := loc.addr, path := loc.path ++ [i] } enc hv
    simp only at e1
    rw [e1]
    simp only
    rw [inspectFields_eq rest _ ns tf loc (i + 1) enc hns hr]
    simp only [leavesOfFields, infosFrom_append, List.length_append, List.append_assoc,
      Nat.add_assoc]
end

mutual
theorem firstUnsupported_eq_none : ∀ (v : Value), firstUnsupported v = none ↔ v.supported = true
  | .int _ => by simp [firstUnsupported, Value.supported]
  | .string _ => by simp [firstUnsupported, Value.supported]
  | .bool _ => by simp [firstUnsupported, Value.supported]
  | .struct fs => by
    simp only [firstUnsupported, Value.supported]
    exact firstUnsupportedFields_eq_none fs
  | .other k => by simp [firstUnsupported, Value.supported]
theorem firstUnsupportedFields_eq_none : ∀ (fs : List (StructField × Value)),
    firstUnsupportedFields fs = none ↔ supportedFields fs = true
  | [] => by simp [firstUnsupportedFields, supportedFields]
  | (f, v) :: rest => by
    have h1 := firstUnsupported_eq_none v
    have h2 := firstUnsupportedFields_eq_none rest
    simp only [firstUnsupportedFields, supportedFields, Bool.and_eq_true]
    cases hv : firstUnsupported v with
    | none =>
      simp only
      rw [h2]
      constructor
      · intro h; exact ⟨h1.mp hv, h⟩
      · intro h; exact h.2
    | some k =>
      simp only
      constructor
      · intro h; cases h
      · intro h
        rw [← h1, hv] at h
        cases h.1
end

mutual
theorem inspect_isOk : ∀ (v : Value) (st : InspectState) (ns : String) (tf : StructField)
    (loc : Loc), v.supported = true → ∃ st1, inspect st ns tf loc v = .ok st1
  | .int n, st, ns, tf, loc, _ => by
    rw [inspect, inspectLeaf]; split <;> exact ⟨_, rfl⟩
  | .string s, st, ns, tf, loc, _ => by
    rw [inspect, inspectLeaf]; split <;> exact ⟨_, rfl⟩
  | .bool b, st, ns, tf, loc, _ => by
    rw [inspect, inspectLeaf]; split <;> exact ⟨_, rfl⟩
  | .struct fs, st, ns, tf, loc, h => by
    rw [inspect]
    exact inspectFields_isOk fs st ns tf loc 0 (by simpa [Value.supported] using h)
  | .other k, _, _, _, _, h => by simp [Value.supported] at h
theorem inspectFields_isOk : ∀ (fs : List (StructField × Value)) (st : InspectState)
    (ns : String) (tf : StructField) (loc : Loc) (i : Nat), supportedFields fs = true →
    ∃ st1, inspectFields st ns tf loc i fs = .ok st1
  | [], st, _, _, _, _, _ => ⟨st, by simp [inspectFields]⟩
  | (f, v) :: rest, st, ns, tf, loc, i, h => by
    simp only [supportedFields, Bool.and_eq_true] at h
    obtain ⟨st1, e1⟩ := inspect_isOk v st
      (if tf.Name != "" then ns ++ tf.Name ++ "->" else "") f
      { addr := loc.addr, path := loc.path ++ [i] } h.1
    obtain ⟨st2, e2⟩ := inspectFields_isOk rest st1 ns tf loc (i + 1) h.2
    exact ⟨st2, by rw [inspectFields]; simp only [e1]; exact e2⟩
end

mutual
theorem inspect_error : ∀ (v : Value) (st : InspectState) (ns : String) (tf : StructField)
    (loc : Loc) (k : OtherKind), firstUnsupported v = some k →
    inspect st ns tf loc v = .error ("Unsupported kind: " ++ k.name)
  | .int _, _, _, _, _, _, h => by simp [firstUnsupported] at h
  | .string _, _, _, _, _, _, h => by simp [firstUnsupported] at h
  | .bool _, _, _, _, _, _, h => by simp [firstUnsupported] at h
  | .struct fs, st, ns, tf, loc, k, h => by
    rw [inspect]
    exact inspectFields_error fs st ns tf loc 0 k (by simpa [firstUnsupported] using h)
  | .other j, _, _, _, _, k, h => by
    simp only [firstUnsupported, Option.some.injEq] at h
    subst h
    simp [inspect, Kind.name]
theorem inspectFields_error : ∀ (fs : List (StructField × Value)) (st : InspectState)
    (ns : String) (tf : StructField) (loc : Loc) (i : Nat) (k : OtherKind),
    firstUnsupportedFields fs = some k →
    inspectFields st ns tf loc i fs = .error ("Unsupported kind: " ++ k.name)
  | [], _, _, _, _, _, _, h => by simp [firstUnsupportedFields] at h
  | (f, v) :: rest, st, ns, tf, loc, i, k, h => by
    simp only [firstUnsupportedFields] at h
    cases hv : firstUnsupported v with
    | some j =>
      rw [hv] at h
      simp only [Option.some.injEq] at h
      subst h
      rw [inspectFields]
      simp only [inspect_error v st _ f _ j hv]
    | none =>
      rw [hv] at h
      simp only at h
      obtain ⟨st1, e1⟩ := inspect_isOk v st
        (if tf.Name != "" then ns ++ tf.Name ++ "->" else "") f
        { addr := loc.addr, path := loc.path ++ [i] } ((firstUnsupported_eq_none v).mp hv)
      rw [inspectFields]
      simp only [e1]
      exact inspectFields_error rest st1 ns tf loc (i + 1) k h
end

/-- On a pointer to a record whose reachable fields are all supported,
`InspectStruct` returns the descriptors of the eligible leaves, numbered from 0
in depth-first declaration order. -/
theorem InspectStruct_eq (m : Mem) (a : Addr) (fs : List (StructField × Value))
    (hm : m a = .struct fs) (hs : supportedFields fs = true) :
    InspectStruct m (.ptr (some a)) = .ok (infosFrom a 0 (eligibleLeaves fs)) := by
  have h := inspectFields_eq fs { fields := [], index := 0 } "" { Name := "", Tag := [] }
    { addr := a, path := [] } 0 [] (by decide) hs
  simp only [InspectStruct, hm, inspect, h, eligibleLeaves, List.nil_append]

/-- On a pointer to a record with an unsupported field, `InspectStruct` fails
with the "Unsupported kind" message of the first such field. -/
theorem InspectStruct_error (m : Mem) (a : Addr) (fs : List (StructField × Value))
    (k : OtherKind) (hm : m a = .struct fs) (hk : firstUnsupportedFields fs = some k) :
    InspectStruct m (.ptr (some a)) = .error ("Unsupported kind: " ++ k.name) := by
  have h := inspectFields_error fs { fields := [], index := 0 } "" { Name := "", Tag := [] }
    { addr := a, path := [] } 0 k hk
  simp only [InspectStruct, hm, inspect, h]

/-- Whatever is not a non-nil pointer to a struct is rejected. -/
theorem InspectStruct_not_struct_ptr (m : Mem) (obj : Iface)
    (h : ¬ ∃ a fs, obj = .ptr (some a) ∧ m a = .struct fs) :
    InspectStruct m obj = .error ErrStructPtrExpected := by
  cases obj with
  | nil => rfl
  | val v => rfl
  | ptr p =>
    cases p with
    | none => rfl
    | some a =>
      cases hm : m a with
      | struct fs => exact absurd ⟨a, fs, rfl, hm⟩ h
      | int n => simp [InspectStruct, hm]
      | string s => simp [InspectStruct, hm]
      | bool b => simp [InspectStruct, hm]
      | other k => simp [InspectStruct, hm]

theorem forall₂_infosFrom (P : FieldInfo → Leaf → Prop) (addr : Addr) (xs : List Leaf)
    (start : Nat) (h : ∀ idx l, l ∈ xs → P (l.info addr idx) l) :
    List.Forall₂ P (infosFrom addr start xs) xs := by
  induction xs generalizing start with
  | nil => exact List.Forall₂.nil
  | cons x xs ih =>
    rw [infosFrom]
    exact List.Forall₂.cons (h _ x (List.mem_cons_self _ _))
      (ih (start + 1) (fun idx l hl => h idx l (List.mem_cons_of_mem _ hl)))

/-! ### Order of the eligible leaves -/

mutual
theorem leavesOf_path_extends : ∀ (v : Value) (enc : List String) (p : List Nat) (f : StructField)
    (l : Leaf), l ∈ leavesOf enc p f v → p <+: l.path
  | .int n, enc, p, f, l, h => by
    rw [leavesOf] at h
    split at h
    · cases h
    · rw [List.mem_singleton] at h; subst h; exact List.prefix_refl _
  | .string s, enc, p, f, l, h => by
    rw [leavesOf] at h
    split at h
    · cases h
    · rw [List.mem_singleton] at h; subst h; exact List.prefix_refl _
  | .bool b, enc, p, f, l, h => by
    rw [leavesOf] at h
    split at h
    · cases h
    · rw [List.mem_singleton] at h; subst h; exact List.prefix_refl _
  | .struct fs, enc, p, f, l, h => by
    rw [leavesOf] at h
    obtain ⟨j, _, hj⟩ := leavesOfFields_path_extends fs (enc ++ [f.Name]) p 0 l h
    exact (List.prefix_append p [j]).trans hj
  | .other k, enc, p, f, l, h => by
    rw [leavesOf] at h; cases h
theorem leavesOfFields_path_extends : ∀ (fs : List (StructField × Value)) (enc : List String)
    (p : List Nat) (i : Nat) (l : Leaf), l ∈ leavesOfFields enc p i fs →
    ∃ j, i ≤ j ∧ (p ++ [j]) <+: l.path
  | [], _, _, _, _, h => by rw [leavesOfFields] at h; cases h
  | (f, v) :: rest, enc, p, i, l, h => by
    rw [leavesOfFields, List.mem_append] at h
    rcases h with h | h
    · exact ⟨i, le_refl i, leavesOf_path_extends v enc (p ++ [i]) f l h⟩
    · obtain ⟨j, hj, hp⟩ := leavesOfFields_path_extends rest enc p (i + 1) l h
      exact ⟨j, by omega, hp⟩
end

theorem pathBefore_of_prefixes (p s t : List Nat) (i j : Nat) (hij : i < j)
    (hs : (p ++ [i]) <+: s) (ht : (p ++ [j]) <+: t) : pathBefore s t := by
  obtain ⟨s1, rfl⟩ := hs
  obtain ⟨t1, rfl⟩ := ht
  unfold pathBefore
  rw [List.append_assoc, List.append_assoc]
  exact List.Lex.append_left _ (List.Lex.rel hij) p

mutual
theorem leavesOf_sorted : ∀ (v : Value) (enc : List String) (p : List Nat) (f : StructField),
    (leavesOf enc p f v).Pairwise (fun x y => pathBefore x.path y.path)
  | .int n, enc, p, f => by
    rw [leavesOf]; split
    · exact List.Pairwise.nil
    · exact List.pairwise_singleton _ _
  | .string s, enc, p, f => by
    rw [leavesOf]; split
    · exact List.Pairwise.nil
    · exact List.pairwise_singleton _ _
  | .bool b, enc, p, f => by
    rw [leavesOf]; split
    · exact List.Pairwise.nil
    · exact List.pairwise_singleton _ _
  | .struct fs, enc, p, f => by
    rw [leavesOf]; exact leavesOfFields_sorted fs (enc ++ [f.Name]) p 0
  | .other k, enc, p, f => by
    rw [leavesOf]; exact List.Pairwise.nil
theorem leavesOfFields_sorted : ∀ (fs : List (StructField × Value)) (enc : List String)
    (p : List Nat) (i : Nat),
    (leavesOfFields enc p i fs).Pairwise (fun x y => pathBefore x.path y.path)
  | [], _, _, _ => by rw [leavesOfFields]; exact List.Pairwise.nil
  | (f, v) :: rest, enc, p, i => by
    rw [leavesOfFields, List.pairwise_append]
    refine ⟨leavesOf_sorted v enc (p ++ [i]) f, leavesOfFields_sorted rest enc p (i + 1), ?_⟩
    intro x hx y hy
    obtain ⟨j, hj, hp⟩ := leavesOfFields_path_extends rest enc p (i + 1) y hy
    exact pathBefore_of_prefixes p x.path y.path i j (by omega)
      (leavesOf_path_extends v enc (p ++ [i]) f x hx) hp
end

/-! ### Names of the enclosing fields -/

mutual
theorem leavesOf_enclosing : ∀ (v : Value) (enc : List String) (p : List Nat) (f : StructField)
    (l : Leaf), (∀ n ∈ enc, n ≠ "") → f.Name ≠ "" → v.named = true →
    l ∈ leavesOf enc p f v → ∀ n ∈ l.enclosing, n ≠ ""
  | .int n, enc, p, f, l, he, _, _, h => by
    rw [leavesOf] at h
    split at h
    · cases h
    · rw [List.mem_singleton] at h; subst h; exact he
  | .string s, enc, p, f, l, he, _, _, h => by
    rw [leavesOf] at h
    split at h
    · cases h
    · rw [List.mem_singleton] at h; subst h; exact he
  | .bool b, enc, p, f, l, he, _, _, h => by
    rw [leavesOf] at h
    split at h
    · cases h
    · rw [List.mem_singleton] at h; subst h; exact he
  | .struct fs, enc, p, f, l, he, hf, hv, h => by
    rw [leavesOf] at h
    refine leavesOfFields_enclosing fs (enc ++ [f.Name]) p 0 l ?_
      (by simpa [Value.named] using hv) h
    intro n hn
    rw [List.mem_append, List.mem_singleton] at hn
    rcases hn with hn | hn
    · exact he n hn
    · rw [hn]; exact hf
  | .other k, enc, p, f, l, _, _, _, h => by
    rw [leavesOf] at h; cases h
theorem leavesOfFields_enclosing : ∀ (fs : List (StructField × Value)) (enc : List String)
    (p : List Nat) (i : Nat) (l : Leaf), (∀ n ∈ enc, n ≠ "") → namedFields fs = true →
    l ∈ leavesOfFields enc p i fs → ∀ n ∈ l.enclosing, n ≠ ""
  | [], _, _, _, _, _, _, h => by rw [leavesOfFields] at h; cases h
  | (f, v) :: rest, enc, p, i, l, he, hn, h => by
    simp only [namedFields, Bool.and_eq_true, bne_iff_ne, ne_eq] at hn
    rw [leavesOfFields, List.mem_append] at h
    rcases h with h | h
    · exact leavesOf_enclosing v enc (p ++ [i]) f l he hn.1.1 hn.1.2 h
    · exact leavesOfFields_enclosing rest enc p (i + 1) l he hn.2 h
end

theorem foldl_nsStep (enc : List String) (acc : String) (h : ∀ n ∈ enc, n ≠ "") :
    enc.foldl nsStep acc
      = (enc.map (fun n => n ++ "->")).foldl (fun r s => r ++ s) acc := by
  induction enc generalizing acc with
  | nil => rfl
  | cons n rest ih =>
    have hn : n ≠ "" := h n (List.mem_cons_self _ _)
    have e : nsStep acc n = acc ++ (n ++ "->") := by
      simp [nsStep, hn, String.append_assoc]
    rw [List.foldl_cons, List.map_cons, List.foldl_cons, e]
    exact ih _ (fun m hm => h m (List.mem_cons_of_mem _ hm))

theorem nsFold_eq_join (enc : List String) (h : ∀ n ∈ enc, n ≠ "") :
    nsFold enc = String.join (enc.map (fun n => n ++ "->")) :=
  foldl_nsStep enc "" h

/-! ### Removing the excluded leaves -/

theorem leavesOf_excluded_name : ∀ (v : Value) (enc : List String) (p : List Nat)
    (f : StructField), excludeFieldNames.contains f.Name = true → v.kind ≠ .struct →
    leavesOf enc p f v = []
  | .int n, enc, p, f, h, _ => by rw [leavesOf, if_pos h]
  | .string s, enc, p, f, h, _ => by rw [leavesOf, if_pos h]
  | .bool b, enc, p, f, h, _ => by rw [leavesOf, if_pos h]
  | .struct fs, enc, p, f, _, h => by simp [Value.kind] at h
  | .other k, enc, p, f, _, _ => by rw [leavesOf]

mutual
theorem leavesOf_prune : ∀ (v : Value) (enc : List String) (p q : List Nat) (f : StructField),
    (leavesOf enc p f (pruneExcluded v)).map Leaf.unplaced
      = (leavesOf enc q f v).map Leaf.unplaced
  | .int n, enc, p, q, f => by
    rw [pruneExcluded, leavesOf, leavesOf]; split <;> rfl
  | .string s, enc, p, q, f => by
    rw [pruneExcluded, leavesOf, leavesOf]; split <;> rfl
  | .bool b, enc, p, q, f => by
    rw [pruneExcluded, leavesOf, leavesOf]; split <;> rfl
  | .struct fs, enc, p, q, f => by
    rw [pruneExcluded, leavesOf, leavesOf]
    exact leavesOfFields_prune fs (enc ++ [f.Name]) p q 0 0
  | .other k, enc, p, q, f => by
    rw [pruneExcluded, leavesOf, leavesOf]
theorem leavesOfFields_prune : ∀ (fs : List (StructField × Value)) (enc : List String)
    (p q : List Nat) (i j : Nat),
    (leavesOfFields enc p i (pruneExcludedFields fs)).map Leaf.unplaced
      = (leavesOfFields enc q j fs).map Leaf.unplaced
  | [], _, _, _, _, _ => by rw [pruneExcludedFields, leavesOfFields, leavesOfFields]
  | (f, .int n) :: rest, enc, p, q, i, j => by
    rw [pruneExcludedFields]
    split
    · rename_i h
      rw [leavesOfFields_prune rest enc p q i (j + 1)]
      conv => rhs; rw [leavesOfFields]
      rw [leavesOf_excluded_name (.int n) enc _ f h (by simp [Value.kind])]
      rfl
    · rw [leavesOfFields, List.map_append, leavesOfFields_prune rest enc p q (i + 1) (j + 1)]
      conv => rhs; rw [leavesOfFields, List.map_append]
      congr 1
      rw [leavesOf, leavesOf]; split <;> rfl
  | (f, .string s) :: rest, enc, p, q, i, j => by
    rw [pruneExcludedFields]
    split
    · rename_i h
      rw [leavesOfFields_prune rest enc p q i (j + 1)]
      conv => rhs; rw [leavesOfFields]
      rw [leavesOf_excluded_name (.string s) enc _ f h (by simp [Value.kind])]
      rfl
    · rw [leavesOfFields, List.map_append, leavesOfFields_prune rest enc p q (i + 1) (j + 1)]
      conv => rhs; rw [leavesOfFields, List.map_append]
      congr 1
      rw [leavesOf, leavesOf]; split <;> rfl
  | (f, .bool b) :: rest, enc, p, q, i, j => by
    rw [pruneExcludedFields]
    split
    · rename_i h
      rw [leavesOfFields_prune rest enc p q i (j + 1)]
      conv => rhs; rw [leavesOfFields]
      rw [leavesOf_excluded_name (.bool b) enc _ f h (by simp [Value.kind])]
      rfl
    · rw [leavesOfFields, List.map_append, leavesOfFields_prune rest enc p q (i + 1) (j + 1)]
      conv => rhs; rw [leavesOfFields, List.map_append]
      congr 1
      rw [leavesOf, leavesOf]; split <;> rfl
  | (f, .struct fs) :: rest, enc, p, q, i, j => by
    rw [pruneExcludedFields, leavesOfFields, List.map_append,
      leavesOfFields_prune rest enc p q (i + 1) (j + 1)]
    conv => rhs; rw [leavesOfFields, List.map_append]
    congr 1
    rw [leavesOf, leavesOf]
    exact leavesOfFields_prune fs (enc ++ [f.Name]) _ _ 0 0
  | (f, .other k) :: rest, enc, p, q, i, j => by
    rw [pruneExcludedFields, leavesOfFields, List.map_append,
      leavesOfFields_prune rest enc p q (i + 1) (j + 1)]
    conv => rhs; rw [leavesOfFields, List.map_append]
    congr 1
end

theorem firstUnsupportedFields_prune : ∀ (fs : List (StructField × Value)),
    firstUnsupportedFields (pruneExcludedFields fs) = firstUnsupportedFields fs
  | [] => by rw [pruneExcludedFields]
  | (f, .int n) :: rest => by
    rw [pruneExcludedFields]
    split
    · rw [firstUnsupportedFields_prune rest]; simp [firstUnsupportedFields, firstUnsupported]
    · simp [firstUnsupportedFields, firstUnsupported, firstUnsupportedFields_prune rest]
  | (f, .string s) :: rest => by
    rw [pruneExcludedFields]
    split
    · rw [firstUnsupportedFields_prune rest]; simp [firstUnsupportedFields, firstUnsupported]
    · simp [firstUnsupportedFields, firstUnsupported, firstUnsupportedFields_prune rest]
  | (f, .bool b) :: rest => by
    rw [pruneExcludedFields]
    split
    · rw [firstUnsupportedFields_prune rest]; simp [firstUnsupportedFields, firstUnsupported]
    · simp [firstUnsupportedFields, firstUnsupported, firstUnsupportedFields_prune rest]
  | (f, .struct fs) :: rest => by
    rw [pruneExcludedFields]
    simp [firstUnsupportedFields, firstUnsupported, firstUnsupportedFields_prune rest,
      firstUnsupportedFields_prune fs]
  | (f, .other k) :: rest => by
    rw [pruneExcludedFields]
    simp [firstUnsupportedFields, firstUnsupported]

theorem infosFrom_withoutPtr (a b : Addr) (xs ys : List Leaf) (start : Nat)
    (h : xs.map Leaf.unplaced = ys.map Leaf.unplaced) :
    (infosFrom a start xs).map FieldInfo.withoutPtr
      = (infosFrom b start ys).map FieldInfo.withoutPtr := by
  induction xs generalizing ys start with
  | nil =>
    cases ys with
    | nil => rfl
    | cons y ys => simp at h
  | cons x xs ih =>
    cases ys with
    | nil => simp at h
    | cons y ys =>
      simp only [List.map_cons, List.cons.injEq] at h
      simp only [infosFrom, List.map_cons, ih ys (start + 1) h.2, List.cons.injEq, and_true]
      obtain ⟨xp, xe, xf, xv⟩ := x
      obtain ⟨yp, ye, yf, yv⟩ := y
      simp only [Leaf.unplaced, Leaf.mk.injEq, true_and] at h
      obtain ⟨⟨rfl, rfl, rfl⟩, _⟩ := h
      rfl

theorem infosFrom_map_path (addr : Addr) (xs : List Leaf) (start : Nat) :
    (infosFrom addr start xs).map (fun f => f.FieldPtr.path) = xs.map (fun l => l.path) := by
  induction xs generalizing start with
  | nil => rfl
  | cons x xs ih => rw [infosFrom, List.map_cons, List.map_cons, ih]; rfl

theorem mem_infosFrom (addr : Addr) (xs : List Leaf) (start : Nat) (f : FieldInfo)
    (h : f ∈ infosFrom addr start xs) : ∃ l ∈ xs, ∃ idx, f = l.info addr idx := by
  induction xs generalizing start with
  | nil => rw [infosFrom] at h; cases h
  | cons x xs ih =>
    rw [infosFrom, List.mem_cons] at h
    rcases h with h | h
    · exact ⟨x, List.mem_cons_self _ _, start, h⟩
    · obtain ⟨l, hl, idx, e⟩ := ih (start + 1) h
      exact ⟨l, List.mem_cons_of_mem _ hl, idx, e⟩

mutual
theorem leavesOf_not_excluded : ∀ (v : Value) (enc : List String) (p : List Nat)
    (f : StructField) (l : Leaf), l ∈ leavesOf enc p f v →
    excludeFieldNames.contains l.field.Name = false
  | .int n, enc, p, f, l, h => by
    rw [leavesOf] at h
    split at h
    · cases h
    · rename_i hx; rw [List.mem_singleton] at h; subst h; simpa using hx
  | .string s, enc, p, f, l, h => by
    rw [leavesOf] at h
    split at h
    · cases h
    · rename_i hx; rw [List.mem_singleton] at h; subst h; simpa using hx
  | .bool b, enc, p, f, l, h => by
    rw [leavesOf] at h
    split at h
    · cases h
    · rename_i hx; rw [List.mem_singleton] at h; subst h; simpa using hx
  | .struct fs, enc, p, f, l, h => by
    rw [leavesOf] at h
    exact leavesOfFields_not_excluded fs _ p 0 l h
  | .other k, enc, p, f, l, h => by
    rw [leavesOf] at h; cases h
theorem leavesOfFields_not_excluded : ∀ (fs : List (StructField × Value)) (enc : List String)
    (p : List Nat) (i : Nat) (l : Leaf), l ∈ leavesOfFields enc p i fs →
    excludeFieldNames.contains l.field.Name = false
  | [], _, _, _, _, h => by rw [leavesOfFields] at h; cases h
  | (f, v) :: rest, enc, p, i, l, h => by
    rw [leavesOfFields, List.mem_append] at h
    rcases h with h | h
    · exact leavesOf_not_excluded v enc (p ++ [i]) f l h
    · exact leavesOfFields_not_excluded rest enc p (i + 1) l h
end

/-- The three possible outcomes of `InspectStruct`. -/
theorem InspectStruct_cases (m : Mem) (obj : Iface) :
    ((¬ ∃ a fs, obj = .ptr (some a) ∧ m a = .struct fs)
        ∧ InspectStruct m obj = .error ErrStructPtrExpected)
    ∨ (∃ a fs, obj = .ptr (some a) ∧ m a = .struct fs ∧ supportedFields fs = true
        ∧ InspectStruct m obj = .ok (infosFrom a 0 (eligibleLeaves fs)))
    ∨ (∃ a fs k, obj = .ptr (some a) ∧ m a = .struct fs ∧ supportedFields fs = false
        ∧ firstUnsupportedFields fs = some k
        ∧ InspectStruct m obj = .error ("Unsupported kind: " ++ k.name)) := by
  by_cases h : ∃ a fs, obj = .ptr (some a) ∧ m a = .struct fs
  · obtain ⟨a, fs, rfl, hm⟩ := h
    cases hs : supportedFields fs with
    | true => exact Or.inr (Or.inl ⟨a, fs, rfl, hm, hs, InspectStruct_eq m a fs hm hs⟩)
    | false =>
      cases hk : firstUnsupportedFields fs with
      | none => rw [(firstUnsupportedFields_eq_none fs).mp hk] at hs; cases hs
      | some k =>
        exact Or.inr (Or.inr ⟨a, fs, k, rfl, hm, hs, hk, InspectStruct_error m a fs k hm hk⟩)
  · exact Or.inl ⟨h, InspectStruct_not_struct_ptr m obj h⟩

/-! ### `strings.Index` and prefixes -/

theorem stringsIndexFrom_range (sub : List Char) (s : List Char) (i : Nat) :
    stringsIndexFrom sub s i = -1 ∨ (i : Int) ≤ stringsIndexFrom sub s i := by
  induction s generalizing i with
  | nil => rw [stringsIndexFrom]; split <;> simp
  | cons c s ih =>
    rw [stringsIndexFrom]
    split
    · right; exact le_refl _
    · rcases ih (i + 1) with h | h
      · left; exact h
      · right; push_cast at h; omega

theorem stringsIndexFrom_eq_start (sub : List Char) (s : List Char) (i : Nat) :
    stringsIndexFrom sub s i = (i : Int) ↔ sub <+: s := by
  rw [← List.isPrefixOf_iff_prefix]
  cases s with
  | nil =>
    rw [stringsIndexFrom]
    split
    · simp_all
    · rename_i h; simp only [h]; constructor
      · intro e; omega
      · intro e; cases e
  | cons c s =>
    rw [stringsIndexFrom]
    split
    · simp_all
    · rename_i h
      simp only [h]
      constructor
      · intro e
        rcases stringsIndexFrom_range sub s (i + 1) with h1 | h1
        · omega
        · push_cast at h1; omega
      · intro e; cases e

theorem stringsIndex_eq_zero (s substr : String) :
    stringsIndex s substr = 0 ↔ substr.data <+: s.data := by
  unfold stringsIndex
  exact_mod_cast stringsIndexFrom_eq_start substr.data s.data 0

theorem required_iff (valid : String) :
    (valid != "" && stringsIndex valid "required" == 0) = true
      ↔ "required".data <+: valid.data := by
  rw [Bool.and_eq_true, bne_iff_ne, beq_iff_eq, stringsIndex_eq_zero]
  constructor
  · exact fun h => h.2
  · intro h
    refine ⟨?_, h⟩
    intro e
    subst e
    obtain ⟨t, ht⟩ := h
    simp at ht

/-! ## The inspector: claims -/

/-- C4: on a pointer to a struct whose reachable fields are leaves (string, int,
bool) or structs, with N eligible leaves over any nesting, `InspectStruct`
returns exactly N entries; the entry at position i has `Index = i`; and the
entries follow the eligible leaves in depth-first declaration order (entry i
refers to, and copies the name and value of, the i-th eligible leaf; the
positions of the entries increase in traversal order). -/
theorem InspectStruct_count_index_order (m : Mem) (a : Addr) (fs : List (StructField × Value))
    (hm : m a = .struct fs) (hs : supportedFields fs = true) :
    ∃ fis, InspectStruct m (.ptr (some a)) = .ok fis
      ∧ fis.length = (eligibleLeaves fs).length
      ∧ (∀ (i : Nat) (h : i < fis.length), (fis.get ⟨i, h⟩).Index = i)
      ∧ List.Forall₂
          (fun f l => f.FieldPtr = { addr := a, path := l.path } ∧ f.Name = l.field.Name
            ∧ f.Value = l.value)
          fis (eligibleLeaves fs)
      ∧ fis.Pairwise (fun f g => pathBefore f.FieldPtr.path g.FieldPtr.path) := by
  refine ⟨_, InspectStruct_eq m a fs hm hs, infosFrom_length _ _ _, ?_, ?_, ?_⟩
  · intro i h
    have h2 : i < (eligibleLeaves fs).length := by
      rw [infosFrom_length] at h; exact h
    rw [List.get_eq_getElem, infosFrom_getElem a _ 0 i h2 h]
    simp [Leaf.info]
  · exact forall₂_infosFrom _ a _ 0 (fun idx l _ => ⟨rfl, rfl, rfl⟩)
  · have hsorted := leavesOfFields_sorted fs [] [] 0
    have hmap := infosFrom_map_path a (eligibleLeaves fs) 0
    have h1 : ((eligibleLeaves fs).map (fun l => l.path)).Pairwise pathBefore :=
      (List.pairwise_map).mpr hsorted
    rw [← hmap] at h1
    exact (List.pairwise_map).mp h1

/-- Witness of C4 on the sample record: four eligible leaves, at one, two and
three levels, after the skipped fields of the XML name. -/
theorem InspectStruct_count_index_order_witness :
    (eligibleLeaves sampleRecord).map (fun l => l.path) = [[1], [2, 0], [2, 1, 0], [3]]
      ∧ ∃ fis, InspectStruct sampleMem (.ptr (some 0)) = .ok fis
        ∧ fis.length = (eligibleLeaves sampleRecord).length
        ∧ (∀ (i : Nat) (h : i < fis.length), (fis.get ⟨i, h⟩).Index = i)
        ∧ List.Forall₂
            (fun f l => f.FieldPtr = { addr := 0, path := l.path } ∧ f.Name = l.field.Name
              ∧ f.Value = l.value)
            fis (eligibleLeaves sampleRecord)
        ∧ fis.Pairwise (fun f g => pathBefore f.FieldPtr.path g.FieldPtr.path) :=
  ⟨rfl, InspectStruct_count_index_order sampleMem 0 sampleRecord rfl rfl⟩

/-- C5, as stated, fails: for a leaf `B` inside the struct-typed field `Inner`
the inspector reports the namespace `Inner->`, while the names of the enclosing
fields joined with `->` give `Inner`. -/
theorem InspectStruct_namespace_not_joined :
    ∃ fis, InspectStruct (fun _ => .struct nestedRecord) (.ptr (some 0)) = .ok fis
      ∧ fis.map (fun f => (f.Namespace, f.Name)) = [("Inner->", "B")]
      ∧ (eligibleLeaves nestedRecord).map (fun l => String.intercalate "->" l.enclosing)
          = ["Inner"] :=
  ⟨_, rfl, rfl, rfl⟩

/-- C5, amended: for every FieldInfo returned by `InspectStruct` (on a record
whose fields have non-empty names, as all Go fields do), `Namespace` is the
concatenation, outermost first, of the name of each enclosing struct-typed field
followed by `->` (so it is empty for a leaf declared directly in the top-level
record and ends in `->` otherwise), and `Name` is the leaf's own field name. -/
theorem InspectStruct_namespace (m : Mem) (a : Addr) (fs : List (StructField × Value))
    (fis : List FieldInfo) (hm : m a = .struct fs) (hn : namedFields fs = true)
    (h : InspectStruct m (.ptr (some a)) = .ok fis) :
    List.Forall₂
      (fun f l => f.Namespace = String.join (l.enclosing.map (fun n => n ++ "->"))
        ∧ f.Name = l.field.Name)
      fis (eligibleLeaves fs) := by
  rcases InspectStruct_cases m (.ptr (some a)) with
    ⟨_, e⟩ | ⟨b, gs, hb, hm2, _, e⟩ | ⟨_, _, _, _, _, _, _, e⟩
  · rw [e] at h; cases h
  · rw [e] at h
    injection h with h
    subst h
    simp only [Iface.ptr.injEq, Option.some.injEq] at hb
    subst hb
    rw [hm] at hm2
    injection hm2 with hm2
    subst hm2
    refine forall₂_infosFrom _ a _ 0 (fun idx l hl => ⟨?_, rfl⟩)
    exact nsFold_eq_join l.enclosing
      (leavesOfFields_enclosing fs [] [] 0 l (fun n hn2 => by cases hn2) hn hl)
  · rw [e] at h; cases h

/-- Witness of amended C5 on the sample record, whose leaves `Limit` and `Desc`
lie one and two structs deep. -/
theorem InspectStruct_namespace_witness :
    (infosFrom 0 0 (eligibleLeaves sampleRecord)).map (fun f => (f.Namespace, f.Name))
        = [("", "Name"), ("Filter->", "Limit"), ("Filter->Sort->", "Desc"), ("", "Note")]
      ∧ List.Forall₂
          (fun f l => f.Namespace = String.join (l.enclosing.map (fun n => n ++ "->"))
            ∧ f.Name = l.field.Name)
          (infosFrom 0 0 (eligibleLeaves sampleRecord)) (eligibleLeaves sampleRecord) :=
  ⟨rfl, InspectStruct_namespace sampleMem 0 sampleRecord
    (infosFrom 0 0 (eligibleLeaves sampleRecord)) rfl rfl rfl⟩

/-- C6: for every FieldInfo returned by `InspectStruct`, `Required` is true if
and only if the value of the field's `valid` tag starts with the text
`required`; an absent or empty tag gives false. -/
theorem InspectStruct_required (m : Mem) (obj : Iface) (fis : List FieldInfo)
    (h : InspectStruct m obj = .ok fis) :
    ∃ a fs, obj = .ptr (some a) ∧ m a = .struct fs
      ∧ List.Forall₂
          (fun f l => f.Tags = l.field.Tag
            ∧ (f.Required = true ↔ "required".data <+: (l.field.Tag.Get "valid").data)
            ∧ (l.field.Tag.Get "valid" = "" → f.Required = false))
          fis (eligibleLeaves fs) := by
  rcases InspectStruct_cases m obj with ⟨_, e⟩ | ⟨a, fs, rfl, hm, _, e⟩ | ⟨_, _, _, _, _, _, _, e⟩
  · rw [e] at h; cases h
  · rw [e] at h
    injection h with h
    subst h
    refine ⟨a, fs, rfl, hm, ?_⟩
    refine forall₂_infosFrom _ a _ 0 (fun idx l _ => ⟨rfl, ?_, ?_⟩)
    · exact required_iff _
    · intro hv
      simp [Leaf.info, hv]
  · rw [e] at h; cases h

/-- Witness of C6 on the sample record: `Name` (tag `required`) and `Desc` (tag
`required,in(true|false)`) are required; `Limit` (tag `range(0|9),required`) and
`Note` (no tag) are not. -/
theorem InspectStruct_required_witness :
    (infosFrom 0 0 (eligibleLeaves sampleRecord)).map (fun f => (f.Name, f.Required))
        = [("Name", true), ("Limit", false), ("Desc", true), ("Note", false)]
      ∧ ∃ a fs, Iface.ptr (some 0) = .ptr (some a) ∧ sampleMem a = .struct fs
        ∧ List.Forall₂
            (fun f l => f.Tags = l.field.Tag
              ∧ (f.Required = true ↔ "required".data <+: (l.field.Tag.Get "valid").data)
              ∧ (l.field.Tag.Get "valid" = "" → f.Required = false))
            (infosFrom 0 0 (eligibleLeaves sampleRecord)) (eligibleLeaves fs) :=
  ⟨rfl, InspectStruct_required sampleMem (.ptr (some 0))
    (infosFrom 0 0 (eligibleLeaves sampleRecord)) rfl⟩

/-- C7: for every FieldInfo returned by `InspectStruct`, `Value` is the field's
value at inspection time and `Zero` is true if and only if that value is the
zero value of its type: the empty string, the integer 0 or the boolean false. -/
theorem InspectStruct_zero (m : Mem) (obj : Iface) (fis : List FieldInfo)
    (h : InspectStruct m obj = .ok fis) :
    ∃ a fs, obj = .ptr (some a) ∧ m a = .struct fs
      ∧ List.Forall₂
          (fun f l => f.Value = l.value
            ∧ (f.Zero = true
                ↔ l.value = .string "" ∨ l.value = .int 0 ∨ l.value = .bool false))
          fis (eligibleLeaves fs) := by
  rcases InspectStruct_cases m obj with ⟨_, e⟩ | ⟨a, fs, rfl, hm, _, e⟩ | ⟨_, _, _, _, _, _, _, e⟩
  · rw [e] at h; cases h
  · rw [e] at h
    injection h with h
    subst h
    refine ⟨a, fs, rfl, hm, ?_⟩
    refine forall₂_infosFrom _ a _ 0 (fun idx l _ => ⟨rfl, ?_⟩)
    show l.value.equalsZero = true ↔ _
    cases l.value <;> simp [Value.equalsZero]
  · rw [e] at h; cases h

/-- Witness of C7 on the sample record: `Name` holds `Ada` and is not zero;
`Limit` (0), `Desc` (false) and `Note` (empty) are. -/
theorem InspectStruct_zero_witness :
    (infosFrom 0 0 (eligibleLeaves sampleRecord)).map (fun f => (f.Name, f.Zero))
        = [("Name", false), ("Limit", true), ("Desc", true), ("Note", true)]
      ∧ ∃ a fs, Iface.ptr (some 0) = .ptr (some a) ∧ sampleMem a = .struct fs
        ∧ List.Forall₂
            (fun f l => f.Value = l.value
              ∧ (f.Zero = true
                  ↔ l.value = .string "" ∨ l.value = .int 0 ∨ l.value = .bool false))
            (infosFrom 0 0 (eligibleLeaves sampleRecord)) (eligibleLeaves fs) :=
  ⟨rfl, InspectStruct_zero sampleMem (.ptr (some 0))
    (infosFrom 0 0 (eligibleLeaves sampleRecord)) rfl⟩

/-- C8, as stated, fails: a struct-typed field named `Space` (a name of the
exclusion set) is traversed, and the leaf `Width` beneath it yields a
FieldInfo. -/
theorem InspectStruct_excluded_struct_traversed :
    excludeFieldNames.contains "Space" = true
      ∧ ∃ fis, InspectStruct (fun _ => .struct spaceRecord) (.ptr (some 0)) = .ok fis
          ∧ fis.map (fun f => (f.Index, f.Namespace, f.Name)) = [(0, "Space->", "Width")] :=
  ⟨rfl, _, rfl, rfl⟩

/-- C8, amended: every leaf field (kind string, int or bool) whose name is in
the exclusion set is skipped by `InspectStruct`: no returned FieldInfo carries
such a name, and the result (indexes and everything else reported, apart from
the storage references) is the same as for the record with those leaf fields
not declared. -/
theorem InspectStruct_skips_excluded_leaves (m : Mem) (a : Addr) :
    Except.map (List.map FieldInfo.withoutPtr)
        (InspectStruct (fun x => pruneExcluded (m x)) (.ptr (some a)))
      = Except.map (List.map FieldInfo.withoutPtr) (InspectStruct m (.ptr (some a)))
    ∧ ∀ fis, InspectStruct m (.ptr (some a)) = .ok fis →
        ∀ f ∈ fis, excludeFieldNames.contains f.Name = false := by
  constructor
  · cases hm : m a with
    | struct fs =>
      have hp : (fun x => pruneExcluded (m x)) a = .struct (pruneExcludedFields fs) := by
        simp only [hm, pruneExcluded]
      cases hk : firstUnsupportedFields fs with
      | none =>
        have hs := (firstUnsupportedFields_eq_none fs).mp hk
        have hs2 : supportedFields (pruneExcludedFields fs) = true := by
          rw [← firstUnsupportedFields_eq_none, firstUnsupportedFields_prune, hk]
        rw [InspectStruct_eq _ a _ hp hs2, InspectStruct_eq m a fs hm hs]
        simp only [Except.map]
        congr 1
        exact infosFrom_withoutPtr a a _ _ 0 (leavesOfFields_prune fs [] [] [] 0 0)
      | some k =>
        rw [InspectStruct_error _ a _ k hp (by rw [firstUnsupportedFields_prune, hk]),
          InspectStruct_error m a fs k hm hk]
    | int n => simp [InspectStruct, hm, pruneExcluded]
    | string s => simp [InspectStruct, hm, pruneExcluded]
    | bool b => simp [InspectStruct, hm, pruneExcluded]
    | other k => simp [InspectStruct, hm, pruneExcluded]
  · intro fis h f hf
    rcases InspectStruct_cases m (.ptr (some a)) with
      ⟨_, e⟩ | ⟨b, fs, _, _, _, e⟩ | ⟨_, _, _, _, _, _, _, e⟩
    · rw [e] at h; cases h
    · rw [e] at h
      injection h with h
      subst h
      obtain ⟨l, hl, idx, rfl⟩ := mem_infosFrom b _ 0 f hf
      exact leavesOfFields_not_excluded fs [] [] 0 l hl
    · rw [e] at h; cases h

/-- C9: `InspectStruct` returns a field list exactly when its input is a
non-nil pointer to a struct all of whose reachable fields have kind string, int,
bool or struct; an input that is not a pointer to a struct yields
`ErrStructPtrExpected`; and a reachable field of another kind yields the error
`Unsupported kind: ` followed by the name of the first such kind, with no field
list. -/
theorem InspectStruct_result (m : Mem) (obj : Iface) :
    ((∃ fis, InspectStruct m obj = .ok fis)
        ↔ ∃ a fs, obj = .ptr (some a) ∧ m a = .struct fs ∧ supportedFields fs = true)
    ∧ ((¬ ∃ a fs, obj = .ptr (some a) ∧ m a = .struct fs) →
        InspectStruct m obj = .error ErrStructPtrExpected)
    ∧ (∀ a fs, obj = .ptr (some a) → m a = .struct fs → supportedFields fs = false →
        ∃ k, firstUnsupportedFields fs = some k
          ∧ InspectStruct m obj = .error ("Unsupported kind: " ++ k.name)) := by
  refine ⟨⟨?_, ?_⟩, InspectStruct_not_struct_ptr m obj, ?_⟩
  · rintro ⟨fis, h⟩
    rcases InspectStruct_cases m obj with ⟨_, e⟩ | ⟨a, fs, ho, hm, hs, _⟩ | ⟨_, _, _, _, _, _, _, e⟩
    · rw [e] at h; cases h
    · exact ⟨a, fs, ho, hm, hs⟩
    · rw [e] at h; cases h
  · rintro ⟨a, fs, rfl, hm, hs⟩
    exact ⟨_, InspectStruct_eq m a fs hm hs⟩
  · intro a fs ho hm hs
    subst ho
    cases hk : firstUnsupportedFields fs with
    | none => rw [(firstUnsupportedFields_eq_none fs).mp hk] at hs; cases hs
    | some k => exact ⟨k, rfl, InspectStruct_error m a fs k hm hk⟩

/-- The outcomes of C9 on concrete inputs: a value passed without a pointer, a
nil pointer, a pointer to an integer, and a record with a floating-point
field. -/
theorem InspectStruct_result_samples :
    InspectStruct sampleMem (.val (.struct sampleRecord)) = .error "pointer to struct expected"
      ∧ InspectStruct sampleMem (.ptr none) = .error "pointer to struct expected"
      ∧ InspectStruct sampleMem .nil = .error "pointer to struct expected"
      ∧ InspectStruct (fun _ => .int 7) (.ptr (some 0)) = .error "pointer to struct expected"
      ∧ InspectStruct (fun _ => .struct floatRecord) (.ptr (some 0))
          = .error "Unsupported kind: float64" :=
  ⟨rfl, rfl, rfl, rfl, rfl⟩

/-! ## The resolution chain: lemmas -/

theorem DefaultRegistrationHandler_frame {W : Type} (parentCmd : CobraPtr) (cmd : CmdPtr)
    (s s1 : State W) (e : Option String)
    (hr : DefaultRegistrationHandler parentCmd cmd s = .ret e s1) :
    s1.cmds = s.cmds ∧ s1.cmdrs = s.cmdrs ∧ s1.trace = s.trace ∧ s1.nextCmdr = s.nextCmdr := by
  unfold DefaultRegistrationHandler at hr
  simp only at hr
  split at hr
  · simp only [Run.ret.injEq] at hr
    obtain ⟨_, rfl⟩ := hr
    exact ⟨rfl, rfl, rfl, rfl⟩
  · split at hr
    · cases hr
    · simp only [Run.ret.injEq] at hr
      obtain ⟨_, rfl⟩ := hr
      exact ⟨rfl, rfl, rfl, rfl⟩
    · simp only [Run.ret.injEq] at hr
      obtain ⟨_, rfl⟩ := hr
      exact ⟨rfl, rfl, rfl, rfl⟩

theorem callRegisterFunc_frame {W : Type} (h : Host W) (f : RegisterFunc) (parentCmd : CobraPtr)
    (cmd : CmdPtr) (s s1 : State W) (e : Option String)
    (hr : callRegisterFunc h f parentCmd cmd s = .ret e s1) :
    s1.cmds = s.cmds ∧ s1.cmdrs = s.cmdrs
      ∧ s1.trace = s.trace ++ [.register f parentCmd cmd] ∧ s1.nextCmdr = s.nextCmdr := by
  cases f with
  | DefaultRegistrationHandler =>
    exact DefaultRegistrationHandler_frame parentCmd cmd
      (s.log (.register .DefaultRegistrationHandler parentCmd cmd)) s1 e hr
  | host id =>
    simp only [callRegisterFunc, Run.ret.injEq] at hr
    obtain ⟨_, rfl⟩ := hr
    exact ⟨rfl, rfl, rfl, rfl⟩

theorem wrapRun_eq {W : Type} (format : String) (r : Run (State W) (Option String)) :
    (match r with
      | .panic msg => Run.panic msg
      | .ret (some err) s1 => Run.ret (some (errorf format err)) s1
      | .ret none s1 => Run.ret none s1) = wrapRun format r := by
  cases r with
  | panic msg => rfl
  | ret e s1 => cases e <;> rfl

theorem wrapRun_ret {W : Type} (format : String) (r : Run (State W) (Option String))
    (e : Option String) (s1 : State W) (hr : wrapRun format r = .ret e s1) :
    ∃ e0, r = .ret e0 s1 ∧ e = e0.map (errorf format) := by
  cases r with
  | panic msg => cases hr
  | ret e0 s0 =>
    simp only [wrapRun, Run.ret.injEq] at hr
    obtain ⟨rfl, rfl⟩ := hr
    exact ⟨e0, rfl, rfl⟩

theorem callRequestHandler_trace {W : Type} (h : Host W) (f : RequestHandler) (req resp : Iface)
    (s : State W) :
    (callRequestHandler h f req resp s).2.trace = s.trace ++ [.request f req resp] := by
  cases f with
  | host id => rfl

theorem callResponseHandler_trace {W : Type} (h : Host W) (f : ResponseHandler) (resp : Iface)
    (s : State W) :
    (callResponseHandler h f resp s).2.trace = s.trace ++ [.response f resp] := by
  cases f with
  | XMLPrettyPrintResponseHandler =>
    simp only [callResponseHandler, XMLPrettyPrintResponseHandler]
    split <;> rfl
  | XMLCompactPrintResponseHandler =>
    simp only [callResponseHandler, XMLCompactPrintResponseHandler]
    split <;> rfl
  | host id => rfl

theorem wrapResult_eq {W : Type} (format : String) (r : Option String × State W) :
    (match r with
      | (some err, s1) => Run.ret (some (errorf format err)) s1
      | (none, s1) => Run.ret none s1) = wrapResult format r := by
  obtain ⟨e, s1⟩ := r
  cases e <;> rfl

theorem HandleRequest_own {W : Type} (h : Host W) (c : CmdPtr) (req resp : Iface) (s : State W)
    (f : RequestHandler) (hf : (s.cmds c).RequestHandler = some f) :
    HandleRequest h c req resp s
      = wrapResult "error from command request handler: " (callRequestHandler h f req resp s) := by
  unfold HandleRequest
  simp only [hf]
  exact wrapResult_eq _ _

theorem HandleRequest_default {W : Type} (h : Host W) (c : CmdPtr) (req resp : Iface)
    (s : State W) (k : CmdrPtr) (g : RequestHandler) (hf : (s.cmds c).RequestHandler = none)
    (hk : (s.cmds c).Commander = some k) (hg : (s.cmdrs k).requestHandler = some g) :
    HandleRequest h c req resp s
      = wrapResult "error from commander request handler: "
          (callRequestHandler h g req resp s) := by
  unfold HandleRequest
  simp only [hf, hk, DefaultRequestHandler, hg]
  exact wrapResult_eq _ _

theorem HandleResponse_own {W : Type} (h : Host W) (c : CmdPtr) (resp : Iface) (s : State W)
    (f : ResponseHandler) (hf : (s.cmds c).ResponseHandler = some f) :
    HandleResponse h c resp s
      = wrapResult "error from command response handler: " (callResponseHandler h f resp s) := by
  unfold HandleResponse
  simp only [hf]
  exact wrapResult_eq _ _

theorem HandleResponse_default {W : Type} (h : Host W) (c : CmdPtr) (resp : Iface)
    (s : State W) (k : CmdrPtr) (g : ResponseHandler) (hf : (s.cmds c).ResponseHandler = none)
    (hk : (s.cmds c).Commander = some k) (hg : (s.cmdrs k).responseHandler = some g) :
    HandleResponse h c resp s
      = wrapResult "error from commander response handler: "
          (callResponseHandler h g resp s) := by
  unfold HandleResponse
  simp only [hf, hk, DefaultResponseHandler, hg]
  exact wrapResult_eq _ _

theorem Register_own {W : Type} (h : Host W) (c : CmdPtr) (rootCmd : CobraPtr) (s : State W)
    (f : RegisterFunc) (hf : (s.cmds c).RegisterFunc = some f) :
    Register h c rootCmd s
      = wrapRun "error from command registration handler: "
          (callRegisterFunc h f rootCmd c s) := by
  unfold Register
  simp only [hf]
  exact wrapRun_eq _ _

theorem Register_default {W : Type} (h : Host W) (c : CmdPtr) (rootCmd : CobraPtr)
    (s : State W) (k : CmdrPtr) (g : RegisterFunc) (hf : (s.cmds c).RegisterFunc = none)
    (hk : (s.cmds c).Commander = some k) (hg : (s.cmdrs k).registrationHandler = some g) :
    Register h c rootCmd s
      = wrapRun "error from commander registration handler: "
          (callRegisterFunc h g rootCmd c s) := by
  unfold Register
  simp only [hf, hk, RegistrationHandler, hg]
  exact wrapRun_eq _ _

theorem modifyCommander_cmds {W : Type} (s : State W) (k : CmdrPtr) (f : Commander → Commander) :
    (s.modifyCommander k f).cmds = s.cmds := rfl

theorem modifyCommander_trace {W : Type} (s : State W) (k : CmdrPtr)
    (f : Commander → Commander) : (s.modifyCommander k f).trace = s.trace := rfl

theorem modifyCommander_same {W : Type} (s : State W) (k : CmdrPtr) (f : Commander → Commander) :
    (s.modifyCommander k f).cmdrs k = f (s.cmdrs k) := by
  simp [State.modifyCommander]

theorem modifyCommander_other {W : Type} (s : State W) (k j : CmdrPtr)
    (f : Commander → Commander) (hj : j ≠ k) : (s.modifyCommander k f).cmdrs j = s.cmdrs j := by
  simp [State.modifyCommander, Function.update_noteq hj]

/-! ## The resolution chain: claims -/

/-- C1: for `HandleRequest`, `HandleResponse` and `Register`, in every state.
A command with a handler of its own has exactly that handler called, once and
with the caller's arguments, whatever the commander's default is: when the
handler is a function `i` of the host program, the call returns the error of
`i` (behind the text of the command level) and leaves the records and the
outside world as `i` left them, and the trace grows by that one call; when it
is a handler of the package, the call returns what that handler returns.  A
command without one, under a commander with a default, has exactly the
commander's current default called in the same way (with the text of the
commander level), and so a default installed by a later `SetDefault...` call is
the one that is called. -/
theorem resolution_calls_own_else_default {W : Type} (h : Host W) (s : State W) (c : CmdPtr)
    (k : CmdrPtr) (req resp : Iface) (rootCmd : CobraPtr) :
    -- HandleRequest
    (∀ i r, (s.cmds c).RequestHandler = some (.host i) →
        h.request i req resp { s with trace := s.trace ++ [.request (.host i) req resp] } = r →
        HandleRequest h c req resp s
          = .ret (r.1.map (fun e => "error from command request handler: " ++ e))
              { s with mem := r.2.1, world := r.2.2
                       trace := s.trace ++ [.request (.host i) req resp] })
    ∧ (∀ i r, (s.cmds c).RequestHandler = none → (s.cmds c).Commander = some k →
        (s.cmdrs k).requestHandler = some (.host i) →
        h.request i req resp { s with trace := s.trace ++ [.request (.host i) req resp] } = r →
        HandleRequest h c req resp s
          = .ret (r.1.map (fun e => "error from commander request handler: " ++ e))
              { s with mem := r.2.1, world := r.2.2
                       trace := s.trace ++ [.request (.host i) req resp] })
    ∧ (∀ i r, (s.cmds c).RequestHandler = none → (s.cmds c).Commander = some k →
        h.request i req resp
            { SetDefaultRequestHandler k (some (.host i)) s with
              trace := s.trace ++ [.request (.host i) req resp] } = r →
        HandleRequest h c req resp (SetDefaultRequestHandler k (some (.host i)) s)
          = .ret (r.1.map (fun e => "error from commander request handler: " ++ e))
              { SetDefaultRequestHandler k (some (.host i)) s with
                mem := r.2.1, world := r.2.2
                trace := s.trace ++ [.request (.host i) req resp] })
    -- HandleResponse, a function of the host program
    ∧ (∀ i r, (s.cmds c).ResponseHandler = some (.host i) →
        h.response i resp { s with trace := s.trace ++ [.response (.host i) resp] } = r →
        HandleResponse h c resp s
          = .ret (r.1.map (fun e => "error from command response handler: " ++ e))
              { s with mem := r.2.1, world := r.2.2
                       trace := s.trace ++ [.response (.host i) resp] })
    ∧ (∀ i r, (s.cmds c).ResponseHandler = none → (s.cmds c).Commander = some k →
        (s.cmdrs k).responseHandler = some (.host i) →
        h.response i resp { s with trace := s.trace ++ [.response (.host i) resp] } = r →
        HandleResponse h c resp s
          = .ret (r.1.map (fun e => "error from commander response handler: " ++ e))
              { s with mem := r.2.1, world := r.2.2
                       trace := s.trace ++ [.response (.host i) resp] })
    ∧ (∀ i r, (s.cmds c).ResponseHandler = none → (s.cmds c).Commander = some k →
        h.response i resp
            { SetDefaultResponseHandler k (some (.host i)) s with
              trace := s.trace ++ [.response (.host i) resp] } = r →
        HandleResponse h c resp (SetDefaultResponseHandler k (some (.host i)) s)
          = .ret (r.1.map (fun e => "error from commander response handler: " ++ e))
              { SetDefaultResponseHandler k (some (.host i)) s with
                mem := r.2.1, world := r.2.2
                trace := s.trace ++ [.response (.host i) resp] })
    -- HandleResponse, the XML printers of the package
    ∧ ((s.cmds c).ResponseHandler = some .XMLPrettyPrintResponseHandler →
        HandleResponse h c resp s
          = wrapResult "error from command response handler: "
              (XMLPrettyPrintResponseHandler h resp
                { s with trace := s.trace ++ [.response .XMLPrettyPrintResponseHandler resp] }))
    ∧ ((s.cmds c).ResponseHandler = some .XMLCompactPrintResponseHandler →
        HandleResponse h c resp s
          = wrapResult "error from command response handler: "
              (XMLCompactPrintResponseHandler h resp
                { s with trace := s.trace ++ [.response .XMLCompactPrintResponseHandler resp] }))
    ∧ ((s.cmds c).ResponseHandler = none → (s.cmds c).Commander = some k →
        (s.cmdrs k).responseHandler = some .XMLPrettyPrintResponseHandler →
        HandleResponse h c resp s
          = wrapResult "error from commander response handler: "
              (XMLPrettyPrintResponseHandler h resp
                { s with trace := s.trace ++ [.response .XMLPrettyPrintResponseHandler resp] }))
    ∧ ((s.cmds c).ResponseHandler = none → (s.cmds c).Commander = some k →
        (s.cmdrs k).responseHandler = some .XMLCompactPrintResponseHandler →
        HandleResponse h c resp s
          = wrapResult "error from commander response handler: "
              (XMLCompactPrintResponseHandler h resp
                { s with trace := s.trace ++ [.response .XMLCompactPrintResponseHandler resp] }))
    ∧ ((s.cmds c).ResponseHandler = none → (s.cmds c).Commander = some k →
        HandleResponse h c resp
            (SetDefaultResponseHandler k (some .XMLCompactPrintResponseHandler) s)
          = wrapResult "error from commander response handler: "
              (XMLCompactPrintResponseHandler h resp
                { SetDefaultResponseHandler k (some .XMLCompactPrintResponseHandler) s with
                  trace := s.trace ++ [.response .XMLCompactPrintResponseHandler resp] }))
    -- Register, a function of the host program
    ∧ (∀ i r, (s.cmds c).RegisterFunc = some (.host i) →
        h.register i rootCmd c { s with trace := s.trace ++ [.register (.host i) rootCmd c] } = r →
        Register h c rootCmd s
          = .ret (r.1.map (fun e => "error from command registration handler: " ++ e))
              { s with mem := r.2.1, world := r.2.2
                       trace := s.trace ++ [.register (.host i) rootCmd c] })
    ∧ (∀ i r, (s.cmds c).RegisterFunc = none → (s.cmds c).Commander = some k →
        (s.cmdrs k).registrationHandler = some (.host i) →
        h.register i rootCmd c { s with trace := s.trace ++ [.register (.host i) rootCmd c] } = r →
        Register h c rootCmd s
          = .ret (r.1.map (fun e => "error from commander registration handler: " ++ e))
              { s with mem := r.2.1, world := r.2.2
                       trace := s.trace ++ [.register (.host i) rootCmd c] })
    ∧ (∀ i r, (s.cmds c).RegisterFunc = none → (s.cmds c).Commander = some k →
        h.register i rootCmd c
            { SetDefaultRegistrationHandler k (some (.host i)) s with
              trace := s.trace ++ [.register (.host i) rootCmd c] } = r →
        Register h c rootCmd (SetDefaultRegistrationHandler k (some (.host i)) s)
          = .ret (r.1.map (fun e => "error from commander registration handler: " ++ e))
              { SetDefaultRegistrationHandler k (some (.host i)) s with
                mem := r.2.1, world := r.2.2
                trace := s.trace ++ [.register (.host i) rootCmd c] })
    -- Register, the default registration of the package
    ∧ ((s.cmds c).RegisterFunc = some .DefaultRegistrationHandler →
        Register h c rootCmd s
          = wrapRun "error from command registration handler: "
              (DefaultRegistrationHandler rootCmd c
                { s with
                  trace := s.trace ++ [.register .DefaultRegistrationHandler rootCmd c] }))
    ∧ ((s.cmds c).RegisterFunc = none → (s.cmds c).Commander = some k →
        (s.cmdrs k).registrationHandler = some .DefaultRegistrationHandler →
        Register h c rootCmd s
          = wrapRun "error from commander registration handler: "
              (DefaultRegistrationHandler rootCmd c
                { s with
                  trace := s.trace ++ [.register .DefaultRegistrationHandler rootCmd c] }))
    ∧ ((s.cmds c).RegisterFunc = none → (s.cmds c).Commander = some k →
        Register h c rootCmd (SetDefaultRegistrationHandler k (some .DefaultRegistrationHandler) s)
          = wrapRun "error from commander registration handler: "
              (DefaultRegistrationHandler rootCmd c
                { SetDefaultRegistrationHandler k (some .DefaultRegistrationHandler) s with
                  trace := s.trace ++ [.register .DefaultRegistrationHandler rootCmd c] })) := by
  have hreq : ∀ (T : String) (i : Nat) (s0 : State W) r,
      h.request i req resp { s0 with trace := s0.trace ++ [.request (.host i) req resp] } = r →
      wrapResult T (callRequestHandler h (.host i) req resp s0)
        = .ret (r.1.map (fun e => T ++ e))
            { s0 with mem := r.2.1, world := r.2.2
                      trace := s0.trace ++ [.request (.host i) req resp] } := by
    intro T i s0 r hr
    subst hr
    rfl
  have hresp : ∀ (T : String) (i : Nat) (s0 : State W) r,
      h.response i resp { s0 with trace := s0.trace ++ [.response (.host i) resp] } = r →
      wrapResult T (callResponseHandler h (.host i) resp s0)
        = .ret (r.1.map (fun e => T ++ e))
            { s0 with mem := r.2.1, world := r.2.2
                      trace := s0.trace ++ [.response (.host i) resp] } := by
    intro T i s0 r hr
    subst hr
    rfl
  have hreg : ∀ (T : String) (i : Nat) (s0 : State W) r,
      h.register i rootCmd c { s0 with trace := s0.trace ++ [.register (.host i) rootCmd c] } = r →
      wrapRun T (callRegisterFunc h (.host i) rootCmd c s0)
        = .ret (r.1.map (fun e => T ++ e))
            { s0 with mem := r.2.1, world := r.2.2
                      trace := s0.trace ++ [.register (.host i) rootCmd c] } := by
    intro T i s0 r hr
    subst hr
    rfl
  refine ⟨?_, ?_, ?_, ?_, ?_, ?_, ?_, ?_, ?_, ?_, ?_, ?_, ?_, ?_, ?_, ?_, ?_⟩
  · intro i r hf hr
    rw [HandleRequest_own h c req resp s _ hf]
    exact hreq _ i s r hr
  · intro i r hf hk hg hr
    rw [HandleRequest_default h c req resp s k _ hf hk hg]
    exact hreq _ i s r hr
  · intro i r hf hk hr
    have hg : ((SetDefaultRequestHandler k (some (.host i)) s).cmdrs k).requestHandler
        = some (.host i) := by
      rw [SetDefaultRequestHandler, modifyCommander_same]
    rw [HandleRequest_default h c req resp (SetDefaultRequestHandler k (some (.host i)) s) k
      (.host i) hf hk hg]
    exact hreq _ i _ r hr
  · intro i r hf hr
    rw [HandleResponse_own h c resp s _ hf]
    exact hresp _ i s r hr
  · intro i r hf hk hg hr
    rw [HandleResponse_default h c resp s k _ hf hk hg]
    exact hresp _ i s r hr
  · intro i r hf hk hr
    have hg : ((SetDefaultResponseHandler k (some (.host i)) s).cmdrs k).responseHandler
        = some (.host i) := by
      rw [SetDefaultResponseHandler, modifyCommander_same]
    rw [HandleResponse_default h c resp (SetDefaultResponseHandler k (some (.host i)) s) k
      (.host i) hf hk hg]
    exact hresp _ i _ r hr
  · intro hf
    rw [HandleResponse_own h c resp s _ hf]
    rfl
  · intro hf
    rw [HandleResponse_own h c resp s _ hf]
    rfl
  · intro hf hk hg
    rw [HandleResponse_default h c resp s k _ hf hk hg]
    rfl
  · intro hf hk hg
    rw [HandleResponse_default h c resp s k _ hf hk hg]
    rfl
  · intro hf hk
    have hg : ((SetDefaultResponseHandler k (some .XMLCompactPrintResponseHandler) s).cmdrs
        k).responseHandler = some .XMLCompactPrintResponseHandler := by
      rw [SetDefaultResponseHandler, modifyCommander_same]
    rw [HandleResponse_default h c resp
      (SetDefaultResponseHandler k (some .XMLCompactPrintResponseHandler) s) k
      .XMLCompactPrintResponseHandler hf hk hg]
    rfl
  · intro i r hf hr
    rw [Register_own h c rootCmd s _ hf]
    exact hreg _ i s r hr
  · intro i r hf hk hg hr
    rw [Register_default h c rootCmd s k _ hf hk hg]
    exact hreg _ i s r hr
  · intro i r hf hk hr
    have hg : ((SetDefaultRegistrationHandler k (some (.host i)) s).cmdrs k).registrationHandler
        = some (.host i) := by
      rw [SetDefaultRegistrationHandler, modifyCommander_same]
    rw [Register_default h c rootCmd (SetDefaultRegistrationHandler k (some (.host i)) s) k
      (.host i) hf hk hg]
    exact hreg _ i _ r hr
  · intro hf
    rw [Register_own h c rootCmd s _ hf]
    rfl
  · intro hf hk hg
    rw [Register_default h c rootCmd s k _ hf hk hg]
    rfl
  · intro hf hk
    have hg : ((SetDefaultRegistrationHandler k (some .DefaultRegistrationHandler) s).cmdrs
        k).registrationHandler = some .DefaultRegistrationHandler := by
      rw [SetDefaultRegistrationHandler, modifyCommander_same]
    rw [Register_default h c rootCmd
      (SetDefaultRegistrationHandler k (some .DefaultRegistrationHandler) s) k
      .DefaultRegistrationHandler hf hk hg]
    rfl

/-- Witness of C1 on the sample state, where every host function writes a line
with its number to the outside world and function 1 refuses.  Command 0 has its
own request handler 7: it is the one that runs, although commander 0 has the
default 3.  Command 1 has no handler of its own: the default 3 runs, or the
handler 1 installed later, whose error comes back behind the commander-level
text; and its registration runs the commander's registration function 5. -/
theorem resolution_calls_own_else_default_witness :
    HandleRequest sampleHost 0 (.ptr (some 0)) (.ptr (some 1)) sampleState
        = .ret none
            { sampleState with
              world := ["request 7"]
              trace := [.request (.host 7) (.ptr (some 0)) (.ptr (some 1))] }
      ∧ HandleRequest sampleHost 1 (.ptr (some 0)) (.ptr (some 1)) sampleState
        = .ret none
            { sampleState with
              world := ["request 3"]
              trace := [.request (.host 3) (.ptr (some 0)) (.ptr (some 1))] }
      ∧ HandleRequest sampleHost 1 (.ptr (some 0)) (.ptr (some 1))
          (SetDefaultRequestHandler 0 (some (.host 1)) sampleState)
        = .ret (some "error from commander request handler: refused")
            { SetDefaultRequestHandler 0 (some (.host 1)) sampleState with
              world := ["request 1"]
              trace := [.request (.host 1) (.ptr (some 0)) (.ptr (some 1))] }
      ∧ Register sampleHost 1 0 sampleState
        = .ret none
            { sampleState with world := ["register 5"], trace := [.register (.host 5) 0 1] } :=
  ⟨(resolution_calls_own_else_default sampleHost sampleState 0 0 (.ptr (some 0))
      (.ptr (some 1)) 0).1 7 _ rfl rfl,
    (resolution_calls_own_else_default sampleHost sampleState 1 0 (.ptr (some 0))
      (.ptr (some 1)) 0).2.1 3 _ rfl rfl rfl rfl,
    (resolution_calls_own_else_default sampleHost sampleState 1 0 (.ptr (some 0))
      (.ptr (some 1)) 0).2.2.1 1 _ rfl rfl rfl,
    (resolution_calls_own_else_default sampleHost sampleState 1 0 (.ptr (some 0))
      (.ptr (some 1)) 0).2.2.2.2.2.2.2.2.2.2.2.2.1 5 _ rfl rfl rfl rfl⟩

/-- C10: for `HandleRequest`, `HandleResponse` and `Register`, when the command
has no handler of its own and its commander has no default for the slot, the
call returns the error `no ... handler defined` and leaves the state, and with
it the trace of handler calls, unchanged; a commander fresh from `NewCommander`
has no default request handler, so `HandleRequest` fails this way under it. -/
theorem resolution_fails_without_handler {W : Type} (h : Host W) (s : State W) (c : CmdPtr)
    (k : CmdrPtr) (req resp : Iface) (rootCmd : CobraPtr)
    (hk : (s.cmds c).Commander = some k) :
    ((s.cmds c).RequestHandler = none → (s.cmdrs k).requestHandler = none →
        HandleRequest h c req resp s = .ret (some "no request handler defined") s)
    ∧ ((s.cmds c).ResponseHandler = none → (s.cmdrs k).responseHandler = none →
        HandleResponse h c resp s = .ret (some "no response handler defined") s)
    ∧ ((s.cmds c).RegisterFunc = none → (s.cmdrs k).registrationHandler = none →
        Register h c rootCmd s = .ret (some "no registration handler defined") s)
    ∧ (∀ root, ((NewCommander root s).2.cmdrs (NewCommander root s).1).requestHandler = none)
    ∧ (∀ root, (s.cmds c).RequestHandler = none → k = (NewCommander root s).1 →
        HandleRequest h c req resp (NewCommander root s).2
          = .ret (some "no request handler defined") (NewCommander root s).2) := by
  refine ⟨?_, ?_, ?_, ?_, ?_⟩
  · intro hf hg
    simp only [HandleRequest, hf, hk, DefaultRequestHandler, hg]
  · intro hf hg
    simp only [HandleResponse, hf, hk, DefaultResponseHandler, hg]
  · intro hf hg
    simp only [Register, hf, hk, RegistrationHandler, hg]
  · intro root
    simp [NewCommander]
  · intro root hf hk2
    have hc : (NewCommander root s).2.cmds = s.cmds := rfl
    have hg : ((NewCommander root s).2.cmdrs k).requestHandler = none := by
      rw [hk2]; simp [NewCommander]
    simp only [HandleRequest, hc, hf, hk, DefaultRequestHandler, hg]

/-- Witness of C10: in the sample state command 2 belongs to commander 5, the
commander `NewCommander` creates next. -/
theorem resolution_fails_without_handler_witness :
    (sampleState.cmds 2).Commander = some 5
      ∧ (∀ root, (sampleState.cmds 2).RequestHandler = none →
          5 = (NewCommander root sampleState).1 →
          HandleRequest sampleHost 2 (.ptr (some 0)) (.ptr (some 1))
              (NewCommander root sampleState).2
            = .ret (some "no request handler defined") (NewCommander root sampleState).2) :=
  ⟨rfl, (resolution_fails_without_handler sampleHost sampleState 2 5 (.ptr (some 0))
    (.ptr (some 1)) 0 rfl).2.2.2.2⟩

/-! ## The command register: lemmas -/

theorem CommandMap.get_set_same (m : CommandMap) (name : String) (cmd : CmdPtr) :
    (m.set name cmd).get name = some cmd := by
  simp [CommandMap.get, CommandMap.set]

theorem lookup_filter_ne (m : CommandMap) (name other : String) (h : other ≠ name) :
    List.lookup other (m.filter (fun e => e.1 != name)) = List.lookup other m := by
  induction m with
  | nil => rfl
  | cons e m ih =>
    obtain ⟨n, p⟩ := e
    by_cases hn : n = name
    · subst hn
      have h1 : (other == n) = false := by simpa using h
      simp [List.filter_cons, List.lookup_cons, h1, ih]
    · have h1 : (n != name) = true := by simpa using hn
      simp only [List.filter_cons, h1, if_true, List.lookup_cons, ih]

theorem CommandMap.get_set_ne (m : CommandMap) (name other : String) (cmd : CmdPtr)
    (h : other ≠ name) : (m.set name cmd).get other = m.get other := by
  have h1 : (other == name) = false := by simpa using h
  simp only [CommandMap.get, CommandMap.set, List.lookup_cons, h1]
  exact lookup_filter_ne m name other h

theorem CommandMap.keys_set (m : CommandMap) (name : String) (cmd : CmdPtr) :
    (m.set name cmd).map Prod.fst
      = name :: (m.map Prod.fst).filter (fun n => n != name) := by
  simp only [CommandMap.set, List.map_cons, List.filter_map]
  rfl

theorem CommandMap.mem_keys_set (m : CommandMap) (name n : String) (cmd : CmdPtr) :
    n ∈ (m.set name cmd).map Prod.fst ↔ n = name ∨ n ∈ m.map Prod.fst := by
  rw [CommandMap.keys_set, List.mem_cons, List.mem_filter]
  constructor
  · rintro (h | ⟨h, _⟩)
    · exact Or.inl h
    · exact Or.inr h
  · rintro (h | h)
    · exact Or.inl h
    · by_cases e : n = name
      · exact Or.inl e
      · exact Or.inr ⟨h, by simpa using e⟩

theorem CommandMap.nodup_keys_set (m : CommandMap) (name : String) (cmd : CmdPtr)
    (h : (m.map Prod.fst).Nodup) : ((m.set name cmd).map Prod.fst).Nodup := by
  rw [CommandMap.keys_set, List.nodup_cons]
  refine ⟨?_, h.filter _⟩
  rw [List.mem_filter]
  rintro ⟨_, h2⟩
  simp at h2

theorem insertAll_cons (name : CmdPtr → String) (m : CommandMap) (cmd : CmdPtr)
    (cmds : List CmdPtr) :
    insertAll name m (cmd :: cmds) = insertAll name (m.set (name cmd) cmd) cmds := rfl

theorem insertAll_append (name : CmdPtr → String) (m : CommandMap) (xs ys : List CmdPtr) :
    insertAll name m (xs ++ ys) = insertAll name (insertAll name m xs) ys := by
  simp [insertAll, List.foldl_append]

theorem insertAll_nodup (name : CmdPtr → String) (cmds : List CmdPtr) (m : CommandMap)
    (h : (m.map Prod.fst).Nodup) : ((insertAll name m cmds).map Prod.fst).Nodup := by
  induction cmds generalizing m with
  | nil => exact h
  | cons c cs ih =>
    rw [insertAll_cons]
    exact ih _ (CommandMap.nodup_keys_set m _ c h)

theorem insertAll_mem_keys (name : CmdPtr → String) (cmds : List CmdPtr) (m : CommandMap)
    (n : String) :
    n ∈ (insertAll name m cmds).map Prod.fst ↔ n ∈ m.map Prod.fst ∨ n ∈ cmds.map name := by
  induction cmds generalizing m with
  | nil => simp [insertAll]
  | cons c cs ih =>
    rw [insertAll_cons, ih, CommandMap.mem_keys_set, List.map_cons, List.mem_cons]
    constructor
    · rintro ((h | h) | h)
      · exact Or.inr (Or.inl h)
      · exact Or.inl h
      · exact Or.inr (Or.inr h)
    · rintro (h | h | h)
      · exact Or.inl (Or.inr h)
      · exact Or.inl (Or.inl h)
      · exact Or.inr h

theorem insertAll_get_kept (name : CmdPtr → String) (cmds : List CmdPtr) (m : CommandMap)
    (n : String) (cmd : CmdPtr) (hm : m.get n = some cmd)
    (h : ∀ q ∈ cmds, name q = n → q = cmd) : (insertAll name m cmds).get n = some cmd := by
  induction cmds generalizing m with
  | nil => exact hm
  | cons c cs ih =>
    rw [insertAll_cons]
    refine ih _ ?_ (fun q hq => h q (List.mem_cons_of_mem _ hq))
    by_cases e : name c = n
    · have hc : c = cmd := h c (List.mem_cons_self _ _) e
      subst hc
      rw [e]
      exact CommandMap.get_set_same m n c
    · rw [CommandMap.get_set_ne m (name c) n c (fun e2 => e e2.symm)]
      exact hm

theorem insertAll_length (name : CmdPtr → String) (cmds : List CmdPtr) :
    (insertAll name [] cmds).length = ((cmds.map name).dedup).length := by
  have h1 : ((insertAll name [] cmds).map Prod.fst).Nodup :=
    insertAll_nodup name cmds [] List.nodup_nil
  have h2 : ((insertAll name [] cmds).map Prod.fst).Perm ((cmds.map name).dedup) := by
    rw [List.perm_ext_iff_of_nodup h1 (List.nodup_dedup _)]
    intro n
    rw [insertAll_mem_keys, List.mem_dedup]
    simp
  rw [← h2.length_eq, List.length_map]

theorem Register_frame {W : Type} (h : Host W) (c : CmdPtr) (rootCmd : CobraPtr)
    (s s1 : State W) (e : Option String) (hr : Register h c rootCmd s = .ret e s1) :
    s1.cmds = s.cmds ∧ s1.cmdrs = s.cmdrs := by
  have key : ∀ (format : String) (f : RegisterFunc),
      wrapRun format (callRegisterFunc h f rootCmd c s) = .ret e s1 →
      s1.cmds = s.cmds ∧ s1.cmdrs = s.cmdrs := by
    intro format f hw
    obtain ⟨e0, h0, _⟩ := wrapRun_ret format _ e s1 hw
    have hf := callRegisterFunc_frame h f rootCmd c s s1 e0 h0
    exact ⟨hf.1, hf.2.1⟩
  cases hf : (s.cmds c).RegisterFunc with
  | some f =>
    rw [Register_own h c rootCmd s f hf] at hr
    exact key _ f hr
  | none =>
    cases hk : (s.cmds c).Commander with
    | none => simp [Register, hf, hk] at hr
    | some k =>
      cases hg : (s.cmdrs k).registrationHandler with
      | none =>
        simp only [Register, hf, hk, RegistrationHandler, hg, Run.ret.injEq] at hr
        rw [← hr.2]
        exact ⟨rfl, rfl⟩
      | some g =>
        rw [Register_default h c rootCmd s k g hf hk hg] at hr
        exact key _ g hr

theorem Add_spec {W : Type} (h : Host W) (k : CmdrPtr) (cmds : List CmdPtr) :
    ∀ (s s1 : State W) (e : Option String), Add h k cmds s = .ret e s1 →
      (∀ q, (s1.cmds q).Name = (s.cmds q).Name)
      ∧ (∀ j, j ≠ k → s1.cmdrs j = s.cmdrs j)
      ∧ (e = none →
          (s1.cmdrs k).commands
            = insertAll (fun p => (s.cmds p).Name) (s.cmdrs k).commands cmds) := by
  induction cmds with
  | nil =>
    intro s s1 e hr
    simp only [Add, Run.ret.injEq] at hr
    rw [← hr.2]
    exact ⟨fun _ => rfl, fun _ _ => rfl, fun _ => rfl⟩
  | cons cmd rest ih =>
    intro s s1 e hr
    rw [Add] at hr
    generalize hs2 : adopt k cmd s = s2 at hr
    have hname : ∀ q, (s2.cmds q).Name = (s.cmds q).Name := by
      intro q
      rw [← hs2, adopt, modifyCommander_cmds]
      by_cases hq : q = cmd
      · subst hq; simp
      · simp [Function.update_noteq hq]
    have hother : ∀ j, j ≠ k → s2.cmdrs j = s.cmdrs j := by
      intro j hj
      rw [← hs2, adopt, modifyCommander_other _ _ _ _ hj]
    have hcmds : (s2.cmdrs k).commands = (s.cmdrs k).commands.set (s.cmds cmd).Name cmd := by
      rw [← hs2, adopt, modifyCommander_same]
      simp
    cases hR : Register h cmd (s2.cmdrs k).rootCmd s2 with
    | panic msg => rw [hR] at hr; cases hr
    | ret e3 s3 =>
      rw [hR] at hr
      obtain ⟨hc3, hk3⟩ := Register_frame h cmd _ s2 s3 e3 hR
      cases e3 with
      | some err =>
        simp only [Run.ret.injEq] at hr
        rw [← hr.2, ← hr.1]
        refine ⟨fun q => by rw [hc3]; exact hname q, fun j hj => by rw [hk3]; exact hother j hj,
          fun hn => by cases hn⟩
      | none =>
        simp only at hr
        obtain ⟨i1, i2, i3⟩ := ih s3 s1 e hr
        refine ⟨fun q => ?_, fun j hj => ?_, fun hn => ?_⟩
        · rw [i1 q, hc3]; exact hname q
        · rw [i2 j hj, hk3]; exact hother j hj
        · rw [i3 hn, insertAll_cons, hk3, hcmds]
          have hfun : (fun p => (s3.cmds p).Name) = (fun p => (s.cmds p).Name) := by
            funext p; rw [hc3]; exact hname p
          rw [hfun]

theorem AddCalls_spec {W : Type} (h : Host W) (k : CmdrPtr) (calls : List (List CmdPtr)) :
    ∀ (s s1 : State W), AddCalls h k calls s = .ret none s1 →
      (∀ q, (s1.cmds q).Name = (s.cmds q).Name)
      ∧ (s1.cmdrs k).commands
          = insertAll (fun p => (s.cmds p).Name) (s.cmdrs k).commands calls.flatten := by
  induction calls with
  | nil =>
    intro s s1 hr
    simp only [AddCalls, Run.ret.injEq, true_and] at hr
    rw [← hr]
    exact ⟨fun _ => rfl, rfl⟩
  | cons cmds rest ih =>
    intro s s1 hr
    rw [AddCalls] at hr
    cases hA : Add h k cmds s with
    | panic msg => rw [hA] at hr; cases hr
    | ret e2 s2 =>
      rw [hA] at hr
      cases e2 with
      | some err => simp at hr
      | none =>
        simp only at hr
        obtain ⟨a1, _, a3⟩ := Add_spec h k cmds s s2 none hA
        obtain ⟨i1, i2⟩ := ih s2 s1 hr
        refine ⟨fun q => by rw [i1 q, a1 q], ?_⟩
        have hfun : (fun p => (s2.cmds p).Name) = (fun p => (s.cmds p).Name) := by
          funext p; exact a1 p
        rw [i2, hfun, a3 rfl, List.flatten_cons, insertAll_append]

theorem CommandMap.length_set_of_mem (m : CommandMap) (name : String) (cmd : CmdPtr)
    (hn : (m.map Prod.fst).Nodup) (hmem : name ∈ m.map Prod.fst) :
    (m.set name cmd).length = m.length := by
  have h2 : ((m.set name cmd).map Prod.fst).Perm (m.map Prod.fst) := by
    rw [List.perm_ext_iff_of_nodup (CommandMap.nodup_keys_set m name cmd hn) hn]
    intro n
    rw [CommandMap.mem_keys_set]
    constructor
    · rintro (h | h)
      · rw [h]; exact hmem
      · exact h
    · exact fun h => Or.inr h
  have h3 := h2.length_eq
  rwa [List.length_map, List.length_map] at h3

theorem NewCommander_commands {W : Type} (root : CobraPtr) (s : State W) :
    ((NewCommander root s).2.cmdrs (NewCommander root s).1).commands = [] := by
  simp [NewCommander]

/-! ## The command register: claims -/

/-- C2: when the commands of a sequence of successful `Add` calls on a commander
include `cmd`, and no command added after it is another command of the same
name, `Cmd` with the name of `cmd` returns exactly `cmd` and no error. -/
theorem Cmd_returns_added {W : Type} (h : Host W) (k : CmdrPtr) (calls : List (List CmdPtr))
    (earlier later : List CmdPtr) (cmd : CmdPtr) (s s1 : State W)
    (hadd : AddCalls h k calls s = .ret none s1)
    (hsplit : calls.flatten = earlier ++ cmd :: later)
    (hlast : ∀ q ∈ later, (s.cmds q).Name = (s.cmds cmd).Name → q = cmd) :
    Cmd k (s1.cmds cmd).Name s1 = .ok cmd ∧ (s1.cmds cmd).Name = (s.cmds cmd).Name := by
  obtain ⟨hname, hmap⟩ := AddCalls_spec h k calls s s1 hadd
  refine ⟨?_, hname cmd⟩
  have hget : (s1.cmdrs k).commands.get (s.cmds cmd).Name = some cmd := by
    rw [hmap, hsplit, insertAll_append, insertAll_cons]
    exact insertAll_get_kept _ later _ _ cmd (CommandMap.get_set_same _ _ _) hlast
  simp only [Cmd, hname cmd, hget]

/-- Witness of C2: commands 0 (`list`) and 1 (`show`) added to commander 0 of the
sample state in one call, looked up by the name of command 0. -/
theorem Cmd_returns_added_witness :
    ∃ s1, AddCalls sampleHost 0 [[0, 1]] sampleState = .ret none s1
      ∧ Cmd 0 (s1.cmds 0).Name s1 = .ok 0
      ∧ (s1.cmds 0).Name = (sampleState.cmds 0).Name := by
  refine ⟨_, rfl, ?_⟩
  refine Cmd_returns_added sampleHost 0 [[0, 1]] [] [1] 0 sampleState _ rfl rfl ?_
  intro q hq
  rw [List.mem_singleton] at hq
  subst hq
  intro hn
  exact absurd hn (by decide)

/-- C3: after any sequence of successful `Add` calls on a commander created by
`NewCommander`, the map returned by `All` has exactly one entry for each
distinct name among the commands added: its keys are distinct and are exactly
those names, so its size is the number of distinct names; it is the number of
commands added when their names are pairwise distinct; and adding one more
command under a name already registered leaves the size as it was and makes that
name resolve to the new command. -/
theorem All_one_entry_per_name {W : Type} (h : Host W) (root : CobraPtr)
    (calls : List (List CmdPtr)) (s s1 : State W)
    (hadd : AddCalls h (NewCommander root s).1 calls (NewCommander root s).2 = .ret none s1) :
    ((All (NewCommander root s).1 s1).map Prod.fst).Nodup
      ∧ (∀ n, n ∈ (All (NewCommander root s).1 s1).map Prod.fst
            ↔ n ∈ calls.flatten.map (fun cmd => (s.cmds cmd).Name))
      ∧ (All (NewCommander root s).1 s1).length
          = ((calls.flatten.map (fun cmd => (s.cmds cmd).Name)).dedup).length
      ∧ ((calls.flatten.map (fun cmd => (s.cmds cmd).Name)).Nodup →
          (All (NewCommander root s).1 s1).length = calls.flatten.length)
      ∧ (∀ cmd s2, Add h (NewCommander root s).1 [cmd] s1 = .ret none s2 →
          (s1.cmds cmd).Name ∈ (All (NewCommander root s).1 s1).map Prod.fst →
          (All (NewCommander root s).1 s2).length = (All (NewCommander root s).1 s1).length
            ∧ (All (NewCommander root s).1 s2).get (s1.cmds cmd).Name = some cmd) := by
  obtain ⟨_, hmap⟩ := AddCalls_spec h _ calls _ s1 hadd
  rw [NewCommander_commands] at hmap
  have hcmds : (NewCommander root s).2.cmds = s.cmds := rfl
  rw [hcmds] at hmap
  have hnodup : ((All (NewCommander root s).1 s1).map Prod.fst).Nodup := by
    rw [All, hmap]
    exact insertAll_nodup _ _ [] List.nodup_nil
  have hlen : (All (NewCommander root s).1 s1).length
      = ((calls.flatten.map (fun cmd => (s.cmds cmd).Name)).dedup).length := by
    rw [All, hmap]
    exact insertAll_length _ _
  refine ⟨hnodup, ?_, hlen, ?_, ?_⟩
  · intro n
    rw [All, hmap, insertAll_mem_keys]
    simp
  · intro hd
    rw [hlen, hd.dedup, List.length_map]
  · intro cmd s2 hone hmem
    obtain ⟨_, _, h3⟩ := Add_spec h _ [cmd] s1 s2 none hone
    have h4 := h3 rfl
    rw [insertAll_cons] at h4
    change (All (NewCommander root s).1 s2) = _ at h4
    rw [h4]
    exact ⟨CommandMap.length_set_of_mem _ _ _ hnodup hmem, CommandMap.get_set_same _ _ _⟩

/-- Witness of C3: on a fresh commander of the sample state, command 1 (`show`)
is added, then commands 2 and 0 (both named `list`) in one call. -/
theorem All_one_entry_per_name_witness :
    ∃ s1, AddCalls sampleHost (NewCommander 0 sampleState).1 [[1], [2, 0]]
        (NewCommander 0 sampleState).2 = .ret none s1
      ∧ (All (NewCommander 0 sampleState).1 s1).length = 2
      ∧ Cmd (NewCommander 0 sampleState).1 "list" s1 = .ok 0 := by
  refine ⟨_, rfl, ?_, rfl⟩
  exact (All_one_entry_per_name sampleHost 0 [[1], [2, 0]] sampleState _ rfl).2.2.1

/-! ## Default registration: C11 -/

mutual
theorem leavesOf_kind : ∀ (v : Value) (enc : List String) (p : List Nat) (f : StructField)
    (l : Leaf), l ∈ leavesOf enc p f v →
    l.value.kind = .string ∨ l.value.kind = .int ∨ l.value.kind = .bool
  | .int n, enc, p, f, l, h => by
    rw [leavesOf] at h
    split at h
    · cases h
    · rw [List.mem_singleton] at h; subst h; exact Or.inr (Or.inl rfl)
  | .string s, enc, p, f, l, h => by
    rw [leavesOf] at h
    split at h
    · cases h
    · rw [List.mem_singleton] at h; subst h; exact Or.inl rfl
  | .bool b, enc, p, f, l, h => by
    rw [leavesOf] at h
    split at h
    · cases h
    · rw [List.mem_singleton] at h; subst h; exact Or.inr (Or.inr rfl)
  | .struct fs, enc, p, f, l, h => by
    rw [leavesOf] at h
    exact leavesOfFields_kind fs _ p 0 l h
  | .other k, enc, p, f, l, h => by
    rw [leavesOf] at h; cases h
theorem leavesOfFields_kind : ∀ (fs : List (StructField × Value)) (enc : List String)
    (p : List Nat) (i : Nat) (l : Leaf), l ∈ leavesOfFields enc p i fs →
    l.value.kind = .string ∨ l.value.kind = .int ∨ l.value.kind = .bool
  | [], _, _, _, _, h => by rw [leavesOfFields] at h; cases h
  | (f, v) :: rest, enc, p, i, l, h => by
    rw [leavesOfFields, List.mem_append] at h
    rcases h with h | h
    · exact leavesOf_kind v enc (p ++ [i]) f l h
    · exact leavesOfFields_kind rest enc p (i + 1) l h
end

theorem any_name_iff (flags : List Flag) (n : String) :
    flags.any (fun g => g.name == n) = true ↔ n ∈ flags.map (fun g => g.name) := by
  rw [List.any_eq_true, List.mem_map]
  constructor
  · rintro ⟨g, hg, e⟩
    exact ⟨g, hg, by simpa using e⟩
  · rintro ⟨g, hg, e⟩
    exact ⟨g, hg, by simpa using e⟩

theorem any_shorthand_iff (flags : List Flag) (sh : String) :
    flags.any (fun g => g.shorthand == some sh) = true
      ↔ sh ∈ flags.filterMap (fun g => g.shorthand) := by
  rw [List.any_eq_true, List.mem_filterMap]
  constructor
  · rintro ⟨g, hg, e⟩
    exact ⟨g, hg, by simpa using e⟩
  · rintro ⟨g, hg, e⟩
    exact ⟨g, hg, by simpa using e⟩

theorem flagFor_none (fi : FieldInfo) (hp : fi.predeclared = false) : flagFor fi = none := by
  unfold FieldInfo.predeclared at hp
  unfold flagFor
  cases hd : fi.Defined with
  | true => simp
  | false =>
    rw [hd] at hp
    simp only [Bool.not_false, Bool.true_and, Bool.or_eq_false_iff, beq_eq_false_iff_ne] at hp
    simp only [Bool.false_eq_true, if_false]
    cases ht : fi.Typ with
    | string => exact absurd ht hp.1
    | int => exact absurd ht hp.2
    | invalid => rfl
    | bool => rfl
    | struct => rfl
    | other k => rfl

theorem flagFor_some (fi : FieldInfo) (hp : fi.predeclared = true) :
    ∃ flag, flagFor fi = some flag ∧ flag.name = fi.LFlag ∧ flag.ptr = fi.FieldPtr
      ∧ flag.shorthand = (if fi.SFlag.utf8ByteSize == 1 then some fi.SFlag else none)
      ∧ flag.defaultValue = (if fi.Typ == .string then .string "" else .int 0) := by
  unfold FieldInfo.predeclared at hp
  simp only [Bool.and_eq_true, Bool.not_eq_true', Bool.or_eq_true, beq_iff_eq] at hp
  obtain ⟨hd, ht⟩ := hp
  unfold flagFor
  simp only [hd, Bool.false_eq_true, if_false]
  rcases ht with ht | ht
  · rw [ht]
    exact ⟨_, rfl, rfl, rfl, rfl, rfl⟩
  · rw [ht]
    exact ⟨_, rfl, rfl, rfl, rfl, rfl⟩

theorem longFlags_cons (fi : FieldInfo) (rest : List FieldInfo) :
    longFlags (fi :: rest)
      = if fi.flagged then fi.LFlag :: longFlags rest else longFlags rest := by
  unfold longFlags
  rw [List.filter_cons]
  split <;> rfl

theorem shorthands_cons (fi : FieldInfo) (rest : List FieldInfo) :
    shorthands (fi :: rest)
      = if fi.flagged && fi.SFlag.utf8ByteSize == 1 then fi.SFlag :: shorthands rest
        else shorthands rest := by
  unfold shorthands
  rw [List.filter_cons]
  cases hf : fi.flagged with
  | false => simp
  | true =>
    simp only [if_true, Bool.true_and]
    rw [List.filter_cons]
    split <;> rfl

/-- The flags of fields that bind cleanly are all defined, one after the other,
and the default value of each is stored in its field. -/
theorem bindFlags_clean : ∀ (before rest : List FieldInfo) (c : CobraCommand) (m : Mem),
    (∀ fi ∈ before, fi.flagged = true → fi.predeclared = true) →
    (c.flags.map (fun g => g.name) ++ longFlags before).Nodup →
    (c.flags.filterMap (fun g => g.shorthand) ++ shorthands before).Nodup →
    ∃ c1 : CobraCommand, bindFlags c m (before ++ rest) = bindFlags c1 (storeDefaults m before) rest
      ∧ c1.flags.map (fun g => g.name) = c.flags.map (fun g => g.name) ++ longFlags before
      ∧ c1.flags.filterMap (fun g => g.shorthand)
          = c.flags.filterMap (fun g => g.shorthand) ++ shorthands before := by
  intro before
  induction before with
  | nil =>
    intro rest c m _ _ _
    exact ⟨c, rfl, by simp [longFlags], by simp [shorthands]⟩
  | cons fi before ih =>
    intro rest c m hp hn hs
    have hp2 : ∀ x ∈ before, x.flagged = true → x.predeclared = true :=
      fun x hx => hp x (List.mem_cons_of_mem _ hx)
    rw [longFlags_cons] at hn ⊢
    rw [shorthands_cons] at hs ⊢
    rw [List.cons_append, bindFlags, storeDefaults]
    cases hf : fi.flagged with
    | false =>
      have hf2 : (fi.LFlag != "" && fi.Hint != "") = false := hf
      rw [hf] at hn hs
      simp only [Bool.false_and, Bool.false_eq_true, if_false] at hn hs ⊢
      rw [hf2]
      simp only [Bool.false_eq_true, if_false]
      exact ih rest c m hp2 hn hs
    | true =>
      have hf2 : (fi.LFlag != "" && fi.Hint != "") = true := hf
      rw [hf] at hn hs
      simp only [if_true, Bool.true_and] at hn hs ⊢
      rw [hf2]
      simp only [if_true]
      obtain ⟨flag, hflag, hname, hptr, hshort, hdef⟩ :=
        flagFor_some fi (hp fi (List.mem_cons_self _ _) hf)
      rw [hflag]
      simp only
      have hnot : c.flags.any (fun g => g.name == flag.name) = false := by
        rw [Bool.eq_false_iff]
        intro hany
        rw [any_name_iff, hname] at hany
        have := (List.nodup_append.mp hn).2.2
        exact this hany (List.mem_cons_self _ _)
      have hn2 : ((c.flags ++ [flag]).map (fun g => g.name) ++ longFlags before).Nodup := by
        rw [List.map_append, List.map_singleton, hname, List.append_assoc]
        exact hn
      cases h1 : decide (fi.SFlag.utf8ByteSize = 1) with
      | false =>
        have h1b : (fi.SFlag.utf8ByteSize == 1) = false := by
          simpa using h1
        rw [h1b] at hs hshort
        simp only [Bool.false_eq_true, if_false] at hs hshort ⊢
        have hadd : c.addFlag flag = .ok { c with flags := c.flags ++ [flag] } := by
          simp only [CobraCommand.addFlag, hnot, Bool.false_eq_true, if_false, hshort]
        rw [hadd]
        simp only
        have hs2 : (({ c with flags := c.flags ++ [flag] } : CobraCommand).flags.filterMap
            (fun g => g.shorthand) ++ shorthands before).Nodup := by
          simp only [List.filterMap_append, List.filterMap_cons, hshort, List.filterMap_nil,
            List.append_nil]
          exact hs
        obtain ⟨c1, e1, e2, e3⟩ := ih rest { c with flags := c.flags ++ [flag] }
          (m.store flag.ptr flag.defaultValue) hp2 hn2 hs2
        refine ⟨c1, ?_, ?_, ?_⟩
        · rw [e1, hptr, hdef]
        · rw [e2]
          simp only [List.map_append, List.map_singleton, hname, List.append_assoc,
            List.singleton_append]
        · rw [e3]
          simp only [List.filterMap_append, List.filterMap_cons, hshort, List.filterMap_nil,
            List.append_nil, h1b, Bool.false_eq_true, if_false]
      | true =>
        have h1b : (fi.SFlag.utf8ByteSize == 1) = true := by
          simpa using h1
        rw [h1b] at hs hshort
        simp only [if_true] at hs hshort ⊢
        have hnot2 : c.flags.any (fun g => g.shorthand == some fi.SFlag) = false := by
          rw [Bool.eq_false_iff]
          intro hany
          rw [any_shorthand_iff] at hany
          have := (List.nodup_append.mp hs).2.2
          exact this hany (List.mem_cons_self _ _)
        have hadd : c.addFlag flag = .ok { c with flags := c.flags ++ [flag] } := by
          simp only [CobraCommand.addFlag, hnot, Bool.false_eq_true, if_false, hshort, hnot2]
        rw [hadd]
        simp only
        have hs2 : (({ c with flags := c.flags ++ [flag] } : CobraCommand).flags.filterMap
            (fun g => g.shorthand) ++ shorthands before).Nodup := by
          simp only [List.filterMap_append, List.filterMap_cons, hshort, List.filterMap_nil,
            List.append_assoc, List.singleton_append]
          exact hs
        obtain ⟨c1, e1, e2, e3⟩ := ih rest { c with flags := c.flags ++ [flag] }
          (m.store flag.ptr flag.defaultValue) hp2 hn2 hs2
        refine ⟨c1, ?_, ?_, ?_⟩
        · rw [e1, hptr, hdef]
        · rw [e2]
          simp only [List.map_append, List.map_singleton, hname, List.append_assoc,
            List.singleton_append]
        · rw [e3]
          simp only [List.filterMap_append, List.filterMap_cons, hshort, List.filterMap_nil,
            List.append_assoc, List.singleton_append, h1b, if_true]

theorem InspectStruct_kinds (m : Mem) (obj : Iface) (fis : List FieldInfo)
    (hin : InspectStruct m obj = .ok fis) :
    ∀ fi ∈ fis, fi.Typ = .string ∨ fi.Typ = .int ∨ fi.Typ = .bool := by
  intro fi hfi
  rcases InspectStruct_cases m obj with ⟨_, e⟩ | ⟨a, fs, _, _, _, e⟩ | ⟨_, _, _, _, _, _, _, e⟩
  · rw [e] at hin; cases hin
  · rw [e] at hin
    injection hin with hin
    subst hin
    obtain ⟨l, hl, idx, rfl⟩ := mem_infosFrom a _ 0 fi hfi
    exact leavesOfFields_kind fs [] [] 0 l hl
  · rw [e] at hin; cases hin

/-- C11, as stated, fails: for a request with a floating-point field that
carries a long flag and a hint, the default registration fails with the
inspector's `Unsupported kind: float64`, not with `unhandled type`; `Add`
returns that error behind the text of the commander-level handler. -/
theorem DefaultRegistrationHandler_float_unsupported :
    (floatRecord.map (fun e => (e.1.Tag.Get "lFlag", e.1.Tag.Get "hint", e.2.kind)))
        = [("", "", Kind.string), ("ratio", "Ratio", Kind.other .Float64)]
      ∧ DefaultRegistrationHandler 0 1 floatState
        = .ret (some "Unsupported kind: float64") floatState
      ∧ ∃ s1, Add sampleHost (NewCommander 0 floatState).1 [1] (NewCommander 0 floatState).2
          = .ret (some "error from commander registration handler: Unsupported kind: float64")
              s1 :=
  ⟨rfl, rfl, _, rfl⟩

/-- C11, amended: the default registration returns the inspector's error,
leaving the state as it was, whenever the inspector fails, which it does with
`Unsupported kind: <kind>` for the first field of a kind other than string, int,
bool and struct (a floating-point field for example), whatever its tags.
Otherwise it walks the inspected fields in order and defines a flag for each
one that carries both a long flag and a hint; a field whose type is not the
predeclared `string` or `int` (a boolean, or a field of a defined type) makes it
return `unhandled type`, provided the flagged fields before it bind cleanly:
each of a predeclared type, no long flag and no shorthand repeated; those
fields then hold the default values of their flags.  A flagged field of a
predeclared type whose long flag, or else whose one-byte shorthand, was bound
before makes the registration panic instead.  `Register` of a command that
relies on the commander's default registration returns the error behind the
text `error from commander registration handler: `. -/
theorem DefaultRegistrationHandler_fails {W : Type} (h : Host W) (parentCmd : CobraPtr)
    (cmd : CmdPtr) (s : State W) :
    (∀ err, InspectStruct s.mem (s.cmds cmd).Request = .error err →
        DefaultRegistrationHandler parentCmd cmd s = .ret (some err) s)
    ∧ (∀ a fs k, (s.cmds cmd).Request = .ptr (some a) → s.mem a = .struct fs →
        firstUnsupportedFields fs = some k →
        DefaultRegistrationHandler parentCmd cmd s
          = .ret (some ("Unsupported kind: " ++ k.name)) s)
    ∧ (∀ fis, InspectStruct s.mem (s.cmds cmd).Request = .ok fis →
        ∀ fi ∈ fis, (fi.predeclared = false ↔ (fi.Defined = true ∨ fi.Typ = .bool)))
    ∧ (∀ fis before fi after, InspectStruct s.mem (s.cmds cmd).Request = .ok fis →
        fis = before ++ fi :: after → bindsCleanly before → fi.flagged = true →
        (fi.predeclared = false →
          DefaultRegistrationHandler parentCmd cmd s
            = .ret (some "unhandled type") { s with mem := storeDefaults s.mem before })
        ∧ (fi.predeclared = true → fi.LFlag ∈ longFlags before →
          DefaultRegistrationHandler parentCmd cmd s = .panic (flagRedefined fi.LFlag))
        ∧ (fi.predeclared = true → fi.LFlag ∉ longFlags before →
          fi.SFlag.utf8ByteSize = 1 → fi.SFlag ∈ shorthands before →
          DefaultRegistrationHandler parentCmd cmd s = .panic (shorthandRedefined fi.SFlag)))
    ∧ (∀ err s1 commander,
        DefaultRegistrationHandler parentCmd cmd
            { s with trace := s.trace ++ [.register .DefaultRegistrationHandler parentCmd cmd] }
          = .ret (some err) s1 →
        (s.cmds cmd).RegisterFunc = none → (s.cmds cmd).Commander = some commander →
        (s.cmdrs commander).registrationHandler = some .DefaultRegistrationHandler →
        Register h cmd parentCmd s
          = .ret (some ("error from commander registration handler: " ++ err)) s1) := by
  refine ⟨?_, ?_, ?_, ?_, ?_⟩
  · intro err he
    simp only [DefaultRegistrationHandler, he]
  · intro a fs k hreq hm hk
    simp only [DefaultRegistrationHandler, hreq, InspectStruct_error s.mem a fs k hm hk]
  · intro fis hin fi hfi
    have hk := InspectStruct_kinds _ _ fis hin fi hfi
    unfold FieldInfo.predeclared
    cases hd : fi.Defined with
    | true => simp
    | false =>
      rcases hk with e | e | e <;> simp [e]
  · intro fis before fi after hin hsplit hclean hflag
    obtain ⟨hpre, hn, hs⟩ := hclean
    obtain ⟨c1, e1, e2, e3⟩ := bindFlags_clean before (fi :: after)
      ((s.cmds cmd).Static cmd) s.mem hpre (by simpa [Command.Static] using hn)
      (by simpa [Command.Static] using hs)
    have hnames : c1.flags.map (fun g => g.name) = longFlags before := by
      rw [e2]; simp [Command.Static]
    have hshorts : c1.flags.filterMap (fun g => g.shorthand) = shorthands before := by
      rw [e3]; simp [Command.Static]
    have hflag2 : (fi.LFlag != "" && fi.Hint != "") = true := hflag
    have hrun : bindFlags ((s.cmds cmd).Static cmd) s.mem fis
        = (match flagFor fi with
            | none => .ret (some "unhandled type") (c1, storeDefaults s.mem before)
            | some flag =>
              match c1.addFlag flag with
              | .error msg => .panic msg
              | .ok bound =>
                bindFlags bound ((storeDefaults s.mem before).store flag.ptr flag.defaultValue)
                  after) := by
      rw [hsplit, e1, bindFlags, hflag2]
      simp only [if_true]
    refine ⟨?_, ?_, ?_⟩
    · intro hp
      simp only [DefaultRegistrationHandler, hin, hrun, flagFor_none fi hp]
    · intro hp hmem
      obtain ⟨flag, hf, hname, _, _, _⟩ := flagFor_some fi hp
      have hany : c1.flags.any (fun g => g.name == fi.LFlag) = true := by
        rw [any_name_iff, hnames]
        exact hmem
      simp only [DefaultRegistrationHandler, hin, hrun, hf, CobraCommand.addFlag, hname, hany,
        if_true]
    · intro hp hnot hone hmem
      obtain ⟨flag, hf, hname, _, hshort, _⟩ := flagFor_some fi hp
      have hone2 : (fi.SFlag.utf8ByteSize == 1) = true := by simpa using hone
      rw [hone2] at hshort
      simp only [if_true] at hshort
      have hany : c1.flags.any (fun g => g.name == fi.LFlag) = false := by
        rw [Bool.eq_false_iff]
        intro hx
        rw [any_name_iff, hnames] at hx
        exact hnot hx
      have hany2 : c1.flags.any (fun g => g.shorthand == some fi.SFlag) = true := by
        rw [any_shorthand_iff, hshorts]
        exact hmem
      simp only [DefaultRegistrationHandler, hin, hrun, hf, CobraCommand.addFlag, hname, hany,
        Bool.false_eq_true, if_false, hshort, hany2, if_true]
  · intro err s1 commander herr hf hk hg
    rw [Register_default h cmd parentCmd s commander _ hf hk hg]
    have hcall : callRegisterFunc h .DefaultRegistrationHandler parentCmd cmd s
        = .ret (some err) s1 := herr
    rw [hcall]
    rfl

/-- Witness of amended C11.  In the boolean-flag record the text field `Name`
binds cleanly and the boolean `Verbose` carries both tags: registration returns
`unhandled type` after storing the flag default in `Name`.  The same happens
for a flagged field of a defined type of kind string, whose earlier field held
`x`; and two text fields with the long flag `name` make the registration
panic before the flagged boolean is reached. -/
theorem DefaultRegistrationHandler_fails_witness :
    DefaultRegistrationHandler 0 1 boolFlagState
        = .ret (some "unhandled type")
            { boolFlagState with
              mem := storeDefaults boolFlagState.mem
                [(infosFrom 0 0 (eligibleLeaves boolFlagRecord)).get ⟨0, by decide⟩] }
      ∧ (match DefaultRegistrationHandler 0 1 definedTypeState with
          | .ret e s1 => (e, s1.mem.load { addr := 0, path := [0] })
          | .panic _ => (none, none)) = (some "unhandled type", some (.string ""))
      ∧ DefaultRegistrationHandler 0 1 clashState = .panic (flagRedefined "name") := by
  refine ⟨?_, rfl, rfl⟩
  refine ((DefaultRegistrationHandler_fails sampleHost 0 1 boolFlagState).2.2.2.1
    (infosFrom 0 0 (eligibleLeaves boolFlagRecord))
    [(infosFrom 0 0 (eligibleLeaves boolFlagRecord)).get ⟨0, by decide⟩]
    ((infosFrom 0 0 (eligibleLeaves boolFlagRecord)).get ⟨1, by decide⟩) [] rfl rfl ?_ rfl).1 rfl
  refine ⟨?_, ?_, ?_⟩
  · intro fi hfi _
    rw [List.mem_singleton] at hfi
    subst hfi
    rfl
  · decide
  · decide

/-! ## The error box: C16 -/

theorem foldl_append_length (l : List String) (acc : String) :
    (l.foldl (fun r s => r ++ s) acc).length = acc.length + (l.map String.length).sum := by
  induction l generalizing acc with
  | nil => simp
  | cons x xs ih =>
    rw [List.foldl_cons, ih, String.length_append, List.map_cons, List.sum_cons]
    omega

theorem stringsRepeat_length (count : Nat) : (stringsRepeat "*" count).length = count := by
  unfold stringsRepeat String.join
  rw [foldl_append_length]
  have h1 : ("*" : String).length = 1 := by decide
  have h0 : ("" : String).length = 0 := by decide
  simp [h1, h0]

theorem errorBorderBot_length (err : String) :
    (errorBorderBot err).length = max minErrWidth err.utf8ByteSize := by
  unfold errorBorderBot
  rw [stringsRepeat_length]
  unfold errStringWidth
  split <;> omega

theorem errorBorderTop_length (err : String) :
    (errorBorderTop err).length = 2 * ((max minErrWidth err.utf8ByteSize - 7) / 2) + 7 := by
  have hw : errStringWidth err = max minErrWidth err.utf8ByteSize := by
    unfold errStringWidth
    split <;> omega
  unfold errorBorderTop
  simp only [String.length_append, stringsRepeat_length, hw]
  have h1 : (" " : String).length = 1 := by decide
  have h2 : errTitle.length = 5 := by decide
  rw [h1, h2]
  omega

theorem shellPrintError_lines (c : ShellContext) (err : String) :
    (shellPrintError c err).output
      = c.output ++ [errorBorderTop err ++ "\n", err ++ "\n", errorBorderBot err ++ "\n"] := by
  simp [shellPrintError, ShellContext.Println, ShellContext.Print]

/-- C16, amended: for every message `shellPrintError` prints three lines, the top
border, the message and the bottom border.  The bottom border is
`max(37, len(message))` asterisks.  The top border is the title ` error `
between two runs of `(max(37, len(message)) - 7) / 2` asterisks each, so it is
`max(37, len(message))` wide when that width is odd and one character shorter
when it is even; in particular both borders are 37 wide for every message of at
most 37 bytes.  For `errorInvalidOption`, the one message the package passes to
the function, the box is 37 wide throughout. -/
theorem shellPrintError_box (c : ShellContext) (err : String) :
    (shellPrintError c err).output
        = c.output ++ [errorBorderTop err ++ "\n", err ++ "\n", errorBorderBot err ++ "\n"]
      ∧ errorBorderBot err = stringsRepeat "*" (max minErrWidth err.utf8ByteSize)
      ∧ errorBorderTop err
          = stringsRepeat "*" ((max minErrWidth err.utf8ByteSize - 7) / 2) ++ " error "
              ++ stringsRepeat "*" ((max minErrWidth err.utf8ByteSize - 7) / 2)
      ∧ (errorBorderBot err).length = max minErrWidth err.utf8ByteSize
      ∧ (errorBorderTop err).length
          = max minErrWidth err.utf8ByteSize - (max minErrWidth err.utf8ByteSize + 1) % 2
      ∧ (if err.utf8ByteSize ≤ 37 then
            (errorBorderTop err).length = 37 ∧ (errorBorderBot err).length = 37
          else True)
      ∧ (shellPrintError c errorInvalidOption).output
          = c.output ++ ["*************** error ***************\n",
              "Invalid option, try again\n",
              "*************************************\n"] := by
  have hw : errStringWidth err = max minErrWidth err.utf8ByteSize := by
    unfold errStringWidth
    split <;> omega
  have hmin : minErrWidth = 37 := rfl
  refine ⟨shellPrintError_lines c err, ?_, ?_, errorBorderBot_length err, ?_, ?_, ?_⟩
  · unfold errorBorderBot
    rw [hw]
  · unfold errorBorderTop
    rw [hw]
    have ht : errTitle = "error" := rfl
    rw [ht]
    simp only [String.append_assoc]
    rfl
  · rw [errorBorderTop_length]
    omega
  · split
    · rw [errorBorderTop_length, errorBorderBot_length]
      omega
    · trivial
  · rw [shellPrintError_lines]
    rfl

/-- C16 refuted as stated for every message: for a message of 38 bytes the
bottom border is 38 characters wide and the top border 37, so the two borders
differ in width; for the message the package itself prints (25 bytes) both are
37 wide. -/
theorem shellPrintError_borders_differ :
    longMessage.utf8ByteSize = 38
      ∧ (shellPrintError { input := [], output := [] } longMessage).output
          = ["*************** error ***************\n",
             "12345678901234567890123456789012345678\n",
             "**************************************\n"]
      ∧ (errorBorderTop longMessage).length = 37
      ∧ (errorBorderBot longMessage).length = 38
      ∧ (errorBorderTop errorInvalidOption).length = 37
      ∧ (errorBorderBot errorInvalidOption).length = 37 := by
  refine ⟨by decide, by decide, by decide, by decide, by decide, by decide⟩

/-! ## Required and optional fields: C20 -/

theorem infosFrom_FieldInfos (addr : Addr) (xs : List Leaf) (start : Nat) :
    ∀ f ∈ infosFrom addr start xs, f.FieldInfos = [] := by
  intro f hf
  obtain ⟨l, _, idx, rfl⟩ := mem_infosFrom addr xs start f hf
  rfl

theorem splitRequiredField_flat (fi : FieldInfo) (h : fi.FieldInfos = []) :
    splitRequiredField fi = (if fi.Required then ([fi], []) else ([], [fi])) := by
  cases fi with
  | mk index required zero ns name hint sFlag lFlag typ tags field fieldPtr value fieldInfos =>
    simp only at h
    subst h
    simp [splitRequiredField]

theorem splitRequiredFields_flat (fis : List FieldInfo) (h : ∀ f ∈ fis, f.FieldInfos = []) :
    splitRequiredFields fis
      = (fis.filter (fun f => f.Required), fis.filter (fun f => !f.Required)) := by
  induction fis with
  | nil => rfl
  | cons fi rest ih =>
    rw [splitRequiredFields, ih (fun f hf => h f (List.mem_cons_of_mem _ hf)),
      splitRequiredField_flat fi (h fi (List.mem_cons_self _ _))]
    cases hr : fi.Required <;> simp [List.filter_cons, hr]

theorem collectShellValue_output {W : Type} (c c1 : ShellContext) (fi : FieldInfo)
    (s s1 : State W) (e : Option String)
    (hr : collectShellValue c fi s = .ret (e, c1) s1) :
    c1.output = c.output ++ [fi.Name ++ ":"] ∧ c.input = (c.input.head?.getD "") :: c1.input
      ∧ s1.trace = s.trace ∧ s1.cmds = s.cmds ∧ s1.cmdrs = s.cmdrs := by
  unfold collectShellValue at hr
  cases hin : c.input with
  | nil => simp [ShellContext.Print, hin] at hr
  | cons line rest =>
    simp only [ShellContext.Print, hin] at hr
    split at hr
    · simp only [Run.ret.injEq, Prod.mk.injEq] at hr
      obtain ⟨⟨_, rfl⟩, rfl⟩ := hr
      exact ⟨rfl, rfl, rfl, rfl, rfl⟩
    · split at hr
      · simp only [Run.ret.injEq, Prod.mk.injEq] at hr
        obtain ⟨⟨_, rfl⟩, rfl⟩ := hr
        exact ⟨rfl, rfl, rfl, rfl, rfl⟩
      · split at hr
        · simp only [Run.ret.injEq, Prod.mk.injEq] at hr
          obtain ⟨⟨_, rfl⟩, rfl⟩ := hr
          exact ⟨rfl, rfl, rfl, rfl, rfl⟩
        · simp only [Run.ret.injEq, Prod.mk.injEq] at hr
          obtain ⟨⟨_, rfl⟩, rfl⟩ := hr
          exact ⟨rfl, rfl, rfl, rfl, rfl⟩
    · simp only [Run.ret.injEq, Prod.mk.injEq] at hr
      obtain ⟨⟨_, rfl⟩, rfl⟩ := hr
      exact ⟨rfl, rfl, rfl, rfl, rfl⟩

theorem collectRequired_output {W : Type} (required : List FieldInfo) :
    ∀ (c c1 : ShellContext) (s s1 : State W) (e : Option String),
      collectRequired required c s = .ret (e, c1) s1 →
      ∃ n, n ≤ required.length
        ∧ c1.output = c.output ++ (required.take n).map (fun fi => fi.Name ++ ":")
        ∧ (e = none → n = required.length)
        ∧ s1.trace = s.trace ∧ s1.cmds = s.cmds ∧ s1.cmdrs = s.cmdrs := by
  induction required with
  | nil =>
    intro c c1 s s1 e hr
    simp only [collectRequired, Run.ret.injEq, Prod.mk.injEq] at hr
    obtain ⟨⟨_, rfl⟩, rfl⟩ := hr
    exact ⟨0, le_refl _, by simp, fun _ => rfl, rfl, rfl, rfl⟩
  | cons fi rest ih =>
    intro c c1 s s1 e hr
    rw [collectRequired] at hr
    cases hc : collectShellValue c fi s with
    | panic msg => rw [hc] at hr; cases hr
    | ret r s2 =>
      obtain ⟨e2, c2⟩ := r
      rw [hc] at hr
      obtain ⟨ho, _, ht, hcm, hcr⟩ := collectShellValue_output c c2 fi s s2 e2 hc
      cases e2 with
      | some err =>
        simp only [Run.ret.injEq, Prod.mk.injEq] at hr
        obtain ⟨⟨rfl, rfl⟩, rfl⟩ := hr
        exact ⟨1, by simp, by simp [ho], fun hn => (by cases hn), ht, hcm, hcr⟩
      | none =>
        simp only at hr
        obtain ⟨n, hn, hout, hall, ht2, hcm2, hcr2⟩ := ih c2 c1 s2 s1 e hr
        refine ⟨n + 1, (by simp; omega), ?_, fun he => (by rw [hall he]; rfl), ?_, ?_, ?_⟩
        · rw [hout, ho]; simp
        · rw [ht2, ht]
        · rw [hcm2, hcm]
        · rw [hcr2, hcr]

theorem shellPrintError_output (c : ShellContext) (err : String) :
    ∃ rest, (shellPrintError c err).output = c.output ++ rest :=
  ⟨_, shellPrintError_lines c err⟩

theorem presentLoop_output (fis : List FieldInfo) :
    ∀ (input out : List String) (n : Int) (c1 : ShellContext),
      presentLoop fis input out = some (n, c1) → ∃ rest, c1.output = out ++ rest := by
  intro input
  induction input with
  | nil => intro out n c1 hr; simp [presentLoop] at hr
  | cons line lines ih =>
    intro out n c1 hr
    rw [presentLoop] at hr
    simp only at hr
    have hmenu : ∀ (c : ShellContext), ∃ rest, (c.showMenu fis).output = c.output ++ rest := by
      intro c
      exact ⟨_, by simp only [ShellContext.showMenu, List.append_assoc]; rfl⟩
    have hretry : ∀ n c1, presentLoop fis lines
        (shellPrintError (({ input := lines, output := out } : ShellContext).showMenu fis)
          errorInvalidOption).output = some (n, c1) → ∃ rest, c1.output = out ++ rest := by
      intro n c1 h1
      obtain ⟨r1, e1⟩ := ih _ n c1 h1
      obtain ⟨r2, e2⟩ := shellPrintError_output
        (({ input := lines, output := out } : ShellContext).showMenu fis) errorInvalidOption
      obtain ⟨r3, e3⟩ := hmenu { input := lines, output := out }
      exact ⟨r3 ++ r2 ++ r1, by rw [e1, e2, e3]; simp⟩
    split at hr
    · exact hretry n c1 hr
    · split at hr
      · simp only [Option.some.injEq, Prod.mk.injEq] at hr
        obtain ⟨_, rfl⟩ := hr
        exact hmenu _
      · split at hr
        · exact hretry n c1 hr
        · simp only [Option.some.injEq, Prod.mk.injEq] at hr
          obtain ⟨_, rfl⟩ := hr
          exact hmenu _

theorem presentOptions_output (c c1 : ShellContext) (fis : List FieldInfo) (n : Int)
    (hr : presentOptions c fis = some (n, c1)) : ∃ rest, c1.output = c.output ++ rest := by
  unfold presentOptions at hr
  split at hr
  · exact presentLoop_output fis c.input c.output n c1 hr
  · simp only [Option.some.injEq, Prod.mk.injEq] at hr
    obtain ⟨_, rfl⟩ := hr
    exact ⟨[], by simp⟩

theorem optionalLoop_output {W : Type} (optional : List FieldInfo) (fuel : Nat) :
    ∀ (c c1 : ShellContext) (s s1 : State W) (e : Option String),
      optionalLoop optional fuel c s = .ret (e, c1) s1 →
      (∃ rest, c1.output = c.output ++ rest)
        ∧ s1.trace = s.trace ∧ s1.cmds = s.cmds ∧ s1.cmdrs = s.cmdrs := by
  induction fuel with
  | zero => intro c c1 s s1 e hr; simp [optionalLoop] at hr
  | succ fuel ih =>
    intro c c1 s s1 e hr
    rw [optionalLoop] at hr
    cases hp : presentOptions c optional with
    | none => rw [hp] at hr; cases hr
    | some r =>
      obtain ⟨selected, c2⟩ := r
      rw [hp] at hr
      simp only at hr
      obtain ⟨r1, e1⟩ := presentOptions_output c c2 optional selected hp
      split at hr
      · cases hg : optional[selected.toNat]? with
        | none => rw [hg] at hr; cases hr
        | some fi =>
          rw [hg] at hr
          simp only at hr
          cases hc : collectShellValue c2 fi s with
          | panic msg => rw [hc] at hr; cases hr
          | ret r2 s2 =>
            obtain ⟨e2, c3⟩ := r2
            rw [hc] at hr
            obtain ⟨ho, _, ht, hcm, hcr⟩ := collectShellValue_output c2 c3 fi s s2 e2 hc
            cases e2 with
            | some err =>
              simp only [Run.ret.injEq, Prod.mk.injEq] at hr
              obtain ⟨⟨_, rfl⟩, rfl⟩ := hr
              exact ⟨⟨r1 ++ [fi.Name ++ ":"], by rw [ho, e1]; simp⟩, ht, hcm, hcr⟩
            | none =>
              simp only at hr
              obtain ⟨⟨r3, e3⟩, ht3, hcm3, hcr3⟩ := ih c3 c1 s2 s1 e hr
              exact ⟨⟨r1 ++ [fi.Name ++ ":"] ++ r3, by rw [e3, ho, e1]; simp⟩,
                by rw [ht3, ht], by rw [hcm3, hcm], by rw [hcr3, hcr]⟩
      · simp only [Run.ret.injEq, Prod.mk.injEq] at hr
        obtain ⟨⟨_, rfl⟩, rfl⟩ := hr
        exact ⟨⟨r1, e1⟩, rfl, rfl, rfl⟩

theorem dispatchShell_context {W : Type} (h : Runtime W) (command : CmdPtr)
    (c c1 : ShellContext) (s s1 : State W) (e : Option String)
    (hr : dispatchShell h command c s = .ret (e, c1) s1) : c1 = c := by
  unfold dispatchShell at hr
  split at hr
  · cases hr
  · simp only [Run.ret.injEq, Prod.mk.injEq] at hr
    exact hr.1.2.symm
  · split at hr
    · cases hr
    · simp only [Run.ret.injEq, Prod.mk.injEq] at hr
      exact hr.1.2.symm


/-! ## Invariants of the registry: C17 and C18 -/

theorem CommandMap.mem_set (m : CommandMap) (name : String) (cmd : CmdPtr)
    (e : String × CmdPtr) (h : e ∈ m.set name cmd) : e = (name, cmd) ∨ e ∈ m := by
  rw [CommandMap.set, List.mem_cons] at h
  rcases h with h | h
  · exact Or.inl h
  · exact Or.inr (List.mem_filter.mp h).1

theorem adopt_cmds_same {W : Type} (k : CmdrPtr) (cmd : CmdPtr) (s : State W) :
    ((adopt k cmd s).cmds cmd).Commander = some k := by
  simp [adopt, State.modifyCommander]

theorem adopt_cmds_other {W : Type} (k : CmdrPtr) (cmd q : CmdPtr) (s : State W) (hq : q ≠ cmd) :
    (adopt k cmd s).cmds q = s.cmds q := by
  simp [adopt, State.modifyCommander, Function.update_noteq hq]

theorem adopt_cmdrs_other {W : Type} (k j : CmdrPtr) (cmd : CmdPtr) (s : State W) (hj : j ≠ k) :
    (adopt k cmd s).cmdrs j = s.cmdrs j := by
  simp [adopt, State.modifyCommander, Function.update_noteq hj]

theorem adopt_commands {W : Type} (k : CmdrPtr) (cmd : CmdPtr) (s : State W) :
    ((adopt k cmd s).cmdrs k).commands = (s.cmdrs k).commands.set (s.cmds cmd).Name cmd := by
  simp [adopt, State.modifyCommander]

theorem adopt_errorHandler {W : Type} (k j : CmdrPtr) (cmd : CmdPtr) (s : State W) :
    ((adopt k cmd s).cmdrs j).errorHandler = (s.cmdrs j).errorHandler := by
  by_cases hj : j = k
  · subst hj; simp [adopt, State.modifyCommander]
  · rw [adopt_cmdrs_other k j cmd s hj]

theorem adopt_nextCmdr {W : Type} (k : CmdrPtr) (cmd : CmdPtr) (s : State W) :
    (adopt k cmd s).nextCmdr = s.nextCmdr := rfl

theorem Register_nextCmdr {W : Type} (h : Host W) (c : CmdPtr) (rootCmd : CobraPtr)
    (s s1 : State W) (e : Option String) (hr : Register h c rootCmd s = .ret e s1) :
    s1.nextCmdr = s.nextCmdr := by
  have key : ∀ (format : String) (f : RegisterFunc),
      wrapRun format (callRegisterFunc h f rootCmd c s) = .ret e s1 →
      s1.nextCmdr = s.nextCmdr := by
    intro format f hw
    obtain ⟨e0, h0, _⟩ := wrapRun_ret format _ e s1 hw
    exact (callRegisterFunc_frame h f rootCmd c s s1 e0 h0).2.2.2
  cases hf : (s.cmds c).RegisterFunc with
  | some f =>
    rw [Register_own h c rootCmd s f hf] at hr
    exact key _ f hr
  | none =>
    cases hk : (s.cmds c).Commander with
    | none => simp [Register, hf, hk] at hr
    | some k =>
      cases hg : (s.cmdrs k).registrationHandler with
      | none =>
        simp only [Register, hf, hk, RegistrationHandler, hg, Run.ret.injEq] at hr
        rw [← hr.2]
      | some g =>
        rw [Register_default h c rootCmd s k g hf hk hg] at hr
        exact key _ g hr

theorem Add_frame {W : Type} (h : Host W) (k : CmdrPtr) (cmds : List CmdPtr) :
    ∀ (s s1 : State W) (e : Option String), Add h k cmds s = .ret e s1 →
      s1.nextCmdr = s.nextCmdr
        ∧ ∀ j, (s1.cmdrs j).errorHandler = (s.cmdrs j).errorHandler := by
  induction cmds with
  | nil =>
    intro s s1 e hr
    simp only [Add, Run.ret.injEq] at hr
    rw [← hr.2]
    exact ⟨rfl, fun _ => rfl⟩
  | cons cmd rest ih =>
    intro s s1 e hr
    rw [Add] at hr
    cases hR : Register h cmd ((adopt k cmd s).cmdrs k).rootCmd (adopt k cmd s) with
    | panic msg => rw [hR] at hr; cases hr
    | ret e3 s3 =>
      rw [hR] at hr
      obtain ⟨_, hk3⟩ := Register_frame h cmd _ _ s3 e3 hR
      have hn3 := Register_nextCmdr h cmd _ _ s3 e3 hR
      have base : s3.nextCmdr = s.nextCmdr
          ∧ ∀ j, (s3.cmdrs j).errorHandler = (s.cmdrs j).errorHandler :=
        ⟨by rw [hn3, adopt_nextCmdr], fun j => by rw [hk3, adopt_errorHandler]⟩
      cases e3 with
      | some err =>
        simp only [Run.ret.injEq] at hr
        rw [← hr.2]
        exact base
      | none =>
        simp only at hr
        obtain ⟨i1, i2⟩ := ih s3 s1 e hr
        exact ⟨by rw [i1, base.1], fun j => by rw [i2 j, base.2 j]⟩

theorem Add_backReferences {W : Type} (h : Host W) (k : CmdrPtr) (cmds : List CmdPtr) :
    ∀ (s s1 : State W) (e : Option String), backReferencesAgree s →
      (∀ cmd ∈ cmds, (s.cmds cmd).Commander = none ∨ (s.cmds cmd).Commander = some k) →
      Add h k cmds s = .ret e s1 → backReferencesAgree s1 := by
  induction cmds with
  | nil =>
    intro s s1 e hinv _ hr
    simp only [Add, Run.ret.injEq] at hr
    rw [← hr.2]
    exact hinv
  | cons cmd rest ih =>
    intro s s1 e hinv hside hr
    rw [Add] at hr
    have hinv2 : backReferencesAgree (adopt k cmd s) := by
      intro j name q hmem
      by_cases hj : j = k
      · subst hj
        rw [adopt_commands] at hmem
        by_cases hq : q = cmd
        · subst hq; exact adopt_cmds_same j q s
        · rw [adopt_cmds_other j cmd q s hq]
          rcases CommandMap.mem_set _ _ _ _ hmem with e1 | e1
          · exact absurd (Prod.mk.inj e1).2 hq
          · exact hinv j name q e1
      · rw [adopt_cmdrs_other k j cmd s hj] at hmem
        have hq : q ≠ cmd := by
          intro e1
          subst e1
          have h1 := hinv j name q hmem
          rcases hside q (List.mem_cons_self _ _) with h2 | h2
          · rw [h2] at h1; cases h1
          · rw [h2] at h1; exact hj (Option.some.inj h1).symm
        rw [adopt_cmds_other k cmd q s hq]
        exact hinv j name q hmem
    have hside2 : ∀ q ∈ rest, ((adopt k cmd s).cmds q).Commander = none
        ∨ ((adopt k cmd s).cmds q).Commander = some k := by
      intro q hq
      by_cases e1 : q = cmd
      · subst e1; exact Or.inr (adopt_cmds_same k q s)
      · rw [adopt_cmds_other k cmd q s e1]
        exact hside q (List.mem_cons_of_mem _ hq)
    cases hR : Register h cmd ((adopt k cmd s).cmdrs k).rootCmd (adopt k cmd s) with
    | panic msg => rw [hR] at hr; cases hr
    | ret e3 s3 =>
      rw [hR] at hr
      obtain ⟨hc3, hk3⟩ := Register_frame h cmd _ _ s3 e3 hR
      have hinv3 : backReferencesAgree s3 := by
        intro j name q hmem
        rw [hk3] at hmem
        rw [hc3]
        exact hinv2 j name q hmem
      cases e3 with
      | some err =>
        simp only [Run.ret.injEq] at hr
        rw [← hr.2]
        exact hinv3
      | none =>
        simp only at hr
        exact ih s3 s1 e hinv3 (fun q hq => by rw [hc3]; exact hside2 q hq) hr

theorem modifyCommander_backReferences {W : Type} (s : State W) (k : CmdrPtr)
    (f : Commander → Commander) (hf : ∀ x, (f x).commands = x.commands)
    (hinv : backReferencesAgree s) : backReferencesAgree (s.modifyCommander k f) := by
  intro j name q hmem
  rw [modifyCommander_cmds]
  by_cases hj : j = k
  · subst hj
    rw [modifyCommander_same, hf] at hmem
    exact hinv j name q hmem
  · rw [modifyCommander_other s k j f hj] at hmem
    exact hinv j name q hmem

theorem NewCommander_backReferences {W : Type} (root : CobraPtr) (s : State W)
    (hinv : backReferencesAgree s) : backReferencesAgree (NewCommander root s).2 := by
  intro j name q hmem
  show (s.cmds q).Commander = some j
  by_cases hj : j = s.nextCmdr
  · subst hj
    simp [NewCommander] at hmem
  · have e1 : (NewCommander root s).2.cmdrs j = s.cmdrs j := by
      simp [NewCommander, Function.update_noteq hj]
    rw [e1] at hmem
    exact hinv j name q hmem

theorem opRun_backReferences {W : Type} (h : Host W) (op : Op) (s s1 : State W)
    (hinv : backReferencesAgree s) (hside : op.addsUnattached s = true)
    (hr : op.run h s = some s1) : backReferencesAgree s1 := by
  cases op with
  | NewCommander root =>
    simp only [Op.run, Option.some.injEq] at hr
    rw [← hr]
    exact NewCommander_backReferences root s hinv
  | Add c cmds =>
    simp only [Op.run] at hr
    cases hA : Combi.Add h c cmds s with
    | panic msg => rw [hA] at hr; cases hr
    | ret e s2 =>
      rw [hA] at hr
      simp only [Option.some.injEq] at hr
      rw [← hr]
      refine Add_backReferences h c cmds s s2 e hinv ?_ hA
      intro cmd hcmd
      simp only [Op.addsUnattached, List.all_eq_true, Bool.or_eq_true, beq_iff_eq] at hside
      exact hside cmd hcmd
  | SetErrorHandler c eh =>
    simp only [Op.run, Option.some.injEq] at hr
    rw [← hr]
    exact modifyCommander_backReferences s c _ (fun _ => rfl) hinv
  | SetDefaultRegistrationHandler c rh =>
    simp only [Op.run, Option.some.injEq] at hr
    rw [← hr]
    exact modifyCommander_backReferences s c _ (fun _ => rfl) hinv
  | SetDefaultShellExec c se =>
    simp only [Op.run, Option.some.injEq] at hr
    rw [← hr]
    exact modifyCommander_backReferences s c _ (fun _ => rfl) hinv
  | SetDefaultStaticExec c se =>
    simp only [Op.run, Option.some.injEq] at hr
    rw [← hr]
    exact modifyCommander_backReferences s c _ (fun _ => rfl) hinv
  | SetDefaultRequestHandler c rh =>
    simp only [Op.run, Option.some.injEq] at hr
    rw [← hr]
    exact modifyCommander_backReferences s c _ (fun _ => rfl) hinv
  | SetDefaultResponseHandler c rh =>
    simp only [Op.run, Option.some.injEq] at hr
    rw [← hr]
    exact modifyCommander_backReferences s c _ (fun _ => rfl) hinv
  | AddPreRequestHooks c hooks =>
    simp only [Op.run, Option.some.injEq] at hr
    rw [← hr]
    exact modifyCommander_backReferences s c _ (fun _ => rfl) hinv
  | AddPostRequestHooks c hooks =>
    simp only [Op.run, Option.some.injEq] at hr
    rw [← hr]
    exact modifyCommander_backReferences s c _ (fun _ => rfl) hinv

theorem runOps_backReferences {W : Type} (h : Host W) (ops : List Op) :
    ∀ (s s1 : State W), backReferencesAgree s → addsUnattached h ops s = true →
      runOps h ops s = some s1 → backReferencesAgree s1 := by
  induction ops with
  | nil =>
    intro s s1 hinv _ hr
    simp only [runOps, Option.some.injEq] at hr
    rw [← hr]
    exact hinv
  | cons op ops ih =>
    intro s s1 hinv hside hr
    rw [runOps] at hr
    rw [addsUnattached, Bool.and_eq_true] at hside
    cases hop : op.run h s with
    | none => rw [hop] at hr; cases hr
    | some s2 =>
      rw [hop] at hr
      have h2 := hside.2
      rw [hop] at h2
      exact ih s2 s1 (opRun_backReferences h op s s2 hinv hside.1 hop) h2 hr

/-- C17, as stated, fails: after command 0 of the sample state is added to a
first new commander (5) and then to a second one (6), it is still stored in the
map of commander 5 while its back-reference is commander 6: it is registered in
two commanders at once. -/
theorem Add_twice_breaks_back_reference :
    ∃ s, runOps sampleHost [.NewCommander 0, .NewCommander 0, .Add 5 [0], .Add 6 [0]] sampleState
        = some s
      ∧ (s.cmdrs 5).commands = [("list", 0)]
      ∧ (s.cmdrs 6).commands = [("list", 0)]
      ∧ (s.cmds 0).Commander = some 6 :=
  ⟨_, rfl, rfl, rfl, rfl⟩

/-- C17, amended: in every state reached from a start with no command
registered, through `NewCommander`, the public setters and `Add` calls that add
only commands not attached to another commander (back-reference nil or the
commander added to), every command stored in a commander's map has that
commander as its back-reference, so no command is stored in the maps of two
commanders. -/
theorem back_references_agree {W : Type} (h : Host W) (ops : List Op) (s0 s : State W)
    (hstart : ∀ c, (s0.cmdrs c).commands = [])
    (hadds : addsUnattached h ops s0 = true)
    (hrun : runOps h ops s0 = some s) :
    backReferencesAgree s
      ∧ ∀ (c1 c2 : CmdrPtr) (n1 n2 : String) (cmd : CmdPtr),
          (n1, cmd) ∈ (s.cmdrs c1).commands → (n2, cmd) ∈ (s.cmdrs c2).commands → c1 = c2 := by
  have hinv0 : backReferencesAgree s0 := by
    intro c name cmd hmem
    rw [hstart c] at hmem
    cases hmem
  have hinv := runOps_backReferences h ops s0 s hinv0 hadds hrun
  refine ⟨hinv, ?_⟩
  intro c1 c2 n1 n2 cmd h1 h2
  have e1 := hinv c1 n1 cmd h1
  have e2 := hinv c2 n2 cmd h2
  rw [e1] at e2
  exact Option.some.inj e2

/-- Witness of amended C17: a commander (5) is created in the sample state, where
no command is registered yet, and command 2, whose back-reference already names
commander 5, is added to it. -/
theorem back_references_agree_witness :
    ∃ s, runOps sampleHost [.NewCommander 0, .Add 5 [2], .SetErrorHandler 5 (some (.host 1))]
          sampleState = some s
      ∧ (s.cmdrs 5).commands = [("list", 2)]
      ∧ backReferencesAgree s := by
  refine ⟨_, rfl, rfl, ?_⟩
  refine (back_references_agree sampleHost
    [.NewCommander 0, .Add 5 [2], .SetErrorHandler 5 (some (.host 1))]
    sampleState _ ?_ rfl rfl).1
  intro c
  by_cases hc : c = 0
  · subst hc; rfl
  · simp [sampleState, hc, blankCommander]

/-- C18, as stated, fails: `SetErrorHandler` with a nil handler leaves a
commander created by `NewCommander` without an error handler, and `HandleError`
then calls a nil function. -/
theorem SetErrorHandler_nil_removes_handler :
    ∃ s, runOps sampleHost [.NewCommander 0, .SetErrorHandler 5 none] sampleState = some s
      ∧ (s.cmdrs 5).errorHandler = none
      ∧ HandleError sampleRuntime 5 "failed" s = .panic nilDereference :=
  ⟨_, rfl, rfl, rfl⟩

theorem opRun_errorHandler {W : Type} (h : Host W) (op : Op) (s s1 : State W) (start : CmdrPtr)
    (hkeep : op.keepsErrorHandler = true) (hr : op.run h s = some s1)
    (hn : start ≤ s.nextCmdr)
    (hinv : ∀ c, start ≤ c → c < s.nextCmdr → ∃ f, (s.cmdrs c).errorHandler = some f) :
    start ≤ s1.nextCmdr
      ∧ ∀ c, start ≤ c → c < s1.nextCmdr → ∃ f, (s1.cmdrs c).errorHandler = some f := by
  have setter : ∀ (k : CmdrPtr) (f : Commander → Commander),
      s1 = s.modifyCommander k f → (∀ x, (f x).errorHandler = x.errorHandler) →
      start ≤ s1.nextCmdr
        ∧ ∀ c, start ≤ c → c < s1.nextCmdr → ∃ g, (s1.cmdrs c).errorHandler = some g := by
    intro k f e1 hf
    subst e1
    refine ⟨hn, fun c h1 h2 => ?_⟩
    by_cases hc : c = k
    · subst hc
      rw [modifyCommander_same, hf]
      exact hinv c h1 h2
    · rw [modifyCommander_other s k c f hc]
      exact hinv c h1 h2
  cases op with
  | NewCommander root =>
    simp only [Op.run, Option.some.injEq] at hr
    subst hr
    refine ⟨Nat.le_succ_of_le hn, fun c h1 h2 => ?_⟩
    by_cases hc : c = s.nextCmdr
    · subst hc
      exact ⟨.DefaultErrorHandler, by simp [NewCommander]⟩
    · have e1 : (NewCommander root s).2.cmdrs c = s.cmdrs c := by
        simp [NewCommander, Function.update_noteq hc]
      rw [e1]
      have h3 : c < s.nextCmdr + 1 := h2
      exact hinv c h1 (Nat.lt_of_le_of_ne (Nat.lt_succ_iff.mp h3) hc)
  | Add c cmds =>
    simp only [Op.run] at hr
    cases hA : Combi.Add h c cmds s with
    | panic msg => rw [hA] at hr; cases hr
    | ret e s2 =>
      rw [hA] at hr
      simp only [Option.some.injEq] at hr
      subst hr
      obtain ⟨f1, f2⟩ := Add_frame h c cmds s s2 e hA
      refine ⟨by rw [f1]; exact hn, fun j h1 h2 => ?_⟩
      rw [f2 j]
      rw [f1] at h2
      exact hinv j h1 h2
  | SetErrorHandler c eh =>
    simp only [Op.run, Option.some.injEq] at hr
    subst hr
    cases eh with
    | none => simp [Op.keepsErrorHandler] at hkeep
    | some f =>
      refine ⟨hn, fun j h1 h2 => ?_⟩
      by_cases hj : j = c
      · subst hj
        exact ⟨f, by rw [SetErrorHandler, modifyCommander_same]⟩
      · rw [SetErrorHandler, modifyCommander_other s c j _ hj]
        exact hinv j h1 h2
  | SetDefaultRegistrationHandler c rh =>
    simp only [Op.run, Option.some.injEq] at hr
    exact setter c _ hr.symm (fun _ => rfl)
  | SetDefaultShellExec c se =>
    simp only [Op.run, Option.some.injEq] at hr
    exact setter c _ hr.symm (fun _ => rfl)
  | SetDefaultStaticExec c se =>
    simp only [Op.run, Option.some.injEq] at hr
    exact setter c _ hr.symm (fun _ => rfl)
  | SetDefaultRequestHandler c rh =>
    simp only [Op.run, Option.some.injEq] at hr
    exact setter c _ hr.symm (fun _ => rfl)
  | SetDefaultResponseHandler c rh =>
    simp only [Op.run, Option.some.injEq] at hr
    exact setter c _ hr.symm (fun _ => rfl)
  | AddPreRequestHooks c hooks =>
    simp only [Op.run, Option.some.injEq] at hr
    exact setter c _ hr.symm (fun _ => rfl)
  | AddPostRequestHooks c hooks =>
    simp only [Op.run, Option.some.injEq] at hr
    exact setter c _ hr.symm (fun _ => rfl)

theorem runOps_errorHandler {W : Type} (h : Host W) (ops : List Op) (start : CmdrPtr) :
    ∀ (s s1 : State W), (∀ op ∈ ops, op.keepsErrorHandler = true) → runOps h ops s = some s1 →
      start ≤ s.nextCmdr →
      (∀ c, start ≤ c → c < s.nextCmdr → ∃ f, (s.cmdrs c).errorHandler = some f) →
      ∀ c, start ≤ c → c < s1.nextCmdr → ∃ f, (s1.cmdrs c).errorHandler = some f := by
  induction ops with
  | nil =>
    intro s s1 _ hr _ hinv
    simp only [runOps, Option.some.injEq] at hr
    rw [← hr]
    exact hinv
  | cons op ops ih =>
    intro s s1 hkeep hr hn hinv
    rw [runOps] at hr
    cases hop : op.run h s with
    | none => rw [hop] at hr; cases hr
    | some s2 =>
      rw [hop] at hr
      obtain ⟨hn2, hinv2⟩ := opRun_errorHandler h op s s2 start
        (hkeep op (List.mem_cons_self _ _)) hop hn hinv
      exact ih s2 s1 (fun o ho => hkeep o (List.mem_cons_of_mem _ ho)) hr hn2 hinv2

/-- C18, amended: in every state reached through the public operations, with
`SetErrorHandler` given a non-nil handler each time it is called, every
commander created by `NewCommander` has an error handler, so `HandleError` has a
handler to call. -/
theorem error_handler_present {W : Type} (h : Host W) (ops : List Op) (s0 s : State W)
    (c : CmdrPtr) (hkeep : ∀ op ∈ ops, op.keepsErrorHandler = true)
    (hrun : runOps h ops s0 = some s) (hnew : s0.nextCmdr ≤ c) (hmade : c < s.nextCmdr) :
    ∃ f, (s.cmdrs c).errorHandler = some f :=
  runOps_errorHandler h ops s0.nextCmdr s0 s hkeep hrun (le_refl _)
    (fun _ h1 h2 => absurd h2 (Nat.not_lt.mpr h1)) c hnew hmade

/-- Witness of amended C18: a commander is created in the sample state, given an
error handler of the host and a command. -/
theorem error_handler_present_witness :
    ∃ s, runOps sampleHost [.NewCommander 0, .SetErrorHandler 5 (some (.host 1)), .Add 5 [2]]
          sampleState = some s
      ∧ ∃ f, (s.cmdrs 5).errorHandler = some f := by
  refine ⟨_, rfl, ?_⟩
  exact error_handler_present sampleHost
    [.NewCommander 0, .SetErrorHandler 5 (some (.host 1)), .Add 5 [2]] sampleState _ 5
    (by decide) rfl (by decide) (by decide)

/-! ## The generic static handler: C13 -/

theorem callRequestHandler_frame {W : Type} (h : Host W) (f : RequestHandler) (req resp : Iface)
    (s : State W) :
    (callRequestHandler h f req resp s).2.cmds = s.cmds
      ∧ (callRequestHandler h f req resp s).2.cmdrs = s.cmdrs := by
  cases f with
  | host id => exact ⟨rfl, rfl⟩

theorem callResponseHandler_frame {W : Type} (h : Host W) (f : ResponseHandler) (resp : Iface)
    (s : State W) :
    (callResponseHandler h f resp s).2.cmds = s.cmds
      ∧ (callResponseHandler h f resp s).2.cmdrs = s.cmdrs := by
  cases f with
  | XMLPrettyPrintResponseHandler =>
    simp only [callResponseHandler, XMLPrettyPrintResponseHandler]
    split <;> exact ⟨rfl, rfl⟩
  | XMLCompactPrintResponseHandler =>
    simp only [callResponseHandler, XMLCompactPrintResponseHandler]
    split <;> exact ⟨rfl, rfl⟩
  | host id => exact ⟨rfl, rfl⟩

theorem HandleRequest_resolved {W : Type} (h : Host W) (c : CmdPtr) (req resp : Iface)
    (s : State W) (f : RequestHandler) (hf : resolvedRequestHandler s c = some f) :
    ∃ format, HandleRequest h c req resp s
      = wrapResult format (callRequestHandler h f req resp s) := by
  unfold resolvedRequestHandler at hf
  cases ho : (s.cmds c).RequestHandler with
  | some g =>
    rw [ho] at hf
    simp only [Option.some.injEq] at hf
    subst hf
    exact ⟨_, HandleRequest_own h c req resp s g ho⟩
  | none =>
    rw [ho] at hf
    cases hk : (s.cmds c).Commander with
    | none => rw [hk] at hf; cases hf
    | some k =>
      rw [hk] at hf
      exact ⟨_, HandleRequest_default h c req resp s k f ho hk hf⟩

theorem HandleResponse_resolved {W : Type} (h : Host W) (c : CmdPtr) (resp : Iface)
    (s : State W) (g : ResponseHandler) (hg : resolvedResponseHandler s c = some g) :
    ∃ format, HandleResponse h c resp s
      = wrapResult format (callResponseHandler h g resp s) := by
  unfold resolvedResponseHandler at hg
  cases ho : (s.cmds c).ResponseHandler with
  | some f =>
    rw [ho] at hg
    simp only [Option.some.injEq] at hg
    subst hg
    exact ⟨_, HandleResponse_own h c resp s f ho⟩
  | none =>
    rw [ho] at hg
    cases hk : (s.cmds c).Commander with
    | none => rw [hk] at hg; cases hg
    | some k =>
      rw [hk] at hg
      exact ⟨_, HandleResponse_default h c resp s k g ho hk hg⟩

theorem resolvedResponseHandler_congr {W : Type} (s s1 : State W) (c : CmdPtr)
    (h1 : s1.cmds = s.cmds) (h2 : s1.cmdrs = s.cmdrs) :
    resolvedResponseHandler s1 c = resolvedResponseHandler s c := by
  unfold resolvedResponseHandler
  rw [h1, h2]

/-- C13: `GenericStaticHandler` first validates the request.  When validation
fails it returns the validation error (the text `validation error: %s` followed
by the validator's message, formatted with no operand) and leaves the state as
it was: no handler is called.  Otherwise it calls the resolved request handler
(the command's own, else the commander's default) with the request and the
response of the command; with `r` what that function of the host program
returns: when `r` holds an error, the handler returns it behind the texts of
`GenericStaticHandler` and of the level, with the records and the outside world
as the request handler left them, and no response handler is called; when `r`
holds none, the resolved response handler is called with the response on the
state the request handler left, and what it returns (its error behind the text
of its level) is the result. -/
theorem GenericStaticHandler_flow {W : Type} (h : Runtime W) (c : CmdPtr) (args : List String)
    (s : State W) :
    (∀ err, h.validateStruct s.mem (s.cmds c).Request = some err →
        GenericStaticHandler h c args s
          = .ret (some (h.sprintf ("validation error: %s" ++ err))) s)
    ∧ (h.validateStruct s.mem (s.cmds c).Request = none →
        ∀ (i : Nat) (T : String) (r : Option String × Mem × W) (s1 : State W),
          (((s.cmds c).RequestHandler = some (.host i)
              ∧ T = "error from command request handler: ")
            ∨ ((s.cmds c).RequestHandler = none
              ∧ (∃ k, (s.cmds c).Commander = some k
                  ∧ (s.cmdrs k).requestHandler = some (.host i))
              ∧ T = "error from commander request handler: ")) →
          h.request i (s.cmds c).Request (s.cmds c).Response
              { s with
                trace := s.trace ++ [.request (.host i) (s.cmds c).Request (s.cmds c).Response] }
            = r →
          s1 = { s with
                 mem := r.2.1, world := r.2.2
                 trace := s.trace
                   ++ [.request (.host i) (s.cmds c).Request (s.cmds c).Response] } →
          -- the request handler fails: no response handler is called
          (∀ e, r.1 = some e →
              GenericStaticHandler h c args s
                = .ret (some ("error from request handler: " ++ (T ++ e))) s1)
          -- the request handler succeeds, the response handler is a host function
          ∧ (r.1 = none → ∀ (j : Nat) (T2 : String) (r2 : Option String × Mem × W),
              (((s.cmds c).ResponseHandler = some (.host j)
                  ∧ T2 = "error from command response handler: ")
                ∨ ((s.cmds c).ResponseHandler = none
                  ∧ (∃ k, (s.cmds c).Commander = some k
                      ∧ (s.cmdrs k).responseHandler = some (.host j))
                  ∧ T2 = "error from commander response handler: ")) →
              h.response j (s.cmds c).Response
                  { s1 with trace := s1.trace ++ [.response (.host j) (s.cmds c).Response] }
                = r2 →
              GenericStaticHandler h c args s
                = .ret (r2.1.map (fun e => T2 ++ e))
                    { s1 with
                      mem := r2.2.1, world := r2.2.2
                      trace := s1.trace ++ [.response (.host j) (s.cmds c).Response] })
          -- the request handler succeeds, the response handler is an XML printer
          ∧ (r.1 = none → ∀ (T2 : String),
              (((s.cmds c).ResponseHandler = some .XMLPrettyPrintResponseHandler
                  ∧ T2 = "error from command response handler: ")
                ∨ ((s.cmds c).ResponseHandler = none
                  ∧ (∃ k, (s.cmds c).Commander = some k
                      ∧ (s.cmdrs k).responseHandler = some .XMLPrettyPrintResponseHandler)
                  ∧ T2 = "error from commander response handler: ")) →
              GenericStaticHandler h c args s
                = wrapResult T2 (XMLPrettyPrintResponseHandler h.toHost (s.cmds c).Response
                    { s1 with
                      trace := s1.trace
                        ++ [.response .XMLPrettyPrintResponseHandler (s.cmds c).Response] }))
          ∧ (r.1 = none → ∀ (T2 : String),
              (((s.cmds c).ResponseHandler = some .XMLCompactPrintResponseHandler
                  ∧ T2 = "error from command response handler: ")
                ∨ ((s.cmds c).ResponseHandler = none
                  ∧ (∃ k, (s.cmds c).Commander = some k
                      ∧ (s.cmdrs k).responseHandler = some .XMLCompactPrintResponseHandler)
                  ∧ T2 = "error from commander response handler: ")) →
              GenericStaticHandler h c args s
                = wrapResult T2 (XMLCompactPrintResponseHandler h.toHost (s.cmds c).Response
                    { s1 with
                      trace := s1.trace
                        ++ [.response .XMLCompactPrintResponseHandler (s.cmds c).Response] }))) := by
  refine ⟨?_, ?_⟩
  · intro err hv
    simp only [GenericStaticHandler, hv, validationError]
  · intro hv i T r s1 hlevel hr hs1
    have hq : HandleRequest h.toHost c (s.cmds c).Request (s.cmds c).Response s
        = .ret (r.1.map (fun e => T ++ e)) s1 := by
      subst hr hs1
      rcases hlevel with ⟨hf, rfl⟩ | ⟨hf, ⟨k, hk, hg⟩, rfl⟩
      · rw [HandleRequest_own h.toHost c _ _ s _ hf]
        rfl
      · rw [HandleRequest_default h.toHost c _ _ s k _ hf hk hg]
        rfl
    have hcm : s1.cmds = s.cmds := by subst hs1; rfl
    have hcr : s1.cmdrs = s.cmdrs := by subst hs1; rfl
    have hR : (s1.cmds c).Response = (s.cmds c).Response := by rw [hcm]
    refine ⟨?_, ?_, ?_, ?_⟩
    · intro e he
      simp only [GenericStaticHandler, hv, hq, he, Option.map_some', errorf]
    · intro hnone j T2 r2 hlevel2 hr2
      simp only [GenericStaticHandler, hv, hq, hnone, Option.map_none']
      rw [hR]
      subst hr2
      rcases hlevel2 with ⟨hf, rfl⟩ | ⟨hf, ⟨k, hk, hg⟩, rfl⟩
      · rw [HandleResponse_own h.toHost c _ s1 _ (by rw [hcm]; exact hf)]
        rfl
      · rw [HandleResponse_default h.toHost c _ s1 k _ (by rw [hcm]; exact hf)
          (by rw [hcm]; exact hk) (by rw [hcr]; exact hg)]
        rfl
    · intro hnone T2 hlevel2
      simp only [GenericStaticHandler, hv, hq, hnone, Option.map_none']
      rw [hR]
      rcases hlevel2 with ⟨hf, rfl⟩ | ⟨hf, ⟨k, hk, hg⟩, rfl⟩
      · rw [HandleResponse_own h.toHost c _ s1 _ (by rw [hcm]; exact hf)]
        rfl
      · rw [HandleResponse_default h.toHost c _ s1 k _ (by rw [hcm]; exact hf)
          (by rw [hcm]; exact hk) (by rw [hcr]; exact hg)]
        rfl
    · intro hnone T2 hlevel2
      simp only [GenericStaticHandler, hv, hq, hnone, Option.map_none']
      rw [hR]
      rcases hlevel2 with ⟨hf, rfl⟩ | ⟨hf, ⟨k, hk, hg⟩, rfl⟩
      · rw [HandleResponse_own h.toHost c _ s1 _ (by rw [hcm]; exact hf)]
        rfl
      · rw [HandleResponse_default h.toHost c _ s1 k _ (by rw [hcm]; exact hf)
          (by rw [hcm]; exact hk) (by rw [hcr]; exact hg)]
        rfl

/-- Witness of C13 on the sample execution state, whose commander has the
request handler 3 and the response handler 4: the record is valid, handler 3
runs and then handler 4, as the lines they write to the outside world show.
With the request handler 1, which refuses, no response handler runs; and for a
command whose request is nil the validation error is returned and nothing
runs. -/
theorem GenericStaticHandler_flow_witness :
    GenericStaticHandler sampleRuntime 0 [] shellState
        = .ret none
            { shellState with
              world := ["request 3", "response 4"]
              trace := [.request (.host 3) (.ptr (some 0)) (.ptr (some 1)),
                .response (.host 4) (.ptr (some 1))] }
      ∧ (match GenericStaticHandler sampleRuntime 0 []
            (SetDefaultRequestHandler 0 (some (.host 1)) shellState) with
          | .ret e s1 => (e, s1.world, s1.trace)
          | .panic _ => (none, [], []))
        = (some "error from request handler: error from commander request handler: refused",
            ["request 1"], [.request (.host 1) (.ptr (some 0)) (.ptr (some 1))])
      ∧ (match GenericStaticHandler sampleRuntime 0 []
            { shellState with cmds := fun _ => { shellState.cmds 0 with Request := .nil } } with
          | .ret e s1 => (e, s1.world, s1.trace)
          | .panic _ => (none, [], []))
        = (some "validation error: %!s(MISSING)not a struct", [], []) :=
  ⟨((GenericStaticHandler_flow sampleRuntime 0 [] shellState).2 rfl 3
      "error from commander request handler: " _ _ (Or.inr ⟨rfl, ⟨0, rfl, rfl⟩, rfl⟩) rfl
      rfl).2.1 rfl 4 "error from commander response handler: " _
      (Or.inr ⟨rfl, ⟨0, rfl, rfl⟩, rfl⟩) rfl,
    rfl, rfl⟩

/-! ## Collecting values in the shell: C15 and C14 -/

theorem collectRequired_append {W : Type} (xs ys : List FieldInfo) :
    ∀ (c c1 : ShellContext) (s s1 : State W),
      collectRequired xs c s = .ret (none, c1) s1 →
      collectRequired (xs ++ ys) c s = collectRequired ys c1 s1 := by
  induction xs with
  | nil =>
    intro c c1 s s1 hr
    simp only [collectRequired, Run.ret.injEq, Prod.mk.injEq, true_and] at hr
    obtain ⟨rfl, rfl⟩ := hr
    rfl
  | cons x xs ih =>
    intro c c1 s s1 hr
    rw [collectRequired] at hr
    rw [List.cons_append, collectRequired]
    cases hc : collectShellValue c x s with
    | panic msg => rw [hc] at hr; cases hr
    | ret r s2 =>
      obtain ⟨e2, c2⟩ := r
      rw [hc] at hr
      cases e2 with
      | some err => simp at hr
      | none =>
        simp only at hr ⊢
        exact ih c2 c1 s2 s1 hr

theorem collectShellValue_bad_integer {W : Type} (c : ShellContext) (fi : FieldInfo)
    (s : State W) (line : String) (rest : List String) (hint : fi.Typ = .int)
    (hline : c.input = line :: rest) (hbad : Atoi line = none) :
    collectShellValue c fi s
      = .ret (some "failed to convert user input to integer",
          { input := rest, output := c.output ++ [fi.Name ++ ":"] }) s := by
  simp only [collectShellValue, ShellContext.Print, hline, hint, hbad]

theorem collectShellValue_accepted {W : Type} (c : ShellContext) (fi : FieldInfo)
    (s : State W) (line : String) (rest : List String) (v : Value)
    (hline : c.input = line :: rest) (hv : acceptedValue fi line = some v) :
    collectShellValue c fi s
      = .ret (none, { input := rest, output := c.output ++ [fi.Name ++ ":"] })
          { s with mem := s.mem.store fi.Field v } := by
  unfold acceptedValue at hv
  cases hk : fi.Typ with
  | string =>
    rw [hk] at hv
    simp only [Option.some.injEq] at hv
    subst hv
    simp only [collectShellValue, ShellContext.Print, hline, hk]
  | int =>
    rw [hk] at hv
    cases ha : Atoi line with
    | none => rw [ha] at hv; cases hv
    | some n =>
      rw [ha] at hv
      simp only at hv
      by_cases ho : OverflowInt n = true
      · rw [if_pos ho] at hv; cases hv
      · rw [if_neg ho] at hv
        simp only [Option.some.injEq] at hv
        subst hv
        simp only [collectShellValue, ShellContext.Print, hline, hk, ha, ho]
        rfl
  | invalid => rw [hk] at hv; cases hv
  | bool => rw [hk] at hv; cases hv
  | struct => rw [hk] at hv; cases hv
  | other k => rw [hk] at hv; cases hv

/-- C15: in `GenericShellHandler`, when the fields before a required integer
field have been collected and the line entered for that field is not an integer
in range, collection aborts: the handler returns the error
`failed to convert user input to integer`; the state is the one reached before
the line was read, so the field keeps its value and no handler has been called;
the field's prompt is the last thing printed and the lines after the rejected
one are left unread. -/
theorem GenericShellHandler_aborts_on_bad_integer {W : Type} (h : Runtime W) (command : CmdPtr)
    (c c1 : ShellContext) (s s1 : State W) (fis before after : List FieldInfo) (fi : FieldInfo)
    (line : String) (rest : List String)
    (hin : InspectStruct s.mem (s.cmds command).Request = .ok fis)
    (hsplit : (splitRequiredFields fis).1 = before ++ fi :: after)
    (hint : fi.Typ = .int)
    (hbefore : collectRequired before c s = .ret (none, c1) s1)
    (hline : c1.input = line :: rest)
    (hbad : Atoi line = none) :
    GenericShellHandler h command c s
        = .ret (some "failed to convert user input to integer",
            { input := rest, output := c1.output ++ [fi.Name ++ ":"] }) s1
      ∧ s1.trace = s.trace
      ∧ c1.output = c.output ++ before.map (fun f => f.Name ++ ":") := by
  obtain ⟨n, hn, hout, hall, htr, _, _⟩ := collectRequired_output before c c1 s s1 none hbefore
  refine ⟨?_, htr, ?_⟩
  · unfold GenericShellHandler
    simp only [hin, hsplit]
    rw [collectRequired_append before (fi :: after) c c1 s s1 hbefore, collectRequired,
      collectShellValue_bad_integer c1 fi s1 line rest hint hline hbad]
  · rw [hout, hall rfl, List.take_length]

/-- Witness of C15 on the sample execution state: `Ada` is accepted for `Name`
and `abc` is refused for the required integer `Count`; the line `0` after it is
left unread and no handler is called. -/
theorem GenericShellHandler_aborts_on_bad_integer_witness :
    GenericShellHandler sampleRuntime 0 { input := ["Ada", "abc", "0"], output := [] } shellState
        = .ret (some "failed to convert user input to integer",
            { input := ["0"], output := ["Name:", "Count:"] })
            { shellState with
              mem := shellState.mem.store { addr := 0, path := [0] } (.string "Ada") }
      ∧ (shellState.mem.store { addr := 0, path := [0] } (.string "Ada")).load
          { addr := 0, path := [1] } = some (.int 0) :=
  ⟨(GenericShellHandler_aborts_on_bad_integer sampleRuntime 0
      { input := ["Ada", "abc", "0"], output := [] } { input := ["abc", "0"], output := ["Name:"] }
      shellState
      { shellState with mem := shellState.mem.store { addr := 0, path := [0] } (.string "Ada") }
      (infosFrom 0 0 (eligibleLeaves shellRecord))
      [(infosFrom 0 0 (eligibleLeaves shellRecord)).get ⟨0, by decide⟩]
      [] ((infosFrom 0 0 (eligibleLeaves shellRecord)).get ⟨1, by decide⟩)
      "abc" ["0"] rfl rfl rfl rfl rfl (by decide)).1, rfl⟩

/-! ### A store changes one field only -/

theorem pathsApart_cons (i j : Nat) (p q : List Nat) (h : pathsApart (i :: p) (j :: q)) :
    i ≠ j ∨ pathsApart p q := by
  by_cases hij : i = j
  · subst hij
    right
    refine ⟨fun hp => h.1 ?_, fun hq => h.2 ?_⟩
    · obtain ⟨t, rfl⟩ := hp; exact ⟨t, rfl⟩
    · obtain ⟨t, rfl⟩ := hq; exact ⟨t, rfl⟩
  · exact Or.inl hij

mutual
theorem getAt_setAt_apart : ∀ (v : Value) (p q : List Nat) (x : Value), pathsApart p q →
    (v.setAt p x).getAt q = v.getAt q
  | v, [], q, x, h => absurd (List.nil_prefix) h.1
  | v, _ :: _, [], x, h => absurd (List.nil_prefix) h.2
  | .struct fs, i :: p, j :: q, x, h => by
    rw [Value.setAt, Value.getAt, Value.getAt]
    exact getAtFields_setAtFields_apart fs i j p q x (pathsApart_cons i j p q h)
  | .int n, i :: p, j :: q, x, _ => by rw [Value.setAt]
  | .string s, i :: p, j :: q, x, _ => by rw [Value.setAt]
  | .bool b, i :: p, j :: q, x, _ => by rw [Value.setAt]
  | .other k, i :: p, j :: q, x, _ => by rw [Value.setAt]
theorem getAtFields_setAtFields_apart : ∀ (fs : List (StructField × Value)) (i j : Nat)
    (p q : List Nat) (x : Value), i ≠ j ∨ pathsApart p q →
    getAtFields (setAtFields fs i p x) j q = getAtFields fs j q
  | [], i, j, p, q, x, _ => by rw [setAtFields]
  | (f, v) :: rest, 0, 0, p, q, x, h => by
    rw [setAtFields, getAtFields, getAtFields]
    rcases h with h | h
    · exact absurd rfl h
    · exact getAt_setAt_apart v p q x h
  | (f, v) :: rest, 0, j + 1, p, q, x, _ => by
    rw [setAtFields, getAtFields, getAtFields]
  | (f, v) :: rest, i + 1, 0, p, q, x, _ => by
    rw [setAtFields, getAtFields, getAtFields]
  | (f, v) :: rest, i + 1, j + 1, p, q, x, h => by
    rw [setAtFields, getAtFields, getAtFields]
    refine getAtFields_setAtFields_apart rest i j p q x ?_
    rcases h with h | h
    · exact Or.inl (fun e => h (by rw [e]))
    · exact Or.inr h
end

theorem load_store_apart (m : Mem) (a : Addr) (p q : List Nat) (x : Value)
    (h : pathsApart p q) :
    (m.store { addr := a, path := p } x).load { addr := a, path := q }
      = m.load { addr := a, path := q } := by
  simp only [Mem.store, Mem.load, Function.update_same]
  exact getAt_setAt_apart (m a) p q x h

theorem pathsApart_of_extends (p s t : List Nat) (i j : Nat) (hij : i ≠ j)
    (hs : (p ++ [i]) <+: s) (ht : (p ++ [j]) <+: t) : pathsApart s t := by
  obtain ⟨s1, rfl⟩ := hs
  obtain ⟨t1, rfl⟩ := ht
  have key : ∀ (a b : Nat) (u w : List Nat), a ≠ b → ¬ (p ++ [a] ++ u) <+: (p ++ [b] ++ w) := by
    intro a b u w hab hpre
    rw [List.append_assoc, List.append_assoc, List.prefix_append_right_inj] at hpre
    obtain ⟨r, hr⟩ := hpre
    simp only [List.singleton_append, List.cons_append, List.cons.injEq] at hr
    exact hab hr.1
  exact ⟨key i j s1 t1 hij, key j i t1 s1 (fun e => hij e.symm)⟩

mutual
theorem leavesOf_apart : ∀ (v : Value) (enc : List String) (p : List Nat) (f : StructField),
    (leavesOf enc p f v).Pairwise (fun x y => pathsApart x.path y.path)
  | .int n, enc, p, f => by
    rw [leavesOf]; split
    · exact List.Pairwise.nil
    · exact List.pairwise_singleton _ _
  | .string s, enc, p, f => by
    rw [leavesOf]; split
    · exact List.Pairwise.nil
    · exact List.pairwise_singleton _ _
  | .bool b, enc, p, f => by
    rw [leavesOf]; split
    · exact List.Pairwise.nil
    · exact List.pairwise_singleton _ _
  | .struct fs, enc, p, f => by
    rw [leavesOf]; exact leavesOfFields_apart fs (enc ++ [f.Name]) p 0
  | .other k, enc, p, f => by
    rw [leavesOf]; exact List.Pairwise.nil
theorem leavesOfFields_apart : ∀ (fs : List (StructField × Value)) (enc : List String)
    (p : List Nat) (i : Nat),
    (leavesOfFields enc p i fs).Pairwise (fun x y => pathsApart x.path y.path)
  | [], _, _, _ => by rw [leavesOfFields]; exact List.Pairwise.nil
  | (f, v) :: rest, enc, p, i => by
    rw [leavesOfFields, List.pairwise_append]
    refine ⟨leavesOf_apart v enc (p ++ [i]) f, leavesOfFields_apart rest enc p (i + 1), ?_⟩
    intro x hx y hy
    obtain ⟨j, hj, hp⟩ := leavesOfFields_path_extends rest enc p (i + 1) y hy
    exact pathsApart_of_extends p x.path y.path i j (by omega)
      (leavesOf_path_extends v enc (p ++ [i]) f x hx) hp
end

theorem infosFrom_apart (addr : Addr) (xs : List Leaf) :
    ∀ (start : Nat), xs.Pairwise (fun x y => pathsApart x.path y.path) →
      (infosFrom addr start xs).Pairwise
        (fun f g => f.Field.addr = addr ∧ g.Field.addr = addr
          ∧ pathsApart f.Field.path g.Field.path) := by
  induction xs with
  | nil => intro _ _; exact List.Pairwise.nil
  | cons x xs ih =>
    intro start h
    rw [infosFrom, List.pairwise_cons]
    rw [List.pairwise_cons] at h
    refine ⟨?_, ih (start + 1) h.2⟩
    intro g hg
    obtain ⟨l, hl, idx, rfl⟩ := mem_infosFrom addr xs (start + 1) g hg
    exact ⟨rfl, rfl, h.1 l hl⟩

/-- The fields the inspector describes are stored apart: a store through the
reference of one leaves what the reference of any other reads unchanged. -/
theorem store_leaves_other_fields (m0 m : Mem) (obj : Iface) (fis : List FieldInfo)
    (hin : InspectStruct m0 obj = .ok fis) (fi g : FieldInfo) (hfi : fi ∈ fis) (hg : g ∈ fis)
    (hne : g.Field ≠ fi.Field) (x : Value) :
    (m.store fi.Field x).load g.Field = m.load g.Field := by
  rcases InspectStruct_cases m0 obj with ⟨_, e⟩ | ⟨a, fs, _, _, _, e⟩ | ⟨_, _, _, _, _, _, _, e⟩
  · rw [e] at hin; cases hin
  · rw [e] at hin
    injection hin with hin
    subst hin
    have hpw := infosFrom_apart a (eligibleLeaves fs) 0 (leavesOfFields_apart fs [] [] 0)
    have hsym : ∀ (u w : FieldInfo),
        (u.Field.addr = a ∧ w.Field.addr = a ∧ pathsApart u.Field.path w.Field.path) →
        (w.Field.addr = a ∧ u.Field.addr = a ∧ pathsApart w.Field.path u.Field.path) :=
      fun u w hu => ⟨hu.2.1, hu.1, hu.2.2.2, hu.2.2.1⟩
    have hfg : fi ≠ g := fun e1 => hne (by rw [e1])
    obtain ⟨h1, h2, h3⟩ := hpw.forall (fun u w hu => hsym u w hu) hfi hg hfg
    have e1 : fi.Field = { addr := a, path := fi.Field.path } := by
      rw [← h1]
    have e2 : g.Field = { addr := a, path := g.Field.path } := by
      rw [← h2]
    rw [e1, e2]
    exact load_store_apart m a _ _ x h3
  · rw [e] at hin; cases hin

/-! ### The optional menu: C14 -/

theorem Atoi_range (s : String) (n : Int) (h : Atoi s = some n) :
    -(2 ^ 63) ≤ n ∧ n < 2 ^ 63 := by
  unfold Atoi at h
  split at h
  · cases h
  · split at h
    · cases h
    · split at h
      · cases h
      · split at h
        · simp only [Option.some.injEq] at h
          subst h
          constructor <;> omega
        · cases h
  · split at h
    · cases h
    · split at h
      · cases h
      · split at h
        · simp only [Option.some.injEq] at h
          subst h
          constructor <;> omega
        · cases h
  · split at h
    · cases h
    · split at h
      · simp only [Option.some.injEq] at h
        subst h
        constructor <;> omega
      · cases h

theorem wrapInt_of_range (x : Int) (h1 : -(2 ^ 63) ≤ x) (h2 : x < 2 ^ 63) : wrapInt x = x := by
  unfold wrapInt
  omega

theorem presentOptions_choice (c : ShellContext) (fis : List FieldInfo) (choice : String)
    (rest : List String) (k : Nat) (hinput : c.input = choice :: rest)
    (hchoice : Atoi choice = some (k : Int)) (hk1 : 1 ≤ k) (hk2 : k ≤ fis.length) :
    presentOptions c fis
      = some ((k : Int) - 1, ({ input := rest, output := c.output } : ShellContext).showMenu fis) := by
  have hlen : fis.length > 0 := by omega
  have hwrap : wrapInt ((k : Int) - 1) = (k : Int) - 1 := by
    obtain ⟨r1, r2⟩ := Atoi_range choice k hchoice
    exact wrapInt_of_range _ (by omega) (by omega)
  simp only [presentOptions, hlen, if_true, hinput, presentLoop, hchoice, hwrap]
  have h1 : ((k : Int) - 1 == -1) = false := by
    rw [beq_eq_false_iff_ne]; omega
  have h2 : (decide ((k : Int) - 1 < -1) || decide ((k : Int) - 1 > (fis.length : Int) - 1))
      = false := by
    rw [Bool.or_eq_false_iff, decide_eq_false_iff_not, decide_eq_false_iff_not]
    constructor <;> omega
  simp only [h1, h2, Bool.false_eq_true, if_false]

theorem presentOptions_done (c : ShellContext) (fis : List FieldInfo) (done : String)
    (rest : List String) (hinput : c.input = done :: rest) (hdone : Atoi done = some 0)
    (hlen : 0 < fis.length) :
    presentOptions c fis
      = some (-1, ({ input := rest, output := c.output } : ShellContext).showMenu fis) := by
  have hlen2 : fis.length > 0 := hlen
  simp only [presentOptions, hlen2, if_true, hinput, presentLoop, hdone]
  rfl

theorem HandleRequest_trace_extends {W : Type} (h : Host W) (c : CmdPtr) (req resp : Iface)
    (s s1 : State W) (e : Option String) (hr : HandleRequest h c req resp s = .ret e s1) :
    (∀ f, resolvedRequestHandler s c = some f → s1.trace = s.trace ++ [.request f req resp])
      ∧ s1.cmds = s.cmds ∧ s1.cmdrs = s.cmdrs := by
  cases hf : resolvedRequestHandler s c with
  | some f =>
    obtain ⟨format, e1⟩ := HandleRequest_resolved h c req resp s f hf
    rw [e1] at hr
    simp only [wrapResult, Run.ret.injEq] at hr
    obtain ⟨_, rfl⟩ := hr
    obtain ⟨f1, f2⟩ := callRequestHandler_frame h f req resp s
    refine ⟨fun g hg => ?_, f1, f2⟩
    cases hg
    exact callRequestHandler_trace h f req resp s
  | none =>
    refine ⟨fun g hg => (by cases hg), ?_⟩
    unfold resolvedRequestHandler at hf
    unfold HandleRequest at hr
    cases ho : (s.cmds c).RequestHandler with
    | some g => rw [ho] at hf; cases hf
    | none =>
      rw [ho] at hf hr
      cases hk : (s.cmds c).Commander with
      | none => rw [hk] at hr; cases hr
      | some k =>
        rw [hk] at hf hr
        simp only at hf
        simp only [DefaultRequestHandler, hf, Run.ret.injEq] at hr
        obtain ⟨_, rfl⟩ := hr
        exact ⟨rfl, rfl⟩

theorem HandleResponse_trace_extends {W : Type} (h : Host W) (c : CmdPtr) (resp : Iface)
    (s s1 : State W) (e : Option String) (hr : HandleResponse h c resp s = .ret e s1) :
    (∃ t, s1.trace = s.trace ++ t) ∧ s1.cmds = s.cmds ∧ s1.cmdrs = s.cmdrs := by
  cases hf : resolvedResponseHandler s c with
  | some f =>
    obtain ⟨format, e1⟩ := HandleResponse_resolved h c resp s f hf
    rw [e1] at hr
    simp only [wrapResult, Run.ret.injEq] at hr
    obtain ⟨_, rfl⟩ := hr
    obtain ⟨f1, f2⟩ := callResponseHandler_frame h f resp s
    exact ⟨⟨_, callResponseHandler_trace h f resp s⟩, f1, f2⟩
  | none =>
    unfold resolvedResponseHandler at hf
    unfold HandleResponse at hr
    cases ho : (s.cmds c).ResponseHandler with
    | some g => rw [ho] at hf; cases hf
    | none =>
      rw [ho] at hf hr
      cases hk : (s.cmds c).Commander with
      | none => rw [hk] at hr; cases hr
      | some k =>
        rw [hk] at hf hr
        simp only at hf
        simp only [DefaultResponseHandler, hf, Run.ret.injEq] at hr
        obtain ⟨_, rfl⟩ := hr
        exact ⟨⟨[], by simp⟩, rfl, rfl⟩

theorem dispatchShell_trace {W : Type} (h : Runtime W) (command : CmdPtr) (c c1 : ShellContext)
    (s s1 : State W) (e : Option String) (f : RequestHandler)
    (hf : resolvedRequestHandler s command = some f)
    (hr : dispatchShell h command c s = .ret (e, c1) s1) :
    ∃ t, s1.trace
      = s.trace ++ Event.request f (s.cmds command).Request (s.cmds command).Response :: t := by
  unfold dispatchShell at hr
  cases hq : HandleRequest h.toHost command (s.cmds command).Request
      (s.cmds command).Response s with
  | panic msg => rw [hq] at hr; cases hr
  | ret e2 s2 =>
    rw [hq] at hr
    obtain ⟨ht, _, _⟩ := HandleRequest_trace_extends h.toHost command _ _ s s2 e2 hq
    have ht2 := ht f hf
    cases e2 with
    | some err =>
      simp only [Run.ret.injEq, Prod.mk.injEq] at hr
      obtain ⟨_, rfl⟩ := hr
      exact ⟨[], ht2⟩
    | none =>
      simp only at hr
      cases hp : HandleResponse h.toHost command (s2.cmds command).Response s2 with
      | panic msg => rw [hp] at hr; cases hr
      | ret e3 s3 =>
        rw [hp] at hr
        simp only [Run.ret.injEq, Prod.mk.injEq] at hr
        obtain ⟨_, rfl⟩ := hr
        obtain ⟨⟨t, ht3⟩, _, _⟩ := HandleResponse_trace_extends h.toHost command _ s2 s3 e3 hp
        exact ⟨t, by rw [ht3, ht2]; simp⟩

/-- C14: in `GenericShellHandler`, once the required fields are collected, with
`n ≥ 1` optional fields and `1 ≤ k ≤ n`: when the user enters `k` at the menu,
then a value valid for the `k`-th optional field, then `0`, exactly these three
lines are read, the one value is stored through the reference of
`optional[k-1]`, every other inspected field reads as before, and the handler
goes on to dispatch: the first handler called is the resolved request handler,
with the request and response of the command. -/
theorem GenericShellHandler_collects_chosen_optional {W : Type} (h : Runtime W)
    (command : CmdPtr) (c c1 : ShellContext) (s s1 : State W) (fis : List FieldInfo) (k : Nat)
    (fi : FieldInfo) (choice value done : String) (rest : List String) (v : Value)
    (hin : InspectStruct s.mem (s.cmds command).Request = .ok fis)
    (hreq : collectRequired (splitRequiredFields fis).1 c s = .ret (none, c1) s1)
    (hk : 1 ≤ k) (hfi : (splitRequiredFields fis).2[k - 1]? = some fi)
    (hinput : c1.input = choice :: value :: done :: rest)
    (hchoice : Atoi choice = some (k : Int))
    (hvalue : acceptedValue fi value = some v)
    (hdone : Atoi done = some 0) :
    (∃ out, GenericShellHandler h command c s
        = dispatchShell h command { input := rest, output := out }
            { s1 with mem := s1.mem.store fi.Field v })
      ∧ (∀ g ∈ fis, g.Field ≠ fi.Field →
          (s1.mem.store fi.Field v).load g.Field = s1.mem.load g.Field)
      ∧ (∀ f, resolvedRequestHandler s command = some f → ∀ e c2 s2,
          GenericShellHandler h command c s = .ret (e, c2) s2 →
          ∃ t, s2.trace
            = s.trace ++ Event.request f (s.cmds command).Request (s.cmds command).Response
                :: t) := by
  have hlt : k - 1 < (splitRequiredFields fis).2.length := by
    by_contra hge
    rw [List.getElem?_eq_none (by omega)] at hfi
    cases hfi
  have hmem2 : fi ∈ (splitRequiredFields fis).2 := List.getElem?_mem hfi
  have hflat : splitRequiredFields fis
      = (fis.filter (fun f => f.Required), fis.filter (fun f => !f.Required)) := by
    apply splitRequiredFields_flat
    rcases InspectStruct_cases s.mem (s.cmds command).Request with
      ⟨_, e⟩ | ⟨a, fs, _, _, _, e⟩ | ⟨_, _, _, _, _, _, _, e⟩
    · rw [e] at hin; cases hin
    · rw [e] at hin
      injection hin with hin
      subst hin
      exact infosFrom_FieldInfos a _ 0
    · rw [e] at hin; cases hin
  have hmem : fi ∈ fis := by
    rw [hflat] at hmem2
    exact (List.mem_filter.mp hmem2).1
  obtain ⟨_, _, _, _, htr1, hcm1, hcr1⟩ :=
    collectRequired_output _ c c1 s s1 none hreq
  -- the two passes of the optional loop
  have hp1 := presentOptions_choice c1 (splitRequiredFields fis).2 choice
    (value :: done :: rest) k hinput hchoice hk (by omega)
  have hsel : ((k : Int) - 1).toNat = k - 1 := by omega
  have hc1 := collectShellValue_accepted
    (({ input := value :: done :: rest, output := c1.output } : ShellContext).showMenu
      (splitRequiredFields fis).2) fi s1 value (done :: rest) v rfl hvalue
  have hp2 := presentOptions_done
    ({ input := done :: rest,
       output := (({ input := value :: done :: rest, output := c1.output } : ShellContext).showMenu
          (splitRequiredFields fis).2).output ++ [fi.Name ++ ":"] } : ShellContext)
    (splitRequiredFields fis).2 done rest rfl hdone (by omega)
  have hfuel : optionalFuel c1 = (rest.length + 2) + 1 + 1 := by
    simp [optionalFuel, hinput]
  have hloop : ∃ cfin : ShellContext, cfin.input = rest ∧
      optionalLoop (splitRequiredFields fis).2 (optionalFuel c1) c1 s1
        = .ret (none, cfin) { s1 with mem := s1.mem.store fi.Field v } := by
    refine ⟨({ input := rest,
               output := (({ input := value :: done :: rest, output := c1.output }
                  : ShellContext).showMenu (splitRequiredFields fis).2).output
                  ++ [fi.Name ++ ":"] } : ShellContext).showMenu (splitRequiredFields fis).2,
      rfl, ?_⟩
    rw [hfuel, optionalLoop, hp1]
    have hge : (k : Int) - 1 ≥ 0 := by omega
    simp only [hge, if_true, hsel, hfi, hc1]
    rw [optionalLoop, hp2]
    rfl
  obtain ⟨cfin, hcin, hloop⟩ := hloop
  have hcfin : cfin = { input := rest, output := cfin.output } := by
    cases cfin
    simp only at hcin
    rw [hcin]
  have hmain : GenericShellHandler h command c s
      = dispatchShell h command { input := rest, output := cfin.output }
          { s1 with mem := s1.mem.store fi.Field v } := by
    unfold GenericShellHandler
    simp only [hin, hreq, hloop]
    rw [← hcfin]
  refine ⟨⟨cfin.output, hmain⟩, ?_, ?_⟩
  · intro g hg hne
    exact store_leaves_other_fields s.mem s1.mem _ fis hin fi g hmem hg hne v
  · intro f hf e c2 s2 hr
    rw [hmain] at hr
    have hf2 : resolvedRequestHandler ({ s1 with mem := s1.mem.store fi.Field v } : State W)
        command = some f := by
      unfold resolvedRequestHandler at hf ⊢
      simp only [hcm1, hcr1]
      exact hf
    obtain ⟨t, ht⟩ := dispatchShell_trace h command _ c2 _ s2 e f hf2 hr
    refine ⟨t, ?_⟩
    rw [ht]
    simp only [hcm1, htr1]

/-- Witness of C14 on the sample execution state: after `Ada` and `3` for the
required fields, the user picks option 2 (`Limit`), enters `7` and then `0`;
the value 7 is stored in `Limit`, the optional field `Tag` keeps its value, and
the handlers are dispatched with no line left to read. -/
theorem GenericShellHandler_collects_chosen_optional_witness :
    (∃ out, GenericShellHandler sampleRuntime 0
          { input := ["Ada", "3", "2", "7", "0"], output := [] } shellState
        = dispatchShell sampleRuntime 0 { input := [], output := out }
            { shellState with
              mem := ((shellState.mem.store { addr := 0, path := [0] } (.string "Ada")).store
                { addr := 0, path := [1] } (.int 3)).store { addr := 0, path := [3] } (.int 7) })
      ∧ (((shellState.mem.store { addr := 0, path := [0] } (.string "Ada")).store
            { addr := 0, path := [1] } (.int 3)).store { addr := 0, path := [3] } (.int 7)).load
          { addr := 0, path := [3] } = some (.int 7)
      ∧ (((shellState.mem.store { addr := 0, path := [0] } (.string "Ada")).store
            { addr := 0, path := [1] } (.int 3)).store { addr := 0, path := [3] } (.int 7)).load
          { addr := 0, path := [4] } = some (.string "") :=
  ⟨(GenericShellHandler_collects_chosen_optional sampleRuntime 0
      { input := ["Ada", "3", "2", "7", "0"], output := [] }
      { input := ["2", "7", "0"], output := ["Name:", "Count:"] }
      shellState
      { shellState with
        mem := (shellState.mem.store { addr := 0, path := [0] } (.string "Ada")).store
          { addr := 0, path := [1] } (.int 3) }
      (infosFrom 0 0 (eligibleLeaves shellRecord)) 2
      ((infosFrom 0 0 (eligibleLeaves shellRecord)).get ⟨3, by decide⟩)
      "2" "7" "0" [] (.int 7) rfl rfl (by decide) rfl rfl (by decide) rfl (by decide)).1,
    rfl, rfl⟩

/-! ## Required fields come first: C20 -/

theorem collectShellValue_error {W : Type} (c c1 : ShellContext) (fi : FieldInfo)
    (s s1 : State W) (err : String)
    (hr : collectShellValue c fi s = .ret (some err, c1) s1) :
    ∃ line, c.input = line :: c1.input ∧ acceptedValue fi line = none
      ∧ c1.output = c.output ++ [fi.Name ++ ":"] := by
  unfold collectShellValue at hr
  cases hin : c.input with
  | nil => simp [ShellContext.Print, hin] at hr
  | cons line rest =>
    simp only [ShellContext.Print, hin] at hr
    cases hk : fi.Typ with
    | string => simp [hk] at hr
    | int =>
      simp only [hk] at hr
      cases ha : Atoi line with
      | none =>
        simp only [ha, Run.ret.injEq, Prod.mk.injEq] at hr
        obtain ⟨⟨_, rfl⟩, _⟩ := hr
        exact ⟨line, rfl, by simp [acceptedValue, hk, ha], rfl⟩
      | some n =>
        simp only [ha] at hr
        by_cases ho : OverflowInt n = true
        · simp only [ho, if_true, Run.ret.injEq, Prod.mk.injEq] at hr
          obtain ⟨⟨_, rfl⟩, _⟩ := hr
          exact ⟨line, rfl, by simp [acceptedValue, hk, ha, ho], rfl⟩
        · simp [ho] at hr
    | invalid =>
      simp only [hk, Run.ret.injEq, Prod.mk.injEq] at hr
      obtain ⟨⟨_, rfl⟩, _⟩ := hr
      exact ⟨line, rfl, by simp [acceptedValue, hk], rfl⟩
    | bool =>
      simp only [hk, Run.ret.injEq, Prod.mk.injEq] at hr
      obtain ⟨⟨_, rfl⟩, _⟩ := hr
      exact ⟨line, rfl, by simp [acceptedValue, hk], rfl⟩
    | struct =>
      simp only [hk, Run.ret.injEq, Prod.mk.injEq] at hr
      obtain ⟨⟨_, rfl⟩, _⟩ := hr
      exact ⟨line, rfl, by simp [acceptedValue, hk], rfl⟩
    | other k =>
      simp only [hk, Run.ret.injEq, Prod.mk.injEq] at hr
      obtain ⟨⟨_, rfl⟩, _⟩ := hr
      exact ⟨line, rfl, by simp [acceptedValue, hk], rfl⟩

theorem collectRequired_stops {W : Type} (required : List FieldInfo) :
    ∀ (c c1 : ShellContext) (s s1 : State W) (err : String),
      collectRequired required c s = .ret (some err, c1) s1 →
      ∃ m fi line, required[m]? = some fi ∧ c.input[m]? = some line
        ∧ acceptedValue fi line = none
        ∧ c1.output = c.output ++ promptsOf (required.take (m + 1)) := by
  induction required with
  | nil =>
    intro c c1 s s1 err hr
    simp [collectRequired] at hr
  | cons fi rest ih =>
    intro c c1 s s1 err hr
    rw [collectRequired] at hr
    cases hc : collectShellValue c fi s with
    | panic msg => rw [hc] at hr; cases hr
    | ret r s2 =>
      obtain ⟨e2, c2⟩ := r
      rw [hc] at hr
      cases e2 with
      | some err2 =>
        simp only [Run.ret.injEq, Prod.mk.injEq] at hr
        obtain ⟨⟨_, rfl⟩, rfl⟩ := hr
        obtain ⟨line, hin, hrej, ho⟩ := collectShellValue_error c c2 fi s s2 err2 hc
        exact ⟨0, fi, line, by simp, by rw [hin]; simp, hrej, by rw [ho]; rfl⟩
      | none =>
        simp only at hr
        obtain ⟨ho, hin, _⟩ := collectShellValue_output c c2 fi s s2 none hc
        obtain ⟨m, fj, line, hfj, hline, hrej, hout⟩ := ih c2 c1 s2 s1 err hr
        refine ⟨m + 1, fj, line, by simpa using hfj, ?_, hrej, ?_⟩
        · rw [hin]; simpa using hline
        · rw [hout, ho]
          simp [promptsOf]

theorem collectRequired_accepted {W : Type} (required : List FieldInfo) :
    ∀ (lines : List String) (values : List Value) (rest : List String) (c : ShellContext)
      (s : State W), c.input = lines ++ rest → acceptedValues required lines = some values →
      collectRequired required c s
        = .ret (none, { input := rest, output := c.output ++ promptsOf required })
            { s with mem := storeValues s.mem required values } := by
  induction required with
  | nil =>
    intro lines values rest c s hin hv
    cases lines with
    | nil =>
      simp only [acceptedValues, Option.some.injEq] at hv
      subst hv
      simp only [List.nil_append] at hin
      cases c with
      | mk input output =>
        simp only at hin
        subst hin
        simp [collectRequired, promptsOf, storeValues]
    | cons l ls => simp [acceptedValues] at hv
  | cons fi fis ih =>
    intro lines values rest c s hin hv
    cases lines with
    | nil => simp [acceptedValues] at hv
    | cons l ls =>
      rw [acceptedValues] at hv
      cases hv1 : acceptedValue fi l with
      | none => rw [hv1] at hv; simp at hv
      | some v =>
        cases hv2 : acceptedValues fis ls with
        | none => rw [hv1, hv2] at hv; simp at hv
        | some vs =>
          rw [hv1, hv2] at hv
          simp only [Option.some.injEq] at hv
          subst hv
          rw [collectRequired,
            collectShellValue_accepted c fi s l (ls ++ rest) v (by rw [hin]; rfl) hv1]
          simp only
          rw [ih ls vs rest _ _ rfl hv2]
          simp [promptsOf, storeValues]

theorem optionalLoop_none {W : Type} (fuel : Nat) (c : ShellContext) (s : State W) :
    optionalLoop [] (fuel + 1) c s = .ret (none, c) s := by
  simp [optionalLoop, presentOptions]

theorem optionalLoop_done {W : Type} (optional : List FieldInfo) (fuel : Nat) (c : ShellContext)
    (s : State W) (done : String) (rest : List String) (hinput : c.input = done :: rest)
    (hdone : Atoi done = some 0) (hlen : 0 < optional.length) :
    optionalLoop optional (fuel + 1) c s
      = .ret (none, ({ input := rest, output := c.output } : ShellContext).showMenu optional)
          s := by
  rw [optionalLoop, presentOptions_done c optional done rest hinput hdone hlen]
  simp

theorem GenericShellHandler_stops_or_prompts_all {W : Type} (h : Runtime W) (command : CmdPtr)
    (c c1 : ShellContext) (s s1 : State W) (e : Option String) (fis : List FieldInfo)
    (hin : InspectStruct s.mem (s.cmds command).Request = .ok fis)
    (hr : GenericShellHandler h command c s = .ret (e, c1) s1) :
    (∃ m fi line, (splitRequiredFields fis).1[m]? = some fi ∧ c.input[m]? = some line
        ∧ acceptedValue fi line = none ∧ e.isSome = true
        ∧ c1.output = c.output ++ promptsOf ((splitRequiredFields fis).1.take (m + 1)))
      ∨ (∃ rest, c1.output = c.output ++ promptsOf (splitRequiredFields fis).1 ++ rest) := by
  unfold GenericShellHandler at hr
  simp only [hin] at hr
  cases hc : collectRequired (splitRequiredFields fis).1 c s with
  | panic msg => rw [hc] at hr; cases hr
  | ret r sa =>
    obtain ⟨e1, ca⟩ := r
    rw [hc] at hr
    cases e1 with
    | some err =>
      simp only [Run.ret.injEq, Prod.mk.injEq] at hr
      obtain ⟨⟨rfl, rfl⟩, rfl⟩ := hr
      obtain ⟨m, fi, line, hfi, hline, hrej, hout⟩ := collectRequired_stops _ c ca s sa err hc
      exact Or.inl ⟨m, fi, line, hfi, hline, hrej, rfl, hout⟩
    | none =>
      simp only at hr
      obtain ⟨n, _, hout, hall, _⟩ := collectRequired_output _ c ca s sa none hc
      have hn := hall rfl
      rw [hn, List.take_length] at hout
      have key : ∀ cb : ShellContext, (∃ rest, cb.output = ca.output ++ rest) →
          ∃ rest, cb.output = c.output ++ promptsOf (splitRequiredFields fis).1 ++ rest := by
        rintro cb ⟨rest, hb⟩
        exact ⟨rest, by rw [hb, hout]; rfl⟩
      cases ho : optionalLoop (splitRequiredFields fis).2 (optionalFuel ca) ca sa with
      | panic msg => rw [ho] at hr; cases hr
      | ret r2 sb =>
        obtain ⟨e2, cb⟩ := r2
        rw [ho] at hr
        obtain ⟨hext, _⟩ := optionalLoop_output _ _ ca cb sa sb e2 ho
        cases e2 with
        | some err =>
          simp only [Run.ret.injEq, Prod.mk.injEq] at hr
          obtain ⟨⟨_, rfl⟩, rfl⟩ := hr
          exact Or.inr (key _ hext)
        | none =>
          simp only at hr
          rw [dispatchShell_context h command cb c1 sb s1 e hr]
          exact Or.inr (key _ hext)

theorem GenericShellHandler_after_required {W : Type} (h : Runtime W) (command : CmdPtr)
    (c : ShellContext) (s : State W) (fis : List FieldInfo) (lines : List String)
    (values : List Value) (rest : List String)
    (hin : InspectStruct s.mem (s.cmds command).Request = .ok fis)
    (hinput : c.input = lines ++ rest)
    (hv : acceptedValues (splitRequiredFields fis).1 lines = some values) :
    ((splitRequiredFields fis).2 = [] →
        GenericShellHandler h command c s
          = dispatchShell h command
              { input := rest, output := c.output ++ promptsOf (splitRequiredFields fis).1 }
              { s with mem := storeValues s.mem (splitRequiredFields fis).1 values })
      ∧ (∀ done rest2, (splitRequiredFields fis).2 ≠ [] → rest = done :: rest2 →
          Atoi done = some 0 →
          GenericShellHandler h command c s
            = dispatchShell h command
                (({ input := rest2, output := c.output ++ promptsOf (splitRequiredFields fis).1 }
                  : ShellContext).showMenu (splitRequiredFields fis).2)
                { s with mem := storeValues s.mem (splitRequiredFields fis).1 values }) := by
  have hc := collectRequired_accepted (splitRequiredFields fis).1 lines values rest c s hinput hv
  refine ⟨fun hopt => ?_, fun done rest2 hopt hrest hdone => ?_⟩
  · unfold GenericShellHandler
    simp only [hin, hc, hopt, optionalFuel, optionalLoop_none]
  · have hlen : 0 < (splitRequiredFields fis).2.length := List.length_pos.mpr hopt
    unfold GenericShellHandler
    simp only [hin, hc, optionalFuel]
    rw [optionalLoop_done (splitRequiredFields fis).2 _ _ _ done rest2 hrest hdone hlen]

/-- C20: `splitRequiredFields` is a stable partition of the inspector's output
(`required` is the sub-list of the entries with `Required` true, `optional` the
sub-list of the others, each in inspector order, and together they hold every
entry exactly once).  `GenericShellHandler` prompts for every required field, in
inspector order, before the menu is first shown: when the lines entered are
valid values for the required fields, one line each, the handler prints the
prompts of all the required fields in inspector order, stores the values, and
then, with no optional field, goes on to dispatch without reading or printing
anything else, and with optional fields shows the menu, after the last prompt,
and on the choice `0` goes on to dispatch.  And in every run in which the
handler returns, either the line entered for a required field was not a valid
value for it, the handler returned an error and what it has printed are the
prompts of the required fields up to that one, or what it has printed starts
with the prompts of all the required fields, the menu coming only after
them. -/
theorem splitRequiredFields_partition {W : Type} (h : Runtime W) (command : CmdPtr)
    (c : ShellContext) (s : State W) (fis : List FieldInfo)
    (hin : InspectStruct s.mem (s.cmds command).Request = .ok fis) :
    (splitRequiredFields fis).1 = fis.filter (fun f => f.Required)
      ∧ (splitRequiredFields fis).2 = fis.filter (fun f => !f.Required)
      ∧ ((splitRequiredFields fis).1 ++ (splitRequiredFields fis).2).Perm fis
      ∧ (∀ lines values rest, c.input = lines ++ rest →
          acceptedValues (fis.filter (fun f => f.Required)) lines = some values →
          (fis.filter (fun f => !f.Required) = [] →
              GenericShellHandler h command c s
                = dispatchShell h command
                    { input := rest
                      output := c.output ++ promptsOf (fis.filter (fun f => f.Required)) }
                    { s with
                      mem := storeValues s.mem (fis.filter (fun f => f.Required)) values })
            ∧ (∀ done rest2, fis.filter (fun f => !f.Required) ≠ [] → rest = done :: rest2 →
                Atoi done = some 0 →
                GenericShellHandler h command c s
                  = dispatchShell h command
                      (({ input := rest2
                          output := c.output ++ promptsOf (fis.filter (fun f => f.Required)) }
                        : ShellContext).showMenu (fis.filter (fun f => !f.Required)))
                      { s with
                        mem := storeValues s.mem (fis.filter (fun f => f.Required)) values }))
      ∧ (∀ e c1 s1, GenericShellHandler h command c s = .ret (e, c1) s1 →
          (∃ m fi line, (fis.filter (fun f => f.Required))[m]? = some fi
              ∧ c.input[m]? = some line
              ∧ acceptedValue fi line = none ∧ e.isSome = true
              ∧ c1.output
                = c.output ++ promptsOf ((fis.filter (fun f => f.Required)).take (m + 1)))
            ∨ (∃ rest, c1.output
                = c.output ++ promptsOf (fis.filter (fun f => f.Required)) ++ rest)) := by
  have hflat : splitRequiredFields fis
      = (fis.filter (fun f => f.Required), fis.filter (fun f => !f.Required)) := by
    apply splitRequiredFields_flat
    rcases InspectStruct_cases s.mem (s.cmds command).Request with
      ⟨_, e⟩ | ⟨a, fs, _, _, _, e⟩ | ⟨_, _, _, _, _, _, _, e⟩
    · rw [e] at hin; cases hin
    · rw [e] at hin
      injection hin with hin
      subst hin
      exact infosFrom_FieldInfos a _ 0
    · rw [e] at hin; cases hin
  refine ⟨by rw [hflat], by rw [hflat], ?_, ?_, ?_⟩
  · rw [hflat]
    exact List.filter_append_perm _ fis
  · intro lines values rest hinput hv
    have := GenericShellHandler_after_required h command c s fis lines values rest hin hinput
      (by rw [hflat]; exact hv)
    rw [hflat] at this
    exact this
  · intro e c1 s1 hr
    have := GenericShellHandler_stops_or_prompts_all h command c c1 s s1 e fis hin hr
    rw [hflat] at this
    exact this

/-- Witness of C20: the shell record is inspected and its two required fields
are `Name` and `Count`.  On the lines `Ada`, `3`, `0` the handler prints the
prompts `Name:` and `Count:`, then the menu of the three optional fields, and
goes on to dispatch with the two values stored; it returns.  On a record of the
two required fields only it prints the two prompts and nothing else, and leaves
the third line unread. -/
theorem splitRequiredFields_partition_witness :
    GenericShellHandler sampleRuntime 0 { input := ["Ada", "3", "0"], output := [] } shellState
        = dispatchShell sampleRuntime 0
            { input := []
              output := ["Name:", "Count:", "\n", "Optional query paramaters:\n", "\n",
                "[0] - I'm done\n", "[1] - Note\n", "[2] - Limit\n", "[3] - Tag\n", "\n",
                "Select an option: \n"] }
            { shellState with
              mem := storeValues shellState.mem
                ((infosFrom 0 0 (eligibleLeaves shellRecord)).filter (fun f => f.Required))
                [.string "Ada", .int 3] }
      ∧ (∃ c1 s1, GenericShellHandler sampleRuntime 0
            { input := ["Ada", "3", "0"], output := [] } shellState = .ret (none, c1) s1
          ∧ c1.output = ["Name:", "Count:", "\n", "Optional query paramaters:\n", "\n",
              "[0] - I'm done\n", "[1] - Note\n", "[2] - Limit\n", "[3] - Tag\n", "\n",
              "Select an option: \n"]
          ∧ s1.mem.load ⟨0, [0]⟩ = some (.string "Ada")
          ∧ s1.mem.load ⟨0, [1]⟩ = some (.int 3))
      ∧ (∃ c1 s1, GenericShellHandler sampleRuntime 0
            { input := ["Ada", "3", "0"], output := [] } requiredOnlyState = .ret (none, c1) s1
          ∧ c1 = { input := ["0"], output := ["Name:", "Count:"] })
      ∧ (∃ c1 s1, GenericShellHandler sampleRuntime 0
            { input := ["Ada", "three", "0"], output := [] } shellState
            = .ret (some "failed to convert user input to integer", c1) s1
          ∧ c1 = { input := ["0"], output := ["Name:", "Count:"] })
      ∧ (splitRequiredFields (infosFrom 0 0 (eligibleLeaves shellRecord))).1.map (fun f => f.Name)
          = ["Name", "Count"]
      ∧ (splitRequiredFields (infosFrom 0 0 (eligibleLeaves shellRecord))).2
          = (infosFrom 0 0 (eligibleLeaves shellRecord)).filter (fun f => !f.Required) :=
  ⟨((splitRequiredFields_partition sampleRuntime 0
        { input := ["Ada", "3", "0"], output := [] } shellState
        (infosFrom 0 0 (eligibleLeaves shellRecord)) rfl).2.2.2.1
      ["Ada", "3"] [.string "Ada", .int 3] ["0"] rfl rfl).2 "0" []
      (fun hnil => absurd (congrArg List.length hnil) (by decide)) rfl rfl,
    ⟨_, _, rfl, rfl, rfl, rfl⟩, ⟨_, _, rfl, rfl⟩, ⟨_, _, rfl, rfl⟩, rfl,
    (splitRequiredFields_partition sampleRuntime 0 { input := [], output := [] } shellState
      (infosFrom 0 0 (eligibleLeaves shellRecord)) rfl).2.1⟩

/-! ## Hooks around the executor: C12 -/

theorem hookCalls_append (a b : List Event) : hookCalls (a ++ b) = hookCalls a ++ hookCalls b := by
  simp [hookCalls, List.filterMap_append]

theorem hookCalls_hookEvents (c : CmdPtr) (eh : ErrorHandler) :
    ∀ l : List (CommandHook × Option String), hookCalls (hookEvents c eh l) = l.map Prod.fst := by
  intro l
  induction l with
  | nil => rfl
  | cons x rest ih =>
    obtain ⟨f, r⟩ := x
    cases r with
    | none =>
      simp only [hookEvents, List.map_cons]
      rw [← ih]
      simp [hookCalls]
    | some err =>
      simp only [hookEvents, List.map_cons]
      rw [← ih]
      simp [hookCalls]

theorem map_fst_zip_results (hooks : List CommandHook) (rs : List (Option String))
    (hlen : rs.length = hooks.length) : (hooks.zip rs).map Prod.fst = hooks := by
  rw [← List.unzip_fst, List.unzip_zip hlen.symm]

theorem commanderHandleError_returns {W : Type} (h : Runtime W) (c : CmdPtr) (k : CmdrPtr)
    (id : Nat) (hret : ∀ err (s1 : State W), (h.errorHandler id err s1).isSome)
    (err : String) (s : State W) (hk : (s.cmds c).Commander = some k)
    (he : (s.cmdrs k).errorHandler = some (.host id)) :
    ∃ s1, commanderHandleError h c err s = .ret () s1
      ∧ s1.trace = s.trace ++ [.error (.host id) err]
      ∧ s1.cmds = s.cmds ∧ s1.cmdrs = s.cmdrs := by
  unfold commanderHandleError HandleError
  rw [hk]
  simp only [he]
  cases hr : h.errorHandler id err (s.log (.error (.host id) err)) with
  | none =>
    have hsome := hret err (s.log (.error (.host id) err))
    rw [hr] at hsome
    cases hsome
  | some r => exact ⟨_, rfl, rfl, rfl, rfl⟩

theorem callHook_frame {W : Type} (h : Runtime W) (f : CommandHook) (c : CmdPtr) (s : State W) :
    (callHook h f c s).2.trace = s.trace ++ [.hook f c (callHook h f c s).1]
      ∧ (callHook h f c s).2.cmds = s.cmds ∧ (callHook h f c s).2.cmdrs = s.cmdrs := by
  cases f with
  | host id => exact ⟨rfl, rfl, rfl⟩

theorem runHooks_returns {W : Type} (h : Runtime W) (c : CmdPtr) (k : CmdrPtr) (id : Nat)
    (hret : ∀ err (s1 : State W), (h.errorHandler id err s1).isSome) :
    ∀ (hooks : List CommandHook) (s : State W), (s.cmds c).Commander = some k →
      (s.cmdrs k).errorHandler = some (.host id) →
      ∃ rs s1, rs.length = hooks.length
        ∧ runHooks h c hooks s = .ret () s1
        ∧ s1.trace = s.trace ++ hookEvents c (.host id) (hooks.zip rs)
        ∧ s1.cmds = s.cmds ∧ s1.cmdrs = s.cmdrs := by
  intro hooks
  induction hooks with
  | nil =>
    intro s _ _
    exact ⟨[], s, rfl, rfl, by simp [hookEvents], rfl, rfl⟩
  | cons f hooks ih =>
    intro s hk he
    obtain ⟨ht, hcm, hcr⟩ := callHook_frame h f c s
    cases hc : callHook h f c s with
    | mk r sa =>
      rw [hc] at ht hcm hcr
      simp only at ht hcm hcr
      cases r with
      | none =>
        obtain ⟨rs, s1, hlen, hrun, htr, hcm1, hcr1⟩ :=
          ih sa (by rw [hcm]; exact hk) (by rw [hcr]; exact he)
        refine ⟨none :: rs, s1, by simp [hlen], ?_, ?_, by rw [hcm1, hcm], by rw [hcr1, hcr]⟩
        · rw [runHooks, hc]
          exact hrun
        · rw [htr, ht, List.zip_cons_cons, hookEvents]
          simp
      | some err =>
        obtain ⟨sb, hb, htb, hcmb, hcrb⟩ := commanderHandleError_returns h c k id hret err sa
          (by rw [hcm]; exact hk) (by rw [hcr]; exact he)
        obtain ⟨rs, s1, hlen, hrun, htr, hcm1, hcr1⟩ :=
          ih sb (by rw [hcmb, hcm]; exact hk) (by rw [hcrb, hcr]; exact he)
        refine ⟨some err :: rs, s1, by simp [hlen], ?_, ?_, by rw [hcm1, hcmb, hcm],
          by rw [hcr1, hcrb, hcr]⟩
        · rw [runHooks, hc]
          simp only [hb]
          exact hrun
        · rw [htr, htb, ht, List.zip_cons_cons, hookEvents]
          simp

theorem runHooks_hooksInOrder {W : Type} (h : Runtime W) (c : CmdPtr) (k : CmdrPtr) (id : Nat) :
    ∀ (hooks : List CommandHook) (s : State W), (s.cmds c).Commander = some k →
      (s.cmdrs k).errorHandler = some (.host id) →
      runHooks h c hooks s
        = (match hooksInOrder h c id hooks s with
            | some s1 => .ret () s1
            | none => .panic handlerStopped) := by
  intro hooks
  induction hooks with
  | nil => intro s _ _; rfl
  | cons f hooks ih =>
    intro s hk he
    cases f with
    | host i =>
      rw [runHooks, hooksInOrder]
      cases hr : (h.hook i c s).1 with
      | none =>
        simp only [callHook, hr]
        exact ih _ hk he
      | some err =>
        simp only [callHook, hr, commanderHandleError, State.log, State.afterHost, hk,
          HandleError, he, List.append_assoc, List.singleton_append]
        cases he2 : h.errorHandler id err
            { s with
              mem := (h.hook i c s).2.1, world := (h.hook i c s).2.2
              trace := s.trace ++ [.hook (.host i) c (some err), .error (.host id) err] } with
        | none => rfl
        | some r2 =>
          simp only
          exact ih _ hk he

theorem HandleRequest_returns {W : Type} (h : Host W) (c : CmdPtr) (k : CmdrPtr)
    (req resp : Iface) (s : State W) (hk : (s.cmds c).Commander = some k) :
    ∃ e s1 t, HandleRequest h c req resp s = .ret e s1 ∧ s1.trace = s.trace ++ t
      ∧ hookCalls t = [] ∧ s1.cmds = s.cmds ∧ s1.cmdrs = s.cmdrs := by
  cases hf : resolvedRequestHandler s c with
  | some f =>
    obtain ⟨format, e1⟩ := HandleRequest_resolved h c req resp s f hf
    obtain ⟨f1, f2⟩ := callRequestHandler_frame h f req resp s
    exact ⟨_, _, [.request f req resp], by rw [e1]; rfl,
      callRequestHandler_trace h f req resp s, rfl, f1, f2⟩
  | none =>
    unfold resolvedRequestHandler at hf
    cases ho : (s.cmds c).RequestHandler with
    | some g => rw [ho] at hf; cases hf
    | none =>
      rw [ho, hk] at hf
      simp only at hf
      refine ⟨some "no request handler defined", s, [], ?_, by simp, rfl, rfl, rfl⟩
      unfold HandleRequest
      rw [ho, hk]
      simp only [DefaultRequestHandler, hf]

theorem HandleResponse_returns {W : Type} (h : Host W) (c : CmdPtr) (k : CmdrPtr)
    (resp : Iface) (s : State W) (hk : (s.cmds c).Commander = some k) :
    ∃ e s1 t, HandleResponse h c resp s = .ret e s1 ∧ s1.trace = s.trace ++ t
      ∧ hookCalls t = [] ∧ s1.cmds = s.cmds ∧ s1.cmdrs = s.cmdrs := by
  cases hf : resolvedResponseHandler s c with
  | some f =>
    obtain ⟨format, e1⟩ := HandleResponse_resolved h c resp s f hf
    obtain ⟨f1, f2⟩ := callResponseHandler_frame h f resp s
    exact ⟨_, _, [.response f resp], by rw [e1]; rfl,
      callResponseHandler_trace h f resp s, rfl, f1, f2⟩
  | none =>
    unfold resolvedResponseHandler at hf
    cases ho : (s.cmds c).ResponseHandler with
    | some g => rw [ho] at hf; cases hf
    | none =>
      rw [ho, hk] at hf
      simp only at hf
      refine ⟨some "no response handler defined", s, [], ?_, by simp, rfl, rfl, rfl⟩
      unfold HandleResponse
      rw [ho, hk]
      simp only [DefaultResponseHandler, hf]

theorem GenericStaticHandler_returns {W : Type} (h : Runtime W) (c : CmdPtr) (k : CmdrPtr)
    (args : List String) (s : State W) (hk : (s.cmds c).Commander = some k) :
    ∃ e s1 t, GenericStaticHandler h c args s = .ret e s1 ∧ s1.trace = s.trace ++ t
      ∧ hookCalls t = [] ∧ s1.cmds = s.cmds ∧ s1.cmdrs = s.cmdrs := by
  unfold GenericStaticHandler
  cases hv : h.validateStruct s.mem (s.cmds c).Request with
  | some err => exact ⟨_, s, [], rfl, by simp, rfl, rfl, rfl⟩
  | none =>
    simp only
    obtain ⟨e, s1, t, hq, ht, hh, hcm, hcr⟩ :=
      HandleRequest_returns h.toHost c k (s.cmds c).Request (s.cmds c).Response s hk
    rw [hq]
    cases e with
    | some err => exact ⟨_, s1, t, rfl, ht, hh, hcm, hcr⟩
    | none =>
      simp only
      obtain ⟨e2, s2, t2, hq2, ht2, hh2, hcm2, hcr2⟩ :=
        HandleResponse_returns h.toHost c k (s1.cmds c).Response s1 (by rw [hcm]; exact hk)
      refine ⟨e2, s2, t ++ t2, hq2, by rw [ht2, ht, List.append_assoc], ?_, by rw [hcm2, hcm],
        by rw [hcr2, hcr]⟩
      rw [hookCalls_append, hh, hh2]
      rfl

theorem callStaticExec_returns {W : Type} (h : Runtime W) (f : StaticExec) (c : CmdPtr)
    (k : CmdrPtr) (args : List String) (s : State W) (hk : (s.cmds c).Commander = some k) :
    ∃ e s1 t, callStaticExec h f c args s = .ret e s1
      ∧ s1.trace = s.trace ++ .staticExec f c args :: t
      ∧ hookCalls t = [] ∧ s1.cmds = s.cmds ∧ s1.cmdrs = s.cmdrs := by
  cases f with
  | GenericStaticHandler =>
    obtain ⟨e, s1, t, hq, ht, hh, hcm, hcr⟩ := GenericStaticHandler_returns h c k args
      (s.log (.staticExec .GenericStaticHandler c args)) hk
    refine ⟨e, s1, t, hq, ?_, hh, hcm, hcr⟩
    rw [ht]
    simp [State.log]
  | host id =>
    exact ⟨_, _, [], rfl, rfl, rfl, rfl, rfl⟩

theorem execStatic_returns {W : Type} (h : Runtime W) (c : CmdPtr) (k : CmdrPtr) (id : Nat)
    (hret : ∀ err (s1 : State W), (h.errorHandler id err s1).isSome)
    (args : List String) (s : State W) (hk : (s.cmds c).Commander = some k)
    (he : (s.cmdrs k).errorHandler = some (.host id)) :
    ∃ s2 t, execStatic h c args s = .ret () s2 ∧ s2.trace = s.trace ++ t ∧ hookCalls t = []
      ∧ s2.cmds = s.cmds ∧ s2.cmdrs = s.cmdrs
      ∧ (∀ f, resolvedStaticExec s c = some f → ∃ rest, t = .staticExec f c args :: rest)
      ∧ (∀ f, resolvedStaticExec s c = some f → ∀ err sx,
          callStaticExec h f c args s = .ret (some err) sx →
          ∃ format rest, t = rest ++ [.error (.host id) (errorf format err)]) := by
  have key : ∀ (f : StaticExec) (format : String), ∃ s2 t,
      ((match callStaticExec h f c args s with
        | .panic msg => .panic msg
        | .ret (some err) s1 => commanderHandleError h c (errorf format err) s1
        | .ret none s1 => .ret () s1) : Run (State W) Unit) = .ret () s2
      ∧ s2.trace = s.trace ++ t ∧ hookCalls t = []
      ∧ s2.cmds = s.cmds ∧ s2.cmdrs = s.cmdrs
      ∧ (∃ rest, t = .staticExec f c args :: rest)
      ∧ (∀ err sx, callStaticExec h f c args s = .ret (some err) sx →
          ∃ rest, t = rest ++ [.error (.host id) (errorf format err)]) := by
    intro f format
    obtain ⟨e, s1, t, hq, ht, hh, hcm, hcr⟩ := callStaticExec_returns h f c k args s hk
    rw [hq]
    cases e with
    | none =>
      exact ⟨s1, .staticExec f c args :: t, rfl, ht, by simpa [hookCalls] using hh, hcm, hcr,
        ⟨t, rfl⟩, fun err sx hx => by cases hx⟩
    | some err =>
      simp only
      obtain ⟨s2, h2, ht2, hcm2, hcr2⟩ := commanderHandleError_returns h c k id hret
        (errorf format err) s1 (by rw [hcm]; exact hk) (by rw [hcr]; exact he)
      refine ⟨s2, .staticExec f c args :: t ++ [.error (.host id) (errorf format err)], h2, ?_, ?_,
        by rw [hcm2, hcm], by rw [hcr2, hcr], ⟨_, rfl⟩, ?_⟩
      · rw [ht2, ht]
        simp
      · rw [hookCalls_append]
        have h1 : hookCalls (Event.staticExec f c args :: t) = [] := by
          simpa [hookCalls] using hh
        rw [h1]
        rfl
      · intro err2 sx hx
        simp only [Run.ret.injEq, Option.some.injEq] at hx
        obtain ⟨rfl, rfl⟩ := hx
        exact ⟨_, rfl⟩
  cases ho : (s.cmds c).StaticExec with
  | some f =>
    have hres : resolvedStaticExec s c = some f := by
      simp only [resolvedStaticExec, ho]
    obtain ⟨s2, t, hq, ht, hh, hcm, hcr, hfirst, herr⟩ :=
      key f "error from command static exec: "
    refine ⟨s2, t, ?_, ht, hh, hcm, hcr, ?_, ?_⟩
    · unfold execStatic
      rw [ho]
      exact hq
    · intro g hg
      rw [hres] at hg
      cases hg
      exact hfirst
    · intro g hg err sx hx
      rw [hres] at hg
      cases hg
      exact ⟨_, herr err sx hx⟩
  | none =>
    cases hd : (s.cmdrs k).staticExec with
    | some f =>
      have hres : resolvedStaticExec s c = some f := by
        simp only [resolvedStaticExec, ho, hk, hd]
      obtain ⟨s2, t, hq, ht, hh, hcm, hcr, hfirst, herr⟩ :=
        key f "error from commander static exec: "
      refine ⟨s2, t, ?_, ht, hh, hcm, hcr, ?_, ?_⟩
      · unfold execStatic
        rw [ho, hk]
        simp only [hd]
        exact hq
      · intro g hg
        rw [hres] at hg
        cases hg
        exact hfirst
      · intro g hg err sx hx
        rw [hres] at hg
        cases hg
        exact ⟨_, herr err sx hx⟩
    | none =>
      have hres : resolvedStaticExec s c = none := by
        simp only [resolvedStaticExec, ho, hk, hd]
      obtain ⟨s2, h2, ht2, hcm2, hcr2⟩ := commanderHandleError_returns h c k id hret
        "no static exec handler defined" s hk he
      refine ⟨s2, [.error (.host id) "no static exec handler defined"], ?_, ht2, rfl, hcm2, hcr2,
        ?_, ?_⟩
      · unfold execStatic
        rw [ho, hk]
        simp only [hd]
        exact h2
      · intro g hg
        rw [hres] at hg
        cases hg
      · intro g hg
        rw [hres] at hg
        cases hg

theorem resolvedStaticExec_congr {W : Type} (s s1 : State W) (c : CmdPtr)
    (hcm : s1.cmds = s.cmds) (hcr : s1.cmdrs = s.cmdrs) :
    resolvedStaticExec s1 c = resolvedStaticExec s c := by
  unfold resolvedStaticExec
  rw [hcm, hcr]

theorem handleStatic_phases {W : Type} (h : Runtime W) (c : CmdPtr) (k : CmdrPtr) (id : Nat)
    (hret : ∀ err (s1 : State W), (h.errorHandler id err s1).isSome)
    (args : List String) (s : State W) (hk : (s.cmds c).Commander = some k)
    (he : (s.cmdrs k).errorHandler = some (.host id)) :
    ∃ rpre s1 texec s2 rpost s3,
      rpre.length = (s.cmdrs k).preRequest.length
      ∧ rpost.length = (s.cmdrs k).postRequest.length
      ∧ runHooks h c (s.cmdrs k).preRequest s = .ret () s1
      ∧ s1.trace = s.trace ++ hookEvents c (.host id) ((s.cmdrs k).preRequest.zip rpre)
      ∧ s1.cmds = s.cmds ∧ s1.cmdrs = s.cmdrs
      ∧ execStatic h c args s1 = .ret () s2
      ∧ s2.trace = s1.trace ++ texec
      ∧ hookCalls texec = []
      ∧ (∀ f, resolvedStaticExec s c = some f → ∃ rest, texec = .staticExec f c args :: rest)
      ∧ s2.cmds = s.cmds ∧ s2.cmdrs = s.cmdrs
      ∧ runHooks h c (s.cmdrs k).postRequest s2 = .ret () s3
      ∧ s3.trace = s2.trace ++ hookEvents c (.host id) ((s.cmdrs k).postRequest.zip rpost)
      ∧ handleStatic h c args s = .ret () s3 := by
  obtain ⟨rpre, s1, hl1, hr1, ht1, hcm1, hcr1⟩ :=
    runHooks_returns h c k id hret (s.cmdrs k).preRequest s hk he
  have hk1 : (s1.cmds c).Commander = some k := by rw [hcm1]; exact hk
  have he1 : (s1.cmdrs k).errorHandler = some (.host id) := by rw [hcr1]; exact he
  obtain ⟨s2, texec, hr2, ht2, hh2, hcm2, hcr2, hfirst, _⟩ :=
    execStatic_returns h c k id hret args s1 hk1 he1
  have hk2 : (s2.cmds c).Commander = some k := by rw [hcm2]; exact hk1
  have he2 : (s2.cmdrs k).errorHandler = some (.host id) := by rw [hcr2]; exact he1
  obtain ⟨rpost, s3, hl3, hr3, ht3, _, _⟩ :=
    runHooks_returns h c k id hret (s2.cmdrs k).postRequest s2 hk2 he2
  have hpost : (s2.cmdrs k).postRequest = (s.cmdrs k).postRequest := by rw [hcr2, hcr1]
  rw [hpost] at hl3 hr3 ht3
  have hres := resolvedStaticExec_congr s s1 c hcm1 hcr1
  refine ⟨rpre, s1, texec, s2, rpost, s3, hl1, hl3, hr1, ht1, hcm1, hcr1, hr2, ht2, hh2, ?_,
    by rw [hcm2, hcm1], by rw [hcr2, hcr1], hr3, ht3, ?_⟩
  · intro f hf
    exact hfirst f (by rw [hres]; exact hf)
  · unfold handleStatic
    rw [hk]
    simp only [hr1, hr2, hk2, hcr2, hcr1]
    exact hr3

theorem GenericStaticHandler_frame {W : Type} (h : Runtime W) (c : CmdPtr) (k : CmdrPtr)
    (args : List String) (s sx : State W) (e : Option String)
    (hk : (s.cmds c).Commander = some k)
    (hr : GenericStaticHandler h c args s = .ret e sx) :
    sx.cmds = s.cmds ∧ sx.cmdrs = s.cmdrs := by
  obtain ⟨e0, s0, t, hq, _, _, hcm, hcr⟩ := GenericStaticHandler_returns h c k args s hk
  rw [hq] at hr
  simp only [Run.ret.injEq] at hr
  obtain ⟨_, rfl⟩ := hr
  exact ⟨hcm, hcr⟩

/-- The executor phase of `handleStatic` when the executor is a function of the
host program, in terms of that function and of the error handler. -/
theorem execStatic_host {W : Type} (h : Runtime W) (c : CmdPtr) (k : CmdrPtr) (id : Nat)
    (args : List String) (s1 : State W) (hk : (s1.cmds c).Commander = some k)
    (he : (s1.cmdrs k).errorHandler = some (.host id))
    (j : Nat) (T : String) (r : Option String × Mem × W)
    (hlevel : ((s1.cmds c).StaticExec = some (.host j) ∧ T = "error from command static exec: ")
      ∨ ((s1.cmds c).StaticExec = none ∧ (s1.cmdrs k).staticExec = some (.host j)
          ∧ T = "error from commander static exec: "))
    (hr : h.staticExec j c args
        { s1 with trace := s1.trace ++ [.staticExec (.host j) c args] } = r) :
    (r.1 = none →
        execStatic h c args s1
          = .ret ()
              { s1 with
                mem := r.2.1, world := r.2.2
                trace := s1.trace ++ [.staticExec (.host j) c args] })
      ∧ (∀ e r2, r.1 = some e →
          h.errorHandler id (T ++ e)
              { s1 with
                mem := r.2.1, world := r.2.2
                trace := s1.trace
                  ++ [.staticExec (.host j) c args, .error (.host id) (T ++ e)] } = some r2 →
          execStatic h c args s1
            = .ret ()
                { s1 with
                  mem := r2.1, world := r2.2
                  trace := s1.trace
                    ++ [.staticExec (.host j) c args, .error (.host id) (T ++ e)] }) := by
  subst hr
  refine ⟨?_, ?_⟩
  · intro hnone
    rcases hlevel with ⟨ho, rfl⟩ | ⟨ho, hd, rfl⟩
    · simp only [execStatic, ho, callStaticExec, State.log, hnone]
      rfl
    · simp only [execStatic, ho, hk, hd, callStaticExec, State.log, hnone]
      rfl
  · intro e r2 hsome hr2
    rcases hlevel with ⟨ho, rfl⟩ | ⟨ho, hd, rfl⟩
    · simp only [execStatic, ho, callStaticExec, State.log, hsome, commanderHandleError,
        State.afterHost, hk, HandleError, he, errorf, List.append_assoc, List.singleton_append,
        hr2]
    · simp only [execStatic, ho, hk, hd, callStaticExec, State.log, hsome, commanderHandleError,
        State.afterHost, HandleError, he, errorf, List.append_assoc, List.singleton_append,
        hr2]

/-- The executor phase of `handleStatic` when the executor is
`GenericStaticHandler`. -/
theorem execStatic_generic {W : Type} (h : Runtime W) (c : CmdPtr) (k : CmdrPtr) (id : Nat)
    (args : List String) (s1 : State W) (hk : (s1.cmds c).Commander = some k)
    (he : (s1.cmdrs k).errorHandler = some (.host id))
    (T : String) (e : Option String) (sx : State W)
    (hlevel : ((s1.cmds c).StaticExec = some .GenericStaticHandler
        ∧ T = "error from command static exec: ")
      ∨ ((s1.cmds c).StaticExec = none ∧ (s1.cmdrs k).staticExec = some .GenericStaticHandler
          ∧ T = "error from commander static exec: "))
    (hr : GenericStaticHandler h c args
        { s1 with trace := s1.trace ++ [.staticExec .GenericStaticHandler c args] }
      = .ret e sx) :
    (e = none → execStatic h c args s1 = .ret () sx)
      ∧ (∀ err r2, e = some err →
          h.errorHandler id (T ++ err)
              { sx with trace := sx.trace ++ [.error (.host id) (T ++ err)] } = some r2 →
          execStatic h c args s1
            = .ret ()
                { sx with
                  mem := r2.1, world := r2.2
                  trace := sx.trace ++ [.error (.host id) (T ++ err)] }) := by
  obtain ⟨hcm, hcr⟩ := GenericStaticHandler_frame h c k args
    ({ s1 with trace := s1.trace ++ [.staticExec .GenericStaticHandler c args] } : State W)
    sx e hk hr
  have hkx : (sx.cmds c).Commander = some k := by rw [hcm]; exact hk
  have hex : (sx.cmdrs k).errorHandler = some (.host id) := by rw [hcr]; exact he
  have hcall : callStaticExec h .GenericStaticHandler c args s1 = .ret e sx := hr
  refine ⟨?_, ?_⟩
  · intro hnone
    subst hnone
    rcases hlevel with ⟨ho, rfl⟩ | ⟨ho, hd, rfl⟩
    · simp only [execStatic, ho, hcall]
    · simp only [execStatic, ho, hk, hd, hcall]
  · intro err r2 hsome hr2
    subst hsome
    rcases hlevel with ⟨ho, rfl⟩ | ⟨ho, hd, rfl⟩
    · simp only [execStatic, ho, hcall, commanderHandleError, hkx, HandleError, hex, errorf,
        State.log, hr2]
    · simp only [execStatic, ho, hk, hd, hcall, commanderHandleError, hkx, HandleError, hex,
        errorf, State.log, hr2]

theorem dispatchShell_returns {W : Type} (h : Runtime W) (c : CmdPtr) (k : CmdrPtr)
    (sc : ShellContext) (s : State W) (hk : (s.cmds c).Commander = some k) :
    ∃ e s1 t, dispatchShell h c sc s = .ret (e, sc) s1 ∧ s1.trace = s.trace ++ t
      ∧ hookCalls t = [] ∧ s1.cmds = s.cmds ∧ s1.cmdrs = s.cmdrs := by
  unfold dispatchShell
  obtain ⟨e, s1, t, hq, ht, hh, hcm, hcr⟩ :=
    HandleRequest_returns h.toHost c k (s.cmds c).Request (s.cmds c).Response s hk
  rw [hq]
  cases e with
  | some err => exact ⟨_, s1, t, rfl, ht, hh, hcm, hcr⟩
  | none =>
    simp only
    obtain ⟨e2, s2, t2, hq2, ht2, hh2, hcm2, hcr2⟩ :=
      HandleResponse_returns h.toHost c k (s1.cmds c).Response s1 (by rw [hcm]; exact hk)
    rw [hq2]
    refine ⟨_, s2, t ++ t2, rfl, by rw [ht2, ht, List.append_assoc], ?_, by rw [hcm2, hcm],
      by rw [hcr2, hcr]⟩
    rw [hookCalls_append, hh, hh2]
    rfl

theorem GenericShellHandler_frame {W : Type} (h : Runtime W) (c : CmdPtr) (k : CmdrPtr)
    (sc sc1 : ShellContext) (s s1 : State W) (e : Option String)
    (hk : (s.cmds c).Commander = some k)
    (hr : GenericShellHandler h c sc s = .ret (e, sc1) s1) :
    ∃ t, s1.trace = s.trace ++ t ∧ hookCalls t = [] ∧ s1.cmds = s.cmds ∧ s1.cmdrs = s.cmdrs := by
  unfold GenericShellHandler at hr
  cases hin : InspectStruct s.mem (s.cmds c).Request with
  | error err =>
    rw [hin] at hr
    simp only [Run.ret.injEq, Prod.mk.injEq] at hr
    obtain ⟨_, rfl⟩ := hr
    exact ⟨[], by simp, rfl, rfl, rfl⟩
  | ok fis =>
    rw [hin] at hr
    simp only at hr
    cases hc : collectRequired (splitRequiredFields fis).1 sc s with
    | panic msg => rw [hc] at hr; cases hr
    | ret r sa =>
      obtain ⟨e1, ca⟩ := r
      rw [hc] at hr
      obtain ⟨_, _, _, _, hta, hcma, hcra⟩ := collectRequired_output _ sc ca s sa e1 hc
      cases e1 with
      | some err =>
        simp only [Run.ret.injEq, Prod.mk.injEq] at hr
        obtain ⟨_, rfl⟩ := hr
        exact ⟨[], by simp [hta], rfl, hcma, hcra⟩
      | none =>
        simp only at hr
        cases ho : optionalLoop (splitRequiredFields fis).2 (optionalFuel ca) ca sa with
        | panic msg => rw [ho] at hr; cases hr
        | ret r2 sb =>
          obtain ⟨e2, cb⟩ := r2
          rw [ho] at hr
          obtain ⟨_, htb, hcmb, hcrb⟩ := optionalLoop_output _ _ ca cb sa sb e2 ho
          cases e2 with
          | some err =>
            simp only [Run.ret.injEq, Prod.mk.injEq] at hr
            obtain ⟨_, rfl⟩ := hr
            exact ⟨[], by simp [htb, hta], rfl, by rw [hcmb, hcma], by rw [hcrb, hcra]⟩
          | none =>
            simp only at hr
            obtain ⟨e3, s3, t, hq, ht, hh, hcm, hcr⟩ := dispatchShell_returns h c k cb sb
              (by rw [hcmb, hcma]; exact hk)
            rw [hq] at hr
            simp only [Run.ret.injEq, Prod.mk.injEq] at hr
            obtain ⟨_, rfl⟩ := hr
            exact ⟨t, by rw [ht, htb, hta], hh, by rw [hcm, hcmb, hcma], by rw [hcr, hcrb, hcra]⟩

theorem callShellExec_frame {W : Type} (h : Runtime W) (f : ShellExec) (c : CmdPtr)
    (k : CmdrPtr) (sc sc1 : ShellContext) (s s1 : State W) (e : Option String)
    (hk : (s.cmds c).Commander = some k)
    (hr : callShellExec h f c sc s = .ret (e, sc1) s1) :
    ∃ t, s1.trace = s.trace ++ .shellExec f c :: t
      ∧ hookCalls t = [] ∧ s1.cmds = s.cmds ∧ s1.cmdrs = s.cmdrs := by
  cases f with
  | GenericShellHandler =>
    obtain ⟨t, ht, hh, hcm, hcr⟩ := GenericShellHandler_frame h c k sc sc1
      (s.log (.shellExec .GenericShellHandler c)) s1 e hk hr
    refine ⟨t, ?_, hh, hcm, hcr⟩
    rw [ht]
    simp [State.log]
  | host id =>
    simp only [callShellExec, Run.ret.injEq, Prod.mk.injEq] at hr
    obtain ⟨_, rfl⟩ := hr
    exact ⟨[], rfl, rfl, rfl, rfl⟩

theorem execShell_frame {W : Type} (h : Runtime W) (c : CmdPtr) (k : CmdrPtr) (id : Nat)
    (hret : ∀ err (s1 : State W), (h.errorHandler id err s1).isSome)
    (sc : ShellContext) (s : State W) (hk : (s.cmds c).Commander = some k)
    (he : (s.cmdrs k).errorHandler = some (.host id)) :
    (∀ f, resolvedShellExec s c = some f → ∀ err scx sx,
        callShellExec h f c sc s = .ret (some err, scx) sx →
        ∃ s2, execShell h c sc s = .ret scx s2)
      ∧ (∀ sc1 s2, execShell h c sc s = .ret sc1 s2 →
          ∃ t, s2.trace = s.trace ++ t ∧ hookCalls t = []
            ∧ s2.cmds = s.cmds ∧ s2.cmdrs = s.cmdrs
            ∧ (∀ f, resolvedShellExec s c = some f → ∃ rest, t = .shellExec f c :: rest)
            ∧ (∀ f, resolvedShellExec s c = some f → ∀ err scx sx,
                callShellExec h f c sc s = .ret (some err, scx) sx →
                ∃ format rest, t = rest ++ [.error (.host id) (errorf format err)])) := by
  have key : ∀ (f : ShellExec) (format : String),
      (∀ err scx sx, callShellExec h f c sc s = .ret (some err, scx) sx →
        ∃ s2, ((match callShellExec h f c sc s with
          | .panic msg => .panic msg
          | .ret (some err, sc1) s1 =>
            match commanderHandleError h c (errorf format err) s1 with
            | .panic msg => .panic msg
            | .ret _ s2 => .ret sc1 s2
          | .ret (none, sc1) s1 => .ret sc1 s1) : Run (State W) ShellContext) = .ret scx s2)
      ∧ (∀ sc1 s2, ((match callShellExec h f c sc s with
          | .panic msg => .panic msg
          | .ret (some err, sc1) s1 =>
            match commanderHandleError h c (errorf format err) s1 with
            | .panic msg => .panic msg
            | .ret _ s2 => .ret sc1 s2
          | .ret (none, sc1) s1 => .ret sc1 s1) : Run (State W) ShellContext) = .ret sc1 s2 →
          ∃ t, s2.trace = s.trace ++ t ∧ hookCalls t = []
            ∧ s2.cmds = s.cmds ∧ s2.cmdrs = s.cmdrs
            ∧ (∃ rest, t = .shellExec f c :: rest)
            ∧ (∀ err scx sx, callShellExec h f c sc s = .ret (some err, scx) sx →
                ∃ rest, t = rest ++ [.error (.host id) (errorf format err)])) := by
    intro f format
    cases hq : callShellExec h f c sc s with
    | panic msg =>
      exact ⟨fun err scx sx hx => (by cases hx), fun sc1 s2 hx => (by cases hx)⟩
    | ret r sx =>
      obtain ⟨e, scx⟩ := r
      obtain ⟨t, ht, hh, hcm, hcr⟩ := callShellExec_frame h f c k sc scx s sx e hk hq
      have h1 : hookCalls (Event.shellExec f c :: t) = [] := by
        simpa [hookCalls] using hh
      cases e with
      | none =>
        refine ⟨fun err scx2 sx2 hx => (by cases hx), fun sc1 s2 hx => ?_⟩
        simp only [Run.ret.injEq] at hx
        obtain ⟨rfl, rfl⟩ := hx
        exact ⟨_, ht, h1, hcm, hcr, ⟨t, rfl⟩, fun err scx2 sx2 hx2 => by cases hx2⟩
      | some err =>
        obtain ⟨sy, hy, hty, hcmy, hcry⟩ := commanderHandleError_returns h c k id hret
          (errorf format err) sx (by rw [hcm]; exact hk) (by rw [hcr]; exact he)
        simp only [hy]
        refine ⟨fun err2 scx2 sx2 hx => ?_, fun sc1 s2 hx => ?_⟩
        · simp only [Run.ret.injEq, Prod.mk.injEq, Option.some.injEq] at hx
          obtain ⟨⟨_, rfl⟩, _⟩ := hx
          exact ⟨sy, rfl⟩
        · simp only [Run.ret.injEq] at hx
          obtain ⟨rfl, rfl⟩ := hx
          refine ⟨.shellExec f c :: t ++ [.error (.host id) (errorf format err)], ?_, ?_,
            by rw [hcmy, hcm], by rw [hcry, hcr], ⟨_, rfl⟩, ?_⟩
          · rw [hty, ht]
            simp
          · rw [hookCalls_append, h1]
            rfl
          · intro err2 scx2 sx2 hx2
            simp only [Run.ret.injEq, Prod.mk.injEq, Option.some.injEq] at hx2
            obtain ⟨⟨rfl, _⟩, _⟩ := hx2
            exact ⟨_, rfl⟩
  cases ho : (s.cmds c).ShellExec with
  | some f =>
    have hres : resolvedShellExec s c = some f := by
      simp only [resolvedShellExec, ho]
    have hex : execShell h c sc s
        = ((match callShellExec h f c sc s with
          | .panic msg => .panic msg
          | .ret (some err, sc1) s1 =>
            match commanderHandleError h c (errorf "error from command shell exec: " err) s1 with
            | .panic msg => .panic msg
            | .ret _ s2 => .ret sc1 s2
          | .ret (none, sc1) s1 => .ret sc1 s1) : Run (State W) ShellContext) := by
      unfold execShell
      rw [ho]
    obtain ⟨k1, k2⟩ := key f "error from command shell exec: "
    rw [hex, hres]
    refine ⟨fun g hg => ?_, fun sc1 s2 hx => ?_⟩
    · cases hg
      exact k1
    · obtain ⟨t, ht, hh, hcm, hcr, hfirst, herr⟩ := k2 sc1 s2 hx
      refine ⟨t, ht, hh, hcm, hcr, fun g hg => ?_, fun g hg err scx sx hq => ?_⟩
      · cases hg
        exact hfirst
      · cases hg
        exact ⟨_, herr err scx sx hq⟩
  | none =>
    cases hd : (s.cmdrs k).shellExec with
    | some f =>
      have hres : resolvedShellExec s c = some f := by
        simp only [resolvedShellExec, ho, hk, hd]
      have hex : execShell h c sc s
          = ((match callShellExec h f c sc s with
            | .panic msg => .panic msg
            | .ret (some err, sc1) s1 =>
              match commanderHandleError h c
                  (errorf "error from commander shell exec: " err) s1 with
              | .panic msg => .panic msg
              | .ret _ s2 => .ret sc1 s2
            | .ret (none, sc1) s1 => .ret sc1 s1) : Run (State W) ShellContext) := by
        unfold execShell
        rw [ho, hk]
        simp only [hd]
      obtain ⟨k1, k2⟩ := key f "error from commander shell exec: "
      rw [hex, hres]
      refine ⟨fun g hg => ?_, fun sc1 s2 hx => ?_⟩
      · cases hg
        exact k1
      · obtain ⟨t, ht, hh, hcm, hcr, hfirst, herr⟩ := k2 sc1 s2 hx
        refine ⟨t, ht, hh, hcm, hcr, fun g hg => ?_, fun g hg err scx sx hq => ?_⟩
        · cases hg
          exact hfirst
        · cases hg
          exact ⟨_, herr err scx sx hq⟩
    | none =>
      have hres : resolvedShellExec s c = none := by
        simp only [resolvedShellExec, ho, hk, hd]
      obtain ⟨sy, hy, hty, hcmy, hcry⟩ := commanderHandleError_returns h c k id hret
        "no shell exec handler defined" s hk he
      have hex : execShell h c sc s = .ret sc sy := by
        unfold execShell
        rw [ho, hk]
        simp only [hd, hy]
      rw [hex, hres]
      refine ⟨fun g hg => (by cases hg), fun sc1 s2 hx => ?_⟩
      simp only [Run.ret.injEq] at hx
      obtain ⟨_, rfl⟩ := hx
      exact ⟨_, hty, rfl, hcmy, hcry, fun g hg => (by cases hg), fun g hg => (by cases hg)⟩

theorem resetStruct_frame {W : Type} (p : Iface) (s : State W) :
    (resetStruct p s).2.trace = s.trace ∧ (resetStruct p s).2.cmds = s.cmds
      ∧ (resetStruct p s).2.cmdrs = s.cmdrs := by
  unfold resetStruct
  split
  · split <;> exact ⟨rfl, rfl, rfl⟩
  · exact ⟨rfl, rfl, rfl⟩

theorem resetField_returns {W : Type} (h : Runtime W) (c : CmdPtr) (k : CmdrPtr) (id : Nat)
    (hret : ∀ err (s1 : State W), (h.errorHandler id err s1).isSome)
    (old : Iface) (setField : Command → Iface → Command)
    (hset : ∀ x p, (setField x p).Commander = x.Commander
      ∧ (setField x p).ShellExec = x.ShellExec)
    (s : State W) (hk : (s.cmds c).Commander = some k)
    (he : (s.cmdrs k).errorHandler = some (.host id)) :
    ∃ s1 t, resetField h c old setField s = .ret () s1 ∧ s1.trace = s.trace ++ t
      ∧ hookCalls t = [] ∧ s1.cmdrs = s.cmdrs
      ∧ (s1.cmds c).Commander = (s.cmds c).Commander
      ∧ (s1.cmds c).ShellExec = (s.cmds c).ShellExec := by
  obtain ⟨ft, fcm, fcr⟩ := resetStruct_frame old s
  unfold resetField
  simp only
  cases hr : (resetStruct old s).1.2 with
  | none =>
    refine ⟨_, [], rfl, by simp [ft], rfl, fcr, ?_, ?_⟩
    · simp only [Function.update_same, fcm]
      exact (hset _ _).1
    · simp only [Function.update_same, fcm]
      exact (hset _ _).2
  | some err =>
    simp only
    obtain ⟨s1, h1, ht1, hcm1, hcr1⟩ := commanderHandleError_returns h c k id hret err
      ({ (resetStruct old s).2 with
          cmds := Function.update (resetStruct old s).2.cmds c
            (setField ((resetStruct old s).2.cmds c) (resetStruct old s).1.1) } : State W)
      (by simp only [Function.update_same, fcm]; rw [(hset _ _).1]; exact hk)
      (by simp only [fcr]; exact he)
    refine ⟨s1, [.error (.host id) err], h1, ?_, rfl, (by rw [hcr1]; exact fcr), ?_, ?_⟩
    · rw [ht1]
      exact congrArg (fun l => l ++ [Event.error (ErrorHandler.host id) err]) ft
    · rw [hcm1]
      simp only [Function.update_same, fcm]
      exact (hset _ _).1
    · rw [hcm1]
      simp only [Function.update_same, fcm]
      exact (hset _ _).2

theorem resolvedShellExec_congr {W : Type} (s s1 : State W) (c : CmdPtr)
    (hk : (s1.cmds c).Commander = (s.cmds c).Commander)
    (hx : (s1.cmds c).ShellExec = (s.cmds c).ShellExec) (hcr : s1.cmdrs = s.cmdrs) :
    resolvedShellExec s1 c = resolvedShellExec s c := by
  unfold resolvedShellExec
  rw [hk, hx, hcr]

theorem handleShell_phases {W : Type} (h : Runtime W) (c : CmdPtr) (k : CmdrPtr) (id : Nat)
    (hret : ∀ err (s1 : State W), (h.errorHandler id err s1).isSome)
    (sc : ShellContext) (s : State W) (hk : (s.cmds c).Commander = some k)
    (he : (s.cmdrs k).errorHandler = some (.host id)) :
    ∃ sa sb t0 rpre s1,
      resetField h c (s.cmds c).Request (fun x p => { x with Request := p }) s = .ret () sa
      ∧ resetField h c (sa.cmds c).Response (fun x p => { x with Response := p }) sa = .ret () sb
      ∧ sb.trace = s.trace ++ t0 ∧ hookCalls t0 = []
      ∧ (sb.cmds c).Commander = some k ∧ (sb.cmds c).ShellExec = (s.cmds c).ShellExec
      ∧ sb.cmdrs = s.cmdrs
      ∧ rpre.length = (s.cmdrs k).preRequest.length
      ∧ runHooks h c (s.cmdrs k).preRequest sb = .ret () s1
      ∧ s1.trace = sb.trace ++ hookEvents c (.host id) ((s.cmdrs k).preRequest.zip rpre)
      ∧ s1.cmds = sb.cmds ∧ s1.cmdrs = s.cmdrs
      ∧ (∀ sc1 s2, execShell h c sc s1 = .ret sc1 s2 →
          ∃ texec rpost s3,
            rpost.length = (s.cmdrs k).postRequest.length
            ∧ s2.trace = s1.trace ++ texec
            ∧ hookCalls texec = []
            ∧ (∀ f, resolvedShellExec s c = some f → ∃ rest, texec = .shellExec f c :: rest)
            ∧ runHooks h c (s.cmdrs k).postRequest s2 = .ret () s3
            ∧ s3.trace = s2.trace ++ hookEvents c (.host id) ((s.cmdrs k).postRequest.zip rpost)
            ∧ (s2.cmds c).Commander = some k ∧ s2.cmdrs = s.cmdrs
            ∧ handleShell h c sc s = .ret sc1 s3) := by
  obtain ⟨sa, ta, hra, hta, hha, hcra, hka, hxa⟩ := resetField_returns h c k id hret
    (s.cmds c).Request (fun x p => { x with Request := p }) (fun _ _ => ⟨rfl, rfl⟩) s hk he
  have hk_a : (sa.cmds c).Commander = some k := by rw [hka]; exact hk
  have he_a : (sa.cmdrs k).errorHandler = some (.host id) := by rw [hcra]; exact he
  obtain ⟨sb, tb, hrb, htb, hhb, hcrb, hkb, hxb⟩ := resetField_returns h c k id hret
    (sa.cmds c).Response (fun x p => { x with Response := p }) (fun _ _ => ⟨rfl, rfl⟩) sa
    hk_a he_a
  have hk_b : (sb.cmds c).Commander = some k := by rw [hkb]; exact hk_a
  have he_b : (sb.cmdrs k).errorHandler = some (.host id) := by rw [hcrb]; exact he_a
  have hcr_b : sb.cmdrs = s.cmdrs := by rw [hcrb, hcra]
  obtain ⟨rpre, s1, hl1, hr1, ht1, hcm1, hcr1⟩ :=
    runHooks_returns h c k id hret (sb.cmdrs k).preRequest sb hk_b he_b
  rw [hcr_b] at hl1 hr1 ht1
  have hk1 : (s1.cmds c).Commander = some k := by rw [hcm1]; exact hk_b
  have he1 : (s1.cmdrs k).errorHandler = some (.host id) := by rw [hcr1]; exact he_b
  have hres : resolvedShellExec s1 c = resolvedShellExec s c := by
    rw [resolvedShellExec_congr sb s1 c (by rw [hcm1]) (by rw [hcm1]) hcr1,
      resolvedShellExec_congr sa sb c hkb hxb hcrb,
      resolvedShellExec_congr s sa c hka hxa hcra]
  obtain ⟨_, x2⟩ := execShell_frame h c k id hret sc s1 hk1 he1
  refine ⟨sa, sb, ta ++ tb, rpre, s1, hra, hrb, by rw [htb, hta, List.append_assoc],
    by rw [hookCalls_append, hha, hhb]; rfl, hk_b, by rw [hxb, hxa], hcr_b, hl1, hr1, ht1, hcm1,
    by rw [hcr1, hcr_b], ?_⟩
  intro sc1 s2 hx
  obtain ⟨texec, ht2, hh2, hcm2, hcr2, hfirst, _⟩ := x2 sc1 s2 hx
  have hk2 : (s2.cmds c).Commander = some k := by rw [hcm2]; exact hk1
  have he2 : (s2.cmdrs k).errorHandler = some (.host id) := by rw [hcr2]; exact he1
  obtain ⟨rpost, s3, hl3, hr3, ht3, _, _⟩ :=
    runHooks_returns h c k id hret (s2.cmdrs k).postRequest s2 hk2 he2
  have hpost : (s2.cmdrs k).postRequest = (s.cmdrs k).postRequest := by
    rw [hcr2, hcr1, hcr_b]
  rw [hpost] at hl3 hr3 ht3
  refine ⟨texec, rpost, s3, hl3, ht2, hh2, ?_, hr3, ht3, hk2, by rw [hcr2, hcr1, hcr_b], ?_⟩
  · intro f hf
    exact hfirst f (by rw [hres]; exact hf)
  · unfold handleShell
    simp only [hra, hrb, hk_b, hcr_b, hr1, hx, hk2, hcr2, hcr1, hr3]

/-- The executor phase of `handleShell` when the executor is a function of the
host program, in terms of that function and of the error handler. -/
theorem execShell_host {W : Type} (h : Runtime W) (c : CmdPtr) (k : CmdrPtr) (id : Nat)
    (sc : ShellContext) (s1 : State W) (hk : (s1.cmds c).Commander = some k)
    (he : (s1.cmdrs k).errorHandler = some (.host id))
    (j : Nat) (T : String) (r : (Option String × Mem × W) × ShellContext)
    (hlevel : ((s1.cmds c).ShellExec = some (.host j) ∧ T = "error from command shell exec: ")
      ∨ ((s1.cmds c).ShellExec = none ∧ (s1.cmdrs k).shellExec = some (.host j)
          ∧ T = "error from commander shell exec: "))
    (hr : h.shellExec j c sc { s1 with trace := s1.trace ++ [.shellExec (.host j) c] } = r) :
    (r.1.1 = none →
        execShell h c sc s1
          = .ret r.2
              { s1 with
                mem := r.1.2.1, world := r.1.2.2
                trace := s1.trace ++ [.shellExec (.host j) c] })
      ∧ (∀ e r2, r.1.1 = some e →
          h.errorHandler id (T ++ e)
              { s1 with
                mem := r.1.2.1, world := r.1.2.2
                trace := s1.trace ++ [.shellExec (.host j) c, .error (.host id) (T ++ e)] }
            = some r2 →
          execShell h c sc s1
            = .ret r.2
                { s1 with
                  mem := r2.1, world := r2.2
                  trace := s1.trace
                    ++ [.shellExec (.host j) c, .error (.host id) (T ++ e)] }) := by
  subst hr
  refine ⟨?_, ?_⟩
  · intro hnone
    rcases hlevel with ⟨ho, rfl⟩ | ⟨ho, hd, rfl⟩
    · simp only [execShell, ho, callShellExec, State.log, hnone]
      rfl
    · simp only [execShell, ho, hk, hd, callShellExec, State.log, hnone]
      rfl
  · intro e r2 hsome hr2
    rcases hlevel with ⟨ho, rfl⟩ | ⟨ho, hd, rfl⟩
    · simp only [execShell, ho, callShellExec, State.log, hsome, commanderHandleError,
        State.afterHost, hk, HandleError, he, errorf, List.append_assoc, List.singleton_append,
        hr2]
    · simp only [execShell, ho, hk, hd, callShellExec, State.log, hsome, commanderHandleError,
        State.afterHost, HandleError, he, errorf, List.append_assoc, List.singleton_append,
        hr2]

/-- The executor phase of `handleShell` when the executor is
`GenericShellHandler` and it returns. -/
theorem execShell_generic {W : Type} (h : Runtime W) (c : CmdPtr) (k : CmdrPtr) (id : Nat)
    (sc : ShellContext) (s1 : State W) (hk : (s1.cmds c).Commander = some k)
    (he : (s1.cmdrs k).errorHandler = some (.host id))
    (T : String) (e : Option String) (scx : ShellContext) (sx : State W)
    (hlevel : ((s1.cmds c).ShellExec = some .GenericShellHandler
        ∧ T = "error from command shell exec: ")
      ∨ ((s1.cmds c).ShellExec = none ∧ (s1.cmdrs k).shellExec = some .GenericShellHandler
          ∧ T = "error from commander shell exec: "))
    (hr : GenericShellHandler h c sc
        { s1 with trace := s1.trace ++ [.shellExec .GenericShellHandler c] }
      = .ret (e, scx) sx) :
    (e = none → execShell h c sc s1 = .ret scx sx)
      ∧ (∀ err r2, e = some err →
          h.errorHandler id (T ++ err)
              { sx with trace := sx.trace ++ [.error (.host id) (T ++ err)] } = some r2 →
          execShell h c sc s1
            = .ret scx
                { sx with
                  mem := r2.1, world := r2.2
                  trace := sx.trace ++ [.error (.host id) (T ++ err)] }) := by
  obtain ⟨_, _, _, hcm, hcr⟩ := GenericShellHandler_frame h c k sc scx
    ({ s1 with trace := s1.trace ++ [.shellExec .GenericShellHandler c] } : State W) sx e hk hr
  have hkx : (sx.cmds c).Commander = some k := by rw [hcm]; exact hk
  have hex : (sx.cmdrs k).errorHandler = some (.host id) := by rw [hcr]; exact he
  have hcall : callShellExec h .GenericShellHandler c sc s1 = .ret (e, scx) sx := hr
  refine ⟨?_, ?_⟩
  · intro hnone
    subst hnone
    rcases hlevel with ⟨ho, rfl⟩ | ⟨ho, hd, rfl⟩
    · simp only [execShell, ho, hcall]
    · simp only [execShell, ho, hk, hd, hcall]
  · intro err r2 hsome hr2
    subst hsome
    rcases hlevel with ⟨ho, rfl⟩ | ⟨ho, hd, rfl⟩
    · simp only [execShell, ho, hcall, commanderHandleError, hkx, HandleError, hex, errorf,
        State.log, hr2]
    · simp only [execShell, ho, hk, hd, hcall, commanderHandleError, hkx, HandleError, hex,
        errorf, State.log, hr2]

theorem hookCalls_phases (c : CmdPtr) (eh : ErrorHandler) (t t0 texec : List Event)
    (pre post : List CommandHook) (rpre rpost : List (Option String))
    (hpre : rpre.length = pre.length) (hpost : rpost.length = post.length)
    (h0 : hookCalls t0 = []) (hx : hookCalls texec = []) :
    hookCalls (t ++ t0 ++ hookEvents c eh (pre.zip rpre) ++ texec
        ++ hookEvents c eh (post.zip rpost))
      = hookCalls t ++ pre ++ post := by
  simp only [hookCalls_append, hookCalls_hookEvents, map_fst_zip_results _ _ hpre,
    map_fst_zip_results _ _ hpost, h0, hx, List.append_nil]

theorem hooksInOrder_of_runHooks {W : Type} (h : Runtime W) (c : CmdPtr) (k : CmdrPtr)
    (id : Nat) (hooks : List CommandHook) (s s1 : State W)
    (hk : (s.cmds c).Commander = some k) (he : (s.cmdrs k).errorHandler = some (.host id))
    (hr : runHooks h c hooks s = .ret () s1) :
    hooksInOrder h c id hooks s = some s1 := by
  rw [runHooks_hooksInOrder h c k id hooks s hk he] at hr
  cases hq : hooksInOrder h c id hooks s with
  | none => rw [hq] at hr; cases hr
  | some x =>
    rw [hq] at hr
    simp only [Run.ret.injEq, true_and] at hr
    rw [hr]

theorem addRequestHooks_fields {W : Type} (k : CmdrPtr) (pre post : List CommandHook)
    (s : State W) :
    (AddPostRequestHooks k post (AddPreRequestHooks k pre s)).cmds = s.cmds
      ∧ (AddPostRequestHooks k post (AddPreRequestHooks k pre s)).trace = s.trace
      ∧ ((AddPostRequestHooks k post (AddPreRequestHooks k pre s)).cmdrs k).preRequest
          = (s.cmdrs k).preRequest ++ pre
      ∧ ((AddPostRequestHooks k post (AddPreRequestHooks k pre s)).cmdrs k).postRequest
          = (s.cmdrs k).postRequest ++ post
      ∧ ((AddPostRequestHooks k post (AddPreRequestHooks k pre s)).cmdrs k).errorHandler
          = (s.cmdrs k).errorHandler
      ∧ ((AddPostRequestHooks k post (AddPreRequestHooks k pre s)).cmdrs k).staticExec
          = (s.cmdrs k).staticExec
      ∧ ((AddPostRequestHooks k post (AddPreRequestHooks k pre s)).cmdrs k).shellExec
          = (s.cmdrs k).shellExec := by
  simp [AddPostRequestHooks, AddPreRequestHooks, State.modifyCommander]

/-- C12: for a command `c` of a commander `k` whose error handler is a function
`id` of the host program that returns, after `AddPreRequestHooks(pre...)` and
`AddPostRequestHooks(post...)`, so that the registered hooks are those the
commander held before followed by `pre`, respectively `post`.

`handleStatic` returns, and its run is: the loop the specification describes
(`hooksInOrder`: each hook called once on the command, in the order of the list,
each error handed to the error handler, the loop going on either way) over the
registered pre-request hooks; then the executor; then the same loop over the
registered post-request hooks, from the state the executor left.  The executor
phase is the one call of the resolved executor (the command's own, else the
commander's); when that is a function `j` of the host program the state after
the phase is what `j` left and, when `j` returned an error, what the error
handler left when called with that error behind the text of the level; the
generic handler likewise.  So an error of the executor reaches the error
handler and the post-request hooks still run.

`handleShell` first replaces the request and the response by fresh records
(calling no hook), then runs the same loop over the pre-request hooks, then the
shell executor of the command, else of the commander (a static executor is not
consulted), and whenever the executor phase returns (the generic shell handler
may wait for input for ever; an executor of the host program always returns)
the same loop over the post-request hooks, and returns.

On the trace the hooks called are exactly the registered pre-request hooks
followed by the registered post-request hooks, each once, the executor between
the two groups. -/
theorem hooks_run_around_executor {W : Type} (h : Runtime W) (c : CmdPtr) (k : CmdrPtr)
    (id : Nat) (args : List String) (sc : ShellContext) (s : State W)
    (pre post : List CommandHook)
    (hk : (s.cmds c).Commander = some k)
    (he : (s.cmdrs k).errorHandler = some (.host id))
    (hret : ∀ err (s1 : State W), (h.errorHandler id err s1).isSome) :
    (∃ rpre s1 texec s2 rpost s3,
      rpre.length = ((s.cmdrs k).preRequest ++ pre).length
      ∧ rpost.length = ((s.cmdrs k).postRequest ++ post).length
      ∧ hooksInOrder h c id ((s.cmdrs k).preRequest ++ pre)
          (AddPostRequestHooks k post (AddPreRequestHooks k pre s)) = some s1
      ∧ s1.trace
          = s.trace ++ hookEvents c (.host id) (((s.cmdrs k).preRequest ++ pre).zip rpre)
      ∧ execStatic h c args s1 = .ret () s2
      ∧ s2.trace = s1.trace ++ texec
      ∧ hookCalls texec = []
      ∧ (∀ f, resolvedStaticExec s c = some f → ∃ rest, texec = .staticExec f c args :: rest)
      ∧ (∀ j T r,
          (((s.cmds c).StaticExec = some (.host j) ∧ T = "error from command static exec: ")
            ∨ ((s.cmds c).StaticExec = none ∧ (s.cmdrs k).staticExec = some (.host j)
                ∧ T = "error from commander static exec: ")) →
          h.staticExec j c args
              { s1 with trace := s1.trace ++ [.staticExec (.host j) c args] } = r →
          (r.1 = none →
              s2 = { s1 with
                      mem := r.2.1, world := r.2.2
                      trace := s1.trace ++ [.staticExec (.host j) c args] })
            ∧ (∀ e r2, r.1 = some e →
                h.errorHandler id (T ++ e)
                    { s1 with
                      mem := r.2.1, world := r.2.2
                      trace := s1.trace
                        ++ [.staticExec (.host j) c args, .error (.host id) (T ++ e)] }
                  = some r2 →
                s2 = { s1 with
                        mem := r2.1, world := r2.2
                        trace := s1.trace
                          ++ [.staticExec (.host j) c args, .error (.host id) (T ++ e)] }))
      ∧ (∀ T e sx,
          (((s.cmds c).StaticExec = some .GenericStaticHandler
              ∧ T = "error from command static exec: ")
            ∨ ((s.cmds c).StaticExec = none
                ∧ (s.cmdrs k).staticExec = some .GenericStaticHandler
                ∧ T = "error from commander static exec: ")) →
          GenericStaticHandler h c args
              { s1 with trace := s1.trace ++ [.staticExec .GenericStaticHandler c args] }
            = .ret e sx →
          (e = none → s2 = sx)
            ∧ (∀ err r2, e = some err →
                h.errorHandler id (T ++ err)
                    { sx with trace := sx.trace ++ [.error (.host id) (T ++ err)] }
                  = some r2 →
                s2 = { sx with
                        mem := r2.1, world := r2.2
                        trace := sx.trace ++ [.error (.host id) (T ++ err)] }))
      ∧ hooksInOrder h c id ((s.cmdrs k).postRequest ++ post) s2 = some s3
      ∧ s3.trace
          = s2.trace ++ hookEvents c (.host id) (((s.cmdrs k).postRequest ++ post).zip rpost)
      ∧ handleStatic h c args (AddPostRequestHooks k post (AddPreRequestHooks k pre s))
          = .ret () s3
      ∧ hookCalls s3.trace
          = hookCalls s.trace ++ ((s.cmdrs k).preRequest ++ pre)
              ++ ((s.cmdrs k).postRequest ++ post))
    ∧ (∃ sa sb t0 rpre s1,
      resetField h c (s.cmds c).Request (fun x p => { x with Request := p })
          (AddPostRequestHooks k post (AddPreRequestHooks k pre s)) = .ret () sa
      ∧ resetField h c (sa.cmds c).Response (fun x p => { x with Response := p }) sa = .ret () sb
      ∧ sb.trace = s.trace ++ t0 ∧ hookCalls t0 = []
      ∧ rpre.length = ((s.cmdrs k).preRequest ++ pre).length
      ∧ hooksInOrder h c id ((s.cmdrs k).preRequest ++ pre) sb = some s1
      ∧ s1.trace
          = sb.trace ++ hookEvents c (.host id) (((s.cmdrs k).preRequest ++ pre).zip rpre)
      ∧ (∀ j T r,
          (((s.cmds c).ShellExec = some (.host j) ∧ T = "error from command shell exec: ")
            ∨ ((s.cmds c).ShellExec = none ∧ (s.cmdrs k).shellExec = some (.host j)
                ∧ T = "error from commander shell exec: ")) →
          h.shellExec j c sc { s1 with trace := s1.trace ++ [.shellExec (.host j) c] } = r →
          (r.1.1 = none →
              execShell h c sc s1
                = .ret r.2
                    { s1 with
                      mem := r.1.2.1, world := r.1.2.2
                      trace := s1.trace ++ [.shellExec (.host j) c] })
            ∧ (∀ e, r.1.1 = some e →
                ∃ r2,
                  h.errorHandler id (T ++ e)
                      { s1 with
                        mem := r.1.2.1, world := r.1.2.2
                        trace := s1.trace
                          ++ [.shellExec (.host j) c, .error (.host id) (T ++ e)] }
                    = some r2
                  ∧ execShell h c sc s1
                    = .ret r.2
                        { s1 with
                          mem := r2.1, world := r2.2
                          trace := s1.trace
                            ++ [.shellExec (.host j) c, .error (.host id) (T ++ e)] }))
      ∧ (∀ T e scx sx,
          (((s.cmds c).ShellExec = some .GenericShellHandler
              ∧ T = "error from command shell exec: ")
            ∨ ((s.cmds c).ShellExec = none
                ∧ (s.cmdrs k).shellExec = some .GenericShellHandler
                ∧ T = "error from commander shell exec: ")) →
          GenericShellHandler h c sc
              { s1 with trace := s1.trace ++ [.shellExec .GenericShellHandler c] }
            = .ret (e, scx) sx →
          (e = none → execShell h c sc s1 = .ret scx sx)
            ∧ (∀ err, e = some err →
                ∃ r2,
                  h.errorHandler id (T ++ err)
                      { sx with trace := sx.trace ++ [.error (.host id) (T ++ err)] }
                    = some r2
                  ∧ execShell h c sc s1
                    = .ret scx
                        { sx with
                          mem := r2.1, world := r2.2
                          trace := sx.trace ++ [.error (.host id) (T ++ err)] }))
      ∧ (∀ sc1 s2, execShell h c sc s1 = .ret sc1 s2 →
          ∃ texec rpost s3,
            rpost.length = ((s.cmdrs k).postRequest ++ post).length
            ∧ s2.trace = s1.trace ++ texec
            ∧ hookCalls texec = []
            ∧ (∀ f, resolvedShellExec s c = some f → ∃ rest, texec = .shellExec f c :: rest)
            ∧ hooksInOrder h c id ((s.cmdrs k).postRequest ++ post) s2 = some s3
            ∧ s3.trace
                = s2.trace
                  ++ hookEvents c (.host id) (((s.cmdrs k).postRequest ++ post).zip rpost)
            ∧ handleShell h c sc (AddPostRequestHooks k post (AddPreRequestHooks k pre s))
                = .ret sc1 s3
            ∧ hookCalls s3.trace
                = hookCalls s.trace ++ ((s.cmdrs k).preRequest ++ pre)
                    ++ ((s.cmdrs k).postRequest ++ post))) := by
  obtain ⟨hcm, htr, hpre, hpost, heh, hse, hsh⟩ := addRequestHooks_fields k pre post s
  generalize AddPostRequestHooks k post (AddPreRequestHooks k pre s) = s0 at *
  have hk0 : (s0.cmds c).Commander = some k := by rw [hcm]; exact hk
  have he0 : (s0.cmdrs k).errorHandler = some (.host id) := by rw [heh]; exact he
  constructor
  · obtain ⟨rpre, s1, texec, s2, rpost, s3, hl1, hl3, hr1, ht1, hcm1, hcr1, hx, ht2, hh, hfirst,
      hcm2, hcr2, hr3, ht3, hrun⟩ := handleStatic_phases h c k id hret args s0 hk0 he0
    rw [hpre] at hl1 hr1 ht1
    rw [hpost] at hl3 hr3 ht3
    rw [htr] at ht1
    have hk1 : (s1.cmds c).Commander = some k := by rw [hcm1]; exact hk0
    have he1 : (s1.cmdrs k).errorHandler = some (.host id) := by rw [hcr1]; exact he0
    have hk2 : (s2.cmds c).Commander = some k := by rw [hcm2]; exact hk0
    have he2 : (s2.cmdrs k).errorHandler = some (.host id) := by rw [hcr2]; exact he0
    have hown : (s1.cmds c).StaticExec = (s.cmds c).StaticExec := by rw [hcm1, hcm]
    have hdef : (s1.cmdrs k).staticExec = (s.cmdrs k).staticExec := by rw [hcr1, hse]
    have hres : resolvedStaticExec s0 c = resolvedStaticExec s c := by
      unfold resolvedStaticExec
      rw [hcm, hk]
      simp only [hse]
    refine ⟨rpre, s1, texec, s2, rpost, s3, hl1, hl3,
      hooksInOrder_of_runHooks h c k id _ s0 s1 hk0 he0 hr1, ht1, hx, ht2, hh, ?_, ?_, ?_,
      hooksInOrder_of_runHooks h c k id _ s2 s3 hk2 he2 hr3, ht3, hrun, ?_⟩
    · intro f hf
      exact hfirst f (by rw [hres]; exact hf)
    · intro j T r hlevel hr
      have hl : ((s1.cmds c).StaticExec = some (.host j)
            ∧ T = "error from command static exec: ")
          ∨ ((s1.cmds c).StaticExec = none ∧ (s1.cmdrs k).staticExec = some (.host j)
              ∧ T = "error from commander static exec: ") := by
        rw [hown, hdef]; exact hlevel
      obtain ⟨p1, p2⟩ := execStatic_host h c k id args s1 hk1 he1 j T r hl hr
      refine ⟨fun hn => ?_, fun e r2 hs hr2 => ?_⟩
      · have := p1 hn
        rw [hx] at this
        simp only [Run.ret.injEq, true_and] at this
        exact this
      · have := p2 e r2 hs hr2
        rw [hx] at this
        simp only [Run.ret.injEq, true_and] at this
        exact this
    · intro T e sx hlevel hr
      have hl : ((s1.cmds c).StaticExec = some .GenericStaticHandler
            ∧ T = "error from command static exec: ")
          ∨ ((s1.cmds c).StaticExec = none
              ∧ (s1.cmdrs k).staticExec = some .GenericStaticHandler
              ∧ T = "error from commander static exec: ") := by
        rw [hown, hdef]; exact hlevel
      obtain ⟨p1, p2⟩ := execStatic_generic h c k id args s1 hk1 he1 T e sx hl hr
      refine ⟨fun hn => ?_, fun err r2 hs hr2 => ?_⟩
      · have := p1 hn
        rw [hx] at this
        simp only [Run.ret.injEq, true_and] at this
        exact this
      · have := p2 err r2 hs hr2
        rw [hx] at this
        simp only [Run.ret.injEq, true_and] at this
        exact this
    · rw [ht3, ht2, ht1]
      have hp := hookCalls_phases c (.host id) s.trace [] texec _ _ rpre rpost hl1 hl3 rfl hh
      rw [List.append_nil] at hp
      exact hp
  · obtain ⟨sa, sb, t0, rpre, s1, hra, hrb, htb, h0, hkb, hxb, hcrb, hl1, hr1, ht1, hcm1, hcr1,
      hrest⟩ := handleShell_phases h c k id hret sc s0 hk0 he0
    rw [hpre] at hl1 hr1 ht1
    rw [htr] at htb
    rw [hcm] at hra
    have heb : (sb.cmdrs k).errorHandler = some (.host id) := by rw [hcrb]; exact he0
    have hk1 : (s1.cmds c).Commander = some k := by rw [hcm1]; exact hkb
    have he1 : (s1.cmdrs k).errorHandler = some (.host id) := by rw [hcr1]; exact he0
    have hown : (s1.cmds c).ShellExec = (s.cmds c).ShellExec := by rw [hcm1, hxb, hcm]
    have hdef : (s1.cmdrs k).shellExec = (s.cmdrs k).shellExec := by rw [hcr1, hsh]
    have hres : resolvedShellExec s0 c = resolvedShellExec s c := by
      unfold resolvedShellExec
      rw [hcm, hk]
      simp only [hsh]
    refine ⟨sa, sb, t0, rpre, s1, hra, hrb, htb, h0, hl1,
      hooksInOrder_of_runHooks h c k id _ sb s1 hkb heb hr1, ht1, ?_, ?_, ?_⟩
    · intro j T r hlevel hr
      have hl : ((s1.cmds c).ShellExec = some (.host j)
            ∧ T = "error from command shell exec: ")
          ∨ ((s1.cmds c).ShellExec = none ∧ (s1.cmdrs k).shellExec = some (.host j)
              ∧ T = "error from commander shell exec: ") := by
        rw [hown, hdef]; exact hlevel
      obtain ⟨p1, p2⟩ := execShell_host h c k id sc s1 hk1 he1 j T r hl hr
      refine ⟨p1, fun e hs => ?_⟩
      obtain ⟨r2, hr2⟩ := Option.isSome_iff_exists.mp (hret (T ++ e)
        { s1 with
          mem := r.1.2.1, world := r.1.2.2
          trace := s1.trace ++ [.shellExec (.host j) c, .error (.host id) (T ++ e)] })
      exact ⟨r2, hr2, p2 e r2 hs hr2⟩
    · intro T e scx sx hlevel hr
      have hl : ((s1.cmds c).ShellExec = some .GenericShellHandler
            ∧ T = "error from command shell exec: ")
          ∨ ((s1.cmds c).ShellExec = none
              ∧ (s1.cmdrs k).shellExec = some .GenericShellHandler
              ∧ T = "error from commander shell exec: ") := by
        rw [hown, hdef]; exact hlevel
      obtain ⟨p1, p2⟩ := execShell_generic h c k id sc s1 hk1 he1 T e scx sx hl hr
      refine ⟨p1, fun err hs => ?_⟩
      obtain ⟨r2, hr2⟩ := Option.isSome_iff_exists.mp (hret (T ++ err)
        { sx with trace := sx.trace ++ [.error (.host id) (T ++ err)] })
      exact ⟨r2, hr2, p2 err r2 hs hr2⟩
    · intro sc1 s2 hx
      obtain ⟨texec, rpost, s3, hl3, ht2, hh, hfirst, hr3, ht3, hk2, hcr2, hrun⟩ :=
        hrest sc1 s2 hx
      rw [hpost] at hl3 hr3 ht3
      have he2 : (s2.cmdrs k).errorHandler = some (.host id) := by rw [hcr2]; exact he0
      refine ⟨texec, rpost, s3, hl3, ht2, hh, ?_,
        hooksInOrder_of_runHooks h c k id _ s2 s3 hk2 he2 hr3, ht3, hrun, ?_⟩
      · intro f hf
        exact hfirst f (by rw [hres]; exact hf)
      · rw [ht3, ht2, ht1, htb]
        exact hookCalls_phases c (.host id) s.trace t0 texec _ _ rpre rpost hl1 hl3 h0 hh

/-- Witness of C12 on the sample execution state, whose commander holds the
pre-request hooks 5 and 1, the post-request hooks 1 and 6 and an error handler
that returns, after `AddPreRequestHooks(7)` and `AddPostRequestHooks(8)`; hook 1
fails.  With a static executor of the host program that fails, `handleStatic`
calls the hooks 5, 1, 7, 1, 6, 8 in this order, and the outside world sees the
hooks 5, 1 (its error handled), 7, then the executor and its error handled,
then the hooks 1 (its error handled), 6, 8.  `handleShell` does the same with a
failing shell executor of the host program, and with the generic handlers the
request and the response handler come between the two groups of hooks. -/
theorem hooks_run_around_executor_witness :
    (∃ s3,
        handleStatic sampleRuntime 0 []
            (AddPostRequestHooks 0 [.host 8] (AddPreRequestHooks 0 [.host 7]
              (SetDefaultStaticExec 0 (some (.host 1)) shellState))) = .ret () s3
        ∧ hookCalls s3.trace = [.host 5, .host 1, .host 7, .host 1, .host 6, .host 8])
      ∧ (match handleStatic sampleRuntime 0 []
              (AddPostRequestHooks 0 [.host 8] (AddPreRequestHooks 0 [.host 7]
                (SetDefaultStaticExec 0 (some (.host 1)) shellState))) with
          | .ret _ s3 => s3.world
          | .panic _ => [])
        = ["hook 5", "hook 1", "error: hook failed", "hook 7", "static exec 1",
            "error: error from commander static exec: exec failed",
            "hook 1", "error: hook failed", "hook 6", "hook 8"]
      ∧ (match handleShell sampleRuntime 0 { input := [], output := [] }
              (AddPostRequestHooks 0 [.host 8] (AddPreRequestHooks 0 [.host 7]
                (SetDefaultShellExec 0 (some (.host 1)) shellState))) with
          | .ret _ s3 => s3.world
          | .panic _ => [])
        = ["hook 5", "hook 1", "error: hook failed", "hook 7", "shell exec 1",
            "error: error from commander shell exec: exec failed",
            "hook 1", "error: hook failed", "hook 6", "hook 8"]
      ∧ (match handleStatic sampleRuntime 0 []
              (AddPostRequestHooks 0 [.host 8] (AddPreRequestHooks 0 [.host 7] shellState)) with
          | .ret _ s3 => (s3.world, s3.trace)
          | .panic _ => ([], []))
        = (["hook 5", "hook 1", "error: hook failed", "hook 7", "request 3", "response 4",
              "hook 1", "error: hook failed", "hook 6", "hook 8"],
            [.hook (.host 5) 0 none, .hook (.host 1) 0 (some "hook failed"),
              .error (.host 2) "hook failed", .hook (.host 7) 0 none,
              .staticExec .GenericStaticHandler 0 [],
              .request (.host 3) (.ptr (some 0)) (.ptr (some 1)),
              .response (.host 4) (.ptr (some 1)),
              .hook (.host 1) 0 (some "hook failed"), .error (.host 2) "hook failed",
              .hook (.host 6) 0 none, .hook (.host 8) 0 none])
      ∧ (match handleShell sampleRuntime 0 { input := ["Ada", "3", "0"], output := [] }
              (AddPostRequestHooks 0 [.host 8] (AddPreRequestHooks 0 [.host 7] shellState)) with
          | .ret _ s3 => (s3.world, s3.trace)
          | .panic _ => ([], []))
        = (["hook 5", "hook 1", "error: hook failed", "hook 7", "request 3", "response 4",
              "hook 1", "error: hook failed", "hook 6", "hook 8"],
            [.hook (.host 5) 0 none, .hook (.host 1) 0 (some "hook failed"),
              .error (.host 2) "hook failed", .hook (.host 7) 0 none,
              .shellExec .GenericShellHandler 0,
              .request (.host 3) (.ptr (some 2)) (.ptr (some 3)),
              .response (.host 4) (.ptr (some 3)),
              .hook (.host 1) 0 (some "hook failed"), .error (.host 2) "hook failed",
              .hook (.host 6) 0 none, .hook (.host 8) 0 none]) := by
  refine ⟨?_, rfl, rfl, rfl, rfl⟩
  obtain ⟨_, _, _, _, _, s3, _, _, _, _, _, _, _, _, _, _, _, _, hrun, hcalls⟩ :=
    (hooks_run_around_executor sampleRuntime 0 0 2 [] { input := [], output := [] }
      (SetDefaultStaticExec 0 (some (.host 1)) shellState) [.host 7] [.host 8]
      rfl rfl (fun _ _ => rfl)).1
  exact ⟨s3, hrun, hcalls⟩

/-! ## The lock of the commander: C19 -/

/-- C19: `Cmd` reads the command map and `HandleError` reads the error-handler
slot without taking the lock, while every other method that touches these
fields takes it: a `Cmd` lookup running concurrently with an `Add` races on the
command map, and `HandleError` races with `SetErrorHandler`, whereas the
lookups that do take the lock (`All`, `PrintCommandList`, `RegisterShell`) do
not race with `Add`, nor does a locked getter with its setter; and no pair of
methods races unless one of the two is `Cmd` or `HandleError`. -/
theorem Cmd_and_HandleError_take_no_lock :
    Method.guarded .Cmd = false ∧ Method.guarded .HandleError = false
      ∧ races .Add .Cmd = true ∧ races .SetErrorHandler .HandleError = true
      ∧ races .Add .All = false ∧ races .Add .PrintCommandList = false
      ∧ races .Add .RegisterShell = false
      ∧ races .SetDefaultRegistrationHandler .RegistrationHandler = false
      ∧ (∀ m1 m2, races m1 m2 = true →
          m1 = .Cmd ∨ m1 = .HandleError ∨ m2 = .Cmd ∨ m2 = .HandleError) := by
  refine ⟨rfl, rfl, rfl, rfl, rfl, rfl, rfl, rfl, ?_⟩
  intro m1 m2
  cases m1 <;> cases m2 <;> decide

/-! ## The bound on the passes of the optional loop is never used up -/

theorem presentLoop_input (fis : List FieldInfo) :
    ∀ (input out : List String) (n : Int) (c1 : ShellContext),
      presentLoop fis input out = some (n, c1) → c1.input.length < input.length := by
  intro input
  induction input with
  | nil => intro out n c1 hr; simp [presentLoop] at hr
  | cons line lines ih =>
    intro out n c1 hr
    rw [presentLoop] at hr
    simp only at hr
    have hretry : ∀ out2, presentLoop fis lines out2 = some (n, c1) →
        c1.input.length < (line :: lines).length := by
      intro out2 h1
      have := ih out2 n c1 h1
      simp only [List.length_cons]
      omega
    split at hr
    · exact hretry _ hr
    · split at hr
      · simp only [Option.some.injEq, Prod.mk.injEq] at hr
        obtain ⟨_, rfl⟩ := hr
        simp [ShellContext.showMenu]
      · split at hr
        · exact hretry _ hr
        · simp only [Option.some.injEq, Prod.mk.injEq] at hr
          obtain ⟨_, rfl⟩ := hr
          simp [ShellContext.showMenu]

theorem presentOptions_input (c c1 : ShellContext) (fis : List FieldInfo) (n : Int)
    (hr : presentOptions c fis = some (n, c1)) (hn : n ≥ 0) :
    c1.input.length < c.input.length := by
  unfold presentOptions at hr
  split at hr
  · exact presentLoop_input fis c.input c.output n c1 hr
  · simp only [Option.some.injEq, Prod.mk.injEq] at hr
    obtain ⟨rfl, _⟩ := hr
    omega

theorem collectShellValue_panic {W : Type} (c : ShellContext) (fi : FieldInfo) (s : State W)
    (msg : String) (hr : collectShellValue c fi s = .panic msg) : msg = awaitingInput := by
  unfold collectShellValue at hr
  split at hr
  · simp only [Run.panic.injEq] at hr
    exact hr.symm
  · split at hr
    · cases hr
    · split at hr
      · cases hr
      · split at hr <;> cases hr
    · cases hr

theorem optionalLoop_within_bound {W : Type} (optional : List FieldInfo) :
    ∀ (fuel : Nat) (c : ShellContext) (s : State W), c.input.length < fuel →
      optionalLoop optional fuel c s ≠ .panic outOfFuel := by
  intro fuel
  induction fuel with
  | zero => intro c s hlt; omega
  | succ fuel ih =>
    intro c s hlt
    rw [optionalLoop]
    cases hp : presentOptions c optional with
    | none =>
      simp only [ne_eq, Run.panic.injEq]
      decide
    | some r =>
      obtain ⟨selected, c1⟩ := r
      simp only
      split
      · rename_i hsel
        have hin := presentOptions_input c c1 optional selected hp hsel
        cases hg : optional[selected.toNat]? with
        | none =>
          simp only [ne_eq, Run.panic.injEq]
          decide
        | some fi =>
          simp only
          cases hc : collectShellValue c1 fi s with
          | panic msg =>
            rw [collectShellValue_panic c1 fi s msg hc]
            simp only [ne_eq, Run.panic.injEq]
            decide
          | ret r2 s2 =>
            obtain ⟨e2, c2⟩ := r2
            obtain ⟨_, hcons, _⟩ := collectShellValue_output c1 c2 fi s s2 e2 hc
            cases e2 with
            | some err => simp
            | none =>
              simp only
              apply ih
              have hlen := congrArg List.length hcons
              simp only [List.length_cons] at hlen
              omega
      · simp

theorem optionalLoop_bound_not_reached {W : Type} (optional : List FieldInfo)
    (c : ShellContext) (s : State W) :
    optionalLoop optional (optionalFuel c) c s ≠ .panic outOfFuel :=
  optionalLoop_within_bound optional (optionalFuel c) c s (by simp [optionalFuel])

/-! ## The result of `presentOptions` is a valid choice: C23 -/

theorem presentLoop_range (fis : List FieldInfo) :
    ∀ (input out : List String) (r : Int) (c1 : ShellContext),
      presentLoop fis input out = some (r, c1) → -1 ≤ r ∧ r ≤ (fis.length : Int) - 1 := by
  intro input
  induction input with
  | nil => intro out r c1 hr; simp [presentLoop] at hr
  | cons line lines ih =>
    intro out r c1 hr
    rw [presentLoop] at hr
    simp only at hr
    split at hr
    · exact ih _ r c1 hr
    · rename_i n hn
      split at hr
      · rename_i hm
        simp only [Option.some.injEq, Prod.mk.injEq] at hr
        obtain ⟨rfl, _⟩ := hr
        constructor <;> omega
      · split at hr
        · exact ih _ r c1 hr
        · rename_i hm hb
          simp only [Option.some.injEq, Prod.mk.injEq] at hr
          obtain ⟨rfl, _⟩ := hr
          simp only [Bool.or_eq_true, decide_eq_true_eq, not_or, not_lt] at hb
          exact ⟨hb.1, by omega⟩

theorem presentOptions_range (c c1 : ShellContext) (fis : List FieldInfo) (r : Int)
    (hr : presentOptions c fis = some (r, c1)) :
    -1 ≤ r ∧ r ≤ (fis.length : Int) - 1 := by
  unfold presentOptions at hr
  split at hr
  · exact presentLoop_range fis c.input c.output r c1 hr
  · simp only [Option.some.injEq, Prod.mk.injEq] at hr
    obtain ⟨rfl, _⟩ := hr
    constructor <;> omega

theorem optionalLoop_index_in_bounds {W : Type} (optional : List FieldInfo) :
    ∀ (fuel : Nat) (c : ShellContext) (s : State W),
      optionalLoop optional fuel c s ≠ .panic indexOutOfRange := by
  intro fuel
  induction fuel with
  | zero =>
    intro c s
    simp only [optionalLoop, ne_eq, Run.panic.injEq]
    decide
  | succ fuel ih =>
    intro c s
    rw [optionalLoop]
    cases hp : presentOptions c optional with
    | none =>
      simp only [ne_eq, Run.panic.injEq]
      decide
    | some r =>
      obtain ⟨selected, c1⟩ := r
      simp only
      obtain ⟨_, hhi⟩ := presentOptions_range c c1 optional selected hp
      split
      · rename_i hsel
        have hlt : selected.toNat < optional.length := by omega
        rw [List.getElem?_eq_getElem hlt]
        simp only
        cases hc : collectShellValue c1 optional[selected.toNat] s with
        | panic msg =>
          rw [collectShellValue_panic c1 _ s msg hc]
          simp only [ne_eq, Run.panic.injEq]
          decide
        | ret r2 s2 =>
          obtain ⟨e2, c2⟩ := r2
          cases e2 with
          | some err => simp
          | none => exact ih c2 s2
      · simp

theorem collectRequired_panic {W : Type} (required : List FieldInfo) :
    ∀ (c : ShellContext) (s : State W) (msg : String),
      collectRequired required c s = .panic msg → msg = awaitingInput := by
  induction required with
  | nil => intro c s msg hr; cases hr
  | cons fi rest ih =>
    intro c s msg hr
    rw [collectRequired] at hr
    cases hc : collectShellValue c fi s with
    | panic m =>
      rw [hc] at hr
      simp only [Run.panic.injEq] at hr
      rw [← hr]
      exact collectShellValue_panic c fi s m hc
    | ret r s1 =>
      obtain ⟨e, c1⟩ := r
      rw [hc] at hr
      cases e with
      | some err => cases hr
      | none => exact ih c1 s1 msg hr

theorem HandleRequest_panic {W : Type} (h : Host W) (c : CmdPtr) (req resp : Iface)
    (s : State W) (msg : String) (hr : HandleRequest h c req resp s = .panic msg) :
    msg = nilDereference := by
  unfold HandleRequest at hr
  split at hr
  · split at hr
    · simp only [Run.panic.injEq] at hr
      exact hr.symm
    · split at hr
      · cases hr
      · split at hr <;> cases hr
  · split at hr <;> cases hr

theorem HandleResponse_panic {W : Type} (h : Host W) (c : CmdPtr) (resp : Iface)
    (s : State W) (msg : String) (hr : HandleResponse h c resp s = .panic msg) :
    msg = nilDereference := by
  unfold HandleResponse at hr
  split at hr
  · split at hr
    · simp only [Run.panic.injEq] at hr
      exact hr.symm
    · split at hr
      · cases hr
      · split at hr <;> cases hr
  · split at hr <;> cases hr

theorem dispatchShell_panic {W : Type} (h : Runtime W) (command : CmdPtr) (c : ShellContext)
    (s : State W) (msg : String) (hr : dispatchShell h command c s = .panic msg) :
    msg = nilDereference := by
  unfold dispatchShell at hr
  split at hr
  · rename_i m hq
    simp only [Run.panic.injEq] at hr
    rw [← hr]
    exact HandleRequest_panic _ _ _ _ _ m hq
  · cases hr
  · split at hr
    · rename_i m hq
      simp only [Run.panic.injEq] at hr
      rw [← hr]
      exact HandleResponse_panic _ _ _ _ m hq
    · cases hr

theorem GenericShellHandler_index_in_bounds {W : Type} (h : Runtime W) (command : CmdPtr)
    (c : ShellContext) (s : State W) :
    GenericShellHandler h command c s ≠ .panic indexOutOfRange := by
  intro hr
  unfold GenericShellHandler at hr
  split at hr
  · cases hr
  · split at hr
    · rename_i m hq
      simp only [Run.panic.injEq] at hr
      have := collectRequired_panic _ _ _ m hq
      rw [hr] at this
      exact absurd this (by decide)
    · cases hr
    · split at hr
      · rename_i m hq
        simp only [Run.panic.injEq] at hr
        rw [hr] at hq
        exact optionalLoop_index_in_bounds _ _ _ _ hq
      · cases hr
      · have := dispatchShell_panic _ _ _ _ _ hr
        exact absurd this (by decide)

/-- C23: whenever `presentOptions` returns, on any field list and any lines of
input, its result `r` satisfies `-1 ≤ r ≤ len(fis) - 1`, so that a result that
is not negative is a valid index of `fis`; for an empty list it returns -1 at
once, reading and printing nothing; and neither the optional loop of
`GenericShellHandler` nor the handler as a whole ever indexes `optional` out of
bounds. -/
theorem presentOptions_result_in_range (c : ShellContext) (fis : List FieldInfo) :
    (∀ r c1, presentOptions c fis = some (r, c1) →
        -1 ≤ r ∧ r ≤ (fis.length : Int) - 1
          ∧ (0 ≤ r → ∃ fi, fis[r.toNat]? = some fi))
      ∧ presentOptions c [] = some (-1, c)
      ∧ (∀ (W : Type) (fuel : Nat) (s : State W),
          optionalLoop fis fuel c s ≠ .panic indexOutOfRange)
      ∧ (∀ (W : Type) (h : Runtime W) (command : CmdPtr) (s : State W),
          GenericShellHandler h command c s ≠ .panic indexOutOfRange) := by
  refine ⟨fun r c1 hr => ?_, rfl, fun W fuel s => optionalLoop_index_in_bounds fis fuel c s,
    fun W h command s => GenericShellHandler_index_in_bounds h command c s⟩
  obtain ⟨h1, h2⟩ := presentOptions_range c c1 fis r hr
  refine ⟨h1, h2, fun h0 => ?_⟩
  have hlt : r.toNat < fis.length := by omega
  exact ⟨fis[r.toNat], List.getElem?_eq_getElem hlt⟩

/-- Witness of C23 on the three optional fields of the shell record: after the
refused line `9` the line `2` gives the result 1, within `-1 ≤ r ≤ 2` and a
valid index; the lowest 64-bit integer, whose decrement wraps around, is
refused and the line `0` after it gives -1. -/
theorem presentOptions_result_in_range_witness :
    (presentOptions { input := ["9", "2"], output := [] } shellOptional).map Prod.fst = some 1
      ∧ ((-1 : Int) ≤ 1 ∧ (1 : Int) ≤ (shellOptional.length : Int) - 1
          ∧ ((0 : Int) ≤ 1 → ∃ fi, shellOptional[(1 : Int).toNat]? = some fi))
      ∧ (presentOptions { input := ["-9223372036854775808", "0"], output := [] }
          shellOptional).map Prod.fst = some (-1) :=
  ⟨rfl,
    (presentOptions_result_in_range { input := ["9", "2"], output := [] } shellOptional).1 1
      (((({ input := [], output := [] } : ShellContext).showMenu shellOptional).output
          |> fun out => ({ input := [], output :=
              (shellPrintError { input := [], output := out } errorInvalidOption).output }
              : ShellContext).showMenu shellOptional))
      rfl,
    rfl⟩

/-! ## Invalid choices at the menu: C21 -/

theorem presentLoop_invalid (fis : List FieldInfo) (hlen : fis.length < 2 ^ 63)
    (line : String) (rest out : List String)
    (hbad : invalidChoice fis.length line = true) :
    presentLoop fis (line :: rest) out
      = presentLoop fis rest
          (shellPrintError (({ input := [], output := out } : ShellContext).showMenu fis)
            errorInvalidOption).output := by
  rw [presentLoop]
  unfold invalidChoice at hbad
  cases ha : Atoi line with
  | none => rfl
  | some v =>
    rw [ha] at hbad
    simp only [Bool.or_eq_true, decide_eq_true_eq] at hbad
    obtain ⟨r1, r2⟩ := Atoi_range line v ha
    have h1 : (wrapInt (v - 1) == -1) = false := by
      rw [beq_eq_false_iff_ne]
      unfold wrapInt
      omega
    have h2 : (decide (wrapInt (v - 1) < -1)
        || decide (wrapInt (v - 1) > (fis.length : Int) - 1)) = true := by
      rw [Bool.or_eq_true, decide_eq_true_eq, decide_eq_true_eq]
      unfold wrapInt
      omega
    simp only [h1, h2, Bool.false_eq_true, if_false, if_true]
    rfl

theorem presentLoop_retries (fis : List FieldInfo) (hlen : fis.length < 2 ^ 63) :
    ∀ (bad rest out : List String), (∀ l ∈ bad, invalidChoice fis.length l = true) →
      presentLoop fis (bad ++ rest) out = presentLoop fis rest (retryOutput fis bad out) := by
  intro bad
  induction bad with
  | nil => intro rest out _; rfl
  | cons l bad ih =>
    intro rest out hbad
    rw [List.cons_append, presentLoop_invalid fis hlen l (bad ++ rest) out
      (hbad l (List.mem_cons_self _ _)), retryOutput]
    exact ih rest _ (fun x hx => hbad x (List.mem_cons_of_mem _ hx))

theorem presentOptions_retries (fis : List FieldInfo) (hne : 0 < fis.length)
    (hlen : fis.length < 2 ^ 63) (bad rest out : List String)
    (hbad : ∀ l ∈ bad, invalidChoice fis.length l = true) :
    presentOptions { input := bad ++ rest, output := out } fis
      = presentOptions { input := rest, output := retryOutput fis bad out } fis := by
  have hpos : fis.length > 0 := hne
  simp only [presentOptions, hpos, if_true]
  exact presentLoop_retries fis hlen bad rest out hbad

/-- C21, the counterexample: with the three optional fields of the shell record,
after the out-of-range choice `9` and the non-numeric choice `abc` the menu is
still open: the next line `2` selects the second field, where the sentinel `0`
gives -1; and in `GenericShellHandler` the value `7` entered after these lines
is stored in `Limit`. -/
theorem second_invalid_choice_keeps_menu_open :
    (presentOptions { input := ["9", "abc", "2"], output := [] } shellOptional).map Prod.fst
        = some 1
      ∧ (presentOptions { input := ["0"], output := [] } shellOptional).map Prod.fst = some (-1)
      ∧ (match GenericShellHandler sampleRuntime 0
            { input := ["Ada", "3", "9", "abc", "2", "7", "0"], output := [] } shellState with
          | .ret r s => (r.2.input, s.mem.load { addr := 0, path := [3] })
          | .panic _ => ([], none)) = ([], some (.int 7)) :=
  ⟨rfl, rfl, rfl⟩

/-- C21, amended: in the menu of a non-empty list of optional fields, every
line that is not a number or is a number outside `0..n` is answered with the
error box and the menu again, as often as such lines are entered: after any
number of them `presentOptions` goes on exactly as on the lines that follow,
with only more text printed, and it has not returned when the input ends
there; the optional loop of `GenericShellHandler` goes on from the same state,
so no field is collected and no error is returned for them; and the menu is
left only by the line `0`, a line `k` with `1 ≤ k ≤ n` selecting field `k`. -/
theorem invalid_choices_retry_without_limit (fis : List FieldInfo) (bad rest out : List String)
    (hne : 0 < fis.length) (hlen : fis.length < 2 ^ 63)
    (hbad : ∀ l ∈ bad, invalidChoice fis.length l = true) :
    presentOptions { input := bad ++ rest, output := out } fis
        = presentOptions { input := rest, output := retryOutput fis bad out } fis
      ∧ presentOptions { input := bad, output := out } fis = none
      ∧ (∀ (W : Type) (fuel : Nat) (s : State W),
          optionalLoop fis fuel { input := bad ++ rest, output := out } s
            = optionalLoop fis fuel { input := rest, output := retryOutput fis bad out } s)
      ∧ (∀ done, Atoi done = some 0 →
          presentOptions { input := bad ++ done :: rest, output := out } fis
            = some (-1, ({ input := rest, output := retryOutput fis bad out }
                : ShellContext).showMenu fis))
      ∧ (∀ choice (k : Nat), Atoi choice = some (k : Int) → 1 ≤ k → k ≤ fis.length →
          presentOptions { input := bad ++ choice :: rest, output := out } fis
            = some ((k : Int) - 1, ({ input := rest, output := retryOutput fis bad out }
                : ShellContext).showMenu fis)) := by
  have hmain := presentOptions_retries fis hne hlen bad rest out hbad
  refine ⟨hmain, ?_, ?_, ?_, ?_⟩
  · have h0 := presentOptions_retries fis hne hlen bad [] out hbad
    rw [List.append_nil] at h0
    rw [h0]
    have hpos : fis.length > 0 := hne
    simp only [presentOptions, hpos, if_true, presentLoop]
  · intro W fuel s
    cases fuel with
    | zero => rfl
    | succ fuel => rw [optionalLoop, optionalLoop, hmain]
  · intro done hdone
    rw [presentOptions_retries fis hne hlen bad (done :: rest) out hbad]
    exact presentOptions_done _ fis done rest rfl hdone hne
  · intro choice k hchoice hk1 hk2
    rw [presentOptions_retries fis hne hlen bad (choice :: rest) out hbad]
    exact presentOptions_choice _ fis choice rest k rfl hchoice hk1 hk2

/-- Witness of the amended C21 on the three optional fields of the shell record:
the lines `9` and `abc` are both refused, and the line `2` after them selects
the second field. -/
theorem invalid_choices_retry_without_limit_witness :
    (∀ l ∈ ["9", "abc"], invalidChoice shellOptional.length l = true)
      ∧ presentOptions { input := ["9", "abc"] ++ ["2"], output := [] } shellOptional
        = presentOptions { input := ["2"], output := retryOutput shellOptional ["9", "abc"] [] }
            shellOptional
      ∧ presentOptions { input := ["9", "abc"], output := [] } shellOptional = none :=
  ⟨by decide,
    (invalid_choices_retry_without_limit shellOptional ["9", "abc"] ["2"] [] (by decide)
      (by decide) (by decide)).1,
    (invalid_choices_retry_without_limit shellOptional ["9", "abc"] ["2"] [] (by decide)
      (by decide) (by decide)).2.1⟩

/-! ## The reset of the request and the response: C22 -/

mutual
theorem zero_sameType : ∀ v : Value, v.zero.sameType v = true
  | .int _ => rfl
  | .string _ => rfl
  | .bool _ => rfl
  | .struct fs => by
    rw [Value.zero, Value.sameType]
    exact zeroFields_sameType fs
  | .other k => by simp [Value.zero, Value.sameType]
theorem zeroFields_sameType : ∀ fs : List (StructField × Value),
    sameTypeFields (zeroFields fs) fs = true
  | [] => rfl
  | (f, v) :: rest => by
    rw [zeroFields, sameTypeFields, zero_sameType v, zeroFields_sameType rest]
    simp
end

mutual
theorem zero_allZero : ∀ v : Value, v.zero.allZero = true
  | .int _ => rfl
  | .string _ => rfl
  | .bool _ => rfl
  | .struct fs => by
    rw [Value.zero, Value.allZero]
    exact zeroFields_allZero fs
  | .other _ => rfl
theorem zeroFields_allZero : ∀ fs : List (StructField × Value),
    allZeroFields (zeroFields fs) = true
  | [] => rfl
  | (_, v) :: rest => by
    rw [zeroFields, allZeroFields, zero_allZero v, zeroFields_allZero rest]
    rfl
end

mutual
theorem zero_eq_of_sameType : ∀ v w : Value, v.sameType w = true → v.zero = w.zero
  | .int _, .int _, _ => rfl
  | .string _, .string _, _ => rfl
  | .bool _, .bool _, _ => rfl
  | .struct fs, .struct gs, h => by
    rw [Value.sameType] at h
    rw [Value.zero, Value.zero, zeroFields_eq_of_sameType fs gs h]
  | .other k, .other j, h => by
    simp only [Value.sameType, beq_iff_eq] at h
    rw [h]
  | .int _, .string _, h => by simp [Value.sameType] at h
  | .int _, .bool _, h => by simp [Value.sameType] at h
  | .int _, .struct _, h => by simp [Value.sameType] at h
  | .int _, .other _, h => by simp [Value.sameType] at h
  | .string _, .int _, h => by simp [Value.sameType] at h
  | .string _, .bool _, h => by simp [Value.sameType] at h
  | .string _, .struct _, h => by simp [Value.sameType] at h
  | .string _, .other _, h => by simp [Value.sameType] at h
  | .bool _, .int _, h => by simp [Value.sameType] at h
  | .bool _, .string _, h => by simp [Value.sameType] at h
  | .bool _, .struct _, h => by simp [Value.sameType] at h
  | .bool _, .other _, h => by simp [Value.sameType] at h
  | .struct _, .int _, h => by simp [Value.sameType] at h
  | .struct _, .string _, h => by simp [Value.sameType] at h
  | .struct _, .bool _, h => by simp [Value.sameType] at h
  | .struct _, .other _, h => by simp [Value.sameType] at h
  | .other _, .int _, h => by simp [Value.sameType] at h
  | .other _, .string _, h => by simp [Value.sameType] at h
  | .other _, .bool _, h => by simp [Value.sameType] at h
  | .other _, .struct _, h => by simp [Value.sameType] at h
theorem zeroFields_eq_of_sameType : ∀ fs gs : List (StructField × Value),
    sameTypeFields fs gs = true → zeroFields fs = zeroFields gs
  | [], [], _ => rfl
  | (f, v) :: fs, (g, w) :: gs, h => by
    simp only [sameTypeFields, Bool.and_eq_true, beq_iff_eq] at h
    obtain ⟨⟨h1, h2⟩, h3⟩ := h
    rw [zeroFields, zeroFields, h1, zero_eq_of_sameType v w h2,
      zeroFields_eq_of_sameType fs gs h3]
  | [], _ :: _, h => by simp [sameTypeFields] at h
  | _ :: _, [], h => by simp [sameTypeFields] at h
end

theorem handleShell_eq_shellPhases {W : Type} (h : Runtime W) (c : CmdPtr) (sc : ShellContext)
    (s sa sb : State W)
    (hra : resetField h c (s.cmds c).Request (fun x p => { x with Request := p }) s = .ret () sa)
    (hrb : resetField h c (sa.cmds c).Response (fun x p => { x with Response := p }) sa
      = .ret () sb) :
    handleShell h c sc s = shellPhases h c sc sb := by
  unfold handleShell shellPhases
  rw [hra]
  simp only
  rw [hrb]

theorem resetStruct_struct {W : Type} (s : State W) (a : Addr) (fs : List (StructField × Value))
    (hfs : s.mem a = .struct fs) :
    resetStruct (.ptr (some a)) s
      = ((.ptr (some s.nextAddr), none),
          { s with
            mem := Function.update s.mem s.nextAddr (Value.struct fs).zero
            nextAddr := s.nextAddr + 1 }) := by
  simp only [resetStruct, hfs]

/-- C22: `resetStruct` applied to a pointer to a struct returns, with no error,
a pointer to a newly allocated record of the same type in which every field is
zero, the same record whatever the fields of the input held; and when the
request and the response of a command are pointers to structs, `handleShell`
first installs such records as `Request` and `Response`, calling no handler
and leaving the records allocated before as they were, and then runs the
hooks and the executor from that state: what an earlier invocation stored in
the request is not in the request they see. -/
theorem resetStruct_installs_zero_records {W : Type} (h : Runtime W) (c : CmdPtr)
    (sc : ShellContext) (s : State W) (a b : Addr) (fs gs : List (StructField × Value))
    (hreq : (s.cmds c).Request = .ptr (some a)) (hfs : s.mem a = .struct fs)
    (hresp : (s.cmds c).Response = .ptr (some b)) (hgs : s.mem b = .struct gs)
    (hb : b < s.nextAddr) :
    resetStruct (.ptr (some a)) s
        = ((.ptr (some s.nextAddr), none),
            { s with
              mem := Function.update s.mem s.nextAddr (Value.struct fs).zero
              nextAddr := s.nextAddr + 1 })
      ∧ (Value.struct fs).zero.sameType (.struct fs) = true
      ∧ (Value.struct fs).zero.allZero = true
      ∧ (∀ fs2, sameTypeFields fs2 fs = true → (Value.struct fs2).zero = (Value.struct fs).zero)
      ∧ ∃ sa sb,
          resetField h c (s.cmds c).Request (fun x p => { x with Request := p }) s = .ret () sa
          ∧ resetField h c (sa.cmds c).Response (fun x p => { x with Response := p }) sa
              = .ret () sb
          ∧ handleShell h c sc s = shellPhases h c sc sb
          ∧ (sb.cmds c).Request = .ptr (some s.nextAddr)
          ∧ (sb.cmds c).Response = .ptr (some (s.nextAddr + 1))
          ∧ sb.mem s.nextAddr = (Value.struct fs).zero
          ∧ sb.mem (s.nextAddr + 1) = (Value.struct gs).zero
          ∧ (∀ x, x < s.nextAddr → sb.mem x = s.mem x)
          ∧ sb.trace = s.trace ∧ sb.cmdrs = s.cmdrs ∧ sb.world = s.world := by
  refine ⟨resetStruct_struct s a fs hfs, zero_sameType _, zero_allZero _, ?_, ?_⟩
  · intro fs2 h2
    exact zero_eq_of_sameType (.struct fs2) (.struct fs) (by rw [Value.sameType]; exact h2)
  · have hra : resetField h c (s.cmds c).Request (fun x p => { x with Request := p }) s
        = .ret ()
          { s with
            cmds := Function.update s.cmds c { s.cmds c with Request := .ptr (some s.nextAddr) }
            mem := Function.update s.mem s.nextAddr (Value.struct fs).zero
            nextAddr := s.nextAddr + 1 } := by
      rw [hreq]
      simp only [resetField, resetStruct_struct s a fs hfs]
    have hne : b ≠ s.nextAddr := Nat.ne_of_lt hb
    have hrb : resetField h c
          (({ s with
            cmds := Function.update s.cmds c { s.cmds c with Request := .ptr (some s.nextAddr) }
            mem := Function.update s.mem s.nextAddr (Value.struct fs).zero
            nextAddr := s.nextAddr + 1 } : State W).cmds c).Response
          (fun x p => { x with Response := p })
          { s with
            cmds := Function.update s.cmds c { s.cmds c with Request := .ptr (some s.nextAddr) }
            mem := Function.update s.mem s.nextAddr (Value.struct fs).zero
            nextAddr := s.nextAddr + 1 }
        = .ret ()
          { s with
            cmds := Function.update
              (Function.update s.cmds c { s.cmds c with Request := .ptr (some s.nextAddr) }) c
              { s.cmds c with
                Request := .ptr (some s.nextAddr), Response := .ptr (some (s.nextAddr + 1)) }
            mem := Function.update (Function.update s.mem s.nextAddr (Value.struct fs).zero)
              (s.nextAddr + 1) (Value.struct gs).zero
            nextAddr := s.nextAddr + 1 + 1 } := by
      have hmem : Function.update s.mem s.nextAddr (Value.struct fs).zero b = .struct gs := by
        rw [Function.update_noteq hne]
        exact hgs
      simp only [Function.update_same, hresp]
      simp only [resetField, resetStruct, hmem, Function.update_same]
    refine ⟨_, _, hra, hrb, handleShell_eq_shellPhases h c sc s _ _ hra hrb, ?_, ?_, ?_, ?_, ?_,
      rfl, rfl, rfl⟩
    · simp only [Function.update_same]
    · simp only [Function.update_same]
    · simp only
      rw [Function.update_noteq (Nat.ne_of_lt (Nat.lt_succ_self _)), Function.update_same]
    · simp only [Function.update_same]
    · intro x hx
      simp only
      have h1 : x ≠ s.nextAddr + 1 := Nat.ne_of_lt (Nat.lt_succ_of_lt hx)
      have h2 : x ≠ s.nextAddr := Nat.ne_of_lt hx
      rw [Function.update_noteq h1, Function.update_noteq h2]

/-- Witness of C22 on the sample execution state after a first invocation in
which `Ada` was stored in the field `Name` of the request (at address 2): the
second invocation runs its hooks and its executor from a state whose request is
a new record, at address 4, with `Name` empty and `Count` 0, while the record at
address 2 still holds `Ada`. -/
theorem resetStruct_installs_zero_records_witness :
    afterFirstRun.mem.load { addr := 2, path := [0] } = some (.string "Ada")
      ∧ ∃ sb, handleShell sampleRuntime 0 { input := ["Bob", "5", "0"], output := [] }
            afterFirstRun
          = shellPhases sampleRuntime 0 { input := ["Bob", "5", "0"], output := [] } sb
        ∧ (sb.cmds 0).Request = .ptr (some 4)
        ∧ sb.mem.load { addr := 4, path := [0] } = some (.string "")
        ∧ sb.mem.load { addr := 4, path := [1] } = some (.int 0)
        ∧ sb.mem.load { addr := 2, path := [0] } = some (.string "Ada") := by
  refine ⟨rfl, ?_⟩
  obtain ⟨_, _, _, _, sa, sb, _, _, hrun, hq, _, hm, _, hold, _⟩ :=
    resetStruct_installs_zero_records sampleRuntime 0
      { input := ["Bob", "5", "0"], output := [] } afterFirstRun 2 3
      [ ({ Name := "Name", Tag := [("valid", "required"), ("lFlag", "name"), ("hint", "Name")] },
          .string "Ada"),
        ({ Name := "Count", Tag := [("valid", "required")] }, .int 3),
        ({ Name := "Note", Tag := [] }, .string ""),
        ({ Name := "Limit", Tag := [] }, .int 0),
        ({ Name := "Tag", Tag := [] }, .string "") ]
      [] rfl rfl rfl rfl (by decide)
  have hm4 : sb.mem 4 = _ := hm
  have hm2 : sb.mem 2 = afterFirstRun.mem 2 := hold 2 (by decide)
  refine ⟨sb, hrun, hq, ?_, ?_, ?_⟩
  · simp only [Mem.load, hm4]
    rfl
  · simp only [Mem.load, hm4]
    rfl
  · simp only [Mem.load, hm2]
    rfl
end Combi
